import Mathlib

/-!
# fapfon-proxy: message framing and in-place rewriting

A shallow embedding of `packet.c` (buffer, `next_packet`, `data_modify`,
`addr_find`, `port_find`), of `is_addr` / `is_port` from `net.c`, of the
rewriting functions of `client.c` (`modify_addr_port`, `modify_header`,
`modify_data`, `modify_via_rport`, `modify_content_length`), and of the
sessions of `client.c` (`fon_to_box`, `box_to_fon`, `client_packet`,
`on_client_event`, `client_cleanup`, `client_tcp_setup`, `client_udp_setup`)
with the list of registered sockets of `net.c` (`sfd_register`,
`sfd_unregister`, `tcp_disconnect`, `udp_disconnect`).

Modelling conventions

* A byte is a natural number; the buffer memory `buf.p` is the list of the
  `buf.allocated` bytes of the allocation, of which the first `buf.used` are
  in use.  Bytes that `realloc` adds are modelled as `0`.  `realloc` itself is
  assumed to succeed.
* `int16_t` fields are integers; a store that can leave the 16 bit range is
  reduced with `i16`, a store to a `uint16_t` with `u16`.
* A pointer into the packet buffer (`data_t.p`) is its offset from `buf.p`.
* A C function that returns `0` / `1` returns `Res.ret code state`; `Res.abort`
  is the end of the process: a failed `assert`, or the copy of a chunk that
  does not fit the allocation (`buf_append`).  Loops run on a fuel that the
  caller computes from the buffer size; `Res.nofuel` marks a loop that was cut
  off.
* Reads outside the allocation, negative sizes and signed `int` overflow are
  undefined in C; the definitions are total there (a read gives `0`, a size is
  truncated at `0`, `int` is unbounded), and the theorems carry the hypotheses
  that keep the code away from them: a scan window lies in the buffer (body
  length not negative), and a run of digits has less than 10 digits where its
  value is used.
-/

set_option maxRecDepth 100000
set_option maxHeartbeats 400000
set_option linter.all false

namespace Fapfon

/-! ## Outcomes -/

/-- Outcome of a C function that returns an `int` status. -/
inductive Res (α : Type) where
  | ret (code : Int) (st : α)
  | abort
  | nofuel
deriving DecidableEq

/-- One turn of a loop: go on with a new state, or leave the loop with a result. -/
inductive Step (α β : Type) where
  | cont (st : α)
  | done (r : β)
deriving DecidableEq

/-! ## Machine integers and bytes -/

/-- Conversion to `int16_t`. -/
def i16 (x : Int) : Int := (x + 32768) % 65536 - 32768

/-- Conversion to `uint16_t`. -/
def u16 (x : Int) : Nat := (x % 65536).toNat

/-- Conversion to `uint32_t`. -/
def u32 (x : Int) : Nat := (x % 4294967296).toNat

/-- The bytes of an ASCII string. -/
def bytes (s : String) : List Nat := s.toList.map Char.toNat

/-- Byte `i` of a memory block. -/
def rd (p : List Nat) (i : Nat) : Nat := p.getD i 0

def CR : Nat := 13
def LF : Nat := 10
def SP : Nat := 32
def DOT : Nat := 46
def COLON : Nat := 58
def SEMI : Nat := 59

/-- Test `c >= '0' && c <= '9'`. -/
def is_digit (c : Nat) : Bool := decide (48 ≤ c) && decide (c ≤ 57)

/-- Test `(c >= 'A' && c <= 'Z') || (c >= 'a' && c <= 'z')`. -/
def is_alpha (c : Nat) : Bool :=
  (decide (65 ≤ c) && decide (c ≤ 90)) || (decide (97 ≤ c) && decide (c ≤ 122))

/-- The C library `tolower` in the C locale. -/
def tolower (c : Nat) : Nat := if 65 ≤ c ∧ c ≤ 90 then c + 32 else c

/-- Result `== 0` of `strncasecmp(p + off, lit, |lit|)` for a literal without NUL. -/
def strncasecmp_eq (p : List Nat) (off : Nat) (lit : List Nat) : Bool :=
  ((List.range lit.length).map (fun k => tolower (rd p (off + k)))) == lit.map tolower

/-- Result `== 0` of `strncasecmp(p + off, s, n)` from the byte `k` on, for
a text `s` that may hold NUL bytes (a stored contact identifier): the
comparison ends with the result "equal" behind a NUL byte that both texts have
at the same place, as that of the C library does. -/
def strncasecmp_str (p : List Nat) (off : Nat) (s : List Nat) : Nat → Nat → Bool
  | 0, _ => true
  | n + 1, k =>
    if tolower (rd p (off + k)) ≠ tolower (rd s k) then false
    else if rd p (off + k) = 0 then true
    else strncasecmp_str p off s n (k + 1)

/-- Result `== 0` of `memcmp(p + off, w, |w|)`. -/
def memcmp_eq (p : List Nat) (off : Nat) (w : List Nat) : Bool :=
  (p.drop off).take w.length == w

/-- Memory after `memcpy(p + off, w, |w|)`. -/
def memcpy (p : List Nat) (off : Nat) (w : List Nat) : List Nat :=
  p.take off ++ w ++ p.drop (off + w.length)

/-- Memory after `memmove(p + dst, p + src, n)`. -/
def memmove (p : List Nat) (dst src n : Nat) : List Nat :=
  p.take dst ++ (p.drop src).take n ++ p.drop (dst + n)

/-! ## Types of `fapfon_proxy.h` -/

/-- Address and port texts; `addr_l` and `port_l` are the list lengths. -/
structure addr_t where
  addr : List Nat
  port : List Nat
deriving DecidableEq

structure buf_t where
  p : List Nat
  allocated : Nat
  used : Nat
deriving DecidableEq

inductive packet_status_t where
  | PACKET_INITIAL
  | PACKET_ERROR
  | PACKET_INCOMPLETE
  | PACKET_READY
deriving DecidableEq

open packet_status_t

structure len_t where
  len : Int
deriving DecidableEq

structure loc_t where
  offs : Int
  len : Int
deriving DecidableEq

structure packet_t where
  buf : buf_t
  status : packet_status_t
  header : len_t
  data : len_t
  method : len_t
  current_line : loc_t
  via_line : loc_t
  via : loc_t
  from_ : loc_t
  to_ : loc_t
  contact : loc_t
  content_length : loc_t
deriving DecidableEq

/-- View of a region of the packet buffer: base offset, scan cursor, end. -/
structure data_t where
  p : Nat
  i : Nat
  l : Nat
deriving DecidableEq

/-- A zeroed `packet_t` (`memset` / `calloc`). -/
def packet_zero : packet_t :=
  { buf := ⟨[], 0, 0⟩, status := PACKET_INITIAL,
    header := ⟨0⟩, data := ⟨0⟩, method := ⟨0⟩,
    current_line := ⟨0, 0⟩, via_line := ⟨0, 0⟩, via := ⟨0, 0⟩, from_ := ⟨0, 0⟩,
    to_ := ⟨0, 0⟩, contact := ⟨0, 0⟩, content_length := ⟨0, 0⟩ }

/-! ## Protocol buffer (`packet.c`) -/

def BUF_RESIZE_INCREMENT : Nat := 1024

/-- Function `buf_resize`; `none` is the return value `0`.  The arithmetic
is that of `uint32_t`: for a size within 1023 of 2^32 the rounded size wraps to
0, and `realloc(p, 0)` of an allocated buffer gives NULL. -/
def buf_resize (buf : buf_t) (size : Nat) : Option buf_t :=
  if size > buf.allocated then
    let allocate := (size + BUF_RESIZE_INCREMENT - 1) % 4294967296 / BUF_RESIZE_INCREMENT
                      * BUF_RESIZE_INCREMENT % 4294967296
    if allocate > 65535 then none
    else if allocate = 0 ∧ buf.allocated ≠ 0 then none
    else some { buf with p := buf.p ++ List.replicate (allocate - buf.allocated) 0,
                         allocated := allocate }
  else some buf

/-- Function `buf_append`; the code 0 is the return value `0`.  The size that
`buf_resize` gets is the sum in `uint32_t`; when that sum has wrapped, the
chunk does not fit the allocation and `memcpy` writes behind it, which ends the
process. -/
def buf_append (buf : buf_t) (add_data : List Nat) : Res buf_t :=
  match buf_resize buf (u32 (buf.used + add_data.length)) with
  | some b =>
    if b.used + add_data.length > b.allocated then Res.abort
    else Res.ret 1 { b with p := memcpy b.p b.used add_data,
                            used := u16 (b.used + add_data.length) }
  | none => Res.ret 0 buf

/-! ## Address and port literals (`net.c`) -/

/-- Inner loop of `is_addr`: up to `n` more digits of one octet.
Returns `(octet_i, octet_v, addr_l)`. -/
def is_addr_octet (s : List Nat) : Nat → Nat → Nat → Nat → Nat × Nat × Nat
  | 0, octet_i, octet_v, addr_l => (octet_i, octet_v, addr_l)
  | n + 1, octet_i, octet_v, addr_l =>
    if addr_l < s.length ∧ is_digit (rd s addr_l) = true then
      is_addr_octet s n (octet_i + 1) (octet_v * 10 + rd s addr_l - 48) (addr_l + 1)
    else (octet_i, octet_v, addr_l)

/-- Outer loop of `is_addr` with `n` octets to go.  Returns `(octet, addr_l)`. -/
def is_addr_loop (s : List Nat) : Nat → Nat → Nat → Nat × Nat
  | 0, octet, addr_l => (octet, addr_l)
  | n + 1, octet, addr_l =>
    if octet > 0 ∧ ¬ (addr_l < s.length ∧ rd s addr_l = DOT) then (octet, addr_l)
    else
      let addr_l1 := if octet > 0 then addr_l + 1 else addr_l
      match is_addr_octet s 3 0 0 addr_l1 with
      | (octet_i, octet_v, addr_l2) =>
        if octet_i = 0 ∨ octet_v > 255 then (octet, addr_l2)
        else is_addr_loop s n (octet + 1) addr_l2

/-- Function `is_addr(p, l, &l_p)` on the bytes `s = p[0..l)`.
Returns the result and `*l_p`. -/
def is_addr (s : List Nat) : Bool × Nat :=
  match is_addr_loop s 4 0 0 with
  | (octet, addr_l) =>
    if octet = 4 ∧ (addr_l = s.length ∨ (rd s addr_l ≠ DOT ∧ is_digit (rd s addr_l) = false)) then
      (true, addr_l)
    else (false, if addr_l < s.length then addr_l + 1 else s.length)

/-- Loop of `is_port`.  Returns `(port_l, port_v)`. -/
def is_port_loop (s : List Nat) : Nat → Nat → Nat → Nat × Nat
  | 0, port_l, port_v => (port_l, port_v)
  | n + 1, port_l, port_v =>
    if port_l < s.length then
      if (port_v = 0 ∧ 49 ≤ rd s port_l ∧ rd s port_l ≤ 57)
          ∨ (port_v ≠ 0 ∧ 48 ≤ rd s port_l ∧ rd s port_l ≤ 57) then
        is_port_loop s n (port_l + 1) (port_v * 10 + rd s port_l - 48)
      else (port_l, port_v)
    else (port_l, port_v)

/-- Function `is_port(p, l, &l_p)` on the bytes `s = p[0..l)`.  The value
`port_v` is an `int` in the code and unbounded here: the two agree for runs of
up to 9 digits, which covers every accepted run; for a longer run the
arithmetic of the code overflows, and the skip behind the rejected run can
differ. -/
def is_port (s : List Nat) : Bool × Nat :=
  match is_port_loop s s.length 0 0 with
  | (port_l, port_v) =>
    if port_l > 0 ∧ port_l ≤ 5 ∧ port_v > 0 ∧ port_v < 65536 then (true, port_l)
    else (false, if port_l < s.length then port_l + 1 else s.length)

/-! ## Protocol data (`packet.c`) -/

/-- The bytes `data->p[i .. data->l)` of a view. -/
def view_from (packet : packet_t) (data : data_t) (i : Nat) : List Nat :=
  (packet.buf.p.drop (data.p + i)).take (data.l - i)

/-- Loop of `addr_find` from cursor `i`. -/
def addr_find_loop (packet : packet_t) (data : data_t) : Nat → Nat → Option (Nat × Nat)
  | 0, _ => none
  | n + 1, i =>
    if i < data.l then
      match is_addr (view_from packet data i) with
      | (true, addr_l) => some (i, addr_l)
      | (false, addr_l) => addr_find_loop packet data n (i + addr_l)
    else none

/-- Function `addr_find`: `some (i, addr_l)`, or `none` for `-1`. -/
def addr_find (packet : packet_t) (data : data_t) : Option (Nat × Nat) :=
  addr_find_loop packet data (data.l - data.i) data.i

/-- Function `port_find`: `some (i, port_l)`, or `none` for `-1`. -/
def port_find (packet : packet_t) (data : data_t) (addr_i addr_l : Nat) : Option (Nat × Nat) :=
  let i := addr_i + addr_l
  if i < data.l ∧ rd packet.buf.p (data.p + i) = COLON then
    if i + 1 < data.l then
      match is_port (view_from packet data (i + 1)) with
      | (true, port_l) => some (i + 1, port_l)
      | (false, _) => none
    else none
  else none

/-- Function `loc_adjust`; `none` is a failed `assert`. -/
def loc_adjust (loc : loc_t) (i l l_diff : Int) : Option loc_t :=
  if i < loc.offs then
    if i + l ≤ loc.offs then some { loc with offs := i16 (loc.offs + l_diff) } else none
  else if i < loc.offs + loc.len then
    if i + l ≤ loc.offs + loc.len then some { loc with len := i16 (loc.len + l_diff) } else none
  else some loc

/-- The six `loc_adjust` calls of `data_modify`. -/
def loc_adjust_all (packet : packet_t) (i l l_diff : Int) : Option packet_t :=
  match loc_adjust packet.via_line i l l_diff, loc_adjust packet.via i l l_diff,
        loc_adjust packet.from_ i l l_diff, loc_adjust packet.to_ i l l_diff,
        loc_adjust packet.contact i l l_diff, loc_adjust packet.content_length i l l_diff with
  | some a, some b, some c, some d, some e, some f =>
    some { packet with via_line := a, via := b, from_ := c, to_ := d, contact := e,
                       content_length := f }
  | _, _, _, _, _, _ => none

/-- Second half of `data_modify`, after the view has been identified:
`i` is the offset into the buffer, `is_data` tells the region. -/
def data_modify_at (packet : packet_t) (data : data_t) (is_data : Bool) (i : Nat)
    (replace_i replace_l : Nat) (w : List Nat) : Res (packet_t × data_t) :=
  if w.length ≠ replace_l ∨ memcmp_eq packet.buf.p (data.p + i) w = false then
    let l_diff : Int := (w.length : Int) - replace_l
    if l_diff ≠ 0 then
      match buf_resize packet.buf (u32 (packet.buf.used + l_diff)) with
      | none => Res.ret 0 (packet, data)
      | some b =>
        let p1 := memmove b.p (i + w.length) (i + replace_l)
                    ((packet.buf.used : Int) - i - replace_l).toNat
        let b1 : buf_t := { b with p := p1, used := u16 (b.used + l_diff) }
        let data1 : data_t :=
          { data with i := if replace_i + replace_l ≤ data.i then u16 (data.i + l_diff) else data.i,
                      l := u16 (data.l + l_diff) }
        if is_data then
          let pk1 : packet_t := { packet with buf := b1, data := ⟨i16 (packet.data.len + l_diff)⟩ }
          Res.ret 1 ({ pk1 with buf := { b1 with p := memcpy p1 i w } },
                     { data1 with p := pk1.header.len.toNat })
        else
          let pk1 : packet_t := { packet with buf := b1, header := ⟨i16 (packet.header.len + l_diff)⟩ }
          match loc_adjust_all pk1 i replace_l l_diff with
          | none => Res.abort
          | some pk2 =>
            Res.ret 1 ({ pk2 with buf := { b1 with p := memcpy p1 i w } }, { data1 with p := 0 })
    else
      Res.ret 1 ({ packet with buf := { packet.buf with p := memcpy packet.buf.p i w } }, data)
  else Res.ret 1 (packet, data)

/-- Function `data_modify`. -/
def data_modify (packet : packet_t) (data : data_t) (replace_i replace_l : Nat)
    (w : List Nat) : Res (packet_t × data_t) :=
  if data.p = 0 then
    if (replace_i : Int) + replace_l ≤ packet.header.len
        ∧ (replace_i : Int) + w.length ≤ packet.header.len then
      data_modify_at packet data false replace_i replace_i replace_l w
    else Res.abort
  else
    if (data.p : Int) = packet.header.len
        ∧ (replace_i : Int) + replace_l ≤ packet.data.len
        ∧ (replace_i : Int) + w.length ≤ packet.data.len then
      data_modify_at packet data true (replace_i + packet.header.len.toNat) replace_i replace_l w
    else Res.abort

/-! ## Address rewriting (`client.c`) -/

/-- Test `addr_l != from->addr_l || memcmp(d->p + addr_i, from->addr, addr_l)`. -/
def from_differs (packet : packet_t) (d : data_t) (addr_i addr_l : Nat) (frm : addr_t) : Bool :=
  decide (addr_l ≠ frm.addr.length) || !(memcmp_eq packet.buf.p (d.p + addr_i) frm.addr)

/-- Body of the loop of `modify_addr_port`; `frm = none` is a NULL `from`. -/
def modify_addr_port_step (frm : Option addr_t) (to_ : addr_t) (packet : packet_t) (d : data_t) :
    Step (packet_t × data_t) (Res (packet_t × data_t)) :=
  match addr_find packet d with
  | none => Step.done (Res.ret 1 (packet, d))
  | some (addr_i, addr_l) =>
    if (match frm with
        | some f => from_differs packet d addr_i addr_l f
        | none => false) = true then
      Step.cont (packet, { d with i := u16 (addr_i + addr_l) })
    else
      match data_modify packet d addr_i addr_l to_.addr with
      | Res.abort => Step.done Res.abort
      | Res.nofuel => Step.done Res.nofuel
      | Res.ret c (packet1, d1) =>
        if c = 0 then Step.done (Res.ret 0 (packet1, d1))
        else
          match port_find packet1 d1 addr_i to_.addr.length with
          | some (port_i, port_l) =>
            match data_modify packet1 d1 port_i port_l to_.port with
            | Res.abort => Step.done Res.abort
            | Res.nofuel => Step.done Res.nofuel
            | Res.ret c2 (packet2, d2) =>
              if c2 = 0 then Step.done (Res.ret 0 (packet2, d2))
              else Step.cont (packet2, { d2 with i := u16 (port_i + to_.port.length) })
          | none => Step.cont (packet1, { d1 with i := u16 (addr_i + to_.addr.length) })

/-- Loop `for (;;)` of `modify_addr_port`. -/
def modify_addr_port_loop (frm : Option addr_t) (to_ : addr_t) :
    Nat → packet_t → data_t → Res (packet_t × data_t)
  | 0, _, _ => Res.nofuel
  | n + 1, packet, d =>
    match modify_addr_port_step frm to_ packet d with
    | Step.cont (packet1, d1) => modify_addr_port_loop frm to_ n packet1 d1
    | Step.done r => r

/-- Function `modify_addr_port`.  Every turn of the loop moves the cursor
towards the end of the window, so `d.l - d.i + 1` turns are enough. -/
def modify_addr_port (packet : packet_t) (d : data_t) (frm : Option addr_t) (to_ : addr_t) :
    Res (packet_t × data_t) :=
  modify_addr_port_loop frm to_ (d.l - d.i + 1) packet d

/-- Function `modify_header`. -/
def modify_header (packet : packet_t) (frm : Option addr_t) (to_ : addr_t) : Res packet_t :=
  match modify_addr_port packet ⟨0, u16 packet.method.len, u16 packet.via_line.offs⟩ frm to_ with
  | Res.abort => Res.abort
  | Res.nofuel => Res.nofuel
  | Res.ret c (packet1, d1) =>
    if c = 0 then Res.ret 0 packet1
    else
      match modify_addr_port packet1
              { d1 with i := u16 (packet1.via_line.offs + packet1.via_line.len),
                        l := u16 packet1.header.len } frm to_ with
      | Res.abort => Res.abort
      | Res.nofuel => Res.nofuel
      | Res.ret c2 (packet2, _) => Res.ret c2 packet2

/-- Function `modify_data`. -/
def modify_data (packet : packet_t) (frm : Option addr_t) (to_ : addr_t) : Res packet_t :=
  if packet.data.len ≠ 0 then
    match modify_addr_port packet ⟨packet.header.len.toNat, 0, u16 packet.data.len⟩ frm to_ with
    | Res.abort => Res.abort
    | Res.nofuel => Res.nofuel
    | Res.ret c (packet1, _) => if c = 0 then Res.ret 0 packet1 else Res.ret 1 packet1
  else Res.ret 1 packet

/-- Loop of `modify_via_rport`. -/
def modify_via_rport_loop (to_ : addr_t) : Nat → packet_t → data_t → Res packet_t
  | 0, _, _ => Res.nofuel
  | n + 1, packet, d =>
    if d.i < d.l then
      let c := rd packet.buf.p (d.p + d.i)
      let d1 : data_t := { d with i := u16 (d.i + 1) }
      if c = SEMI ∧ (d1.l : Int) - d1.i > 6
          ∧ strncasecmp_eq packet.buf.p d1.i (bytes "rport=") = true then
        let d2 : data_t := { d1 with i := u16 (d1.i + 6) }
        match is_port ((packet.buf.p.drop d2.i).take (d2.l - d2.i)) with
        | (true, port_l) =>
          match data_modify packet d2 d2.i port_l to_.port with
          | Res.abort => Res.abort
          | Res.nofuel => Res.nofuel
          | Res.ret c3 (packet1, d3) =>
            if c3 = 0 then Res.ret 0 packet1
            else modify_via_rport_loop to_ n packet1 { d3 with i := u16 (d3.i + to_.port.length) }
        | (false, port_l) =>
          modify_via_rport_loop to_ n packet { d2 with i := u16 (d2.i + port_l) }
      else modify_via_rport_loop to_ n packet d1
    else Res.ret 1 packet

/-- Function `modify_via_rport`. -/
def modify_via_rport (packet : packet_t) (to_ : addr_t) : Res packet_t :=
  modify_via_rport_loop to_ (u16 packet.via.len + 1) packet
    ⟨0, u16 packet.via.offs, u16 (u16 packet.via.offs + packet.via.len)⟩

/-- Decimal digits of a natural number, as bytes. -/
def decimal (n : Nat) : List Nat := (Nat.toDigits 10 n).map Char.toNat

/-- Text written by `sprintf(tmp, " %d", x)`. -/
def sprintf_sp_d (x : Int) : List Nat :=
  if x < 0 then SP :: 45 :: decimal (-x).toNat else SP :: decimal x.toNat

/-- Function `modify_content_length`. -/
def modify_content_length (packet : packet_t) : Res packet_t :=
  let d : data_t := ⟨0, u16 packet.content_length.offs, u16 packet.content_length.len⟩
  match data_modify packet d d.i d.l (sprintf_sp_d packet.data.len) with
  | Res.ret c (packet1, _) => Res.ret c packet1
  | Res.abort => Res.abort
  | Res.nofuel => Res.nofuel

/-! ## Packet assembly (`packet.c`) -/

def SIP_MAX_LEN : Nat := 6 * 1024

/-- Function `reset_packet`. -/
def reset_packet (packet : packet_t) : packet_t :=
  { packet with header := ⟨0⟩, data := ⟨0⟩, method := ⟨0⟩,
                current_line := ⟨0, 0⟩, via_line := ⟨0, 0⟩, via := ⟨0, 0⟩, from_ := ⟨0, 0⟩,
                to_ := ⟨0, 0⟩, contact := ⟨0, 0⟩, content_length := ⟨0, 0⟩ }

/-- Number of turns of a loop `while (i < limit && f(p[i])) i++`, where
`n = limit - i`. -/
def count_while (f : Nat → Bool) (p : List Nat) : Nat → Nat → Nat
  | 0, _ => 0
  | n + 1, i => if f (rd p i) = true then count_while f p n (i + 1) + 1 else 0

/-- Test `c != CR && c != LF`. -/
def not_eol (c : Nat) : Bool := decide (c ≠ CR) && decide (c ≠ LF)

/-- Test of the line tag loop: a letter or `-`. -/
def is_tag (c : Nat) : Bool := is_alpha c || decide (c = 45)

/-- Test `c == ' '`. -/
def is_space (c : Nat) : Bool := decide (c = SP)

/-- The loop `while (i < len && digit) data.len = data.len * 10 + p[i++] - '0'`
with `n = len - i`; returns `(i, data.len)`. -/
def content_length_digits (p : List Nat) (base : Nat) : Nat → Nat → Int → Nat × Int
  | 0, i, v => (i, v)
  | n + 1, i, v =>
    if is_digit (rd p (base + i)) = true then
      content_length_digits p base n (i + 1) (i16 (v * 10 + rd p (base + i) - 48))
    else (i, v)

/-- Processing of the first line (SIP method or status): the value of `ok`
and the packet (`method.len` is updated by the method loop). -/
def first_line (packet : packet_t) : Bool × packet_t :=
  let len := packet.current_line.len
  if len > 8 then
    if strncasecmp_eq packet.buf.p 0 (bytes "SIP/2.0 ") = true then (true, packet)
    else if strncasecmp_eq packet.buf.p (len - 8).toNat (bytes " SIP/2.0") = false then
      (false, packet)
    else
      let m := count_while is_alpha packet.buf.p (len - packet.method.len).toNat
                 packet.method.len.toNat
      let packet1 : packet_t := { packet with method := ⟨packet.method.len + m⟩ }
      if packet1.method.len = 0 ∨ packet1.method.len = len
          ∨ rd packet.buf.p packet1.method.len.toNat ≠ SP then (false, packet1)
      else (true, packet1)
  else (false, packet)

/-- The `Content-Length` case of a header line with tag length `l` and value
offset `i`: record the value span and decode the digits into `data.len`. -/
def header_line_content_length (packet : packet_t) (l i : Nat) : Res packet_t :=
  let offs := packet.current_line.offs.toNat
  let len := packet.current_line.len.toNat
  let p := packet.buf.p
  if packet.content_length.offs ≠ 0 then Res.ret 0 { packet with status := PACKET_ERROR }
  else if packet.data.len ≠ 0 then Res.abort
  else
    let packet1 : packet_t :=
      { packet with content_length := ⟨packet.current_line.offs + l + 1,
                                       packet.current_line.len - l - 1⟩ }
    if is_digit (rd p (offs + i)) = false then
      Res.ret 0 { packet1 with status := PACKET_ERROR }
    else
      match content_length_digits p offs (len - i) i packet1.data.len with
      | (i1, v) =>
        if i1 = len then Res.ret 1 { packet1 with data := ⟨v⟩ }
        else Res.ret 0 { packet1 with data := ⟨v⟩, status := PACKET_ERROR }

/-- The cases of a header line by its tag (the block `while (ok)`), for a
line with tag length `l` and value offset `i`. -/
def header_line_tag (packet : packet_t) (l i : Nat) : Res packet_t :=
  let offs := packet.current_line.offs.toNat
  let p := packet.buf.p
  if l = 3 ∧ strncasecmp_eq p offs (bytes "Via") = true then
    if packet.via.offs ≠ 0 then Res.ret 0 { packet with status := PACKET_ERROR }
    else if packet.via_line.offs ≠ 0 then Res.abort
    else Res.ret 1 { packet with via_line := packet.current_line,
                                 via := ⟨packet.current_line.offs + i,
                                         packet.current_line.len - i⟩ }
  else if l = 4 ∧ strncasecmp_eq p offs (bytes "From") = true then
    if packet.from_.offs ≠ 0 then Res.ret 0 { packet with status := PACKET_ERROR }
    else Res.ret 1 { packet with from_ := ⟨packet.current_line.offs + i,
                                           packet.current_line.len - i⟩ }
  else if l = 2 ∧ strncasecmp_eq p offs (bytes "To") = true then
    if packet.to_.offs ≠ 0 then Res.ret 0 { packet with status := PACKET_ERROR }
    else Res.ret 1 { packet with to_ := ⟨packet.current_line.offs + i,
                                         packet.current_line.len - i⟩ }
  else if l = 7 ∧ strncasecmp_eq p offs (bytes "Contact") = true then
    if packet.contact.offs ≠ 0 then Res.ret 1 packet
    else Res.ret 1 { packet with contact := ⟨packet.current_line.offs + i,
                                             packet.current_line.len - i⟩ }
  else if l = 14 ∧ strncasecmp_eq p offs (bytes "Content-Length") = true then
    header_line_content_length packet l i
  else Res.ret 1 packet

/-- Processing of a header line after the first: `ret 1` goes on with the
next line, `ret 0` is an error return. -/
def header_line (packet : packet_t) : Res packet_t :=
  let offs := packet.current_line.offs.toNat
  let len := packet.current_line.len.toNat
  let p := packet.buf.p
  let l := count_while is_tag p len offs
  if l = 0 ∨ l = len ∨ rd p (offs + l) ≠ COLON then
    Res.ret 0 { packet with status := PACKET_ERROR }
  else
    let i := l + 1 + count_while is_space p (len - (l + 1)) (offs + l + 1)
    if ¬ (i < len) then Res.ret 0 { packet with status := PACKET_ERROR }
    else header_line_tag packet l i

/-- Second half of the body of the header loop of `next_packet`: the line
`current_line` is complete and `buf_i` stands behind its end of line. -/
def header_step_line (packet1 : packet_t) (buf_i2 : Nat) :
    Step (packet_t × Nat) (Res packet_t) :=
  if packet1.current_line.len = 0 then
    if packet1.current_line.offs = 0 then
      let p1 := if buf_i2 < packet1.buf.used then
                  memmove packet1.buf.p 0 buf_i2 (packet1.buf.used - buf_i2)
                else packet1.buf.p
      Step.cont
        (reset_packet { packet1 with buf := { packet1.buf with
                                                p := p1, used := packet1.buf.used - buf_i2 } },
         0)
    else if packet1.via.offs = 0 ∨ packet1.from_.offs = 0 ∨ packet1.to_.offs = 0
              ∨ packet1.content_length.offs = 0 then
      Step.done (Res.ret 0 { packet1 with status := PACKET_ERROR })
    else
      let packet2 : packet_t := { packet1 with header := ⟨buf_i2⟩ }
      if packet2.buf.used ≥ u32 (packet2.header.len + packet2.data.len) then
        Step.done (Res.ret 1 { packet2 with status := PACKET_READY })
      else Step.done (Res.ret 1 packet2)
  else if packet1.current_line.offs = 0 then
    if packet1.method.len ≠ 0 then Step.done Res.abort
    else
      match first_line packet1 with
      | (true, packet2) => Step.cont ({ packet2 with current_line := ⟨buf_i2, 0⟩ }, buf_i2)
      | (false, packet2) => Step.done (Res.ret 0 { packet2 with status := PACKET_ERROR })
  else
    match header_line packet1 with
    | Res.ret c packet2 =>
      if c = 0 then Step.done (Res.ret 0 packet2)
      else Step.cont ({ packet2 with current_line := ⟨buf_i2, 0⟩ }, buf_i2)
    | Res.abort => Step.done Res.abort
    | Res.nofuel => Step.done Res.nofuel

/-- Body of the header loop `for (;;)` of `next_packet`, entered with the
local `buf_i`.  The buffer holds at most `2 * SIP_MAX_LEN` bytes here, so the
stores of `buf_i` and of line lengths into `int16_t` fields are exact. -/
def header_step (packet : packet_t) (buf_i : Nat) : Step (packet_t × Nat) (Res packet_t) :=
  let k := count_while not_eol packet.buf.p (packet.buf.used - buf_i) buf_i
  let buf_i1 := buf_i + k
  let packet1 : packet_t :=
    { packet with current_line := ⟨packet.current_line.offs, packet.current_line.len + k⟩ }
  if packet1.current_line.len > SIP_MAX_LEN then
    Step.done (Res.ret 0 { packet1 with status := PACKET_ERROR })
  else if buf_i1 = packet1.buf.used then Step.done (Res.ret 1 packet1)
  else if rd packet1.buf.p buf_i1 = CR ∧ buf_i1 + 1 = packet1.buf.used then
    Step.done (Res.ret 1 packet1)
  else if rd packet1.buf.p buf_i1 = CR ∧ rd packet1.buf.p (buf_i1 + 1) ≠ LF then
    Step.done (Res.ret 0 { packet1 with status := PACKET_ERROR })
  else
    header_step_line packet1 ((if rd packet1.buf.p buf_i1 = CR then buf_i1 + 1 else buf_i1) + 1)

/-- The header loop `for (;;)` of `next_packet`. -/
def header_loop : Nat → packet_t → Nat → Res packet_t
  | 0, _, _ => Res.nofuel
  | n + 1, packet, buf_i =>
    match header_step packet buf_i with
    | Step.cont (packet1, buf_i1) => header_loop n packet1 buf_i1
    | Step.done r => r

/-- Function `next_packet`.  Every turn of the header loop that goes on
consumes at least one byte of the buffer, so `buf.used + 1` turns are enough. -/
def next_packet (packet : packet_t) (next_data : List Nat) : Res packet_t :=
  let start : Option packet_t :=
    if packet.status = PACKET_READY then
      let packet_l := u32 (packet.header.len + packet.data.len)
      if packet_l ≤ packet.buf.used then
        some (reset_packet { packet with buf := { packet.buf with
          p := if packet_l < packet.buf.used then
                 memmove packet.buf.p 0 packet_l (packet.buf.used - packet_l)
               else packet.buf.p,
          used := packet.buf.used - packet_l } })
      else none
    else some packet
  match start with
  | none => Res.abort
  | some packet0 =>
    let packet1 : packet_t := { packet0 with status := PACKET_INCOMPLETE }
    if u32 (packet1.buf.used + next_data.length) > 2 * SIP_MAX_LEN then
      Res.ret 0 { packet1 with status := PACKET_ERROR }
    else
      match buf_append packet1.buf next_data with
      | Res.abort => Res.abort
      | Res.nofuel => Res.nofuel
      | Res.ret c b =>
        if c = 0 then Res.ret 0 { packet1 with status := PACKET_ERROR }
        else
          let packet2 : packet_t := { packet1 with buf := b }
          if packet2.header.len = 0 then
            header_loop (b.used + 1) packet2
              (u32 (packet2.current_line.offs + packet2.current_line.len))
          else if b.used ≥ u32 (packet2.header.len + packet2.data.len) then
            Res.ret 1 { packet2 with status := PACKET_READY }
          else Res.ret 1 packet2

/-! ## Observations -/

/-- What the callers of `next_packet` and of the rewriting functions use of a
packet: status, lengths, field spans and the bytes in use. -/
structure packet_view where
  status : packet_status_t
  header : Int
  data : Int
  method : Int
  via_line : loc_t
  via : loc_t
  from_ : loc_t
  to_ : loc_t
  contact : loc_t
  content_length : loc_t
  content : List Nat
deriving DecidableEq

/-- The bytes in use of a packet buffer. -/
def content (packet : packet_t) : List Nat := packet.buf.p.take packet.buf.used

/-- The view of a packet. -/
def view (packet : packet_t) : packet_view :=
  { status := packet.status, header := packet.header.len, data := packet.data.len,
    method := packet.method.len, via_line := packet.via_line, via := packet.via,
    from_ := packet.from_, to_ := packet.to_, contact := packet.contact,
    content_length := packet.content_length, content := content packet }

/-- The view of a result. -/
def res_view : Res packet_t → Res packet_view
  | Res.ret c packet => Res.ret c (view packet)
  | Res.abort => Res.abort
  | Res.nofuel => Res.nofuel

/-- The header bytes of a packet. -/
def header_bytes (packet : packet_t) : List Nat := packet.buf.p.take packet.header.len.toNat

/-- The body bytes of a packet. -/
def body_bytes (packet : packet_t) : List Nat :=
  (packet.buf.p.drop packet.header.len.toNat).take packet.data.len.toNat

/-- Two `next_packet` calls in a row, as `on_client_event` makes them: the
second chunk is fed when the first call has returned success. -/
def next_packet2 (packet : packet_t) (chunk1 chunk2 : List Nat) : Res packet_t :=
  match next_packet packet chunk1 with
  | Res.ret c packet1 => if c = 0 then Res.ret 0 packet1 else next_packet packet1 chunk2
  | Res.abort => Res.abort
  | Res.nofuel => Res.nofuel

/-- Well-formed buffer: the memory has `allocated` bytes, of which `used` are
in use; `allocated` is a `uint16_t`. -/
abbrev buf_wf (b : buf_t) : Prop :=
  b.p.length = b.allocated ∧ b.used ≤ b.allocated ∧ b.allocated ≤ 65535

/-- The state with which a function returned; `dflt` when it did not return. -/
def ret_state {α : Type} (r : Res α) (dflt : α) : α :=
  match r with
  | Res.ret _ st => st
  | _ => dflt

/-- A Ready message as the rewriting functions expect it: a well-formed
buffer that holds the header, the method name before the Via line, and the Via
line inside the header. -/
abbrev ready_wf (packet : packet_t) : Prop :=
  packet.status = PACKET_READY ∧ buf_wf packet.buf
  ∧ 0 ≤ packet.method.len ∧ packet.method.len ≤ packet.via_line.offs
  ∧ 0 ≤ packet.via_line.len
  ∧ packet.via_line.offs + packet.via_line.len ≤ packet.header.len
  ∧ packet.header.len ≤ packet.buf.used

/-- Along the scan of `modify_addr_port` over the window `d`: every port
literal that follows an address literal equal to the address text of `a` is
the port text of `a`. -/
def ports_kept_loop (a : addr_t) (packet : packet_t) : Nat → data_t → Bool
  | 0, _ => true
  | n + 1, d =>
    match addr_find packet d with
    | none => true
    | some (addr_i, addr_l) =>
      if from_differs packet d addr_i addr_l a = true then
        ports_kept_loop a packet n { d with i := addr_i + addr_l }
      else
        match port_find packet d addr_i addr_l with
        | some (port_i, port_l) =>
          decide (port_l = a.port.length) && memcmp_eq packet.buf.p (d.p + port_i) a.port
            && ports_kept_loop a packet n { d with i := port_i + port_l }
        | none => ports_kept_loop a packet n { d with i := addr_i + addr_l }

/-- The condition of `ports_kept_loop` for the two windows of `modify_header`. -/
def header_ports_kept (a : addr_t) (packet : packet_t) : Bool :=
  ports_kept_loop a packet (u16 packet.via_line.offs - u16 packet.method.len + 1)
      ⟨0, u16 packet.method.len, u16 packet.via_line.offs⟩
  && ports_kept_loop a packet
      (u16 packet.header.len - u16 (packet.via_line.offs + packet.via_line.len) + 1)
      ⟨0, u16 (packet.via_line.offs + packet.via_line.len), u16 packet.header.len⟩

/-! ## Auxiliary notions -/

/-- Two memory blocks hold the same bytes at the offsets below `n`. -/
def agree (p q : List Nat) (n : Nat) : Prop := ∀ x, x < n → rd p x = rd q x

/-- The result of a function with the state changed by `f`. -/
def Res.map {α β : Type} (f : α → β) : Res α → Res β
  | Res.ret c st => Res.ret c (f st)
  | Res.abort => Res.abort
  | Res.nofuel => Res.nofuel

/-- The packet with another buffer. -/
def with_buf (packet : packet_t) (b : buf_t) : packet_t := { packet with buf := b }

/-- The bytes in use of `b` are those of `a` followed by `c2`. -/
def buf_ext (a b : buf_t) (c2 : List Nat) : Prop :=
  a.used ≤ a.p.length ∧ b.used ≤ b.p.length ∧ b.p.take b.used = a.p.take a.used ++ c2

/-- The buffer after the first `n` bytes have been dropped, as `next_packet`
does it for a keep-alive line and for a message that has been processed. -/
def shift_buf (b : buf_t) (n : Nat) : buf_t :=
  { b with p := if n < b.used then memmove b.p 0 n (b.used - n) else b.p, used := b.used - n }

/-- What the header loop maintains: the current line starts at a
non-negative offset, has a non-negative length, and `buf_i` stands at its end. -/
def line_inv (packet : packet_t) (buf_i : Nat) : Prop :=
  0 ≤ packet.current_line.offs ∧ 0 ≤ packet.current_line.len
  ∧ (buf_i : Int) = packet.current_line.offs + packet.current_line.len

/-- The packet with which `next_packet` goes on after the test of the status:
a message that was Ready has been dropped from the buffer and the lengths and
spans are reset. -/
def dropped (packet : packet_t) : packet_t :=
  if packet.status = PACKET_READY then
    reset_packet (with_buf { packet with status := PACKET_INCOMPLETE }
      (shift_buf packet.buf (u32 (packet.header.len + packet.data.len))))
  else packet

/-- The body of the header loop without the test of the line length against
`SIP_MAX_LEN`: `header_step` is this function whenever that test passes. -/
def header_step_nc (packet : packet_t) (buf_i : Nat) : Step (packet_t × Nat) (Res packet_t) :=
  let k := count_while not_eol packet.buf.p (packet.buf.used - buf_i) buf_i
  let buf_i1 := buf_i + k
  let packet1 : packet_t :=
    { packet with current_line := ⟨packet.current_line.offs, packet.current_line.len + k⟩ }
  if buf_i1 = packet1.buf.used then Step.done (Res.ret 1 packet1)
  else if rd packet1.buf.p buf_i1 = CR ∧ buf_i1 + 1 = packet1.buf.used then
    Step.done (Res.ret 1 packet1)
  else if rd packet1.buf.p buf_i1 = CR ∧ rd packet1.buf.p (buf_i1 + 1) ≠ LF then
    Step.done (Res.ret 0 { packet1 with status := PACKET_ERROR })
  else
    header_step_line packet1 ((if rd packet1.buf.p buf_i1 = CR then buf_i1 + 1 else buf_i1) + 1)

/-- The header loop over `header_step_nc`. -/
def header_loop_nc : Nat → packet_t → Nat → Res packet_t
  | 0, _, _ => Res.nofuel
  | n + 1, packet, buf_i =>
    match header_step_nc packet buf_i with
    | Step.cont (packet1, buf_i1) => header_loop_nc n packet1 buf_i1
    | Step.done r => r

/-- The state in which `next_packet` enters the header loop for a new message
held by the buffer `b`. -/
def start (b : buf_t) : packet_t := { packet_zero with status := PACKET_INCOMPLETE, buf := b }

/-- The span after a replacement at offset `i` that changes the length by
`l_diff`: what `loc_adjust` computes when its assertions hold and the result
fits `int16_t`. -/
def loc_shift (i l_diff : Int) (loc : loc_t) : loc_t :=
  if i < loc.offs then { loc with offs := loc.offs + l_diff }
  else if i < loc.offs + loc.len then { loc with len := loc.len + l_diff }
  else loc

/-- Relation between two states of the header loop that run over the lines of
two buffers: the spans of `b` are those of `a` mapped by `g`, a span is set in
both or in neither, and the decoded body lengths differ by `c`. -/
def spans_rel (g : loc_t → loc_t) (c : Int) (a b : packet_t) : Prop :=
  b.via_line = g a.via_line ∧ b.via = g a.via ∧ b.from_ = g a.from_ ∧ b.to_ = g a.to_
  ∧ b.contact = g a.contact ∧ b.content_length = g a.content_length
  ∧ (b.via_line.offs = 0 ↔ a.via_line.offs = 0) ∧ (b.via.offs = 0 ↔ a.via.offs = 0)
  ∧ (b.from_.offs = 0 ↔ a.from_.offs = 0) ∧ (b.to_.offs = 0 ↔ a.to_.offs = 0)
  ∧ (b.contact.offs = 0 ↔ a.contact.offs = 0)
  ∧ (b.content_length.offs = 0 ↔ a.content_length.offs = 0)
  ∧ b.method = a.method ∧ b.status = a.status ∧ b.data.len = a.data.len + c
  ∧ (a.content_length.offs = 0 → a.data.len = 0 ∧ c = 0)

/-- A byte of an address or port literal: a digit or a dot. -/
def is_addr_char (c : Nat) : Bool := is_digit c || decide (c = DOT)

/-- The bytes in use of `b` are those of `a` with the `l` bytes at offset `e`
replaced by `w`. -/
def edited (a b : buf_t) (e l : Nat) (w : List Nat) : Prop :=
  e + l ≤ a.used ∧ b.used + l = a.used + w.length
  ∧ (∀ x, x < e → rd b.p x = rd a.p x)
  ∧ (∀ y, y < w.length → rd b.p (e + y) = rd w y)
  ∧ (∀ y, e + l + y < a.used → rd b.p (e + w.length + y) = rd a.p (e + l + y))

/-- The `l` bytes at offset `e` are digits and dots, and they are an address
literal (four bytes at least, with a dot) or follow a colon behind a digit, as
a port literal behind an address literal does. -/
def editable (p : List Nat) (e l : Nat) : Prop :=
  (∀ y, y < l → is_addr_char (rd p (e + y)) = true)
  ∧ ((4 ≤ l ∧ ∃ y, y < l ∧ rd p (e + y) = DOT)
     ∨ (1 ≤ l ∧ 2 ≤ e ∧ rd p (e - 1) = COLON ∧ is_digit (rd p (e - 2)) = true))

/-! ## Header lines -/

/-- The bytes of a sequence of lines, each followed by its end of line. -/
def join_lines : List (List Nat × List Nat) → List Nat
  | [] => []
  | (line, eol) :: t => line ++ eol ++ join_lines t

/-- A complete line that is not empty: bytes other than CR and LF, one at
least, followed by CR LF or by LF. -/
def is_line (x : List Nat × List Nat) : Bool :=
  decide (0 < x.1.length) && x.1.all not_eol && (x.2 == [CR, LF] || x.2 == [LF])

/-- The line has the name `name`: it starts with the bytes of `name`, up to
the case of the letters, and a colon follows them. -/
def line_named (name line : List Nat) : Bool :=
  ((line.take name.length).map tolower == name.map tolower)
    && decide (rd line name.length = COLON)

/-- The span of the value of a line that stands at the offset `s` and has a
name of `n` bytes: the bytes behind the colon and the blanks that follow it. -/
def value_span (s n : Nat) (line : List Nat) : loc_t :=
  ⟨(s + (n + 1 + count_while is_space line (line.length - (n + 1)) (n + 1) : Nat) : Nat),
   (line.length : Int) - (n + 1 + count_while is_space line (line.length - (n + 1)) (n + 1) : Nat)⟩

/-- What the header loop maintains while the header is not complete, with the
current line at the offset `s` and `k` bytes of it scanned: the method length
is set by the first line only, the Via line span is set together with the Via
span, and the body length is set together with the Content-Length span. -/
def loop_inv (P : packet_t) (s k : Nat) : Prop :=
  P.current_line = ⟨s, k⟩ ∧ P.header.len = 0 ∧ (s = 0 → P.method.len = 0)
  ∧ (P.via.offs = 0 → P.via_line.offs = 0) ∧ (P.content_length.offs = 0 → P.data.len = 0)

/-- The header fields that a message holds once. -/
inductive field_t where
  | via
  | from_
  | to_
  | content_length
deriving DecidableEq

/-- The name of a field. -/
def field_name : field_t → List Nat
  | field_t.via => bytes "Via"
  | field_t.from_ => bytes "From"
  | field_t.to_ => bytes "To"
  | field_t.content_length => bytes "Content-Length"

/-- The span that records the value of a field. -/
def field_loc (packet : packet_t) : field_t → loc_t
  | field_t.via => packet.via
  | field_t.from_ => packet.from_
  | field_t.to_ => packet.to_
  | field_t.content_length => packet.content_length

/-- The number of times a field has been seen in a state: 1 when its span is
set (`offs != 0`, the test of `next_packet`), 0 otherwise. -/
def seen_count (packet : packet_t) (fld : field_t) : Nat :=
  if (field_loc packet fld).offs ≠ 0 then 1 else 0

/-- The number of lines that have the name of a field. -/
def named_count (fld : field_t) (ls : List (List Nat × List Nat)) : Nat :=
  ls.countP (fun x => line_named (field_name fld) x.1)

/-- The header lines among the lines `ls` that start at the offset `s` of the
buffer: at the offset 0 the first of them is the first line of the message. -/
def header_lines (s : Nat) (ls : List (List Nat × List Nat)) : List (List Nat × List Nat) :=
  if s = 0 then ls.tail else ls

/-- What a header line that has been processed leaves as it was. -/
def line_frame (P P1 : packet_t) : Prop :=
  P1.buf = P.buf ∧ P1.header = P.header ∧ P1.status = P.status ∧ P1.method = P.method
  ∧ P1.current_line = P.current_line

/-! ## The scan of a header window -/

/-- An endpoint of a session (the receive buffer `buf` of the C structure is
never used). -/
structure endpoint_t where
  sfd : Int
  peer : addr_t
  local_ : addr_t
  packet : packet_t
deriving DecidableEq

/-- A session context: `contact_id = none` is the NULL pointer, `contact_id_l`
is the length of the text. -/
structure client_context_t where
  ptr : Nat
  id : Nat
  connected : Bool
  contact_id : Option (List Nat)
  fon_tcp : endpoint_t
  fon_udp : endpoint_t
  fon_contact : addr_t
  fon_rtp : addr_t
  box_tcp : endpoint_t
  box_udp : endpoint_t
deriving DecidableEq

/-- The four endpoints of a session. -/
inductive leg_t where
  | FON_TCP
  | FON_UDP
  | BOX_TCP
  | BOX_UDP
deriving DecidableEq

open leg_t

/-- An entry of the list of registered sockets; `cleanup = false` is a NULL
cleanup function, `true` is `client_cleanup`. -/
structure poll_item_t where
  sfd : Int
  context : Nat
  cleanup : Bool
deriving DecidableEq

/-- The state of the process. -/
structure world_t where
  client_list : List client_context_t
  client_id : Nat
  poll_list : List poll_item_t
  box : addr_t
  heap : Nat
  closed : List Int
  sent : List (Int × List Nat)
deriving DecidableEq

/-- An endpoint as `calloc` leaves it. -/
def endpoint_zero : endpoint_t := ⟨0, ⟨[], []⟩, ⟨[], []⟩, packet_zero⟩

/-- A session context as `calloc` leaves it, at the address `ptr`. -/
def client_zero (ptr : Nat) : client_context_t :=
  { ptr := ptr, id := 0, connected := false, contact_id := none,
    fon_tcp := endpoint_zero, fon_udp := endpoint_zero, fon_contact := ⟨[], []⟩,
    fon_rtp := ⟨[], []⟩, box_tcp := endpoint_zero, box_udp := endpoint_zero }

/-- The endpoint of a leg. -/
def get_ep (c : client_context_t) : leg_t → endpoint_t
  | FON_TCP => c.fon_tcp
  | FON_UDP => c.fon_udp
  | BOX_TCP => c.box_tcp
  | BOX_UDP => c.box_udp

/-- The session with another endpoint of a leg. -/
def set_ep (c : client_context_t) (leg : leg_t) (ep : endpoint_t) : client_context_t :=
  match leg with
  | FON_TCP => { c with fon_tcp := ep }
  | FON_UDP => { c with fon_udp := ep }
  | BOX_TCP => { c with box_tcp := ep }
  | BOX_UDP => { c with box_udp := ep }

/-- The session with another handle of a leg. -/
def set_sfd (c : client_context_t) (leg : leg_t) (sfd : Int) : client_context_t :=
  set_ep c leg { get_ep c leg with sfd := sfd }

/-- The session with another packet of a leg. -/
def set_packet (c : client_context_t) (leg : leg_t) (packet : packet_t) : client_context_t :=
  set_ep c leg { get_ep c leg with packet := packet }

/-- The leg to which the messages of a leg are passed on. -/
def to_leg : leg_t → leg_t
  | FON_TCP => BOX_TCP
  | FON_UDP => BOX_UDP
  | BOX_TCP => FON_TCP
  | BOX_UDP => FON_UDP

/-- The session context at the address `ptr`. -/
def find_client (w : world_t) (ptr : Nat) : Option client_context_t :=
  w.client_list.find? (fun c => decide (c.ptr = ptr))

/-- A store into the session context at the address `ptr`. -/
def update_client (w : world_t) (ptr : Nat) (f : client_context_t → client_context_t) : world_t :=
  { w with client_list := w.client_list.map (fun c => if c.ptr = ptr then f c else c) }

/-- Number of legs of a session whose handle is not `-1`. -/
def open_handles (c : client_context_t) : Nat :=
  (if c.fon_tcp.sfd ≠ -1 then 1 else 0) + (if c.fon_udp.sfd ≠ -1 then 1 else 0)
    + (if c.box_tcp.sfd ≠ -1 then 1 else 0) + (if c.box_udp.sfd ≠ -1 then 1 else 0)

/-- Number of legs of all sessions whose handle is not `-1`. -/
def open_legs (w : world_t) : Nat := (w.client_list.map open_handles).sum

/-- Function `sfd_register`; `ok = false` is a failed memory allocation. -/
def sfd_register (w : world_t) (sfd : Int) (context : Nat) (cleanup : Bool) (ok : Bool) :
    Option world_t :=
  if sfd = -1 then none
  else if ok = true then some { w with poll_list := ⟨sfd, context, cleanup⟩ :: w.poll_list }
  else none

/-- Function `sfd_unregister(&client->leg.sfd)` for the session at `ptr`.
The first entry with the handle is removed and its cleanup function is called
with its context; `cleanup` is the function `client_cleanup`. -/
def sfd_unregister (cleanup : world_t → Nat → Res world_t) (w : world_t) (ptr : Nat)
    (leg : leg_t) : Res world_t :=
  match find_client w ptr with
  | none => Res.abort
  | some c =>
    match w.poll_list.find? (fun pi => decide (pi.sfd = (get_ep c leg).sfd)) with
    | some pi =>
      let w1 : world_t :=
        update_client
          { w with poll_list := w.poll_list.eraseP (fun pi => decide (pi.sfd = (get_ep c leg).sfd)) }
          ptr (fun c => set_sfd c leg (-1))
      if pi.cleanup = true then cleanup w1 pi.context else Res.ret 1 w1
    | none => Res.ret 1 (update_client w ptr (fun c => set_sfd c leg (-1)))

/-- Function `tcp_disconnect(&client->leg.sfd)`: the handle is closed on both
paths. -/
def tcp_disconnect (cleanup : world_t → Nat → Res world_t) (w : world_t) (ptr : Nat)
    (leg : leg_t) : Res world_t :=
  match find_client w ptr with
  | none => Res.abort
  | some c =>
    if (get_ep c leg).sfd ≠ -1 then
      sfd_unregister cleanup { w with closed := (get_ep c leg).sfd :: w.closed } ptr leg
    else Res.ret 1 w

/-- Function `udp_disconnect(&client->leg.sfd)`: the handle is closed on all
paths. -/
def udp_disconnect (cleanup : world_t → Nat → Res world_t) (w : world_t) (ptr : Nat)
    (leg : leg_t) : Res world_t :=
  match find_client w ptr with
  | none => Res.abort
  | some c =>
    if (get_ep c leg).sfd ≠ -1 then
      sfd_unregister cleanup { w with closed := (get_ep c leg).sfd :: w.closed } ptr leg
    else Res.ret 1 w

/-- Function `client_cleanup`, the cleanup function of the registered session
sockets.  It calls itself through `udp_disconnect` / `tcp_disconnect` and
`sfd_unregister`; every such call comes after a handle has been set to `-1`,
so the depth is bounded by the number of open legs, which is the fuel
(theorem `client_disconnect_total`). -/
def client_cleanup : Nat → world_t → Nat → Res world_t
  | 0, _, _ => Res.nofuel
  | n + 1, w, ptr =>
    match find_client w ptr with
    | none => Res.abort
    | some c =>
      if c.fon_tcp.sfd ≠ -1 then Res.abort
      else
        let w1 := update_client w ptr (fun c => { c with connected := false })
        if c.fon_udp.sfd ≠ -1 then udp_disconnect (client_cleanup n) w1 ptr FON_UDP
        else if c.box_tcp.sfd ≠ -1 then tcp_disconnect (client_cleanup n) w1 ptr BOX_TCP
        else if c.box_udp.sfd ≠ -1 then udp_disconnect (client_cleanup n) w1 ptr BOX_UDP
        else
          Res.ret 1 { w1 with client_list := w1.client_list.eraseP (fun c => decide (c.ptr = ptr)) }

/-- Function `client_disconnect`. -/
def client_disconnect (w : world_t) (ptr : Nat) : Res world_t :=
  match find_client w ptr with
  | none => Res.abort
  | some c =>
    tcp_disconnect (client_cleanup (open_legs w)) w ptr
      (if c.fon_tcp.sfd ≠ -1 then FON_TCP else FON_UDP)

/-- Function `contact_id`: `some (contact_id_i, *l_p)`, or `none` for `-1`. -/
def contact_id (packet : packet_t) (loc : loc_t) : Option (Int × Int) :=
  let l := loc.offs + loc.len
  let i1 := if loc.offs < l ∧ rd packet.buf.p loc.offs.toNat = 60 then loc.offs + 1 else loc.offs
  if l - i1 > 4 ∧ strncasecmp_eq packet.buf.p i1.toNat (bytes "sip:") = true then
    let k := count_while (fun c => decide (c ≠ 64)) packet.buf.p (l - (i1 + 4)).toNat
               (i1 + 4).toNat
    if i1 + 4 + k < l ∧ i1 + 4 + k > i1 + 4 then some (i16 (i1 + 4), i16 k)
    else none
  else none

/-- The session of the list that `fon_to_box` and `client_udp_setup` take for
the session of a contact identifier: the first one whose identifier has the
length `contact_id_l` and for which `strncasecmp` with the bytes at
`contact_id_i` gives 0. -/
def find_contact (w : world_t) (packet : packet_t) (contact_id_i contact_id_l : Int) :
    Option client_context_t :=
  w.client_list.find? (fun cl =>
    match cl.contact_id with
    | some cid =>
      decide (contact_id_l = cid.length)
        && strncasecmp_str packet.buf.p contact_id_i.toNat cid cid.length 0
    | none => false)

/-- The loop of `fon_to_box` over the session list: a connected session that
has the contact identifier already is disconnected. -/
def fon_to_box_stale (w : world_t) (packet : packet_t) (contact_id_i contact_id_l : Int) :
    Res world_t :=
  match find_contact w packet contact_id_i contact_id_l with
  | some cl => if cl.connected = true then client_disconnect w cl.ptr else Res.ret 1 w
  | none => Res.ret 1 w

/-- The first part of `fon_to_box`, the block `while (client->contact_id ==
NULL)` for the first message of a TCP session: code 1 goes on with the
rewriting, code 0 is `return 0`. -/
def fon_to_box_first (w : world_t) (ptr : Nat) (from_leg : leg_t) : Res world_t :=
  match find_client w ptr with
  | none => Res.abort
  | some client =>
    match client.contact_id with
    | some _ => Res.ret 1 w
    | none =>
      let packet := (get_ep client from_leg).packet
      if packet.method.len = 0 then Res.ret 0 w
      else if packet.contact.offs = 0 then Res.ret 0 w
      else
        match contact_id packet packet.contact with
        | none => Res.ret 0 w
        | some (contact_id_i, contact_id_l) =>
          match fon_to_box_stale w packet contact_id_i contact_id_l with
          | Res.abort => Res.abort
          | Res.nofuel => Res.nofuel
          | Res.ret _ w1 =>
            let d : data_t :=
              ⟨0, u16 contact_id_i, u16 (packet.contact.offs + packet.contact.len)⟩
            let w2 := update_client w1 ptr (fun c =>
              { c with contact_id := some ((packet.buf.p.drop d.i).take contact_id_l.toNat) })
            let d1 : data_t := { d with i := u16 (d.i + (contact_id_l + 1)) }
            match addr_find packet d1 with
            | some (addr_i, addr_l) =>
              if addr_i = d1.i then
                match port_find packet d1 addr_i addr_l with
                | some (port_i, port_l) =>
                  Res.ret 1 (update_client w2 ptr (fun c =>
                    { c with fon_contact :=
                        ⟨(packet.buf.p.drop addr_i).take addr_l,
                         (packet.buf.p.drop port_i).take port_l⟩ }))
                | none => Res.ret 0 w2
              else Res.ret 0 w2
            | none => Res.ret 0 w2

/-- The loop of `fon_to_box` that looks for the RTP peer address in the body
view `d`: the address text, or `none` when the scan ends. -/
def rtp_find_loop (packet : packet_t) (fon_peer box_peer : addr_t) :
    Nat → data_t → Option (List Nat)
  | 0, _ => none
  | n + 1, d =>
    match addr_find packet d with
    | none => none
    | some (addr_i, addr_l) =>
      if (decide (addr_l = fon_peer.addr.length)
            && memcmp_eq packet.buf.p (d.p + addr_i) fon_peer.addr)
          || (decide (addr_l = box_peer.addr.length)
            && memcmp_eq packet.buf.p (d.p + addr_i) box_peer.addr) then
        rtp_find_loop packet fon_peer box_peer n { d with i := u16 (addr_i + addr_l) }
      else some ((packet.buf.p.drop (d.p + addr_i)).take addr_l)

/-- The relay address of the session behind the block `if
(client->fon.rtp.addr_l == 0)` of `fon_to_box`, which scans the body of the
message of the leg `from_leg`. -/
def fon_to_box_rtp (client : client_context_t) (from_leg : leg_t) : addr_t :=
  let from_ep := get_ep client from_leg
  let to_ep := get_ep client (to_leg from_leg)
  if client.fon_rtp.addr.length = 0 then
    match rtp_find_loop from_ep.packet from_ep.peer to_ep.peer
            (u16 from_ep.packet.data.len + 1)
            ⟨from_ep.packet.header.len.toNat, 0, u16 from_ep.packet.data.len⟩ with
    | some a => { client.fon_rtp with addr := a }
    | none => client.fon_rtp
  else client.fon_rtp

/-- The second part of `fon_to_box`, behind the block for the first message. -/
def fon_to_box_rewrite (w : world_t) (ptr : Nat) (from_leg : leg_t) : Res world_t :=
  match find_client w ptr with
  | none => Res.abort
  | some client =>
    let from_ep := get_ep client from_leg
    let to_ep := get_ep client (to_leg from_leg)
    if client.fon_contact.addr.length ≠ 0 then
      match modify_header from_ep.packet (some client.fon_contact) to_ep.local_ with
      | Res.abort => Res.abort
      | Res.nofuel => Res.nofuel
      | Res.ret c packet1 =>
        let w1 := update_client w ptr (fun cl => set_packet cl from_leg packet1)
        if c = 0 then Res.ret 0 w1
        else
          match modify_data packet1 (some client.fon_contact) from_ep.peer with
          | Res.abort => Res.abort
          | Res.nofuel => Res.nofuel
          | Res.ret c2 packet2 =>
            Res.ret (if c2 = 0 then 0 else 1)
              (update_client w ptr (fun cl => set_packet cl from_leg packet2))
    else if from_ep.packet.data.len ≠ 0 then
      let rtp : addr_t := fon_to_box_rtp client from_leg
      let w1 := update_client w ptr (fun cl => { cl with fon_rtp := rtp })
      if rtp.addr.length ≠ 0 then
        match modify_data from_ep.packet (some rtp) from_ep.peer with
        | Res.abort => Res.abort
        | Res.nofuel => Res.nofuel
        | Res.ret c2 packet2 =>
          Res.ret (if c2 = 0 then 0 else 1)
            (update_client w1 ptr (fun cl => set_packet cl from_leg packet2))
      else Res.ret 1 w1
    else Res.ret 1 w

/-- Function `fon_to_box`. -/
def fon_to_box (w : world_t) (ptr : Nat) (from_leg : leg_t) : Res world_t :=
  match fon_to_box_first w ptr from_leg with
  | Res.abort => Res.abort
  | Res.nofuel => Res.nofuel
  | Res.ret c w1 => if c = 0 then Res.ret 0 w1 else fon_to_box_rewrite w1 ptr from_leg

/-- Function `box_to_fon`. -/
def box_to_fon (w : world_t) (ptr : Nat) (from_leg : leg_t) : Res world_t :=
  match find_client w ptr with
  | none => Res.abort
  | some client =>
    let from_ep := get_ep client from_leg
    let to_ep := get_ep client (to_leg from_leg)
    match modify_via_rport from_ep.packet to_ep.peer with
    | Res.abort => Res.abort
    | Res.nofuel => Res.nofuel
    | Res.ret c0 packet0 =>
      let w0 := update_client w ptr (fun cl => set_packet cl from_leg packet0)
      if c0 = 0 then Res.ret 0 w0
      else if client.fon_contact.addr.length ≠ 0 then
        match modify_header packet0 (some from_ep.local_) client.fon_contact with
        | Res.abort => Res.abort
        | Res.nofuel => Res.nofuel
        | Res.ret c packet1 =>
          let w1 := update_client w ptr (fun cl => set_packet cl from_leg packet1)
          if c = 0 then Res.ret 0 w1
          else
            match modify_data packet1 (some to_ep.peer) client.fon_contact with
            | Res.abort => Res.abort
            | Res.nofuel => Res.nofuel
            | Res.ret c2 packet2 =>
              Res.ret (if c2 = 0 then 0 else 1)
                (update_client w ptr (fun cl => set_packet cl from_leg packet2))
      else if client.fon_rtp.addr.length ≠ 0 then
        match modify_data packet0 (some to_ep.peer) client.fon_rtp with
        | Res.abort => Res.abort
        | Res.nofuel => Res.nofuel
        | Res.ret c2 packet2 =>
          Res.ret (if c2 = 0 then 0 else 1)
            (update_client w ptr (fun cl => set_packet cl from_leg packet2))
      else Res.ret 1 w0

/-- Function `client_packet` for a message of the leg `from_leg`; `transmit`
is the result of `sfd_transmit`.  The functions of return type `void` return
the code 1. -/
def client_packet (w : world_t) (ptr : Nat) (from_leg : leg_t) (transmit : Bool) : Res world_t :=
  match (match from_leg with
         | FON_TCP => fon_to_box w ptr from_leg
         | FON_UDP => fon_to_box w ptr from_leg
         | BOX_TCP => box_to_fon w ptr from_leg
         | BOX_UDP => box_to_fon w ptr from_leg) with
  | Res.abort => Res.abort
  | Res.nofuel => Res.nofuel
  | Res.ret c w1 =>
    if c = 0 then client_disconnect w1 ptr
    else
      match find_client w1 ptr with
      | none => Res.abort
      | some client =>
        match modify_content_length (get_ep client from_leg).packet with
        | Res.abort => Res.abort
        | Res.nofuel => Res.nofuel
        | Res.ret c2 packet2 =>
          let w2 := update_client w1 ptr (fun cl => set_packet cl from_leg packet2)
          if c2 = 0 then client_disconnect w2 ptr
          else
            let w3 : world_t :=
              { w2 with sent := ((get_ep client (to_leg from_leg)).sfd,
                  packet2.buf.p.take (u16 (packet2.header.len + packet2.data.len))) :: w2.sent }
            if transmit = true then Res.ret 1 w3 else client_disconnect w3 ptr

/-- Function `on_client_event` for the handle `sfd` registered with the
session at `ptr`.  `data = none` stands for an event other than data, a failed
`sfd_available`, `buf_resize` or `sfd_receive`, and a connection that was
closed; `data = some d` are the received bytes. -/
def on_client_event (w : world_t) (sfd : Int) (ptr : Nat) (data : Option (List Nat))
    (transmit : Bool) : Res world_t :=
  match find_client w ptr with
  | none => Res.abort
  | some client =>
    if client.connected = false then Res.ret 1 w
    else
      let from_leg : Option leg_t :=
        if sfd = client.fon_tcp.sfd then some FON_TCP
        else if sfd = client.fon_udp.sfd then some FON_UDP
        else if sfd = client.box_tcp.sfd then some BOX_TCP
        else if sfd = client.box_udp.sfd then some BOX_UDP
        else none
      match from_leg with
      | none => Res.abort
      | some leg =>
        if (get_ep client (to_leg leg)).sfd = -1 then Res.abort
        else
          match data with
          | none => client_disconnect w ptr
          | some d =>
            if d.length = 0 then client_disconnect w ptr
            else
              match next_packet (get_ep client leg).packet d with
              | Res.abort => Res.abort
              | Res.nofuel => Res.nofuel
              | Res.ret c packet1 =>
                let w1 := update_client w ptr (fun cl => set_packet cl leg packet1)
                if c = 0 then client_disconnect w1 ptr
                else if packet1.status = PACKET_INCOMPLETE then
                  if leg = FON_UDP ∨ leg = BOX_UDP then client_disconnect w1 ptr
                  else Res.ret 1 w1
                else if packet1.status ≠ PACKET_READY then Res.abort
                else client_packet w1 ptr leg transmit

/-- What the operating system answers during `client_tcp_setup`: the accepted
handle and its peer (`tcp_accept`), the local address of the connection
(`sfd_local_addr`), the memory allocation of `sfd_register`, and the same for
the connection to the Box (`tcp_connect`). -/
structure tcp_setup_env where
  accept : Option (Nat × addr_t)
  fon_local : Option addr_t
  fon_register : Bool
  connect : Option Nat
  box_local : Option addr_t
  box_register : Bool
deriving DecidableEq

/-- The end of `client_tcp_setup` when the initialization failed. -/
def client_tcp_setup_failed (w : world_t) (ptr : Nat) : Res world_t :=
  tcp_disconnect (client_cleanup (open_legs w)) w ptr FON_TCP

/-- Function `client_tcp_setup`. -/
def client_tcp_setup (w : world_t) (env : tcp_setup_env) : Res world_t :=
  let ptr := w.heap
  let client : client_context_t :=
    { client_zero ptr with
      id := u32 (w.client_id + 1), connected := true,
      fon_udp := { endpoint_zero with sfd := -1 },
      box_tcp := { endpoint_zero with sfd := -1 },
      box_udp := { endpoint_zero with sfd := -1 } }
  let w1 : world_t :=
    { w with client_list := client :: w.client_list, client_id := u32 (w.client_id + 1),
             heap := w.heap + 1 }
  match env.accept with
  | none =>
    client_tcp_setup_failed (update_client w1 ptr (fun c => set_sfd c FON_TCP (-1))) ptr
  | some (sfd, peer) =>
    let w2 := update_client w1 ptr (fun c =>
      { c with fon_tcp := { c.fon_tcp with sfd := sfd, peer := peer } })
    match env.fon_local with
    | none => client_tcp_setup_failed w2 ptr
    | some fon_local =>
      let w3 := update_client w2 ptr (fun c =>
        { c with fon_tcp := { c.fon_tcp with local_ := fon_local } })
      match sfd_register w3 sfd ptr true env.fon_register with
      | none => client_tcp_setup_failed w3 ptr
      | some w4 =>
        let w5 := update_client w4 ptr (fun c =>
          { c with box_tcp := { c.box_tcp with peer := w.box } })
        if w.box.addr.length = 0 ∨ w.box.port.length = 0 then Res.abort
        else
          match env.connect with
          | none =>
            client_tcp_setup_failed (update_client w5 ptr (fun c => set_sfd c BOX_TCP (-1))) ptr
          | some box_sfd =>
            let w6 := update_client w5 ptr (fun c => set_sfd c BOX_TCP box_sfd)
            match env.box_local with
            | none => client_tcp_setup_failed w6 ptr
            | some box_local =>
              let w7 := update_client w6 ptr (fun c =>
                { c with box_tcp := { c.box_tcp with local_ := box_local } })
              match sfd_register w7 box_sfd ptr true env.box_register with
              | none => client_tcp_setup_failed w7 ptr
              | some w8 => Res.ret 1 w8

/-- What the operating system answers during `client_udp_setup`: the datagram
with its peer and local address (`none` when `sfd_available`, `buf_resize` or
`udp_receive` fails), the handles of the two `udp_connect` calls, the local
address of the connection to the Box, the memory allocations of
`sfd_register`, and the result of `sfd_transmit`. -/
structure udp_setup_env where
  datagram : Option (List Nat × addr_t × addr_t)
  fon_connect : Option Nat
  fon_register : Bool
  box_connect : Option Nat
  box_local : Option addr_t
  box_register : Bool
  transmit : Bool
deriving DecidableEq

/-- The second half of `client_udp_setup`: the session at `ptr` gets its UDP
legs and the datagram is processed. -/
def client_udp_connect (w : world_t) (ptr : Nat) (packet : packet_t) (peer local_ : addr_t)
    (env : udp_setup_env) : Res world_t :=
  match find_client w ptr with
  | none => Res.abort
  | some client =>
    if client.fon_udp.sfd ≠ -1 then Res.ret 1 w
    else if client.box_udp.sfd ≠ -1 then Res.abort
    else
      let w1 := update_client w ptr (fun c =>
        { c with fon_udp := { c.fon_udp with peer := peer, local_ := local_ } })
      if peer.addr.length = 0 ∨ peer.port.length = 0 then Res.abort
      else
        match env.fon_connect with
        | none => client_disconnect (update_client w1 ptr (fun c => set_sfd c FON_UDP (-1))) ptr
        | some fon_sfd =>
          let w2 := update_client w1 ptr (fun c => set_sfd c FON_UDP fon_sfd)
          match sfd_register w2 fon_sfd ptr true env.fon_register with
          | none => client_disconnect w2 ptr
          | some w3 =>
            let w4 := update_client w3 ptr (fun c =>
              { c with box_udp := { c.box_udp with peer := w.box } })
            if w.box.addr.length = 0 ∨ w.box.port.length = 0 then Res.abort
            else
              match env.box_connect with
              | none =>
                client_disconnect (update_client w4 ptr (fun c => set_sfd c BOX_UDP (-1))) ptr
              | some box_sfd =>
                let w5 := update_client w4 ptr (fun c => set_sfd c BOX_UDP box_sfd)
                match env.box_local with
                | none => client_disconnect w5 ptr
                | some box_local =>
                  let w6 := update_client w5 ptr (fun c =>
                    { c with box_udp := { c.box_udp with local_ := box_local } })
                  match sfd_register w6 box_sfd ptr true env.box_register with
                  | none => client_disconnect w6 ptr
                  | some w7 =>
                    let w8 := update_client w7 ptr (fun c =>
                      set_packet { c with connected := true } FON_UDP packet)
                    client_packet w8 ptr FON_UDP env.transmit

/-- The block of `client_udp_setup` for `client == NULL` in the REGISTER
case: a session with the contact identifier of the datagram is allocated and
put into the list; then the function goes on with the connections. -/
def client_udp_new (w : world_t) (packet : packet_t) (contact_id_i contact_id_l : Int)
    (peer local_ : addr_t) (env : udp_setup_env) : Res world_t :=
  let client : client_context_t :=
    { client_zero w.heap with
      id := u32 (w.client_id + 1),
      fon_tcp := { endpoint_zero with sfd := -1 },
      fon_udp := { endpoint_zero with sfd := -1 },
      box_tcp := { endpoint_zero with sfd := -1 },
      box_udp := { endpoint_zero with sfd := -1 },
      contact_id := some ((packet.buf.p.drop contact_id_i.toNat).take contact_id_l.toNat) }
  client_udp_connect
    { w with client_list := client :: w.client_list,
             client_id := u32 (w.client_id + 1), heap := w.heap + 1 }
    w.heap packet peer local_ env

/-- Function `client_udp_setup`. -/
def client_udp_setup (w : world_t) (env : udp_setup_env) : Res world_t :=
  match env.datagram with
  | none => Res.ret 1 w
  | some (data, peer, local_) =>
    match next_packet packet_zero data with
    | Res.abort => Res.abort
    | Res.nofuel => Res.nofuel
    | Res.ret c packet =>
      if c = 0 then Res.ret 1 w
      else if packet.status = PACKET_INCOMPLETE then Res.ret 1 w
      else if packet.status ≠ PACKET_READY then Res.abort
      else
        match contact_id packet (if packet.method.len ≠ 0 then packet.from_ else packet.to_) with
        | none => Res.ret 1 w
        | some (contact_id_i, contact_id_l) =>
          let found := find_contact w packet contact_id_i contact_id_l
          if packet.method.len = 8 ∧ strncasecmp_eq packet.buf.p 0 (bytes "REGISTER") = true then
            let stale : Option client_context_t :=
              match found with
              | some client =>
                if client.fon_udp.sfd = -1 ∨ peer.addr ≠ client.fon_udp.peer.addr
                    ∨ peer.port ≠ client.fon_udp.peer.port then some client
                else none
              | none => none
            let disconnected : Res world_t :=
              match stale with
              | some client =>
                if client.connected = true then client_disconnect w client.ptr else Res.ret 1 w
              | none => Res.ret 1 w
            match disconnected with
            | Res.abort => Res.abort
            | Res.nofuel => Res.nofuel
            | Res.ret _ w1 =>
              match (match stale with
                     | some _ => none
                     | none => found) with
              | none => client_udp_new w1 packet contact_id_i contact_id_l peer local_ env
              | some client =>
                if client.connected = false then Res.ret 1 w1
                else client_udp_connect w1 client.ptr packet peer local_ env
          else
            match found with
            | none => Res.ret 1 w
            | some client =>
              if client.connected = false then Res.ret 1 w
              else client_udp_connect w client.ptr packet peer local_ env

/-- What a session keeps while legs are opened and closed: the session with
the connected flag cleared and the four handles set to `-1`. -/
def session_data (c : client_context_t) : client_context_t :=
  { c with connected := false,
           fon_tcp := { c.fon_tcp with sfd := -1 }, fon_udp := { c.fon_udp with sfd := -1 },
           box_tcp := { c.box_tcp with sfd := -1 }, box_udp := { c.box_udp with sfd := -1 } }

/-- Every session of `w1` is a session of `w` up to the connected flag and the
handles. -/
def sessions_from (w w1 : world_t) : Prop :=
  ∀ c1, c1 ∈ w1.client_list → ∃ c, c ∈ w.client_list ∧ session_data c1 = session_data c

/-- An address-port value fits the fields `char addr[16], port[6]` of
`addr_t` together with the terminating zero bytes. -/
def addr_fits (a : addr_t) : Bool := decide (a.addr.length + 1 ≤ 16) && decide (a.port.length + 1 ≤ 6)

/-- The learned contact address and the learned relay address of a session
fit `addr_t`. -/
def session_fits (c : client_context_t) : Bool := addr_fits c.fon_contact && addr_fits c.fon_rtp

/-- The learned addresses of every session fit `addr_t`. -/
def learned_fit (w : world_t) : Bool := w.client_list.all session_fits

/-- A session as the registry shows it: its address, its identity, the
connected flag and the four handles. -/
structure session_view where
  ptr : Nat
  contact_id : Option (List Nat)
  connected : Bool
  fon_tcp : Int
  fon_udp : Int
  box_tcp : Int
  box_udp : Int
deriving DecidableEq

/-- The sessions of the registry with their legs. -/
def registry (w : world_t) : List session_view :=
  w.client_list.map (fun c =>
    ⟨c.ptr, c.contact_id, c.connected, c.fon_tcp.sfd, c.fon_udp.sfd, c.box_tcp.sfd,
      c.box_udp.sfd⟩)

/-- The bytes of the Contact value of a packet. -/
def contact_value (packet : packet_t) : List Nat :=
  (packet.buf.p.drop packet.contact.offs.toNat).take packet.contact.len.toNat

/-! ## The pairs of legs of a session -/

/-- A leg of the TCP pair of the session is open. -/
def tcp_open (c : client_context_t) : Bool :=
  decide (c.fon_tcp.sfd ≠ -1) || decide (c.box_tcp.sfd ≠ -1)

/-- A leg of the UDP pair of the session is open. -/
def udp_open (c : client_context_t) : Bool :=
  decide (c.fon_udp.sfd ≠ -1) || decide (c.box_udp.sfd ≠ -1)

/-- No session has a leg of its TCP pair and a leg of its UDP pair open. -/
def one_pair (w : world_t) : Bool := w.client_list.all (fun c => !(tcp_open c && udp_open c))

/-- The session to which `client_udp_setup` hands a datagram that is not a
REGISTER: the session that has the contact identifier of the datagram, when the
datagram is a Ready message with a contact identifier. -/
def udp_joined (w : world_t) (env : udp_setup_env) : Option client_context_t :=
  match env.datagram with
  | none => none
  | some (data, _, _) =>
    match next_packet packet_zero data with
    | Res.ret c packet =>
      if c ≠ 0 ∧ packet.status = PACKET_READY
          ∧ ¬ (packet.method.len = 8
                ∧ strncasecmp_eq packet.buf.p 0 (bytes "REGISTER") = true) then
        match contact_id packet
            (if packet.method.len ≠ 0 then packet.from_ else packet.to_) with
        | some (contact_id_i, contact_id_l) => find_contact w packet contact_id_i contact_id_l
        | none => none
      else none
    | Res.abort => none
    | Res.nofuel => none

/-- The calls of `client_udp_setup` other than those that hand a datagram
which is not a REGISTER to a session with an open leg of its TCP pair. -/
def udp_apart (w : world_t) (env : udp_setup_env) : Bool :=
  match udp_joined w env with
  | some client => !tcp_open client
  | none => true

/-- The states that the process reaches from a state without sessions through
`client_tcp_setup`, `on_client_event` and the calls of `client_udp_setup` that
are `udp_apart`. -/
inductive reached_apart : world_t → Prop where
  | start (w : world_t) : w.client_list = [] → reached_apart w
  | tcp_setup (w : world_t) (env : tcp_setup_env) (c : Int) (w1 : world_t) :
      reached_apart w → client_tcp_setup w env = Res.ret c w1 → reached_apart w1
  | event (w : world_t) (sfd : Int) (ptr : Nat) (data : Option (List Nat)) (transmit : Bool)
      (c : Int) (w1 : world_t) :
      reached_apart w → on_client_event w sfd ptr data transmit = Res.ret c w1 →
      reached_apart w1
  | udp_setup (w : world_t) (env : udp_setup_env) (c : Int) (w1 : world_t) :
      reached_apart w → udp_apart w env = true → client_udp_setup w env = Res.ret c w1 →
      reached_apart w1

/-- The open handles of `c1` are open in `c`, a session at the same address. -/
def legs_within (c1 c : client_context_t) : Prop :=
  c1.ptr = c.ptr ∧ ∀ leg, (get_ep c1 leg).sfd ≠ -1 → (get_ep c leg).sfd ≠ -1

/-- From `w` to `w1` no session has been allocated and no leg has been
opened: the sessions of `w1` are sessions of `w`, in the same order, with at
most the legs open that were open. -/
def legs_from (w w1 : world_t) : Prop :=
  w1.heap = w.heap
  ∧ (w1.client_list.map (fun c => c.ptr)).Sublist (w.client_list.map (fun c => c.ptr))
  ∧ ∀ c1, c1 ∈ w1.client_list → ∃ c, c ∈ w.client_list ∧ legs_within c1 c

/-- The addresses of the sessions are addresses that have been allocated, and
no two sessions have the same. -/
def registry_wf (w : world_t) : Prop :=
  (∀ c, c ∈ w.client_list → c.ptr < w.heap) ∧ (w.client_list.map (fun c => c.ptr)).Nodup

/-- The sessions at the address `h` have the property `good`, and no other
session has a leg of both pairs open. -/
def pairs_at (good : client_context_t → Bool) (h : Nat) (w : world_t) : Prop :=
  ∀ c, c ∈ w.client_list →
    (c.ptr = h → good c = true) ∧ (c.ptr ≠ h → (tcp_open c && udp_open c) = false)

/-! ## The relay address as the description words it -/

/-- The address literals of a scan window in scan order: the first literal
that `addr_find` reports, then the literals behind it. -/
def addr_literals (packet : packet_t) : Nat → data_t → List (List Nat)
  | 0, _ => []
  | n + 1, d =>
    match addr_find packet d with
    | none => []
    | some (addr_i, addr_l) =>
      (packet.buf.p.drop (d.p + addr_i)).take addr_l
        :: addr_literals packet n { d with i := addr_i + addr_l }

/-- The first address literal of the body of the message of the leg
`from_leg` whose text equals neither the peer address of that leg nor the
peer address of the leg to which the message goes. -/
def relay_claimed (client : client_context_t) (from_leg : leg_t) : Option (List Nat) :=
  let from_ep := get_ep client from_leg
  let to_ep := get_ep client (to_leg from_leg)
  (addr_literals from_ep.packet (u16 from_ep.packet.data.len + 1)
      ⟨from_ep.packet.header.len.toNat, 0, u16 from_ep.packet.data.len⟩).find?
    (fun a => !(a == from_ep.peer.addr) && !(a == to_ep.peer.addr))

/-! ## Spans behind an edit as the description words them -/

/-- What the description says about a tracked span `a` that became `b` when
the range `[i, i+l)` was replaced and the length changed by `delta`: a span
that ends at or before `i` is kept; a span that contains the range keeps its
offset, its length changes by `delta`; a span that starts at or behind `i+l`
keeps its length, its offset changes by `delta`; a span that was never
recorded stays `(0, 0)`. -/
def span_moved (a b : loc_t) (i l delta : Int) : Prop :=
  (a.offs + a.len ≤ i → b = a)
  ∧ (a.offs ≤ i ∧ i + l ≤ a.offs + a.len → b = ⟨a.offs, a.len + delta⟩)
  ∧ (i + l ≤ a.offs → b = ⟨a.offs + delta, a.len⟩)
  ∧ (a = ⟨0, 0⟩ → b = ⟨0, 0⟩)

/-- A span that lies in the buffer and whose end stays in the range of
`int16_t` when it moves by `delta`. -/
def span_fits (a : loc_t) (delta : Int) : Prop :=
  0 ≤ a.offs ∧ 0 ≤ a.len ∧ a.offs + a.len + delta ≤ 32767

/-! ## Port literals as the description words them -/

/-- Value of a run of decimal digits. -/
def digits_value (s : List Nat) : Nat := s.foldl (fun v c => v * 10 + (c - 48)) 0

/-- The bytes `s` (what follows the colon, up to the end of the window) start
with a run of exactly `n` decimal digits, `1 ≤ n ≤ 5`, that is not followed by
another digit inside `s`. -/
def digit_run (s : List Nat) (n : Nat) : Bool :=
  decide (1 ≤ n) && decide (n ≤ 5) && decide (n ≤ s.length) && (s.take n).all is_digit
    && !(decide (n < s.length) && is_digit (rd s n))

/-- A port literal as claimed: a run of 1 to 5 digits with a value in [1, 65535]. -/
def port_literal_claimed (s : List Nat) (n : Nat) : Bool :=
  digit_run s n && decide (1 ≤ digits_value (s.take n)) && decide (digits_value (s.take n) ≤ 65535)

/-- A port literal as the code takes it: a run of 1 to 5 digits that does not
start with the digit 0, with a value of at most 65535. -/
def port_literal (s : List Nat) (n : Nat) : Bool :=
  digit_run s n && decide (rd s 0 ≠ 48) && decide (digits_value (s.take n) ≤ 65535)

/-! ## The first line as the description words it -/

/-- Length of the leading run of ASCII letters of a line. -/
def letter_run (l : List Nat) : Nat := (l.takeWhile is_alpha).length

/-- A status line as claimed: the line begins with the literal `SIP/2.0 `. -/
def status_line_claimed (l : List Nat) : Bool := l.take 8 == bytes "SIP/2.0 "

/-- A method line as claimed: the line ends with the token ` SIP/2.0` and
begins with a non-empty run of ASCII letters followed by a space. -/
def method_line_claimed (l : List Nat) : Bool :=
  (l.drop (l.length - 8) == bytes " SIP/2.0") && decide (0 < letter_run l)
    && decide (rd l (letter_run l) = SP)

/-- A status line as the code takes it: more than 8 bytes that begin with
`SIP/2.0 `, letters compared without case. -/
def status_line (l : List Nat) : Bool :=
  decide (8 < l.length) && ((l.take 8).map tolower == (bytes "SIP/2.0 ").map tolower)

/-- A method line as the code takes it: the line ends with ` SIP/2.0`, letters
compared without case, and begins with a non-empty run of ASCII letters
followed by a space. -/
def method_line (l : List Nat) : Bool :=
  ((l.drop (l.length - 8)).map tolower == (bytes " SIP/2.0").map tolower)
    && decide (0 < letter_run l) && decide (rd l (letter_run l) = SP)

/-! ## Concrete messages -/

/-- An INVITE whose session description names 10.0.0.5 twice. -/
def sdp_message : List Nat :=
  bytes ("INVITE sip:b@h SIP/2.0\r\nVia: SIP/2.0/UDP h\r\nFrom: <sip:a@h>\r\nTo: <sip:b@h>\r\n"
    ++ "Content-Length: 153\r\n\r\n"
    ++ "v=0\r\no=- 1 1 IN IP4 10.0.0.5\r\ns=-\r\nc=IN IP4 10.0.0.5\r\nt=0 0\r\n"
    ++ "m=audio 7078 RTP/AVP 8\r\na=rtpmap:8 PCMA/8000\r\na=maxptime:1500\r\n"
    ++ "a=rtcp:7079 IN IP4 10.8.0.6\r\n")

/-- The same message with the address of the `o=` line rewritten to 10.8.0.6. -/
def sdp_message_o_rewritten : List Nat :=
  bytes ("INVITE sip:b@h SIP/2.0\r\nVia: SIP/2.0/UDP h\r\nFrom: <sip:a@h>\r\nTo: <sip:b@h>\r\n"
    ++ "Content-Length: 153\r\n\r\n"
    ++ "v=0\r\no=- 1 1 IN IP4 10.8.0.6\r\ns=-\r\nc=IN IP4 10.0.0.5\r\nt=0 0\r\n"
    ++ "m=audio 7078 RTP/AVP 8\r\na=rtpmap:8 PCMA/8000\r\na=maxptime:1500\r\n"
    ++ "a=rtcp:7079 IN IP4 10.8.0.6\r\n")

/-- The packet that `next_packet` makes of `sdp_message`, with the given bytes. -/
def sdp_packet (msg : List Nat) : packet_t :=
  { buf := ⟨msg ++ List.replicate 772 0, 1024, 252⟩, status := PACKET_READY,
    header := ⟨99⟩, data := ⟨153⟩, method := ⟨6⟩,
    current_line := ⟨97, 0⟩, via_line := ⟨24, 18⟩, via := ⟨29, 13⟩,
    from_ := ⟨50, 9⟩, to_ := ⟨65, 9⟩, contact := ⟨0, 0⟩, content_length := ⟨91, 4⟩ }

/-- A small message with a body of 54 bytes: 1.1.1.1 at body offset 0 and
2.2.2.2 at body offset 47, which is the header length. -/
def short_message : List Nat :=
  bytes ("A SIP/2.0\nVia:x\nFrom:x\nTo:x\nContent-Length:54\n\n"
    ++ "1.1.1.1 .......................................2.2.2.2")

/-- The packet that `next_packet` makes of `short_message`. -/
def short_packet : packet_t :=
  { buf := ⟨short_message ++ List.replicate 923 0, 1024, 101⟩, status := PACKET_READY,
    header := ⟨47⟩, data := ⟨54⟩, method := ⟨1⟩,
    current_line := ⟨46, 0⟩, via_line := ⟨10, 5⟩, via := ⟨14, 1⟩,
    from_ := ⟨21, 1⟩, to_ := ⟨26, 1⟩, contact := ⟨0, 0⟩, content_length := ⟨43, 2⟩ }

/-- A request without body that announces 65536 bytes of body. -/
def long_length_message : List Nat :=
  bytes ("OPTIONS sip:b@h SIP/2.0\r\nVia: SIP/2.0/UDP h\r\nFrom: <sip:a@h>\r\nTo: <sip:b@h>\r\n"
    ++ "Content-Length: 65536\r\n\r\n")

/-- The packet that `next_packet` makes of `long_length_message`. -/
def long_length_packet : packet_t :=
  { buf := ⟨long_length_message ++ List.replicate 922 0, 1024, 102⟩, status := PACKET_READY,
    header := ⟨102⟩, data := ⟨0⟩, method := ⟨7⟩,
    current_line := ⟨100, 0⟩, via_line := ⟨25, 18⟩, via := ⟨30, 13⟩,
    from_ := ⟨51, 9⟩, to_ := ⟨66, 9⟩, contact := ⟨0, 0⟩, content_length := ⟨92, 6⟩ }

/-- A REGISTER whose last header line is the Contact line. -/
def contact_last_message : List Nat :=
  bytes ("REGISTER sip:h SIP/2.0\r\nVia: SIP/2.0/TCP h\r\nFrom: <sip:a@h>\r\nTo: <sip:a@h>\r\n"
    ++ "Content-Length: 0\r\nContact: <sip:a@1.2.3.4>\r\n\r\n")

/-- The packet that `next_packet` makes of `contact_last_message`. -/
def contact_last_packet : packet_t :=
  { buf := ⟨contact_last_message ++ List.replicate 901 0, 1024, 123⟩, status := PACKET_READY,
    header := ⟨123⟩, data := ⟨0⟩, method := ⟨8⟩,
    current_line := ⟨121, 0⟩, via_line := ⟨24, 18⟩, via := ⟨29, 13⟩,
    from_ := ⟨50, 9⟩, to_ := ⟨65, 9⟩, contact := ⟨104, 15⟩, content_length := ⟨91, 2⟩ }

/-- A REGISTER whose Contact names the address 1.2.3.4 with the given port. -/
def register_message (addr port : String) : List Nat :=
  bytes ("REGISTER sip:h SIP/2.0\r\nVia: SIP/2.0/TCP h\r\nFrom: <sip:a@h>\r\nTo: <sip:a@h>\r\n"
    ++ "Contact: <sip:a@" ++ addr ++ ":" ++ port ++ ">\r\nContent-Length: 0\r\n\r\n")

/-- The packet that `next_packet` makes of `register_message addr port`. -/
def register_packet (addr port : String) : packet_t :=
  let n := (register_message addr port).length
  { buf := ⟨register_message addr port ++ List.replicate (1024 - n) 0, 1024, n⟩,
    status := PACKET_READY,
    header := ⟨n⟩, data := ⟨0⟩, method := ⟨8⟩,
    current_line := ⟨n - 2, 0⟩, via_line := ⟨24, 18⟩, via := ⟨29, 13⟩,
    from_ := ⟨50, 9⟩, to_ := ⟨65, 9⟩, contact := ⟨85, n - 108⟩, content_length := ⟨n - 6, 2⟩ }

/-- A complete request followed by the first bytes of the next one. -/
def pipelined_message : List Nat :=
  bytes ("OPTIONS sip:h SIP/2.0\r\nVia: SIP/2.0/TCP h\r\nFrom: <sip:a@h>\r\nTo: <sip:b@h>\r\n"
    ++ "Content-Length: 0\r\n\r\nOPTIONS")

/-- A packet whose buffer holds the text `300.1.2.3.4`. -/
def dotted_packet : packet_t := { packet_zero with buf := ⟨bytes "300.1.2.3.4", 11, 11⟩ }

/-- A packet whose buffer holds the text `1.2.3.4:0123`. -/
def zero_port_packet : packet_t := { packet_zero with buf := ⟨bytes "1.2.3.4:0123", 12, 12⟩ }

/-- An OPTIONS request whose Via value has an rport parameter with the value
70000 followed by an rport parameter with the value 5060. -/
def rport_message : List Nat :=
  bytes ("OPTIONS sip:h SIP/2.0\r\nVia: SIP/2.0/UDP h;rport=70000;rport=5060\r\n"
    ++ "From: <sip:a@h>\r\nTo: <sip:b@h>\r\nContent-Length: 0\r\n\r\n")

/-- The packet that `next_packet` makes of `rport_message`. -/
def rport_packet : packet_t :=
  { buf := ⟨rport_message ++ List.replicate 905 0, 1024, 119⟩, status := PACKET_READY,
    header := ⟨119⟩, data := ⟨0⟩, method := ⟨7⟩,
    current_line := ⟨117, 0⟩, via_line := ⟨23, 41⟩, via := ⟨28, 36⟩,
    from_ := ⟨72, 9⟩, to_ := ⟨87, 9⟩, contact := ⟨0, 0⟩, content_length := ⟨113, 2⟩ }

/-- The header lines of an OPTIONS request without the empty line that ends
the header. -/
def open_header_message : List Nat :=
  bytes ("OPTIONS sip:h SIP/2.0\r\nVia: SIP/2.0/TCP h\r\nFrom: <sip:a@h>\r\nTo: <sip:b@h>\r\n"
    ++ "Contact: <sip:a@1.2.3.4>\r\nContent-Length: 0\r\n")

/-- The packet that `next_packet` makes of `open_header_message`. -/
def open_header_packet : packet_t :=
  { buf := ⟨open_header_message ++ List.replicate 904 0, 1024, 120⟩, status := PACKET_INCOMPLETE,
    header := ⟨0⟩, data := ⟨0⟩, method := ⟨7⟩,
    current_line := ⟨120, 0⟩, via_line := ⟨23, 18⟩, via := ⟨28, 13⟩,
    from_ := ⟨49, 9⟩, to_ := ⟨64, 9⟩, contact := ⟨84, 15⟩, content_length := ⟨116, 2⟩ }

/-- A request without body that announces 40000 bytes of body. -/
def negative_length_message : List Nat :=
  bytes ("OPTIONS sip:b@h SIP/2.0\r\nVia: SIP/2.0/UDP h\r\nFrom: <sip:a@h>\r\nTo: <sip:b@h>\r\n"
    ++ "Content-Length: 40000\r\n\r\n")

/-- The packet that `next_packet` makes of `negative_length_message`. -/
def negative_length_packet : packet_t :=
  { buf := ⟨negative_length_message ++ List.replicate 922 0, 1024, 102⟩,
    status := PACKET_INCOMPLETE,
    header := ⟨102⟩, data := ⟨-25536⟩, method := ⟨7⟩,
    current_line := ⟨100, 0⟩, via_line := ⟨25, 18⟩, via := ⟨30, 13⟩,
    from_ := ⟨51, 9⟩, to_ := ⟨66, 9⟩, contact := ⟨0, 0⟩, content_length := ⟨92, 6⟩ }

/-- A request that announces 10 bytes of body, without the body. -/
def waiting_body_message : List Nat :=
  bytes ("OPTIONS sip:b@h SIP/2.0\r\nVia: SIP/2.0/UDP h\r\nFrom: <sip:a@h>\r\nTo: <sip:b@h>\r\n"
    ++ "Content-Length: 10\r\n\r\n")

/-- The packet that `next_packet` makes of `waiting_body_message`. -/
def waiting_body_packet : packet_t :=
  { buf := ⟨waiting_body_message ++ List.replicate 925 0, 1024, 99⟩,
    status := PACKET_INCOMPLETE,
    header := ⟨99⟩, data := ⟨10⟩, method := ⟨7⟩,
    current_line := ⟨97, 0⟩, via_line := ⟨25, 18⟩, via := ⟨30, 13⟩,
    from_ := ⟨51, 9⟩, to_ := ⟨66, 9⟩, contact := ⟨0, 0⟩, content_length := ⟨92, 3⟩ }

/-- The process after startup: no session; the TCP listening socket 3 and the
shared UDP socket 4 are registered without context (`ptr` 0 is NULL) and
without cleanup function; the Box is 192.168.178.1:5060. -/
def initial_world : world_t :=
  { client_list := [], client_id := 0,
    poll_list := [⟨4, 0, false⟩, ⟨3, 0, false⟩],
    box := ⟨bytes "192.168.178.1", bytes "5060"⟩, heap := 1, closed := [], sent := [] }

/-- Answers of the operating system for a `client_tcp_setup` call in which
everything succeeds: the Fon connects from 10.8.0.6:40000 and gets the handle
5, the connection to the Box gets the handle 6. -/
def tcp_env_ok : tcp_setup_env :=
  { accept := some (5, ⟨bytes "10.8.0.6", bytes "40000"⟩),
    fon_local := some ⟨bytes "10.8.0.1", bytes "5060"⟩, fon_register := true,
    connect := some 6, box_local := some ⟨bytes "192.168.178.2", bytes "50000"⟩,
    box_register := true }

/-- Answers of the operating system for a `client_udp_setup` call in which
everything succeeds: the datagram `data` comes from 10.8.0.6 with the port
`port`, the connected socket to the Fon gets the handle `fon_sfd`, the one to
the Box the handle `fon_sfd + 1`. -/
def udp_env_ok (data : List Nat) (port : String) (fon_sfd : Nat) : udp_setup_env :=
  { datagram := some (data, ⟨bytes "10.8.0.6", bytes port⟩, ⟨bytes "10.8.0.1", bytes "5060"⟩),
    fon_connect := some fon_sfd, fon_register := true,
    box_connect := some (fon_sfd + 1),
    box_local := some ⟨bytes "192.168.178.2", bytes "50001"⟩, box_register := true,
    transmit := true }

/-- A REGISTER of the identity `abc` with the Contact
`<sip:abc@1.2.3.4:1111>`. -/
def register_abc_message : List Nat :=
  bytes ("REGISTER sip:h SIP/2.0\r\nVia: SIP/2.0/TCP h\r\nFrom: <sip:abc@h>\r\nTo: <sip:abc@h>\r\n"
    ++ "Contact: <sip:abc@1.2.3.4:1111>\r\nContent-Length: 0\r\n\r\n")

/-- An OPTIONS request of the identity `abc`. -/
def options_abc_message : List Nat :=
  bytes ("OPTIONS sip:h SIP/2.0\r\nVia: SIP/2.0/UDP h\r\nFrom: <sip:abc@h>\r\nTo: <sip:abc@h>\r\n"
    ++ "Content-Length: 0\r\n\r\n")

/-- A datagram that consists of an empty line. -/
def keep_alive_datagram : List Nat := [CR, LF]

/-- The state after `client_tcp_setup` in which everything succeeded. -/
def tcp_world : world_t := ret_state (client_tcp_setup initial_world tcp_env_ok) initial_world

/-- The state after the session of `tcp_world` received `register_abc_message`
from the Fon. -/
def tcp_registered_world : world_t :=
  ret_state (on_client_event tcp_world 5 1 (some register_abc_message) true) tcp_world

/-- The state after the REGISTER datagram `register_abc_message` from
10.8.0.6:40001 arrived at the shared UDP socket of `initial_world`. -/
def udp_world : world_t :=
  ret_state (client_udp_setup initial_world (udp_env_ok register_abc_message "40001" 7))
    initial_world

/-- The state in which `client_udp_setup` calls `client_disconnect` when the
REGISTER datagram `register_abc_message` arrived in `initial_world` and the
connected socket to the Box could not be registered: the new session has the
registered handle 7 to the Fon and the handle 8 to the Box, which is not
registered. -/
def half_registered_world : world_t :=
  { initial_world with
    client_list :=
      [{ client_zero 1 with
         id := 1, contact_id := some (bytes "abc"),
         fon_tcp := { endpoint_zero with sfd := -1 },
         box_tcp := { endpoint_zero with sfd := -1 },
         fon_udp := { endpoint_zero with
                      sfd := 7, peer := ⟨bytes "10.8.0.6", bytes "40001"⟩,
                      local_ := ⟨bytes "10.8.0.1", bytes "5060"⟩ },
         box_udp := { endpoint_zero with
                      sfd := 8, peer := ⟨bytes "192.168.178.1", bytes "5060"⟩,
                      local_ := ⟨bytes "192.168.178.2", bytes "50001"⟩ } }],
    client_id := 1, heap := 2,
    poll_list := [⟨7, 1, true⟩, ⟨4, 0, false⟩, ⟨3, 0, false⟩] }

/-- The state in which `on_client_event` calls `client_packet` when the
session of `tcp_world` has received `register_abc_message` from the Fon. -/
def tcp_ready_world : world_t :=
  update_client tcp_world 1 (fun c =>
    set_packet c FON_TCP (ret_state (next_packet packet_zero register_abc_message) packet_zero))

/-- The packet that `next_packet` makes of `register_abc_message`. -/
def register_abc_packet : packet_t :=
  ret_state (next_packet packet_zero register_abc_message) packet_zero

/-- The session of `tcp_ready_world`. -/
def tcp_ready_client : client_context_t :=
  (find_client tcp_ready_world 1).getD (client_zero 0)

/-- An INVITE of the identity `abc` whose body names the address 10.0.0.5. -/
def invite_abc_message : List Nat :=
  bytes ("INVITE sip:b@h SIP/2.0\r\nVia: SIP/2.0/TCP h\r\nFrom: <sip:abc@h>\r\nTo: <sip:b@h>\r\n"
    ++ "Contact: <sip:abc@1.2.3.4:1111>\r\nContent-Length: 24\r\n\r\n"
    ++ "v=0\r\nc=IN IP4 10.0.0.5\r\n")

/-- The packet that `next_packet` makes of `invite_abc_message`. -/
def invite_abc_packet : packet_t :=
  ret_state (next_packet packet_zero invite_abc_message) packet_zero

/-- The state in which `on_client_event` calls `client_packet` when the fresh
TCP session of `tcp_world` has received `invite_abc_message` from the Fon. -/
def tcp_invite_world : world_t :=
  update_client tcp_world 1 (fun c => set_packet c FON_TCP invite_abc_packet)

/-- The session of `tcp_invite_world`. -/
def tcp_invite_client : client_context_t :=
  (find_client tcp_invite_world 1).getD (client_zero 0)

/-- The state in which `on_client_event` calls `client_packet` when the UDP
session of `udp_world` has received `invite_abc_message` from the Fon. -/
def udp_invite_world : world_t :=
  update_client udp_world 1 (fun c => set_packet c FON_UDP invite_abc_packet)

/-- The session of `udp_invite_world`. -/
def udp_invite_client : client_context_t :=
  (find_client udp_invite_world 1).getD (client_zero 0)

/-- A REGISTER of the identity `abc` with a body that ends with the address
1.1.1.1. -/
def register_sdp_message : List Nat :=
  bytes ("REGISTER sip:h SIP/2.0\r\nVia: SIP/2.0/UDP h\r\nFrom: <sip:abc@h>\r\nTo: <sip:abc@h>\r\n"
    ++ "Content-Length: 16\r\n\r\n"
    ++ "c=IN IP4 1.1.1.1")

/-- The packet that `next_packet` makes of `register_sdp_message`. -/
def register_sdp_packet : packet_t :=
  ret_state (next_packet packet_zero register_sdp_message) packet_zero

/-- The lines of a message with two Via lines. -/
def two_via_lines : List (List Nat × List Nat) :=
  [(bytes "INVITE sip:a SIP/2.0", [CR, LF]), (bytes "Via: x", [CR, LF]),
   (bytes "From: y", [CR, LF]), (bytes "via: z", [CR, LF])]

/-- The lines of a message with two Contact lines. -/
def two_contact_lines : List (List Nat × List Nat) :=
  [(bytes "INVITE sip:a SIP/2.0", [CR, LF]), (bytes "Via: x", [CR, LF]),
   (bytes "From: y", [CR, LF]), (bytes "To: z", [CR, LF]),
   (bytes "Contact: <sip:a@1.2.3.4>", [CR, LF]), (bytes "CONTACT: <sip:b@5.6.7.8>", [CR, LF]),
   (bytes "Content-Length: 0", [CR, LF])]

/-- The packet that `next_packet` makes of the message with the lines
`two_contact_lines`. -/
def two_contact_packet : packet_t :=
  { buf := ⟨join_lines two_contact_lines ++ [CR, LF] ++ List.replicate 905 0, 1024, 119⟩,
    status := PACKET_READY, header := ⟨119⟩, data := ⟨0⟩, method := ⟨6⟩,
    current_line := ⟨117, 0⟩, via_line := ⟨22, 6⟩, via := ⟨27, 1⟩, from_ := ⟨36, 1⟩,
    to_ := ⟨43, 1⟩, contact := ⟨55, 15⟩, content_length := ⟨113, 2⟩ }

/-- The packet after the first 32 bytes of the message with the lines
`two_via_lines` have been fed to a fresh packet: the first line and the line
`Via: x` have been processed, and the bytes `Fr` of the third line scanned. -/
def split_via_packet : packet_t :=
  { buf := ⟨join_lines (two_via_lines.take 2) ++ bytes "Fr" ++ List.replicate 992 0, 1024, 32⟩,
    status := PACKET_INCOMPLETE, header := ⟨0⟩, data := ⟨0⟩, method := ⟨6⟩,
    current_line := ⟨30, 2⟩, via_line := ⟨22, 6⟩, via := ⟨27, 1⟩, from_ := ⟨0, 0⟩,
    to_ := ⟨0, 0⟩, contact := ⟨0, 0⟩, content_length := ⟨0, 0⟩ }

/-- The state after a REGISTER datagram of the identity `abc` from
10.8.0.6:40001 arrived at the shared UDP socket of `tcp_registered_world`: the
TCP session, which has that identity, has been disconnected, and a session
with the UDP pair has been allocated. -/
def tcp_then_udp_world : world_t :=
  ret_state (client_udp_setup tcp_registered_world (udp_env_ok register_abc_message "40001" 7))
    tcp_registered_world

/-! ## Theorems -/

/-- C1 (code defect): `modify_addr_port` on the body window of the packet made
of `sdp_message`, from 10.0.0.5 to 10.8.0.6, returns success and has rewritten
the address of the `o=` line but not the identical address of the `c=` line:
`data_modify` compares the replacement with the bytes one header length too far
(`data->p + i`), finds 10.8.0.6 there, and skips the write. -/
theorem modify_addr_port_body_misses_address :
    next_packet packet_zero sdp_message = Res.ret 1 (sdp_packet sdp_message)
    ∧ modify_addr_port (sdp_packet sdp_message) ⟨99, 0, 153⟩
        (some ⟨bytes "10.0.0.5", bytes "5060"⟩) ⟨bytes "10.8.0.6", bytes "40000"⟩
      = Res.ret 1 (sdp_packet sdp_message_o_rewritten, ⟨99, 151, 153⟩) := by
  decide!

/-- C3 (code defect): on the body view of the packet made of `short_message`,
`data_modify` asked to replace the 7 bytes at body offset 0 (1.1.1.1) by
2.2.2.2 returns success and leaves the packet as it was: the body still starts
with 1.1.1.1.  A replacement by 3.3.3.3 is written. -/
theorem data_modify_body_same_length_skipped :
    next_packet packet_zero short_message = Res.ret 1 short_packet
    ∧ data_modify short_packet ⟨47, 0, 54⟩ 0 7 (bytes "2.2.2.2")
        = Res.ret 1 (short_packet, ⟨47, 0, 54⟩)
    ∧ (body_bytes short_packet).take 7 = bytes "1.1.1.1"
    ∧ (∃ pk d, data_modify short_packet ⟨47, 0, 54⟩ 0 7 (bytes "3.3.3.3") = Res.ret 1 (pk, d)
        ∧ (body_bytes pk).take 7 = bytes "3.3.3.3") := by
  refine ⟨by decide!, by decide!, by decide!, ?_⟩
  refine ⟨{ short_packet with buf := { short_packet.buf with
              p := memcpy short_packet.buf.p 47 (bytes "3.3.3.3") } }, ⟨47, 0, 54⟩, ?_, ?_⟩
  · decide!
  · decide!

/-- C9 (code defect): a header with `Content-Length: 65536` is accepted, and
the message is Ready with body length 0: the digits are accumulated in the
`int16_t` field `data.len`. -/
theorem content_length_wraps :
    next_packet packet_zero long_length_message = Res.ret 1 long_length_packet
    ∧ long_length_packet.status = PACKET_READY
    ∧ long_length_packet.data.len = 0 := by
  decide!

/-- C10 (code defect): rewriting the header of the packet made of
`contact_last_message` from 1.2.3.4 to 192.168.178.20 aborts: the assertion
`replace_i + with_l <= packet->header.len` of `data_modify` fails for the
address in the last header line. -/
theorem modify_header_aborts :
    next_packet packet_zero contact_last_message = Res.ret 1 contact_last_packet
    ∧ modify_header contact_last_packet (some ⟨bytes "1.2.3.4", bytes "5060"⟩)
        ⟨bytes "192.168.178.20", bytes "5060"⟩ = Res.abort := by
  decide!

/-- C4 (counterexample): `pipelined_message` is Ready when fed in one call; fed
as its first 98 bytes and then the rest, the first call is already Ready and the
second call starts a new message, so the final status is Incomplete. -/
theorem split_after_ready_differs :
    (∃ pk, next_packet packet_zero pipelined_message = Res.ret 1 pk ∧ pk.status = PACKET_READY)
    ∧ 98 < pipelined_message.length
    ∧ res_view (next_packet2 packet_zero (pipelined_message.take 98) (pipelined_message.drop 98))
        ≠ res_view (next_packet packet_zero pipelined_message) := by
  refine ⟨⟨{ buf := ⟨pipelined_message ++ List.replicate 921 0, 1024, 103⟩,
             status := PACKET_READY, header := ⟨96⟩, data := ⟨0⟩, method := ⟨7⟩,
             current_line := ⟨94, 0⟩, via_line := ⟨23, 18⟩, via := ⟨28, 13⟩,
             from_ := ⟨49, 9⟩, to_ := ⟨64, 9⟩, contact := ⟨0, 0⟩,
             content_length := ⟨90, 2⟩ }, by decide!, rfl⟩, by decide!, by decide!⟩

/-- C6 (counterexample): rewriting the header of the REGISTER with Contact
1.2.3.4:5060 from 1.2.3.4:1111 to 5.6.7.8:2222 and back yields the Contact
1.2.3.4:1111, not the original bytes. -/
theorem modify_header_round_trip_differs :
    next_packet packet_zero (register_message "1.2.3.4" "5060")
      = Res.ret 1 (register_packet "1.2.3.4" "5060")
    ∧ modify_header (register_packet "1.2.3.4" "5060") (some ⟨bytes "1.2.3.4", bytes "1111"⟩)
        ⟨bytes "5.6.7.8", bytes "2222"⟩ = Res.ret 1 (register_packet "5.6.7.8" "2222")
    ∧ modify_header (register_packet "5.6.7.8" "2222") (some ⟨bytes "5.6.7.8", bytes "2222"⟩)
        ⟨bytes "1.2.3.4", bytes "1111"⟩ = Res.ret 1 (register_packet "1.2.3.4" "1111")
    ∧ content (register_packet "1.2.3.4" "1111") ≠ content (register_packet "1.2.3.4" "5060") := by
  decide!

/-- C7 (counterexample): rewriting the header of the REGISTER with Contact
1.2.3.4:5060 from 1.2.3.4:1111 to 1.2.3.4:1111 changes the port 5060 into 1111. -/
theorem modify_header_same_address_changes_port :
    next_packet packet_zero (register_message "1.2.3.4" "5060")
      = Res.ret 1 (register_packet "1.2.3.4" "5060")
    ∧ modify_header (register_packet "1.2.3.4" "5060") (some ⟨bytes "1.2.3.4", bytes "1111"⟩)
        ⟨bytes "1.2.3.4", bytes "1111"⟩ = Res.ret 1 (register_packet "1.2.3.4" "1111")
    ∧ content (register_packet "1.2.3.4" "1111") ≠ content (register_packet "1.2.3.4" "5060") := by
  decide!

/-! ## Machine integer lemmas -/

theorem i16_eq (x : Int) (h0 : -32768 ≤ x) (h1 : x ≤ 32767) : i16 x = x := by
  unfold i16; omega

theorem u16_eq (x : Int) (h0 : 0 ≤ x) (h1 : x < 65536) : (u16 x : Int) = x := by
  unfold u16; omega

theorem u16_nat (n : Nat) (h1 : n < 65536) : u16 (n : Int) = n := by
  unfold u16; omega

theorem u32_eq (x : Int) (h0 : 0 ≤ x) (h1 : x < 4294967296) : (u32 x : Int) = x := by
  unfold u32; omega

theorem u32_nat (n : Nat) (h1 : n < 4294967296) : u32 (n : Int) = n := by
  unfold u32; omega

/-! ## Memory lemmas -/

theorem memcpy_length (p : List Nat) (off : Nat) (w : List Nat) (h : off + w.length ≤ p.length) :
    (memcpy p off w).length = p.length := by
  simp [memcpy]; omega

theorem memmove_length (p : List Nat) (dst src n : Nat) (hd : dst + n ≤ p.length)
    (hs : src + n ≤ p.length) : (memmove p dst src n).length = p.length := by
  simp [memmove]; omega

/-- A `memmove` of the tail behind a replaced range followed by the `memcpy` of
the replacement. -/
theorem memcpy_memmove (p : List Nat) (i src n : Nat) (w : List Nat)
    (hd : i + w.length ≤ p.length) :
    memcpy (memmove p (i + w.length) src n) i w
      = p.take i ++ w ++ ((p.drop src).take n ++ p.drop (i + w.length + n)) := by
  unfold memcpy memmove
  have h1 : (p.take (i + w.length)).length = i + w.length := by simp; omega
  rw [List.append_assoc (p.take (i + w.length))]
  rw [List.take_append_of_le_length (by omega), List.take_take]
  rw [List.drop_append_of_le_length (by omega)]
  have h2 : (p.take (i + w.length)).drop (i + w.length) = [] := by
    apply List.drop_of_length_le; omega
  simp [h2, Nat.min_eq_left (Nat.le_add_right i w.length)]

theorem buf_resize_some (b b1 : buf_t) (size : Nat) (h : buf_resize b size = some b1)
    (hsize : size ≤ 4294966272) (halloc : b.allocated ≤ 65535) :
    b1.used = b.used ∧ b1.p = b.p ++ List.replicate (b1.allocated - b.allocated) 0
      ∧ b.allocated ≤ b1.allocated ∧ size ≤ b1.allocated ∧ b1.allocated ≤ 65535 := by
  unfold buf_resize at h
  split at h
  · simp only [BUF_RESIZE_INCREMENT] at h
    have e1 : (size + 1024 - 1) % 4294967296 = size + 1023 := by
      rw [Nat.mod_eq_of_lt] <;> omega
    have e2 : (size + 1023) / 1024 * 1024 % 4294967296 = (size + 1023) / 1024 * 1024 := by
      rw [Nat.mod_eq_of_lt]; omega
    rw [e1, e2] at h
    split at h
    · simp at h
    · split at h
      · simp at h
      · rename_i hgt hle hz
        simp only [Option.some.injEq] at h
        subst h
        clear e1 e2
        refine ⟨rfl, rfl, ?_, ?_, ?_⟩ <;> simp only <;> omega
  · simp only [Option.some.injEq] at h
    subst h
    simp; omega

theorem content_length_le (packet : packet_t) : (content packet).length ≤ packet.buf.used := by
  simp [content]

/-- A block of memory split at the offsets `i`, `i + l` and `used`. -/
theorem split_memory (p : List Nat) (used i l : Nat) (hu : used ≤ p.length) (hl : i + l ≤ used) :
    ∃ A R S T, p = A ++ (R ++ (S ++ T)) ∧ A.length = i ∧ R.length = l
      ∧ S.length = used - i - l := by
  refine ⟨p.take i, (p.drop i).take l, (p.drop (i + l)).take (used - i - l), p.drop used,
    ?_, ?_, ?_, ?_⟩
  · have e1 : p.drop (i + l) = (p.drop i).drop l := by rw [List.drop_drop]
    have e2 : p.drop used = ((p.drop i).drop l).drop (used - i - l) := by
      rw [List.drop_drop, List.drop_drop]; congr 1; omega
    rw [e2, e1, List.take_append_drop, List.take_append_drop, List.take_append_drop]
  · simp; omega
  · simp; omega
  · simp; omega

/-- The bytes in use after `memmove` and `memcpy` of a replacement at `i`. -/
theorem take_memcpy_memmove (p : List Nat) (used i l : Nat) (w : List Nat)
    (hu : used ≤ p.length) (hl : i + l ≤ used) (hw : i + w.length ≤ p.length) :
    (memcpy (memmove p (i + w.length) (i + l) (used - i - l)) i w).take (i + w.length + (used - i - l))
      = (p.take used).take i ++ w ++ (p.take used).drop (i + l) := by
  rw [memcpy_memmove p i (i + l) (used - i - l) w hw]
  obtain ⟨A, R, S, T, rfl, hA, hR, hS⟩ := split_memory p used i l hu hl
  have hused : used = A.length + (R.length + S.length) := by omega
  rw [← hS, ← hA, ← hR, hused]
  simp only [List.take_append, List.drop_append, List.take_left, List.drop_left,
    ← List.append_assoc, List.take_left', List.length_append, Nat.add_assoc]
  simp [List.take_append, Nat.add_assoc]

theorem take_memcpy (p : List Nat) (used i : Nat) (w : List Nat)
    (hu : used ≤ p.length) (hw : i + w.length ≤ used) :
    (memcpy p i w).take used = (p.take used).take i ++ w ++ (p.take used).drop (i + w.length) := by
  obtain ⟨A, R, S, T, rfl, hA, hR, hS⟩ := split_memory p used i w.length hu hw
  have hused : used = A.length + (R.length + S.length) := by omega
  unfold memcpy
  rw [← hA, ← hR, hused]
  simp only [List.take_append, List.drop_append, List.take_left, List.drop_left,
    ← List.append_assoc, List.take_left', List.length_append, Nat.add_assoc]
  simp [List.take_append, Nat.add_assoc, hR]

theorem take_memcmp_eq (p : List Nat) (used i : Nat) (w : List Nat)
    (hu : used ≤ p.length) (hw : i + w.length ≤ used) (h : memcmp_eq p i w = true) :
    (p.take used).take i ++ w ++ (p.take used).drop (i + w.length) = p.take used := by
  unfold memcmp_eq at h
  simp only [beq_iff_eq] at h
  obtain ⟨A, R, S, T, rfl, hA, hR, hS⟩ := split_memory p used i w.length hu hw
  have hused : used = A.length + (R.length + S.length) := by omega
  rw [← hA, ← hR] at h
  simp only [List.drop_left, List.take_left, List.drop_append, List.take_append] at h
  subst h
  rw [← hA, hused]
  simp only [List.take_append, List.drop_append, List.take_left, List.drop_left,
    ← List.append_assoc, List.take_left', List.length_append, Nat.add_assoc]
  simp [List.take_append, Nat.add_assoc]

/-- Effect of a successful `data_modify` on the header view. -/
theorem data_modify_at_header (packet : packet_t) (data : data_t) (i ri l : Nat) (w : List Nat)
    (packet1 : packet_t) (data1 : data_t)
    (hwf : buf_wf packet.buf) (hp : data.p = 0)
    (hl : i + l ≤ packet.buf.used) (hw : i + w.length ≤ packet.buf.used)
    (h : data_modify_at packet data false i ri l w = Res.ret 1 (packet1, data1)) :
    buf_wf packet1.buf
    ∧ content packet1 = (content packet).take i ++ w ++ (content packet).drop (i + l)
    ∧ packet1.buf.used = i + w.length + (packet.buf.used - i - l)
    ∧ packet1.data = packet.data ∧ packet1.method = packet.method
    ∧ packet1.status = packet.status ∧ packet1.current_line = packet.current_line
    ∧ (w.length = l → packet1.header = packet.header ∧ packet1.via_line = packet.via_line
        ∧ packet1.via = packet.via ∧ packet1.from_ = packet.from_ ∧ packet1.to_ = packet.to_
        ∧ packet1.contact = packet.contact ∧ packet1.content_length = packet.content_length
        ∧ data1 = data)
    ∧ (w.length ≠ l →
        packet1.header.len = i16 (packet.header.len + ((w.length : Int) - l))
        ∧ loc_adjust packet.via_line i l ((w.length : Int) - l) = some packet1.via_line
        ∧ loc_adjust packet.via i l ((w.length : Int) - l) = some packet1.via
        ∧ loc_adjust packet.from_ i l ((w.length : Int) - l) = some packet1.from_
        ∧ loc_adjust packet.to_ i l ((w.length : Int) - l) = some packet1.to_
        ∧ loc_adjust packet.contact i l ((w.length : Int) - l) = some packet1.contact
        ∧ loc_adjust packet.content_length i l ((w.length : Int) - l) = some packet1.content_length
        ∧ data1 = { p := 0,
                    i := if ri + l ≤ data.i then u16 (data.i + ((w.length : Int) - l)) else data.i,
                    l := u16 (data.l + ((w.length : Int) - l)) }) := by
  obtain ⟨hlen, hused, halloc⟩ := hwf
  unfold data_modify_at at h
  split at h
  · rename_i hne
    simp only at h
    split at h
    · rename_i hdiff
      have hwl : w.length ≠ l := by omega
      split at h
      · simp at h
      · rename_i b hb
        have hsz : u32 ((packet.buf.used : Int) + ((w.length : Int) - l))
            = packet.buf.used + w.length - l := by
          have := u32_eq ((packet.buf.used : Int) + ((w.length : Int) - l)) (by omega) (by omega)
          omega
        rw [hsz] at hb
        obtain ⟨hbu, hbp, hba, hbs, hbm⟩ :=
          buf_resize_some packet.buf b _ hb (by omega) halloc
        have hblen : b.p.length = b.allocated := by rw [hbp]; simp; omega
        have hnu : u16 ((b.used : Int) + ((w.length : Int) - l))
            = i + w.length + (packet.buf.used - i - l) := by
          have := u16_eq ((b.used : Int) + ((w.length : Int) - l)) (by omega) (by omega)
          omega
        have htn : ((packet.buf.used : Int) - i - l).toNat = packet.buf.used - i - l := by omega
        rw [hnu, htn] at h
        simp only [Bool.false_eq_true, ↓reduceIte] at h
        split at h
        · simp at h
        · rename_i pk2 hpk2
          simp only [Res.ret.injEq, Prod.mk.injEq, true_and] at h
          obtain ⟨h1, h2⟩ := h
          subst h1 h2
          unfold loc_adjust_all at hpk2
          simp only at hpk2
          split at hpk2
          · rename_i a1 a2 a3 a4 a5 a6 e1 e2 e3 e4 e5 e6
            simp only [Option.some.injEq] at hpk2
            subst hpk2
            have hcont : (memcpy (memmove b.p (i + w.length) (i + l) (packet.buf.used - i - l)) i w).take
                  (i + w.length + (packet.buf.used - i - l))
                = (content packet).take i ++ w ++ (content packet).drop (i + l) := by
              rw [take_memcpy_memmove b.p packet.buf.used i l w (by omega) hl (by omega)]
              have : b.p.take packet.buf.used = packet.buf.p.take packet.buf.used := by
                rw [hbp, List.take_append_of_le_length (by omega)]
              rw [this]; rfl
            refine ⟨⟨?_, ?_, hbm⟩, hcont, rfl, rfl, rfl, rfl, rfl, fun hc => absurd hc hwl,
              fun _ => ⟨rfl, e1, e2, e3, e4, e5, e6, rfl⟩⟩
            · have hm : (memmove b.p (i + w.length) (i + l) (packet.buf.used - i - l)).length
                  = b.p.length := memmove_length _ _ _ _ (by omega) (by omega)
              show (memcpy _ i w).length = b.allocated
              rw [memcpy_length _ _ _ (by omega), hm, hblen]
            · simp only; omega
          · simp at hpk2
    · rename_i hdiff
      have hwl : w.length = l := by omega
      simp only [Res.ret.injEq, Prod.mk.injEq, true_and] at h
      obtain ⟨h1, h2⟩ := h
      subst h1 h2
      refine ⟨⟨?_, hused, halloc⟩, ?_, ?_, rfl, rfl, rfl, rfl,
        fun _ => ⟨rfl, rfl, rfl, rfl, rfl, rfl, rfl, rfl⟩, fun hc => absurd hwl hc⟩
      · simp only; rw [memcpy_length] <;> omega
      · show (memcpy packet.buf.p i w).take packet.buf.used = _
        rw [take_memcpy _ _ _ _ (by omega) hw, hwl]; rfl
      · simp only; omega
  · rename_i hne
    simp only [not_or, not_not, Bool.not_eq_false] at hne
    obtain ⟨hwl, hcmp⟩ := hne
    simp only [Res.ret.injEq, Prod.mk.injEq, true_and] at h
    obtain ⟨h1, h2⟩ := h
    subst h1 h2
    rw [hp, Nat.zero_add] at hcmp
    refine ⟨⟨hlen, hused, halloc⟩, ?_, by omega, rfl, rfl, rfl, rfl,
      fun _ => ⟨rfl, rfl, rfl, rfl, rfl, rfl, rfl, rfl⟩, fun hc => absurd hwl hc⟩
    rw [← hwl]
    exact (take_memcmp_eq _ _ _ _ (by omega) hw hcmp).symm

/-- C2: a successful `data_modify` on the header view (`data.p = 0`, the base
is the start of the buffer) with `replace_i + replace_l <= header.len` leaves
as bytes in use the old bytes before `replace_i`, the replacement, and the old
bytes from `replace_i + replace_l` on; the used length and the header length
change by `with_l - replace_l`, the body length does not change.  The message
is well formed (the header lies in the bytes in use of a well-formed buffer)
and the new header length fits the `int16_t` field. -/
theorem data_modify_header_view (packet : packet_t) (data : data_t) (replace_i replace_l : Nat)
    (w : List Nat) (packet1 : packet_t) (data1 : data_t)
    (hwf : buf_wf packet.buf) (hview : data.p = 0)
    (hhdr : packet.header.len ≤ packet.buf.used)
    (hrange : (replace_i : Int) + replace_l ≤ packet.header.len)
    (hfit : packet.header.len + w.length - replace_l ≤ 32767)
    (h : data_modify packet data replace_i replace_l w = Res.ret 1 (packet1, data1)) :
    content packet1
        = (content packet).take replace_i ++ w ++ (content packet).drop (replace_i + replace_l)
    ∧ (packet1.buf.used : Int) = packet.buf.used + w.length - replace_l
    ∧ packet1.header.len = packet.header.len + w.length - replace_l
    ∧ packet1.data.len = packet.data.len := by
  unfold data_modify at h
  rw [if_pos hview] at h
  split at h
  · rename_i hassert
    obtain ⟨ha1, ha2⟩ := hassert
    obtain ⟨_, hc, hu, hd, _, _, _, hsame, hdiff⟩ :=
      data_modify_at_header packet data replace_i replace_i replace_l w packet1 data1 hwf hview
        (by omega) (by omega) h
    refine ⟨hc, by omega, ?_, by rw [hd]⟩
    by_cases hwl : w.length = replace_l
    · rw [(hsame hwl).1]; omega
    · rw [(hdiff hwl).1, i16_eq] <;> omega
  · simp at h

/-- C2 (witness): the address 1.2.3.4 in the Contact line of a REGISTER is
replaced by 10.20.30.40. -/
theorem data_modify_header_view_witness :
    content { register_packet "10.20.30.40" "5060" with current_line := ⟨126, 0⟩ }
      = (content (register_packet "1.2.3.4" "5060")).take 92 ++ bytes "10.20.30.40"
          ++ (content (register_packet "1.2.3.4" "5060")).drop (92 + 7)
    ∧ (({ register_packet "10.20.30.40" "5060" with current_line := ⟨126, 0⟩ } : packet_t).buf.used
        : Int)
      = (register_packet "1.2.3.4" "5060").buf.used + (bytes "10.20.30.40").length - (7 : Nat)
    ∧ ({ register_packet "10.20.30.40" "5060" with current_line := ⟨126, 0⟩ } : packet_t).header.len
      = (register_packet "1.2.3.4" "5060").header.len + (bytes "10.20.30.40").length - (7 : Nat)
    ∧ ({ register_packet "10.20.30.40" "5060" with current_line := ⟨126, 0⟩ } : packet_t).data.len
      = (register_packet "1.2.3.4" "5060").data.len :=
  data_modify_header_view (register_packet "1.2.3.4" "5060") ⟨0, 0, 128⟩ 92 7
    (bytes "10.20.30.40") { register_packet "10.20.30.40" "5060" with current_line := ⟨126, 0⟩ }
    ⟨0, 0, 132⟩ (by decide) rfl (by decide) (by decide) (by decide) (by decide!)

/-! ## Bounds on what `is_addr` and `is_port` report -/

theorem is_addr_octet_spec (s : List Nat) (n oi ov al : Nat) :
    (is_addr_octet s n oi ov al).2.2 = al + ((is_addr_octet s n oi ov al).1 - oi)
    ∧ oi ≤ (is_addr_octet s n oi ov al).1
    ∧ (al ≤ s.length → (is_addr_octet s n oi ov al).2.2 ≤ s.length) := by
  induction n generalizing oi ov al with
  | zero => simp [is_addr_octet]
  | succ n ih =>
    unfold is_addr_octet
    split
    · rename_i h
      obtain ⟨h1, h2, h3⟩ := ih (oi + 1) (ov * 10 + rd s al - 48) (al + 1)
      refine ⟨by omega, by omega, fun _ => h3 (by omega)⟩
    · simp

theorem is_addr_loop_spec (s : List Nat) (n octet al : Nat) (hal : al ≤ s.length) :
    (is_addr_loop s n octet al).2 ≤ s.length
    ∧ al ≤ (is_addr_loop s n octet al).2
    ∧ octet ≤ (is_addr_loop s n octet al).1
    ∧ (octet < (is_addr_loop s n octet al).1 → al < (is_addr_loop s n octet al).2) := by
  induction n generalizing octet al with
  | zero => simp [is_addr_loop, hal]
  | succ n ih =>
    unfold is_addr_loop
    split
    · simp [hal]
    · rename_i hdot
      simp only
      have hal1 : (if octet > 0 then al + 1 else al) ≤ s.length := by
        split
        · rename_i ho
          have : al < s.length := by
            by_contra hc
            exact hdot ⟨ho, fun hh => hc hh.1⟩
          omega
        · exact hal
      have hge : al ≤ (if octet > 0 then al + 1 else al) := by split <;> omega
      obtain ⟨o1, o2, o3⟩ := is_addr_octet_spec s 3 0 0 (if octet > 0 then al + 1 else al)
      generalize is_addr_octet s 3 0 0 (if octet > 0 then al + 1 else al) = r at o1 o2 o3
      obtain ⟨oi, ov, al2⟩ := r
      simp only at o1 o2 o3 ⊢
      split
      · simp only [lt_self_iff_false, false_implies, and_true, le_refl]
        exact ⟨o3 hal1, by omega⟩
      · rename_i hok
        obtain ⟨i1, i2, i3, i4⟩ := ih (octet + 1) al2 (o3 hal1)
        refine ⟨i1, by omega, by omega, fun _ => ?_⟩
        have : 0 < oi := by omega
        omega

/-- When `is_addr` accepts, the reported length is positive and at most `l`. -/
theorem is_addr_true_bounds (s : List Nat) (n : Nat) (h : is_addr s = (true, n)) :
    0 < n ∧ n ≤ s.length := by
  unfold is_addr at h
  obtain ⟨i1, i2, i3, i4⟩ := is_addr_loop_spec s 4 0 0 (Nat.zero_le _)
  generalize is_addr_loop s 4 0 0 = r at h i1 i2 i3 i4
  obtain ⟨octet, al⟩ := r
  simp only at h i1 i2 i3 i4
  split at h
  · rename_i hc
    simp only [Prod.mk.injEq, true_and] at h
    subst h
    exact ⟨i4 (by omega), i1⟩
  · simp at h

/-- When `is_addr` rejects, the reported skip is at most `l`, and positive
when `l` is. -/
theorem is_addr_false_bounds (s : List Nat) (n : Nat) (h : is_addr s = (false, n)) :
    n ≤ s.length ∧ (0 < s.length → 0 < n) := by
  unfold is_addr at h
  obtain ⟨i1, i2, i3, i4⟩ := is_addr_loop_spec s 4 0 0 (Nat.zero_le _)
  generalize is_addr_loop s 4 0 0 = r at h i1 i2 i3 i4
  obtain ⟨octet, al⟩ := r
  simp only at h i1 i2 i3 i4
  split at h
  · simp at h
  · simp only [Prod.mk.injEq, true_and] at h
    subst h
    split <;> omega

theorem is_port_loop_spec (s : List Nat) (n pl pv : Nat) (hpl : pl ≤ s.length) :
    (is_port_loop s n pl pv).1 ≤ s.length ∧ pl ≤ (is_port_loop s n pl pv).1 := by
  induction n generalizing pl pv with
  | zero => simp [is_port_loop, hpl]
  | succ n ih =>
    unfold is_port_loop
    split
    · split
      · obtain ⟨h1, h2⟩ := ih (pl + 1) (pv * 10 + rd s pl - 48) (by omega)
        exact ⟨h1, by omega⟩
      · simp [hpl]
    · simp [hpl]

/-- When `is_port` accepts, the reported length is between 1 and 5 and at most `l`. -/
theorem is_port_true_bounds (s : List Nat) (n : Nat) (h : is_port s = (true, n)) :
    0 < n ∧ n ≤ 5 ∧ n ≤ s.length := by
  unfold is_port at h
  obtain ⟨i1, i2⟩ := is_port_loop_spec s s.length 0 0 (Nat.zero_le _)
  generalize is_port_loop s s.length 0 0 = r at h i1 i2
  obtain ⟨pl, pv⟩ := r
  simp only at h i1 i2
  split at h
  · rename_i hc
    simp only [Prod.mk.injEq, true_and] at h
    subst h
    exact ⟨hc.1, hc.2.1, i1⟩
  · simp at h

/-! ## What `addr_find` and `port_find` report -/

theorem view_from_length (packet : packet_t) (d : data_t) (i : Nat) :
    (view_from packet d i).length ≤ d.l - i := by
  simp [view_from]

theorem addr_find_loop_bounds (packet : packet_t) (d : data_t) (n i ai al : Nat)
    (h : addr_find_loop packet d n i = some (ai, al)) :
    i ≤ ai ∧ ai + al ≤ d.l ∧ 0 < al ∧ is_addr (view_from packet d ai) = (true, al) := by
  induction n generalizing i with
  | zero => simp [addr_find_loop] at h
  | succ n ih =>
    unfold addr_find_loop at h
    split at h
    · rename_i hlt
      split at h
      · rename_i al1 hia
        simp only [Option.some.injEq, Prod.mk.injEq] at h
        obtain ⟨h1, h2⟩ := h
        subst h1 h2
        obtain ⟨b1, b2⟩ := is_addr_true_bounds _ _ hia
        have := view_from_length packet d i
        exact ⟨le_refl _, by omega, b1, hia⟩
      · rename_i al1 hia
        obtain ⟨j1, j2, j3, j4⟩ := ih (i + al1) h
        exact ⟨by omega, j2, j3, j4⟩
    · simp at h

theorem addr_find_bounds (packet : packet_t) (d : data_t) (ai al : Nat)
    (h : addr_find packet d = some (ai, al)) :
    d.i ≤ ai ∧ ai + al ≤ d.l ∧ 0 < al ∧ is_addr (view_from packet d ai) = (true, al) :=
  addr_find_loop_bounds packet d _ _ ai al h

theorem port_find_bounds (packet : packet_t) (d : data_t) (ai al pi pl : Nat)
    (h : port_find packet d ai al = some (pi, pl)) :
    pi = ai + al + 1 ∧ pi + pl ≤ d.l ∧ 0 < pl ∧ pl ≤ 5
      ∧ rd packet.buf.p (d.p + (ai + al)) = COLON
      ∧ is_port (view_from packet d pi) = (true, pl) := by
  unfold port_find at h
  simp only at h
  split at h
  · rename_i hc
    split at h
    · split at h
      · rename_i pl1 hip
        simp only [Option.some.injEq, Prod.mk.injEq] at h
        obtain ⟨h1, h2⟩ := h
        subst h1 h2
        obtain ⟨b1, b2, b3⟩ := is_port_true_bounds _ _ hip
        have := view_from_length packet d (ai + al + 1)
        exact ⟨rfl, by omega, b1, b2, hc.2, hip⟩
      · simp at h
    · simp at h
  · simp at h

/-! ## Rewriting an address to itself -/

/-- A `data_modify` on the header view whose replacement equals the bytes in
place changes nothing. -/
theorem data_modify_noop (packet : packet_t) (d : data_t) (ri rl : Nat) (w : List Nat)
    (hp : d.p = 0) (hr : (ri : Int) + rl ≤ packet.header.len) (hl : rl = w.length)
    (hc : memcmp_eq packet.buf.p ri w = true) :
    data_modify packet d ri rl w = Res.ret 1 (packet, d) := by
  unfold data_modify
  rw [if_pos hp, if_pos ⟨hr, by omega⟩]
  unfold data_modify_at
  rw [if_neg]
  rw [hp, Nat.zero_add]
  simp [hl, hc]

theorem modify_addr_port_loop_noop (a : addr_t) (packet : packet_t) (n : Nat) (d : data_t)
    (hp : d.p = 0) (hl : (d.l : Int) ≤ packet.header.len) (hl16 : d.l < 65536)
    (hn : d.l - d.i < n) (hk : ports_kept_loop a packet n d = true) :
    ∃ d1, modify_addr_port_loop (some a) a n packet d = Res.ret 1 (packet, d1) ∧ d1.p = 0 := by
  induction n generalizing d with
  | zero => omega
  | succ n ih =>
    unfold modify_addr_port_loop modify_addr_port_step
    unfold ports_kept_loop at hk
    cases hf : addr_find packet d with
    | none => exact ⟨d, rfl, hp⟩
    | some r =>
      obtain ⟨ai, al⟩ := r
      rw [hf] at hk
      simp only at hk ⊢
      obtain ⟨b1, b2, b3, _⟩ := addr_find_bounds packet d ai al hf
      have e1 : u16 ((ai : Int) + al) = ai + al := by
        have := u16_nat (ai + al) (by omega); push_cast at this; exact this
      by_cases hd : from_differs packet d ai al a = true
      · rw [if_pos hd] at hk
        rw [if_pos hd, e1]
        exact ih { d with i := ai + al } hp hl hl16 (by simp only; omega) hk
      · rw [if_neg hd] at hk
        rw [if_neg hd]
        have hd2 : al = a.addr.length ∧ memcmp_eq packet.buf.p ai a.addr = true := by
          unfold from_differs at hd
          rw [hp, Nat.zero_add] at hd
          simp only [Bool.or_eq_true, decide_eq_true_eq, Bool.not_eq_true',
            not_or, not_not, Bool.not_eq_false] at hd
          exact hd
        rw [data_modify_noop packet d ai al a.addr hp (by omega) hd2.1 hd2.2]
        simp only [one_ne_zero, ↓reduceIte]
        rw [← hd2.1]
        cases hpf : port_find packet d ai al with
        | none =>
          rw [hpf] at hk
          simp only at hk ⊢
          rw [e1]
          exact ih { d with i := ai + al } hp hl hl16 (by simp only; omega) hk
        | some r2 =>
          obtain ⟨pi, pl⟩ := r2
          rw [hpf] at hk
          simp only [Bool.and_eq_true, decide_eq_true_eq] at hk ⊢
          obtain ⟨⟨hk1, hk2⟩, hk3⟩ := hk
          obtain ⟨c1, c2, c3, _⟩ := port_find_bounds packet d ai al pi pl hpf
          rw [hp, Nat.zero_add] at hk2
          rw [data_modify_noop packet d pi pl a.port hp (by omega) hk1 hk2]
          simp only [one_ne_zero, ↓reduceIte]
          have e2 : u16 ((pi : Int) + a.port.length) = pi + pl := by
            have := u16_nat (pi + pl) (by omega); push_cast at this; rw [← hk1]; exact this
          rw [e2]
          exact ih { d with i := pi + pl } hp hl hl16 (by simp only; omega) hk3

/-- C7 (amended): on a Ready message in whose scanned header regions every
port literal that follows an occurrence of the address text of `a` is already
the port text of `a`, `modify_header` with `from = a` and `to = a` returns
success and leaves the whole packet (buffer, used length, header length, field
spans) as it was. -/
theorem modify_header_same_address_noop (packet : packet_t) (a : addr_t)
    (hwf : ready_wf packet) (hports : header_ports_kept a packet = true) :
    modify_header packet (some a) a = Res.ret 1 packet := by
  obtain ⟨_, ⟨hb1, hb2, hb3⟩, hm0, hm1, hv0, hv1, hh⟩ := hwf
  unfold header_ports_kept at hports
  simp only [Bool.and_eq_true] at hports
  obtain ⟨hk1, hk2⟩ := hports
  have ev : (u16 packet.via_line.offs : Int) = packet.via_line.offs :=
    u16_eq _ (by omega) (by omega)
  have eh : (u16 packet.header.len : Int) = packet.header.len := u16_eq _ (by omega) (by omega)
  unfold modify_header modify_addr_port
  obtain ⟨d1, h1, hd1⟩ := modify_addr_port_loop_noop a packet _
    ⟨0, u16 packet.method.len, u16 packet.via_line.offs⟩ rfl (by simp only; omega)
    (by simp only; omega) (by simp only; omega) hk1
  simp only at h1 ⊢
  rw [h1]
  simp only [one_ne_zero, ↓reduceIte]
  have hk2b : ports_kept_loop a packet
      (u16 packet.header.len - u16 (packet.via_line.offs + packet.via_line.len) + 1)
      { d1 with i := u16 (packet.via_line.offs + packet.via_line.len),
                l := u16 packet.header.len } = true := by
    rw [← hk2]; simp only [hd1]
  obtain ⟨d2, h2, _⟩ := modify_addr_port_loop_noop a packet
    (u16 packet.header.len - u16 (packet.via_line.offs + packet.via_line.len) + 1)
    { d1 with i := u16 (packet.via_line.offs + packet.via_line.len),
              l := u16 packet.header.len } hd1 (by simp only; omega)
    (by simp only; omega) (by simp only; omega) hk2b
  rw [h2]

/-- C7 (witness): the REGISTER whose Contact is 1.2.3.4:5060, rewritten from
1.2.3.4:5060 to 1.2.3.4:5060. -/
theorem modify_header_same_address_noop_witness :
    modify_header (register_packet "1.2.3.4" "5060") (some ⟨bytes "1.2.3.4", bytes "5060"⟩)
      ⟨bytes "1.2.3.4", bytes "5060"⟩ = Res.ret 1 (register_packet "1.2.3.4" "5060") :=
  modify_header_same_address_noop (register_packet "1.2.3.4" "5060")
    ⟨bytes "1.2.3.4", bytes "5060"⟩ (by decide) (by decide!)

/-! ## The parser reads the line it works on -/

theorem agree_mono {p q : List Nat} {n m : Nat} (h : agree p q n) (hm : m ≤ n) : agree p q m :=
  fun x hx => h x (by omega)

theorem agree_symm {p q : List Nat} {n : Nat} (h : agree p q n) : agree q p n :=
  fun x hx => (h x hx).symm

theorem count_while_le (f : Nat → Bool) (p : List Nat) (n i : Nat) :
    count_while f p n i ≤ n := by
  induction n generalizing i with
  | zero => simp [count_while]
  | succ n ih =>
    unfold count_while
    split
    · have := ih (i + 1); omega
    · omega

theorem count_while_congr (f : Nat → Bool) (p q : List Nat) (n i : Nat)
    (h : agree p q (i + n)) : count_while f p n i = count_while f q n i := by
  induction n generalizing i with
  | zero => simp [count_while]
  | succ n ih =>
    unfold count_while
    rw [h i (by omega), ih (i + 1) (by rw [show i + 1 + n = i + (n + 1) by omega]; exact h)]

theorem count_while_all (f : Nat → Bool) (p : List Nat) (n i j : Nat)
    (hj : j < count_while f p n i) : f (rd p (i + j)) = true := by
  induction n generalizing i j with
  | zero => simp [count_while] at hj
  | succ n ih =>
    unfold count_while at hj
    split at hj
    · rename_i hf
      cases j with
      | zero => simpa using hf
      | succ j =>
        have := ih (i + 1) j (by omega)
        rw [show i + (j + 1) = i + 1 + j by omega]; exact this
    · omega

theorem count_while_stop (f : Nat → Bool) (p : List Nat) (n i : Nat)
    (h : count_while f p n i < n) : f (rd p (i + count_while f p n i)) = false := by
  induction n generalizing i with
  | zero => omega
  | succ n ih =>
    unfold count_while at h ⊢
    split
    · rename_i hf
      rw [if_pos hf] at h
      have := ih (i + 1) (by omega)
      rw [show i + (count_while f p n (i + 1) + 1) = i + 1 + count_while f p n (i + 1) by omega]
      exact this
    · rename_i hf
      simpa using hf

/-- A scan with more fuel goes on where the scan with less fuel stopped. -/
theorem count_while_add (f : Nat → Bool) (p : List Nat) (n m i : Nat) :
    count_while f p (n + m) i
      = if count_while f p n i = n then n + count_while f p m (i + n)
        else count_while f p n i := by
  induction n generalizing i with
  | zero => simp [count_while]
  | succ n ih =>
    rw [show n + 1 + m = (n + m) + 1 by omega]
    simp only [count_while]
    by_cases hf : f (rd p i) = true
    · rw [if_pos hf, if_pos hf, ih (i + 1)]
      by_cases h1 : count_while f p n (i + 1) = n
      · rw [if_pos h1, if_pos (by omega), show i + 1 + n = i + (n + 1) by omega]; omega
      · rw [if_neg h1, if_neg (by omega)]
    · rw [if_neg hf, if_neg hf]; simp

/-- A scan that is given the bytes it would accept first. -/
theorem count_while_skip (f : Nat → Bool) (p : List Nat) (n i j : Nat) (hj : j ≤ n)
    (hall : ∀ x, x < j → f (rd p (i + x)) = true) :
    count_while f p n i = j + count_while f p (n - j) (i + j) := by
  induction j generalizing n i with
  | zero => simp
  | succ j ih =>
    obtain ⟨n, rfl⟩ : ∃ n1, n = n1 + 1 := ⟨n - 1, by omega⟩
    simp only [count_while]
    rw [if_pos (by simpa using hall 0 (by omega))]
    rw [ih n (i + 1) (by omega) (fun x hx => by
      have := hall (x + 1) (by omega)
      rw [show i + 1 + x = i + (x + 1) by omega]; exact this)]
    rw [show n + 1 - (j + 1) = n - j by omega, show i + 1 + j = i + (j + 1) by omega]
    omega

theorem strncasecmp_eq_congr (p q : List Nat) (off : Nat) (lit : List Nat)
    (h : agree p q (off + lit.length)) : strncasecmp_eq p off lit = strncasecmp_eq q off lit := by
  unfold strncasecmp_eq
  congr 1
  apply List.map_congr_left
  intro k hk
  rw [h (off + k) (by have := List.mem_range.mp hk; omega)]

theorem content_length_digits_congr (p q : List Nat) (base n i : Nat) (v : Int)
    (h : agree p q (base + i + n)) :
    content_length_digits p base n i v = content_length_digits q base n i v := by
  induction n generalizing i v with
  | zero => simp [content_length_digits]
  | succ n ih =>
    unfold content_length_digits
    rw [h (base + i) (by omega)]
    rw [ih (i + 1) _ (by rw [show base + (i + 1) + n = base + i + (n + 1) by omega]; exact h)]

theorem content_length_digits_le (p : List Nat) (base n i : Nat) (v : Int) :
    (content_length_digits p base n i v).1 ≤ i + n := by
  induction n generalizing i v with
  | zero => simp [content_length_digits]
  | succ n ih =>
    unfold content_length_digits
    split
    · have := ih (i + 1) (i16 (v * 10 + rd p (base + i) - 48)); omega
    · simp

/-- The processing of the first line reads the bytes of the line only. -/
theorem first_line_congr (packet : packet_t) (b : buf_t)
    (hm : packet.method.len = 0)
    (h : agree packet.buf.p b.p packet.current_line.len.toNat) :
    first_line (with_buf packet b)
      = ((first_line packet).1, with_buf (first_line packet).2 b) := by
  unfold first_line with_buf
  simp only [hm]
  by_cases hlen : packet.current_line.len > 8
  · rw [if_pos hlen, if_pos hlen]
    have e1 : strncasecmp_eq b.p 0 (bytes "SIP/2.0 ") = strncasecmp_eq packet.buf.p 0 (bytes "SIP/2.0 ") :=
      (strncasecmp_eq_congr _ _ _ _ (agree_mono h (by
        have : (bytes "SIP/2.0 ").length = 8 := by decide
        omega))).symm
    have e2 : strncasecmp_eq b.p (packet.current_line.len - 8).toNat (bytes " SIP/2.0")
        = strncasecmp_eq packet.buf.p (packet.current_line.len - 8).toNat (bytes " SIP/2.0") :=
      (strncasecmp_eq_congr _ _ _ _ (agree_mono h (by
        have : (bytes " SIP/2.0").length = 8 := by decide
        omega))).symm
    have e3 : count_while is_alpha b.p (packet.current_line.len - 0).toNat (0 : Int).toNat
        = count_while is_alpha packet.buf.p (packet.current_line.len - 0).toNat (0 : Int).toNat :=
      (count_while_congr _ _ _ _ _ (agree_mono h (by simp))).symm
    rw [e1, e2, e3]
    have hc := count_while_le is_alpha packet.buf.p (packet.current_line.len - 0).toNat
      (0 : Int).toNat
    generalize count_while is_alpha packet.buf.p (packet.current_line.len - 0).toNat
      (0 : Int).toNat = m at hc ⊢
    by_cases hs : strncasecmp_eq packet.buf.p 0 (bytes "SIP/2.0 ") = true
    · simp [hs]
    · rw [if_neg hs, if_neg hs]
      by_cases hs2 : strncasecmp_eq packet.buf.p (packet.current_line.len - 8).toNat
          (bytes " SIP/2.0") = false
      · simp [hs2]
      · rw [if_neg hs2, if_neg hs2]
        simp only [zero_add]
        by_cases hml : (m : Int) = packet.current_line.len
        · simp [hml]
        · have e4 : rd b.p (m : Int).toNat = rd packet.buf.p (m : Int).toNat :=
            (h _ (by simp at hc; omega)).symm
          rw [e4]
          split <;> simp
  · rw [if_neg hlen, if_neg hlen]

theorem if_map_res {α β : Type} (f : α → β) (c : Prop) [Decidable c] (x y : Res α) :
    Res.map f (if c then x else y) = if c then Res.map f x else Res.map f y := by
  split <;> rfl

theorem header_line_content_length_congr (packet : packet_t) (b : buf_t) (l i : Nat)
    (hi : i < packet.current_line.len.toNat)
    (h : agree packet.buf.p b.p (packet.current_line.offs.toNat + packet.current_line.len.toNat)) :
    header_line_content_length (with_buf packet b) l i
      = Res.map (fun pk => with_buf pk b) (header_line_content_length packet l i) := by
  unfold header_line_content_length with_buf
  simp only []
  have hb := agree_symm h
  rw [hb (packet.current_line.offs.toNat + i) (by omega)]
  rw [content_length_digits_congr b.p packet.buf.p _ _ _ _ (agree_mono hb (by omega))]
  generalize content_length_digits packet.buf.p packet.current_line.offs.toNat
    (packet.current_line.len.toNat - i) i _ = r
  obtain ⟨i1, v⟩ := r
  simp only [if_map_res]
  simp only [Res.map]

theorem header_line_tag_congr (packet : packet_t) (b : buf_t) (l i : Nat)
    (hl : l < packet.current_line.len.toNat) (hi : i < packet.current_line.len.toNat)
    (h : agree packet.buf.p b.p (packet.current_line.offs.toNat + packet.current_line.len.toNat)) :
    header_line_tag (with_buf packet b) l i
      = Res.map (fun pk => with_buf pk b) (header_line_tag packet l i) := by
  have hcl := header_line_content_length_congr packet b l i hi h
  unfold header_line_tag
  rw [hcl]
  unfold with_buf
  simp only []
  have hb := agree_symm h
  have lit : ∀ (s : List Nat) (n : Nat), s.length = n →
      ((l = n ∧ strncasecmp_eq b.p packet.current_line.offs.toNat s = true)
        = (l = n ∧ strncasecmp_eq packet.buf.p packet.current_line.offs.toNat s = true)) := by
    intro s n hs
    apply propext
    apply and_congr_right
    intro hln
    rw [strncasecmp_eq_congr b.p packet.buf.p _ _ (agree_mono hb (by omega))]
  have l1 := lit (bytes "Via") 3 (by decide)
  have l2 := lit (bytes "From") 4 (by decide)
  have l3 := lit (bytes "To") 2 (by decide)
  have l4 := lit (bytes "Contact") 7 (by decide)
  have l5 := lit (bytes "Content-Length") 14 (by decide)
  simp only [l1, l2, l3, l4, l5]
  clear lit l1 l2 l3 l4 l5
  simp only [if_map_res]
  simp only [Res.map]

/-- The processing of a header line reads the bytes of the line only. -/
theorem header_line_congr (packet : packet_t) (b : buf_t)
    (h : agree packet.buf.p b.p (packet.current_line.offs.toNat + packet.current_line.len.toNat)) :
    header_line (with_buf packet b) = Res.map (fun pk => with_buf pk b) (header_line packet) := by
  unfold header_line
  have hb := agree_symm h
  have e0 : (with_buf packet b).buf.p = b.p := rfl
  have e1 : (with_buf packet b).current_line = packet.current_line := rfl
  simp only [e0, e1]
  rw [count_while_congr is_tag b.p packet.buf.p _ _ hb]
  have hle := count_while_le is_tag packet.buf.p packet.current_line.len.toNat
    packet.current_line.offs.toNat
  generalize count_while is_tag packet.buf.p packet.current_line.len.toNat
    packet.current_line.offs.toNat = l at hle ⊢
  by_cases hl0 : l = 0 ∨ l = packet.current_line.len.toNat
  · have c1 : ∀ q : List Nat, (l = 0 ∨ l = packet.current_line.len.toNat
        ∨ rd q (packet.current_line.offs.toNat + l) ≠ COLON) := by
      intro q; rcases hl0 with h1 | h1
      · exact Or.inl h1
      · exact Or.inr (Or.inl h1)
    rw [if_pos (c1 _), if_pos (c1 _)]; rfl
  · have hlt : l < packet.current_line.len.toNat := by omega
    rw [hb (packet.current_line.offs.toNat + l) (by omega)]
    rw [count_while_congr is_space b.p packet.buf.p _ _ (agree_mono hb (by omega))]
    have hle2 := count_while_le is_space packet.buf.p (packet.current_line.len.toNat - (l + 1))
      (packet.current_line.offs.toNat + l + 1)
    generalize count_while is_space packet.buf.p (packet.current_line.len.toNat - (l + 1))
      (packet.current_line.offs.toNat + l + 1) = sp at hle2 ⊢
    by_cases hi : l + 1 + sp < packet.current_line.len.toNat
    · rw [header_line_tag_congr packet b l (l + 1 + sp) hlt hi h]
      simp only [if_map_res, if_neg (not_not.mpr hi)]
      simp only [Res.map, with_buf]
    · simp only [if_map_res, if_pos hi]
      simp only [Res.map, with_buf]

/-! ## Buffers that hold the same bytes, or more -/

theorem rd_take (p : List Nat) (n x : Nat) (h : x < n) : rd (p.take n) x = rd p x := by
  unfold rd
  simp only [List.getD_eq_getElem?_getD, List.getElem?_take, if_pos h]

theorem rd_append_left (p q : List Nat) (x : Nat) (h : x < p.length) :
    rd (p ++ q) x = rd p x := by
  unfold rd
  simp only [List.getD_eq_getElem?_getD, List.getElem?_append_left h]

theorem rd_drop (p : List Nat) (n x : Nat) : rd (p.drop n) x = rd p (n + x) := by
  unfold rd
  simp only [List.getD_eq_getElem?_getD, List.getElem?_drop]

theorem buf_ext_used {a b : buf_t} {c2 : List Nat} (h : buf_ext a b c2) :
    b.used = a.used + c2.length := by
  obtain ⟨h1, h2, h3⟩ := h
  have := congrArg List.length h3
  simp only [List.length_take, List.length_append] at this
  omega

theorem buf_ext_agree {a b : buf_t} {c2 : List Nat} (h : buf_ext a b c2) :
    agree a.p b.p a.used := by
  intro x hx
  obtain ⟨h1, h2, h3⟩ := h
  have hu := buf_ext_used ⟨h1, h2, h3⟩
  rw [← rd_take a.p a.used x hx, ← rd_take b.p b.used x (by omega), h3,
    rd_append_left _ _ _ (by simp; omega)]

theorem shift_buf_content (b : buf_t) (n : Nat) (hn : n ≤ b.used) (hb : b.used ≤ b.p.length) :
    (shift_buf b n).p.take (shift_buf b n).used = (b.p.take b.used).drop n
    ∧ (shift_buf b n).used ≤ (shift_buf b n).p.length := by
  unfold shift_buf
  simp only
  split
  · rename_i hlt
    unfold memmove
    simp only [List.take_zero, List.nil_append, Nat.zero_add]
    have hl : ((b.p.drop n).take (b.used - n)).length = b.used - n := by simp; omega
    refine ⟨?_, ?_⟩
    · rw [List.take_append_of_le_length (by omega), List.take_of_length_le (by omega),
        List.drop_take]
    · simp; omega
  · rename_i hlt
    have : b.used - n = 0 := by omega
    rw [this]
    refine ⟨?_, by omega⟩
    rw [List.take_zero]
    symm
    apply List.drop_of_length_le
    simp; omega

theorem shift_buf_ext {a b : buf_t} {c2 : List Nat} (h : buf_ext a b c2) (n : Nat)
    (hn : n ≤ a.used) : buf_ext (shift_buf a n) (shift_buf b n) c2 := by
  have hu := buf_ext_used h
  obtain ⟨h1, h2, h3⟩ := h
  obtain ⟨a1, a2⟩ := shift_buf_content a n hn h1
  obtain ⟨b1, b2⟩ := shift_buf_content b n (by omega) h2
  refine ⟨a2, b2, ?_⟩
  rw [a1, b1, h3, List.drop_append_of_le_length (by simp; omega)]

/-! ## What the line processing leaves alone -/

theorem first_line_keeps (packet : packet_t) :
    (first_line packet).2.buf = packet.buf ∧ (first_line packet).2.status = packet.status
    ∧ (first_line packet).2.header = packet.header ∧ (first_line packet).2.data = packet.data
    ∧ (first_line packet).2.current_line = packet.current_line
    ∧ (first_line packet).2.via_line = packet.via_line ∧ (first_line packet).2.via = packet.via
    ∧ (first_line packet).2.from_ = packet.from_ ∧ (first_line packet).2.to_ = packet.to_
    ∧ (first_line packet).2.contact = packet.contact
    ∧ (first_line packet).2.content_length = packet.content_length := by
  unfold first_line
  simp only
  split_ifs <;> simp

/-- What a result of the header line processing has in common with the packet. -/
theorem header_line_content_length_keeps (packet : packet_t) (l i : Nat) :
    header_line_content_length packet l i = Res.abort
    ∨ ∃ c q, header_line_content_length packet l i = Res.ret c q ∧ (c = 0 ∨ c = 1)
        ∧ q.buf = packet.buf ∧ q.header = packet.header
        ∧ q.current_line = packet.current_line ∧ q.method = packet.method
        ∧ (c = 1 → q.status = packet.status) := by
  unfold header_line_content_length
  simp only
  generalize content_length_digits _ _ _ _ _ = r
  obtain ⟨i1, v⟩ := r
  simp only
  split_ifs <;> first
    | exact Or.inl rfl
    | exact Or.inr ⟨_, _, rfl, Or.inl rfl, rfl, rfl, rfl, rfl, fun h => absurd h (by decide)⟩
    | exact Or.inr ⟨_, _, rfl, Or.inr rfl, rfl, rfl, rfl, rfl, fun _ => rfl⟩

theorem header_line_tag_keeps (packet : packet_t) (l i : Nat) :
    header_line_tag packet l i = Res.abort
    ∨ ∃ c q, header_line_tag packet l i = Res.ret c q ∧ (c = 0 ∨ c = 1)
        ∧ q.buf = packet.buf ∧ q.header = packet.header
        ∧ q.current_line = packet.current_line ∧ q.method = packet.method
        ∧ (c = 1 → q.status = packet.status) := by
  have hcl := header_line_content_length_keeps packet l i
  unfold header_line_tag
  simp only
  generalize header_line_content_length packet l i = r at hcl ⊢
  split_ifs <;> first
    | exact hcl
    | exact Or.inl rfl
    | exact Or.inr ⟨_, _, rfl, Or.inl rfl, rfl, rfl, rfl, rfl, fun h => absurd h (by decide)⟩
    | exact Or.inr ⟨_, _, rfl, Or.inr rfl, rfl, rfl, rfl, rfl, fun _ => rfl⟩

theorem header_line_keeps (packet : packet_t) :
    header_line packet = Res.abort
    ∨ ∃ c q, header_line packet = Res.ret c q ∧ (c = 0 ∨ c = 1) ∧ q.buf = packet.buf
        ∧ q.header = packet.header ∧ q.current_line = packet.current_line
        ∧ q.method = packet.method
        ∧ (c = 1 → q.status = packet.status) := by
  unfold header_line
  simp only
  generalize count_while is_tag _ _ _ = l
  generalize count_while is_space _ _ _ = sp
  have ht := header_line_tag_keeps packet l (l + 1 + sp)
  generalize header_line_tag packet l (l + 1 + sp) = r at ht ⊢
  split_ifs <;> first
    | exact ht
    | exact Or.inl rfl
    | exact Or.inr ⟨_, _, rfl, Or.inl rfl, rfl, rfl, rfl, rfl, fun h => absurd h (by decide)⟩

/-! ## One turn of the header loop on a buffer and on an extension of it -/

theorem header_step_line_ext (a : packet_t) (b : buf_t) (c2 : List Nat) (i2 : Nat)
    (hext : buf_ext a.buf b c2) (hi : i2 ≤ a.buf.used)
    (ho : 0 ≤ a.current_line.offs) (hn : 0 ≤ a.current_line.len)
    (hline : a.current_line.offs + a.current_line.len < i2) :
    match header_step_line a i2 with
    | Step.cont (a1, i1) =>
        ∃ b1, header_step_line (with_buf a b) i2 = Step.cont (with_buf a1 b1, i1)
          ∧ buf_ext a1.buf b1 c2 ∧ line_inv a1 i1 ∧ i1 ≤ a1.buf.used
          ∧ a1.buf.used - i1 ≤ a.buf.used - i2 ∧ a1.buf.used ≤ a.buf.used
          ∧ (a.header.len = 0 → a1.header.len = 0) ∧ a1.status = a.status
    | Step.done (Res.ret c qa) =>
        (c = 0 ∧ header_step_line (with_buf a b) i2 = Step.done (Res.ret 0 (with_buf qa b))
          ∧ qa.buf = a.buf)
        ∨ (c = 1
            ∧ qa = { a with header := ⟨i2⟩,
                            status := if a.buf.used ≥ u32 (i2 + a.data.len) then PACKET_READY
                                      else a.status }
            ∧ header_step_line (with_buf a b) i2
              = Step.done (Res.ret 1 (with_buf
                  { a with header := ⟨i2⟩,
                           status := if b.used ≥ u32 (i2 + a.data.len) then PACKET_READY
                                     else a.status } b)))
    | Step.done Res.abort => header_step_line (with_buf a b) i2 = Step.done Res.abort
    | Step.done Res.nofuel => False := by
  have hag := buf_ext_agree hext
  have hbu := buf_ext_used hext
  unfold header_step_line
  have e0 : (with_buf a b).buf = b := rfl
  have e1 : (with_buf a b).current_line = a.current_line := rfl
  have e2 : (with_buf a b).method = a.method := rfl
  have e3 : (with_buf a b).via = a.via := rfl
  have e4 : (with_buf a b).from_ = a.from_ := rfl
  have e5 : (with_buf a b).to_ = a.to_ := rfl
  have e6 : (with_buf a b).content_length = a.content_length := rfl
  simp only [e0, e1, e2, e3, e4, e5, e6]
  by_cases hlen : a.current_line.len = 0
  · simp only [if_pos hlen]
    by_cases hoffs : a.current_line.offs = 0
    · simp only [if_pos hoffs]
      refine ⟨shift_buf b i2, rfl, shift_buf_ext hext i2 hi, ?_, ?_, ?_, ?_, ?_, ?_⟩
      · simp [line_inv, reset_packet]
      · simp
      · simp [reset_packet]
      · simp [reset_packet]
      · intro _; rfl
      · rfl
    · simp only [if_neg hoffs]
      by_cases hmiss : a.via.offs = 0 ∨ a.from_.offs = 0 ∨ a.to_.offs = 0
          ∨ a.content_length.offs = 0
      · simp only [if_pos hmiss]
        exact Or.inl ⟨by trivial, by first | rfl | trivial, by first | rfl | trivial⟩
      · simp only [if_neg hmiss]
        have e7 : ∀ q : packet_t, ({ q with header := ⟨(i2 : Int)⟩ } : packet_t).header.len = i2 :=
          fun _ => rfl
        by_cases hra : a.buf.used ≥ u32 (i2 + a.data.len)
        · have hrb : b.used ≥ u32 (i2 + a.data.len) := by omega
          simp only [ge_iff_le] at hra hrb
          simp only [with_buf, ge_iff_le, hra, hrb, ↓reduceIte]
          exact Or.inr ⟨by trivial, by trivial, by trivial⟩
        · simp only [ge_iff_le] at hra
          by_cases hrb : u32 (i2 + a.data.len) ≤ b.used
          · simp only [with_buf, ge_iff_le, hra, hrb, ↓reduceIte]
            exact Or.inr ⟨by trivial, by trivial, by trivial⟩
          · simp only [with_buf, ge_iff_le, hra, hrb, ↓reduceIte]
            exact Or.inr ⟨by trivial, by trivial, by trivial⟩
  · simp only [if_neg hlen]
    by_cases hoffs : a.current_line.offs = 0
    · simp only [if_pos hoffs]
      by_cases hm : a.method.len ≠ 0
      · simp only [if_pos hm]
      · simp only [if_neg hm]
        have hm0 : a.method.len = 0 := by simpa using hm
        have hfl := first_line_congr a b hm0 (agree_mono hag (by omega))
        obtain ⟨k1, k2, k3, _, k5, _⟩ := first_line_keeps a
        rw [hfl]
        generalize first_line a = r at k1 k2 k3 k5 ⊢
        obtain ⟨ok, a2⟩ := r
        simp only at k1 k2 k3 k5 ⊢
        cases ok with
        | true =>
          simp only
          refine ⟨b, rfl, by rw [k1]; exact hext, ?_, by rw [k1]; exact hi, by rw [k1],
            by rw [k1], ?_, k2⟩
          · simp [line_inv]
          · intro h; rw [k3]; exact h
        | false =>
          simp only
          exact Or.inl ⟨by trivial, by first | rfl | trivial, k1⟩
    · simp only [if_neg hoffs]
      have hhl := header_line_congr a b (agree_mono hag (by omega))
      rw [hhl]
      rcases header_line_keeps a with hk | ⟨c, q, hk, hc, k1, k3, _, _, k2⟩
      · rw [hk]; simp only [Res.map]
      · rw [hk]
        simp only [Res.map]
        rcases hc with rfl | rfl
        · simp only [↓reduceIte]
          exact Or.inl ⟨by trivial, by first | rfl | trivial, k1⟩
        · simp only [one_ne_zero, ↓reduceIte]
          refine ⟨b, rfl, by rw [k1]; exact hext, ?_, by rw [k1]; exact hi, by rw [k1],
            by rw [k1], ?_, k2 rfl⟩
          · simp [line_inv]
          · intro h; rw [k3]; exact h

/-- The scan for the end of the line on a buffer and on an extension of it. -/
theorem count_eol_ext (a b : buf_t) (c2 : List Nat) (i : Nat) (hext : buf_ext a b c2)
    (hi : i ≤ a.used) :
    (count_while not_eol a.p (a.used - i) i < a.used - i →
      count_while not_eol b.p (b.used - i) i = count_while not_eol a.p (a.used - i) i)
    ∧ (count_while not_eol a.p (a.used - i) i = a.used - i →
      count_while not_eol b.p (b.used - i) i
        = (a.used - i) + count_while not_eol b.p c2.length a.used) := by
  have hag := buf_ext_agree hext
  have hbu := buf_ext_used hext
  have e1 : b.used - i = (a.used - i) + c2.length := by omega
  have e2 : count_while not_eol b.p (a.used - i) i = count_while not_eol a.p (a.used - i) i :=
    (count_while_congr _ _ _ _ _ (by rw [show i + (a.used - i) = a.used by omega]; exact hag)).symm
  rw [e1, count_while_add, e2]
  refine ⟨fun h => ?_, fun h => ?_⟩
  · rw [if_neg (by omega)]
  · rw [if_pos h, show i + (a.used - i) = a.used by omega]

theorem header_step_ext (a : packet_t) (b : buf_t) (c2 : List Nat) (i : Nat)
    (hext : buf_ext a.buf b c2) (hinv : line_inv a i) (hi : i ≤ a.buf.used) :
    match header_step a i with
    | Step.cont (a1, i1) =>
        ∃ b1, header_step (with_buf a b) i = Step.cont (with_buf a1 b1, i1)
          ∧ buf_ext a1.buf b1 c2 ∧ line_inv a1 i1 ∧ i1 ≤ a1.buf.used
          ∧ a1.buf.used - i1 < a.buf.used - i ∧ a1.buf.used ≤ a.buf.used
          ∧ (a.header.len = 0 → a1.header.len = 0) ∧ a1.status = a.status
    | Step.done (Res.ret c qa) =>
        (c = 0 ∧ ∃ qb, header_step (with_buf a b) i = Step.done (Res.ret 0 qb)
            ∧ qa.buf = a.buf ∧ (c2 = [] → qb = with_buf qa b))
        ∨ (c = 1 ∧ ∃ (a1 : packet_t) (i2 : Nat), 0 < i2 ∧ a1.buf = a.buf
            ∧ a1.status = a.status
            ∧ qa = { a1 with header := ⟨i2⟩,
                             status := if a.buf.used ≥ u32 (i2 + a1.data.len) then PACKET_READY
                                       else a.status }
            ∧ header_step (with_buf a b) i
              = Step.done (Res.ret 1 (with_buf
                  { a1 with header := ⟨i2⟩,
                            status := if b.used ≥ u32 (i2 + a1.data.len) then PACKET_READY
                                      else a.status } b)))
        ∨ (c = 1 ∧ ∃ k : Nat,
            qa = { a with current_line := ⟨a.current_line.offs, a.current_line.len + k⟩ }
            ∧ i + k ≤ a.buf.used ∧ a.buf.used ≤ i + k + 1
            ∧ (∀ x, x < k → not_eol (rd a.buf.p (i + x)) = true)
            ∧ (c2 = [] → header_step (with_buf a b) i = Step.done (Res.ret 1 (with_buf qa b))))
    | Step.done Res.abort => header_step (with_buf a b) i = Step.done Res.abort
    | Step.done Res.nofuel => False := by
  have hag := buf_ext_agree hext
  have hbu := buf_ext_used hext
  obtain ⟨ho, hn, hio⟩ := hinv
  obtain ⟨hc1, hc2⟩ := count_eol_ext a.buf b c2 i hext hi
  have hka := count_while_le not_eol a.buf.p (a.buf.used - i) i
  have hall := count_while_all not_eol a.buf.p (a.buf.used - i) i
  have hkb := count_while_le not_eol b.p c2.length a.buf.used
  unfold header_step
  have e0 : (with_buf a b).buf = b := rfl
  have e1 : (with_buf a b).current_line = a.current_line := rfl
  simp only [e0, e1]
  generalize count_while not_eol a.buf.p (a.buf.used - i) i = ka at hc1 hc2 hka hall ⊢
  generalize count_while not_eol b.p (b.used - i) i = kb at hc1 hc2 ⊢
  by_cases hend : ka = a.buf.used - i
  · -- the scan has reached the end of the bytes in use
    have hkb2 := hc2 hend
    by_cases hlong : a.current_line.len + ka > SIP_MAX_LEN
    · have hlongb : a.current_line.len + kb > SIP_MAX_LEN := by omega
      simp only [if_pos hlong, if_pos hlongb]
      refine Or.inl ⟨by trivial, _, rfl, by first | rfl | trivial, fun hc => ?_⟩
      subst hc
      have hkb3 : kb = ka := by simp [count_while] at hkb2; omega
      subst hkb3
      rfl
    · simp only [if_neg hlong, if_pos (show i + ka = a.buf.used by omega)]
      refine Or.inr (Or.inr ⟨by trivial, ka, rfl, by omega, by omega, hall, fun hc => ?_⟩)
      subst hc
      have hkb3 : kb = ka := by simp [count_while] at hkb2; omega
      subst hkb3
      simp only [if_neg hlong, if_pos (show i + kb = b.used by simp at hbu; omega)]
      rfl
  · have hlt : ka < a.buf.used - i := by omega
    have hkb2 := hc1 hlt
    subst hkb2
    have hrd : rd b.p (i + kb) = rd a.buf.p (i + kb) := (hag _ (by omega)).symm
    rw [hrd]
    by_cases hlong : a.current_line.len + kb > SIP_MAX_LEN
    · simp only [if_pos hlong]
      exact Or.inl ⟨by trivial, _, rfl, by first | rfl | trivial, fun _ => rfl⟩
    · simp only [if_neg hlong, if_neg (show ¬ i + kb = a.buf.used by omega),
        if_neg (show ¬ i + kb = b.used by omega)]
      by_cases hcr : rd a.buf.p (i + kb) = CR
      · by_cases hlast : i + kb + 1 = a.buf.used
        · simp only [if_pos (And.intro hcr hlast)]
          refine Or.inr (Or.inr ⟨by trivial, kb, rfl, by omega, by omega, hall, fun hc => ?_⟩)
          subst hc
          simp only [if_pos (show rd a.buf.p (i + kb) = CR ∧ i + kb + 1 = b.used from
            ⟨hcr, by simp at hbu; omega⟩)]
          rfl
        · have hrd2 : rd b.p (i + kb + 1) = rd a.buf.p (i + kb + 1) := (hag _ (by omega)).symm
          rw [hrd2]
          simp only [if_neg (show ¬ (rd a.buf.p (i + kb) = CR ∧ i + kb + 1 = a.buf.used) from
              fun h => hlast h.2),
            if_neg (show ¬ (rd a.buf.p (i + kb) = CR ∧ i + kb + 1 = b.used) from
              fun h => by omega)]
          by_cases hlf : rd a.buf.p (i + kb + 1) ≠ LF
          · simp only [if_pos (And.intro hcr hlf)]
            exact Or.inl ⟨by trivial, _, rfl, by first | rfl | trivial, fun _ => rfl⟩
          · simp only [if_neg (show ¬ (rd a.buf.p (i + kb) = CR ∧ rd a.buf.p (i + kb + 1) ≠ LF)
              from fun h => hlf h.2), if_pos hcr]
            have hl := header_step_line_ext
              { a with current_line := ⟨a.current_line.offs, a.current_line.len + kb⟩ } b c2
              (i + kb + 1 + 1) hext (by simp only; omega) ho (by simp only; omega)
              (by simp only; omega)
            revert hl
            generalize header_step_line
              { a with current_line := ⟨a.current_line.offs, a.current_line.len + kb⟩ }
              (i + kb + 1 + 1) = r
            intro hl
            rcases r with ⟨a1, i1⟩ | r
            · obtain ⟨b1, h1, h2, h3, h4, h5, h5b, h6, h7⟩ := hl
              exact ⟨b1, h1, h2, h3, h4, by simp only at h5; omega, h5b, h6, h7⟩
            · rcases r with ⟨c, qa⟩ | _ | _
              · rcases hl with ⟨h1, h2, h2b⟩ | ⟨h1, h2, h3⟩
                · exact Or.inl ⟨h1, _, h2, h2b, fun _ => rfl⟩
                · exact Or.inr (Or.inl ⟨h1,
                    { a with current_line := ⟨a.current_line.offs, a.current_line.len + kb⟩ },
                    (i + kb + 1 + 1), by omega, rfl, rfl, h2, h3⟩)
              · exact hl
              · exact hl
      · simp only [if_neg (show ¬ (rd a.buf.p (i + kb) = CR ∧ i + kb + 1 = a.buf.used) from
            fun h => hcr h.1),
          if_neg (show ¬ (rd a.buf.p (i + kb) = CR ∧ i + kb + 1 = b.used) from
            fun h => hcr h.1),
          if_neg (show ¬ (rd a.buf.p (i + kb) = CR ∧ rd a.buf.p (i + kb + 1) ≠ LF) from
            fun h => hcr h.1),
          if_neg (show ¬ (rd a.buf.p (i + kb) = CR ∧ rd b.p (i + kb + 1) ≠ LF) from
            fun h => hcr h.1), if_neg hcr]
        have hl := header_step_line_ext
          { a with current_line := ⟨a.current_line.offs, a.current_line.len + kb⟩ } b c2
          (i + kb + 1) hext (by simp only; omega) ho (by simp only; omega)
          (by simp only; omega)
        revert hl
        generalize header_step_line
          { a with current_line := ⟨a.current_line.offs, a.current_line.len + kb⟩ }
          (i + kb + 1) = r
        intro hl
        rcases r with ⟨a1, i1⟩ | r
        · obtain ⟨b1, h1, h2, h3, h4, h5, h5b, h6, h7⟩ := hl
          exact ⟨b1, h1, h2, h3, h4, by simp only at h5; omega, h5b, h6, h7⟩
        · rcases r with ⟨c, qa⟩ | _ | _
          · rcases hl with ⟨h1, h2, h2b⟩ | ⟨h1, h2, h3⟩
            · exact Or.inl ⟨h1, _, h2, h2b, fun _ => rfl⟩
            · exact Or.inr (Or.inl ⟨h1,
                    { a with current_line := ⟨a.current_line.offs, a.current_line.len + kb⟩ },
                    (i + kb + 1), by omega, rfl, rfl, h2, h3⟩)
          · exact hl
          · exact hl

/-! ## The header loop and its fuel -/

/-- A header loop that has ended gives the same result with more fuel. -/
theorem header_loop_fuel_succ (f : Nat) (packet : packet_t) (i : Nat)
    (h : header_loop f packet i ≠ Res.nofuel) :
    header_loop (f + 1) packet i = header_loop f packet i := by
  induction f generalizing packet i with
  | zero => simp [header_loop] at h
  | succ f ih =>
    rw [header_loop] at h ⊢
    conv_rhs => rw [header_loop]
    cases hs : header_step packet i with
    | cont st =>
      obtain ⟨p1, i1⟩ := st
      rw [hs] at h
      simp only at h ⊢
      exact ih p1 i1 h
    | done r => rfl

theorem header_loop_fuel_le (f g : Nat) (packet : packet_t) (i : Nat) (hfg : f ≤ g)
    (h : header_loop f packet i ≠ Res.nofuel) :
    header_loop g packet i = header_loop f packet i := by
  induction g with
  | zero =>
    have : f = 0 := by omega
    subst this; rfl
  | succ g ih =>
    by_cases hfg2 : f ≤ g
    · have := ih hfg2
      rw [← this] at h
      rw [header_loop_fuel_succ g packet i h, this]
    · have : f = g + 1 := by omega
      subst this; rfl

/-- The fuel that `next_packet` gives the header loop is enough. -/
theorem header_loop_fuel_enough (f : Nat) (packet : packet_t) (i : Nat)
    (hb : packet.buf.used ≤ packet.buf.p.length) (hinv : line_inv packet i)
    (hi : i ≤ packet.buf.used) (hf : packet.buf.used - i < f) :
    header_loop f packet i ≠ Res.nofuel := by
  induction f generalizing packet i with
  | zero => omega
  | succ f ih =>
    rw [header_loop]
    have hs := header_step_ext packet packet.buf [] i ⟨hb, hb, by simp⟩ hinv hi
    revert hs
    cases header_step packet i with
    | cont st =>
      obtain ⟨p1, i1⟩ := st
      intro hs
      obtain ⟨b1, _, h2, h3, h4, h5, _, _, _⟩ := hs
      exact ih p1 i1 h2.1 h3 h4 (by omega)
    | done r =>
      intro hs
      cases r with
      | ret c q => simp
      | abort => simp
      | nofuel => exact absurd hs (by simp)

theorem view_with_buf (q : packet_t) (b : buf_t) (h : buf_ext q.buf b []) :
    view (with_buf q b) = view q := by
  obtain ⟨_, _, h3⟩ := h
  simp only [view, with_buf, content, h3, List.append_nil]

/-- The header loop on two buffers that hold the same bytes: when it returns
success on one of them, it returns success and the same view on the other. -/
theorem header_loop_same_content (f : Nat) (a : packet_t) (b : buf_t) (i : Nat) (qb : packet_t)
    (hext : buf_ext a.buf b []) (hinv : line_inv a i) (hi : i ≤ a.buf.used)
    (hb : header_loop f (with_buf a b) i = Res.ret 1 qb) :
    ∃ qa, header_loop f a i = Res.ret 1 qa ∧ view qa = view qb := by
  induction f generalizing a b i with
  | zero => simp [header_loop] at hb
  | succ f ih =>
    rw [header_loop] at hb ⊢
    have hs := header_step_ext a b [] i hext hinv hi
    have hbu := buf_ext_used hext
    revert hs
    cases header_step a i with
    | cont st =>
      obtain ⟨a1, i1⟩ := st
      intro hs
      obtain ⟨b1, h1, h2, h3, h4, _⟩ := hs
      rw [h1] at hb
      exact ih a1 b1 i1 h2 h3 h4 hb
    | done r =>
      intro hs
      cases r with
      | ret c qa =>
        simp only at hs ⊢
        rcases hs with ⟨_, qb1, h2, _, _⟩ | ⟨h1, a1, i2, _, hbuf, _, h4, h5⟩ | ⟨h1, k, h2, _, _, _, h6⟩
        · rw [h2] at hb; simp at hb
        · rw [h5] at hb
          simp only [Res.ret.injEq, true_and] at hb
          subst h1
          refine ⟨qa, rfl, ?_⟩
          rw [← hb, h4]
          have e : b.used = a.buf.used := by simp at hbu; exact hbu
          rw [e]
          apply (view_with_buf _ b _).symm
          simp only [hbuf]; exact hext
        · have h7 := h6 (by trivial)
          rw [h7] at hb
          simp only [Res.ret.injEq, true_and] at hb
          subst h1
          refine ⟨qa, rfl, ?_⟩
          rw [← hb]
          apply (view_with_buf _ b _).symm
          rw [h2]; exact hext
      | abort =>
        simp only at hs
        rw [hs] at hb; simp at hb
      | nofuel => exact absurd hs (by simp)

/-- The header loop entered in the middle of a line goes on as the loop
entered at the start of that line. -/
theorem header_step_resume (a : packet_t) (i k : Nat) (hk : i + k ≤ a.buf.used)
    (hall : ∀ x, x < k → not_eol (rd a.buf.p (i + x)) = true) :
    header_step { a with current_line := ⟨a.current_line.offs, a.current_line.len + k⟩ } (i + k)
      = header_step a i := by
  have e := count_while_skip not_eol a.buf.p (a.buf.used - i) i k (by omega) hall
  unfold header_step
  simp only
  rw [e, show a.buf.used - (i + k) = a.buf.used - i - k by omega]
  generalize count_while not_eol a.buf.p (a.buf.used - i - k) (i + k) = k2
  have e2 : a.current_line.len + (k : Int) + (k2 : Int) = a.current_line.len + ((k + k2 : Nat) : Int) := by
    push_cast; omega
  rw [e2, show i + k + k2 = i + (k + k2) by omega]

/-! ## `next_packet` on a packet that is not Ready -/

theorem take_memcpy_end (p : List Nat) (off : Nat) (w : List Nat) (h : off ≤ p.length) :
    (memcpy p off w).take (off + w.length) = p.take off ++ w
    ∧ off + w.length ≤ (memcpy p off w).length := by
  unfold memcpy
  have hl : (p.take off ++ w).length = off + w.length := by simp; omega
  refine ⟨?_, ?_⟩
  · rw [List.take_append_of_le_length (by omega), List.take_of_length_le (by omega)]
  · rw [List.length_append, hl]; omega

theorem buf_resize_small (b : buf_t) (size : Nat) (hsz : size ≤ 12288) :
    ∃ b1, buf_resize b size = some b1 ∧ b1.used = b.used ∧ size ≤ b1.allocated
      ∧ ∃ z, b1.p = b.p ++ z := by
  unfold buf_resize
  by_cases h : size > b.allocated
  · simp only [if_pos h, BUF_RESIZE_INCREMENT]
    have e3 : (size + 1024 - 1) % 4294967296 = size + 1023 := by
      rw [Nat.mod_eq_of_lt] <;> omega
    have e4 : (size + 1023) / 1024 * 1024 % 4294967296 = (size + 1023) / 1024 * 1024 := by
      rw [Nat.mod_eq_of_lt]; omega
    rw [e3, e4, if_neg (by omega), if_neg (by omega)]
    exact ⟨_, rfl, rfl, by simp only; omega, _, rfl⟩
  · simp only [if_neg h]
    exact ⟨b, rfl, rfl, by omega, [], by simp⟩

theorem buf_append_ext (b : buf_t) (c : List Nat) (hb : b.used ≤ b.p.length)
    (hsz : b.used + c.length ≤ 2 * SIP_MAX_LEN) :
    ∃ b2, buf_append b c = Res.ret 1 b2 ∧ buf_ext b b2 c := by
  have hsz2 : b.used + c.length ≤ 12288 := by simpa [SIP_MAX_LEN] using hsz
  have e1 : u32 ((b.used : Int) + c.length) = b.used + c.length := by
    have := u32_nat (b.used + c.length) (by omega); push_cast at this; exact this
  have e2 : u16 ((b.used : Int) + c.length) = b.used + c.length := by
    have := u16_nat (b.used + c.length) (by omega); push_cast at this; exact this
  unfold buf_append
  rw [e1]
  obtain ⟨b1, h1, h2, h2a, z, h3⟩ := buf_resize_small b (b.used + c.length) hsz2
  rw [h1]
  simp only
  rw [if_neg (by omega)]
  refine ⟨_, rfl, ?_⟩
  have hl : b.used ≤ b1.p.length := by rw [h3, List.length_append]; omega
  obtain ⟨t1, t2⟩ := take_memcpy_end b1.p b.used c hl
  refine ⟨hb, ?_, ?_⟩
  · simp only [h2, e2]; exact t2
  · simp only [h2, e2]; rw [t1, h3, List.take_append_of_le_length hb]

/-- The function `next_packet` on a packet that is not Ready, when the chunk fits. -/
theorem next_packet_not_ready (q : packet_t) (c : List Nat)
    (hst : q.status ≠ PACKET_READY) (hb : q.buf.used ≤ q.buf.p.length)
    (hsz : q.buf.used + c.length ≤ 2 * SIP_MAX_LEN) :
    ∃ b2, buf_ext q.buf b2 c
      ∧ next_packet q c
        = if q.header.len = 0 then
            header_loop (b2.used + 1) (with_buf { q with status := PACKET_INCOMPLETE } b2)
              (u32 (q.current_line.offs + q.current_line.len))
          else if b2.used ≥ u32 (q.header.len + q.data.len) then
            Res.ret 1 (with_buf { q with status := PACKET_READY } b2)
          else Res.ret 1 (with_buf { q with status := PACKET_INCOMPLETE } b2) := by
  obtain ⟨b2, h1, h2⟩ := buf_append_ext q.buf c hb hsz
  refine ⟨b2, h2, ?_⟩
  have hsz2 : q.buf.used + c.length ≤ 12288 := by simpa [SIP_MAX_LEN] using hsz
  have e1 : u32 ((q.buf.used : Int) + c.length) = q.buf.used + c.length := by
    have := u32_nat (q.buf.used + c.length) (by omega); push_cast at this; exact this
  unfold next_packet
  simp only [if_neg hst, e1, if_neg (show ¬ q.buf.used + c.length > 2 * SIP_MAX_LEN by omega), h1]
  rfl

/-- The function `next_packet` on a packet that is not Ready, when the chunk
does not fit. -/
theorem next_packet_too_large (q : packet_t) (c : List Nat)
    (hst : q.status ≠ PACKET_READY) (hc : q.buf.used + c.length < 4294967296)
    (hsz : 2 * SIP_MAX_LEN < q.buf.used + c.length) :
    next_packet q c = Res.ret 0 { q with status := PACKET_ERROR } := by
  have e1 : u32 ((q.buf.used : Int) + c.length) = q.buf.used + c.length := by
    have := u32_nat (q.buf.used + c.length) (by omega); push_cast at this; exact this
  unfold next_packet
  simp only [if_neg hst, e1, if_pos (show q.buf.used + c.length > 2 * SIP_MAX_LEN by omega)]

/-! ## Feeding a message in two chunks -/

theorem status_incomplete_eq (q : packet_t) (h : q.status = PACKET_INCOMPLETE) :
    ({ q with status := PACKET_INCOMPLETE } : packet_t) = q := by
  cases q; simp only at h; subst h; rfl

/-- The header loop on a prefix of the bytes and on all the bytes: when the
loop on all bytes ends Ready and the loop on the prefix does not, the loop on
the prefix returns success, and `next_packet` with the remaining bytes ends as
the loop on all bytes. -/
theorem header_loop_split (fa : Nat) (fb : Nat) (a : packet_t) (b : buf_t) (c2 : List Nat)
    (i : Nat) (qb : packet_t)
    (hext : buf_ext a.buf b c2) (hinv : line_inv a i) (hi : i ≤ a.buf.used)
    (hhdr : a.header.len = 0) (hst : a.status = PACKET_INCOMPLETE)
    (hsize : b.used ≤ 2 * SIP_MAX_LEN) (hfa : a.buf.used - i < fa)
    (hb : header_loop fb (with_buf a b) i = Res.ret 1 qb) (hready : qb.status = PACKET_READY)
    (hnr : ∀ c q, header_loop fa a i = Res.ret c q → q.status ≠ PACKET_READY) :
    ∃ qa, header_loop fa a i = Res.ret 1 qa
      ∧ res_view (next_packet qa c2) = Res.ret 1 (view qb) := by
  induction fa generalizing fb a b i with
  | zero => omega
  | succ fa ih =>
    cases fb with
    | zero => simp [header_loop] at hb
    | succ fb =>
      have hb0 := hb
      rw [header_loop] at hb hnr ⊢
      have hs := header_step_ext a b c2 i hext hinv hi
      have hbu := buf_ext_used hext
      have hag := buf_ext_agree hext
      revert hs hnr
      cases header_step a i with
      | cont st =>
        obtain ⟨a1, i1⟩ := st
        intro hnr hs
        obtain ⟨b1, h1, h2, h3, h4, h5, h5b, h6, h7⟩ := hs
        rw [h1] at hb
        have hbu1 := buf_ext_used h2
        exact ih fb a1 b1 i1 h2 h3 h4 (h6 hhdr) (by rw [h7]; exact hst) (by omega) (by omega)
          hb hnr
      | done r =>
        intro hnr hs
        cases r with
        | ret c qa =>
          simp only at hs hnr ⊢
          rcases hs with ⟨_, qb1, h2, _, _⟩ | ⟨h1, a1, i2, hi2, hbuf, hst1, h4, h5⟩
              | ⟨h1, k, h2, h3, h4, hall, _⟩
          · rw [h2] at hb; simp at hb
          · -- the header is complete in the first chunk, the body is not
            subst h1
            refine ⟨qa, rfl, ?_⟩
            rw [h5] at hb
            simp only [Res.ret.injEq, true_and] at hb
            have hq := hnr 1 qa rfl
            have hna : ¬ a.buf.used ≥ u32 (i2 + a1.data.len) := by
              intro hc; apply hq; rw [h4]; simp only [if_pos hc]
            have hqs : qa.status = PACKET_INCOMPLETE := by
              rw [h4]; simp only [if_neg hna]; exact hst
            have hrb : b.used ≥ u32 (i2 + a1.data.len) := by
              by_contra hc
              rw [← hb] at hready
              simp only [with_buf, if_neg hc] at hready
              rw [hst] at hready; cases hready
            have hqbuf : qa.buf = a.buf := by rw [h4]; exact hbuf
            obtain ⟨b2, e1, e2⟩ := next_packet_not_ready qa c2 (by rw [hqs]; decide)
              (by rw [hqbuf]; exact hext.1) (by rw [hqbuf]; omega)
            have hb2u := buf_ext_used e1
            rw [hqbuf] at hb2u
            have hqh : qa.header.len = i2 := by rw [h4]
            have hqd : qa.data = a1.data := by rw [h4]
            rw [e2, if_neg (by rw [hqh]; omega), if_pos (by rw [hqh, hqd]; omega)]
            simp only [res_view]
            congr 1
            rw [← hb, h4]
            simp only [view, with_buf, content, if_pos hrb]
            have hc2 : b2.p.take b2.used = b.p.take b.used := by
              rw [e1.2.2, hext.2.2, hqbuf]
            rw [hc2]
          · -- the first chunk ends in the middle of a header line
            subst h1
            refine ⟨qa, rfl, ?_⟩
            have hqs : qa.status = PACKET_INCOMPLETE := by rw [h2]; exact hst
            have hqbuf : qa.buf = a.buf := by rw [h2]
            obtain ⟨b2, e1, e2⟩ := next_packet_not_ready qa c2 (by rw [hqs]; decide)
              (by rw [hqbuf]; exact hext.1) (by rw [hqbuf]; omega)
            have hb2u := buf_ext_used e1
            rw [hqbuf] at hb2u
            have hqh : qa.header.len = 0 := by rw [h2]; exact hhdr
            obtain ⟨ho, hn, hio⟩ := hinv
            have hqi : u32 (qa.current_line.offs + qa.current_line.len) = i + k := by
              rw [h2]
              simp only
              have := u32_nat (i + k) (by simp [SIP_MAX_LEN] at hsize; omega)
              rw [← this]; congr 1; push_cast; omega
            rw [e2, if_pos hqh, status_incomplete_eq qa hqs, hqi]
            -- the loop on all bytes, entered at the point where the first chunk ended
            have hres : header_step (with_buf qa b) (i + k) = header_step (with_buf a b) i := by
              rw [h2]
              exact header_step_resume (with_buf a b) i k (by simp only [with_buf]; omega)
                (fun x hx => by
                  have := hall x hx
                  simp only [with_buf]
                  rw [← hag (i + x) (by omega)]; exact this)
            have hb1 : header_loop (fb + 1) (with_buf qa b) (i + k) = Res.ret 1 qb := by
              rw [header_loop, hres, ← hb0, header_loop]
            have hinvq : line_inv (with_buf qa b) (i + k) := by
              rw [h2]; simp only [line_inv, with_buf]
              refine ⟨ho, by omega, by push_cast; omega⟩
            have hne : header_loop (b2.used + 1) (with_buf qa b) (i + k) ≠ Res.nofuel :=
              header_loop_fuel_enough _ _ _ hext.2.1 hinvq (by simp only [with_buf]; omega)
                (by simp only [with_buf]; omega)
            have hb2 : header_loop (b2.used + 1) (with_buf qa b) (i + k) = Res.ret 1 qb := by
              by_cases hle : b2.used + 1 ≤ fb + 1
              · rw [← header_loop_fuel_le _ _ _ _ hle hne]; exact hb1
              · rw [header_loop_fuel_le (fb + 1) (b2.used + 1) _ _ (by omega) (by rw [hb1]; simp)]
                exact hb1
            have hext2 : buf_ext (with_buf qa b2).buf b [] := by
              refine ⟨e1.2.1, hext.2.1, ?_⟩
              simp only [with_buf, List.append_nil]
              rw [e1.2.2, hext.2.2, hqbuf]
            obtain ⟨q2, g1, g2⟩ := header_loop_same_content (b2.used + 1) (with_buf qa b2) b
              (i + k) qb hext2 (by simpa [line_inv, with_buf] using hinvq)
              (by simp only [with_buf]; omega) hb2
            rw [g1]
            simp only [res_view, g2]
        | abort =>
          simp only at hs
          rw [hs] at hb; simp at hb
        | nofuel => exact absurd hs (by simp)

/-- C4 (amended): a byte string `m` (shorter than 2^32 bytes, the range of
`next_size`) that `next_packet` turns into a Ready message when fed to a fresh
packet in one call, split at a point `k` such that the first chunk alone does
not already end Ready: feeding `m[0..k)` and then `m[k..)` returns success
twice and ends with the same return value, status, lengths, field spans and
bytes in use as the single call. -/
theorem next_packet_split (m : List Nat) (k : Nat) (pk : packet_t)
    (hm : m.length < 4294967296)
    (h1 : next_packet packet_zero m = Res.ret 1 pk) (hready : pk.status = PACKET_READY)
    (hfirst : ∀ c q, next_packet packet_zero (m.take k) = Res.ret c q →
      q.status ≠ PACKET_READY) :
    res_view (next_packet2 packet_zero (m.take k) (m.drop k))
      = res_view (next_packet packet_zero m) := by
  have hz : packet_zero.status ≠ PACKET_READY := by decide
  have hsz : m.length ≤ 2 * SIP_MAX_LEN := by
    by_contra hc
    rw [next_packet_too_large packet_zero m hz (by simpa [packet_zero] using hm)
      (by simp only [packet_zero]; omega)] at h1
    simp at h1
  have hszk : (m.take k).length ≤ 2 * SIP_MAX_LEN := by
    rw [List.length_take]; omega
  obtain ⟨bF, eF1, eF2⟩ := next_packet_not_ready packet_zero m hz (by simp [packet_zero])
    (by simpa [packet_zero] using hsz)
  obtain ⟨bP, eP1, eP2⟩ := next_packet_not_ready packet_zero (m.take k) hz
    (by simp [packet_zero]) (by simpa [packet_zero] using hszk)
  have h0 : packet_zero.header.len = 0 := rfl
  have hu0 : u32 (packet_zero.current_line.offs + packet_zero.current_line.len) = 0 := by decide
  rw [if_pos h0, hu0] at eF2 eP2
  have hFc : bF.p.take bF.used = m := by
    have := eF1.2.2; simpa [packet_zero] using this
  have hPc : bP.p.take bP.used = m.take k := by
    have := eP1.2.2; simpa [packet_zero] using this
  have hFu : bF.used = m.length := by
    have := buf_ext_used eF1; simpa [packet_zero] using this
  have hext : buf_ext bP bF (m.drop k) :=
    ⟨eP1.2.1, eF1.2.1, by rw [hFc, hPc, List.take_append_drop]⟩
  rw [eF2] at h1
  rw [eP2] at hfirst
  obtain ⟨qa, g1, g2⟩ := header_loop_split (bP.used + 1) (bF.used + 1)
    (with_buf { packet_zero with status := PACKET_INCOMPLETE } bP) bF (m.drop k) 0 pk
    hext (by simp [line_inv, with_buf, packet_zero]) (Nat.zero_le _) rfl rfl
    (by omega) (by simp only [with_buf]; omega) h1 hready hfirst
  unfold next_packet2
  rw [eP2, g1]
  simp only [one_ne_zero, ↓reduceIte]
  rw [g2, eF2, h1]
  rfl

/-- C4 (witness): `pipelined_message` split after 50 bytes, in the middle of
the From line. -/
theorem next_packet_split_witness :
    res_view (next_packet2 packet_zero (pipelined_message.take 50) (pipelined_message.drop 50))
      = res_view (next_packet packet_zero pipelined_message) :=
  next_packet_split pipelined_message 50
    { buf := ⟨pipelined_message ++ List.replicate 921 0, 1024, 103⟩,
      status := PACKET_READY, header := ⟨96⟩, data := ⟨0⟩, method := ⟨7⟩,
      current_line := ⟨94, 0⟩, via_line := ⟨23, 18⟩, via := ⟨28, 13⟩,
      from_ := ⟨49, 9⟩, to_ := ⟨64, 9⟩, contact := ⟨0, 0⟩, content_length := ⟨90, 2⟩ }
    (by decide) (by decide!) rfl
    (by
      intro c q h
      have e : next_packet packet_zero (pipelined_message.take 50)
          = Res.ret 1 { buf := ⟨pipelined_message.take 50 ++ List.replicate 974 0, 1024, 50⟩,
                        status := PACKET_INCOMPLETE, header := ⟨0⟩, data := ⟨0⟩, method := ⟨7⟩,
                        current_line := ⟨43, 7⟩, via_line := ⟨23, 18⟩, via := ⟨28, 13⟩,
                        from_ := ⟨0, 0⟩, to_ := ⟨0, 0⟩, contact := ⟨0, 0⟩,
                        content_length := ⟨0, 0⟩ } := by decide!
      rw [e] at h
      simp only [Res.ret.injEq] at h
      rw [← h.2]
      decide)

/-! ### The header loop without the line length test -/

theorem header_step_eq_nc (packet : packet_t) (buf_i : Nat)
    (h : packet.current_line.len
          + count_while not_eol packet.buf.p (packet.buf.used - buf_i) buf_i ≤ SIP_MAX_LEN) :
    header_step packet buf_i = header_step_nc packet buf_i := by
  unfold header_step header_step_nc
  simp only
  rw [if_neg (by push_cast; omega)]

theorem header_step_nc_of_cont (packet : packet_t) (buf_i : Nat) (x : packet_t × Nat)
    (h : header_step packet buf_i = Step.cont x) : header_step_nc packet buf_i = Step.cont x := by
  by_cases hc : packet.current_line.len
      + count_while not_eol packet.buf.p (packet.buf.used - buf_i) buf_i ≤ SIP_MAX_LEN
  · rw [← header_step_eq_nc packet buf_i hc]; exact h
  · exfalso
    unfold header_step at h
    simp only at h
    rw [if_pos (by push_cast at hc ⊢; omega)] at h
    simp at h

theorem header_step_nc_of_ret (packet : packet_t) (buf_i : Nat) (r : packet_t)
    (h : header_step packet buf_i = Step.done (Res.ret 1 r)) :
    header_step_nc packet buf_i = Step.done (Res.ret 1 r) := by
  by_cases hc : packet.current_line.len
      + count_while not_eol packet.buf.p (packet.buf.used - buf_i) buf_i ≤ SIP_MAX_LEN
  · rw [← header_step_eq_nc packet buf_i hc]; exact h
  · exfalso
    unfold header_step at h
    simp only at h
    rw [if_pos (by push_cast at hc ⊢; omega)] at h
    simp at h

theorem header_loop_nc_of_ret (f : Nat) (packet : packet_t) (buf_i : Nat) (r : packet_t)
    (h : header_loop f packet buf_i = Res.ret 1 r) :
    header_loop_nc f packet buf_i = Res.ret 1 r := by
  induction f generalizing packet buf_i with
  | zero => simp [header_loop] at h
  | succ n ih =>
    unfold header_loop at h
    unfold header_loop_nc
    cases hs : header_step packet buf_i with
    | cont x =>
      obtain ⟨p1, i1⟩ := x
      rw [hs] at h
      rw [header_step_nc_of_cont packet buf_i _ hs]
      exact ih p1 i1 h
    | done res =>
      rw [hs] at h
      simp only at h
      subst h
      rw [header_step_nc_of_ret packet buf_i _ hs]

/-! ### Scans over the same bytes at another offset -/

theorem count_while_eq (f : Nat → Bool) (q : List Nat) (m j k : Nat)
    (hall : ∀ x, x < k → f (rd q (j + x)) = true) (hk : k < m)
    (hstop : f (rd q (j + k)) = false) : count_while f q m j = k := by
  rw [count_while_skip f q m j k (by omega) hall]
  obtain ⟨d, hd⟩ : ∃ d, m - k = d + 1 := ⟨m - k - 1, by omega⟩
  rw [hd]
  unfold count_while
  rw [if_neg (by rw [hstop]; simp)]
  rfl

theorem count_while_full (f : Nat → Bool) (q : List Nat) (m j : Nat)
    (hall : ∀ x, x < m → f (rd q (j + x)) = true) : count_while f q m j = m := by
  rw [count_while_skip f q m j m (by omega) hall]
  simp [count_while]

theorem count_while_shift (f : Nat → Bool) (p q : List Nat) (n i j : Nat)
    (h : ∀ x, x < n → rd q (j + x) = rd p (i + x)) :
    count_while f q n j = count_while f p n i := by
  induction n generalizing i j with
  | zero => simp [count_while]
  | succ n ih =>
    unfold count_while
    have h0 := h 0 (by omega)
    simp only [Nat.add_zero] at h0
    rw [h0, ih (i + 1) (j + 1) (fun x hx => by
      have := h (x + 1) (by omega)
      rw [show j + 1 + x = j + (x + 1) by omega, show i + 1 + x = i + (x + 1) by omega]
      exact this)]

/-- A scan that stopped inside its range gives the same count over any bytes
that agree up to the byte where it stopped, whatever the range. -/
theorem count_while_transfer (f : Nat → Bool) (p q : List Nat) (n m i j : Nat)
    (hlt : count_while f p n i < n) (hm : count_while f p n i < m)
    (h : ∀ x, x ≤ count_while f p n i → rd q (j + x) = rd p (i + x)) :
    count_while f q m j = count_while f p n i := by
  apply count_while_eq f q m j _ _ hm
  · rw [h _ (le_refl _)]; exact count_while_stop f p n i hlt
  · intro x hx
    rw [h x (by omega)]
    exact count_while_all f p n i x hx

theorem strncasecmp_eq_shift (p q : List Nat) (i j : Nat) (lit : List Nat)
    (h : ∀ x, x < lit.length → rd q (j + x) = rd p (i + x)) :
    strncasecmp_eq q j lit = strncasecmp_eq p i lit := by
  unfold strncasecmp_eq
  congr 1
  apply List.map_congr_left
  intro k hk
  rw [List.mem_range] at hk
  rw [h k hk]

theorem content_length_digits_shift (p q : List Nat) (base base2 n i : Nat) (v : Int)
    (h : ∀ x, x < i + n → rd q (base2 + x) = rd p (base + x)) :
    content_length_digits q base2 n i v = content_length_digits p base n i v := by
  induction n generalizing i v with
  | zero => simp [content_length_digits]
  | succ n ih =>
    unfold content_length_digits
    rw [h i (by omega), ih (i + 1) _ (fun x hx => h x (by omega))]

/-! ### One header line in two related states -/

theorem tag_test_rel (pa pb : List Nat) (sa sb l n : Nat) (lit : List Nat)
    (hn : lit.length = n) (h : ∀ x, x < l → rd pb (sb + x) = rd pa (sa + x)) :
    (l = n ∧ strncasecmp_eq pb sb lit = true) = (l = n ∧ strncasecmp_eq pa sa lit = true) := by
  by_cases hl : l = n
  · rw [strncasecmp_eq_shift pa pb sa sb lit (fun x hx => h x (by omega))]
  · simp [hl]

theorem header_line_content_length_rel (g : loc_t → loc_t) (c : Int) (a b : packet_t)
    (sa la sb l i : Nat) (q : packet_t)
    (ha : a.current_line = ⟨sa, la⟩) (hb : b.current_line = ⟨sb, la⟩)
    (hR : spans_rel g c a b)
    (hq : header_line_content_length a l i = Res.ret 1 q)
    (hbytes : ∀ x, x < la → rd b.buf.p (sb + x) = rd a.buf.p (sa + x))
    (hi : i < la)
    (hg : g ⟨(sa : Int) + l + 1, (la : Int) - l - 1⟩ = ⟨(sb : Int) + l + 1, (la : Int) - l - 1⟩) :
    ∃ q2, header_line_content_length b l i = Res.ret 1 q2 ∧ spans_rel g c q q2 := by
  obtain ⟨r1, r2, r3, r4, r5, r6, z1, z2, z3, z4, z5, z6, rm, rs, rdt, rc⟩ := hR
  unfold header_line_content_length at hq ⊢
  simp only [ha, hb, Int.toNat_ofNat] at hq ⊢
  by_cases h1 : a.content_length.offs ≠ 0
  · rw [if_pos h1] at hq; simp at hq
  · rw [if_neg h1] at hq
    have h1b : ¬ b.content_length.offs ≠ 0 := by
      rw [not_not] at h1 ⊢; exact z6.mpr h1
    rw [if_neg h1b]
    rw [not_not] at h1
    obtain ⟨hd0, hc0⟩ := rc h1
    have hdb : b.data.len = 0 := by rw [rdt, hd0, hc0]; rfl
    rw [if_neg (by rw [hd0]; simp)] at hq
    rw [if_neg (by rw [hdb]; simp)]
    rw [hbytes i hi]
    by_cases h3 : is_digit (rd a.buf.p (sa + i)) = false
    · rw [if_pos h3] at hq; simp at hq
    · rw [if_neg h3] at hq
      rw [if_neg h3]
      rw [content_length_digits_shift a.buf.p b.buf.p sa sb (la - i) i b.data.len
        (fun x hx => hbytes x (by omega)), hdb, ← hd0]
      generalize content_length_digits a.buf.p sa (la - i) i a.data.len = res at hq ⊢
      obtain ⟨i1, v⟩ := res
      simp only at hq ⊢
      by_cases h4 : i1 = la
      · rw [if_pos h4] at hq
        rw [if_pos h4]
        simp only [Res.ret.injEq, true_and] at hq
        subst hq
        refine ⟨_, rfl, ?_⟩
        simp only [spans_rel]
        refine ⟨r1, r2, r3, r4, r5, ?_, z1, z2, z3, z4, z5, ?_, rm, rs, ?_, ?_⟩
        · rw [hg]
        · constructor <;> intro h <;> exfalso <;> omega
        · rw [hc0]; simp
        · intro h; exfalso; omega
      · rw [if_neg h4] at hq; simp at hq

theorem header_line_tag_rel (g : loc_t → loc_t) (c : Int) (a b : packet_t)
    (sa la sb lb l i : Nat) (q : packet_t)
    (ha : a.current_line = ⟨sa, la⟩) (hb : b.current_line = ⟨sb, lb⟩)
    (hR : spans_rel g c a b)
    (hq : header_line_tag a l i = Res.ret 1 q)
    (htag : ∀ x, x < l → rd b.buf.p (sb + x) = rd a.buf.p (sa + x))
    (hcl : (lb = la ∧ i < la ∧ ∀ x, x < la → rd b.buf.p (sb + x) = rd a.buf.p (sa + x))
      ∨ ¬ (l = 14 ∧ strncasecmp_eq a.buf.p sa (bytes "Content-Length") = true))
    (hg : ∀ k : Nat, k ≤ i → g ⟨(sa : Int) + k, (la : Int) - k⟩ = ⟨(sb : Int) + k, (lb : Int) - k⟩)
    (hli : l < i) (hsa : 0 < sa) (hsb : 0 < sb) :
    ∃ q2, header_line_tag b l i = Res.ret 1 q2 ∧ spans_rel g c q q2 := by
  have hR0 := hR
  obtain ⟨r1, r2, r3, r4, r5, r6, z1, z2, z3, z4, z5, z6, rm, rs, rdt, rc⟩ := hR
  have hg0 := hg 0 (by omega)
  have hgi := hg i (le_refl _)
  simp only [Nat.cast_zero, add_zero, sub_zero] at hg0
  unfold header_line_tag at hq ⊢
  simp only [ha, hb, Int.toNat_ofNat] at hq ⊢
  simp only [tag_test_rel a.buf.p b.buf.p sa sb l 3 (bytes "Via") rfl htag,
    tag_test_rel a.buf.p b.buf.p sa sb l 4 (bytes "From") rfl htag,
    tag_test_rel a.buf.p b.buf.p sa sb l 2 (bytes "To") rfl htag,
    tag_test_rel a.buf.p b.buf.p sa sb l 7 (bytes "Contact") rfl htag,
    tag_test_rel a.buf.p b.buf.p sa sb l 14 (bytes "Content-Length") rfl htag]
  by_cases hVia : l = 3 ∧ strncasecmp_eq a.buf.p sa (bytes "Via") = true
  · rw [if_pos hVia] at hq
    rw [if_pos hVia]
    by_cases h1 : a.via.offs ≠ 0
    · rw [if_pos h1] at hq; simp at hq
    · rw [if_neg h1] at hq
      rw [if_neg (by rw [not_not] at h1 ⊢; exact z2.mpr h1)]
      by_cases h2 : a.via_line.offs ≠ 0
      · rw [if_pos h2] at hq; simp at hq
      · rw [if_neg h2] at hq
        rw [if_neg (by rw [not_not] at h2 ⊢; exact z1.mpr h2)]
        simp only [Res.ret.injEq, true_and] at hq
        subst hq
        refine ⟨_, rfl, ?_⟩
        simp only [spans_rel]
        refine ⟨by rw [hg0], by rw [hgi], r3, r4, r5, r6, ?_, ?_, z3, z4, z5, z6, rm, rs, rdt, rc⟩
        · constructor <;> intro h <;> exfalso <;> omega
        · constructor <;> intro h <;> exfalso <;> omega
  · rw [if_neg hVia] at hq
    rw [if_neg hVia]
    by_cases hFrom : l = 4 ∧ strncasecmp_eq a.buf.p sa (bytes "From") = true
    · rw [if_pos hFrom] at hq
      rw [if_pos hFrom]
      by_cases h1 : a.from_.offs ≠ 0
      · rw [if_pos h1] at hq; simp at hq
      · rw [if_neg h1] at hq
        rw [if_neg (by rw [not_not] at h1 ⊢; exact z3.mpr h1)]
        simp only [Res.ret.injEq, true_and] at hq
        subst hq
        refine ⟨_, rfl, ?_⟩
        simp only [spans_rel]
        refine ⟨r1, r2, by rw [hgi], r4, r5, r6, z1, z2, ?_, z4, z5, z6, rm, rs, rdt, rc⟩
        constructor <;> intro h <;> exfalso <;> omega
    · rw [if_neg hFrom] at hq
      rw [if_neg hFrom]
      by_cases hTo : l = 2 ∧ strncasecmp_eq a.buf.p sa (bytes "To") = true
      · rw [if_pos hTo] at hq
        rw [if_pos hTo]
        by_cases h1 : a.to_.offs ≠ 0
        · rw [if_pos h1] at hq; simp at hq
        · rw [if_neg h1] at hq
          rw [if_neg (by rw [not_not] at h1 ⊢; exact z4.mpr h1)]
          simp only [Res.ret.injEq, true_and] at hq
          subst hq
          refine ⟨_, rfl, ?_⟩
          simp only [spans_rel]
          refine ⟨r1, r2, r3, by rw [hgi], r5, r6, z1, z2, z3, ?_, z5, z6, rm, rs, rdt, rc⟩
          constructor <;> intro h <;> exfalso <;> omega
      · rw [if_neg hTo] at hq
        rw [if_neg hTo]
        by_cases hCt : l = 7 ∧ strncasecmp_eq a.buf.p sa (bytes "Contact") = true
        · rw [if_pos hCt] at hq
          rw [if_pos hCt]
          by_cases h1 : a.contact.offs ≠ 0
          · rw [if_pos h1] at hq
            rw [if_pos (by intro h; exact h1 (z5.mp h))]
            simp only [Res.ret.injEq, true_and] at hq
            subst hq
            exact ⟨_, rfl, hR0⟩
          · rw [if_neg h1] at hq
            rw [if_neg (by rw [not_not] at h1 ⊢; exact z5.mpr h1)]
            simp only [Res.ret.injEq, true_and] at hq
            subst hq
            refine ⟨_, rfl, ?_⟩
            simp only [spans_rel]
            refine ⟨r1, r2, r3, r4, by rw [hgi], r6, z1, z2, z3, z4, ?_, z6, rm, rs, rdt, rc⟩
            constructor <;> intro h <;> exfalso <;> omega
        · rw [if_neg hCt] at hq
          rw [if_neg hCt]
          by_cases hCl : l = 14 ∧ strncasecmp_eq a.buf.p sa (bytes "Content-Length") = true
          · rw [if_pos hCl] at hq
            rw [if_pos hCl]
            rcases hcl with ⟨hl, hila, hall⟩ | hn
            · subst hl
              have hgl := hg (l + 1) (by omega)
              exact header_line_content_length_rel g c a b sa lb sb l i q ha hb hR0 hq hall hila
                (by
                  rw [show (sa : Int) + l + 1 = (sa : Int) + ((l + 1 : Nat) : Int) by push_cast; ring,
                    show (lb : Int) - l - 1 = (lb : Int) - ((l + 1 : Nat) : Int) by push_cast; ring,
                    hgl]
                  congr 1 <;> push_cast <;> ring)
            · exact absurd hCl hn
          · rw [if_neg hCl] at hq
            rw [if_neg hCl]
            simp only [Res.ret.injEq, true_and] at hq
            subst hq
            exact ⟨_, rfl, hR0⟩

theorem header_line_rel (g : loc_t → loc_t) (c : Int) (a b : packet_t)
    (sa la sb lb l i : Nat) (q : packet_t)
    (ha : a.current_line = ⟨sa, la⟩) (hb : b.current_line = ⟨sb, lb⟩)
    (hR : spans_rel g c a b)
    (hq : header_line a = Res.ret 1 q)
    (hl : l = count_while is_tag a.buf.p la sa)
    (hi : i = l + 1 + count_while is_space a.buf.p (la - (l + 1)) (sa + l + 1))
    (hbytes : ∀ x, x < i → rd b.buf.p (sb + x) = rd a.buf.p (sa + x))
    (hnsp : is_space (rd b.buf.p (sb + i)) = false)
    (hlb : i < lb)
    (hcl : (lb = la ∧ ∀ x, x < la → rd b.buf.p (sb + x) = rd a.buf.p (sa + x))
      ∨ ¬ (l = 14 ∧ strncasecmp_eq a.buf.p sa (bytes "Content-Length") = true))
    (hg : ∀ k : Nat, k ≤ i → g ⟨(sa : Int) + k, (la : Int) - k⟩ = ⟨(sb : Int) + k, (lb : Int) - k⟩)
    (hsa : 0 < sa) (hsb : 0 < sb) :
    ∃ q2, header_line b = Res.ret 1 q2 ∧ spans_rel g c q q2 := by
  unfold header_line at hq ⊢
  simp only [ha, hb, Int.toNat_ofNat] at hq ⊢
  rw [← hl] at hq
  rw [← hi] at hq
  have hlle : l ≤ la := by rw [hl]; exact count_while_le _ _ _ _
  by_cases h1 : l = 0 ∨ l = la ∨ rd a.buf.p (sa + l) ≠ COLON
  · rw [if_pos h1] at hq; simp at hq
  · rw [if_neg h1] at hq
    simp only [not_or, not_not] at h1
    obtain ⟨h10, h1l, h1c⟩ := h1
    by_cases h2 : ¬ (i < la)
    · rw [if_pos h2] at hq; simp at hq
    · rw [if_neg h2] at hq
      rw [not_not] at h2
      have hlb1 : count_while is_tag b.buf.p lb sb = l := by
        rw [hl]
        apply count_while_transfer
        · rw [← hl]; omega
        · rw [← hl]; omega
        · intro x hx; rw [← hl] at hx; exact hbytes x (by omega)
      rw [hlb1]
      have hsp : count_while is_space b.buf.p (lb - (l + 1)) (sb + l + 1)
          = i - (l + 1) := by
        apply count_while_eq
        · intro x hx
          have := hbytes (l + 1 + x) (by omega)
          rw [show sb + l + 1 + x = sb + (l + 1 + x) by omega, this,
            show sa + (l + 1 + x) = sa + l + 1 + x by omega]
          exact count_while_all is_space a.buf.p (la - (l + 1)) (sa + l + 1) x (by omega)
        · omega
        · rw [show sb + l + 1 + (i - (l + 1)) = sb + i by omega]; exact hnsp
      rw [hsp, show l + 1 + (i - (l + 1)) = i by omega]
      rw [if_neg (by
        simp only [not_or, not_not]
        exact ⟨h10, by omega, by rw [hbytes l (by omega)]; exact h1c⟩)]
      rw [if_neg (by rw [not_not]; exact hlb)]
      apply header_line_tag_rel g c a b sa la sb lb l i q ha hb hR hq
        (fun x hx => hbytes x (by omega)) _ hg (by omega) hsa hsb
      rcases hcl with ⟨e1, e2⟩ | hn
      · exact Or.inl ⟨e1, h2, e2⟩
      · exact Or.inr hn

/-! ### One turn of the header loop as the processing of one line -/

theorem not_eol_false (c : Nat) : not_eol c = false ↔ c = CR ∨ c = LF := by
  unfold not_eol
  simp only [Bool.and_eq_false_iff, decide_eq_false_iff_not, not_not]

theorem header_step_nc_cases (packet : packet_t) (i : Nat) (hi : i ≤ packet.buf.used) :
    header_step_nc packet i
        = Step.done (Res.ret 1 { packet with current_line :=
            ⟨packet.current_line.offs, packet.current_line.len
              + count_while not_eol packet.buf.p (packet.buf.used - i) i⟩ })
    ∨ header_step_nc packet i
        = Step.done (Res.ret 0 { packet with
            current_line := ⟨packet.current_line.offs, packet.current_line.len
              + count_while not_eol packet.buf.p (packet.buf.used - i) i⟩,
            status := PACKET_ERROR })
    ∨ (i + count_while not_eol packet.buf.p (packet.buf.used - i) i < packet.buf.used
        ∧ not_eol (rd packet.buf.p
            (i + count_while not_eol packet.buf.p (packet.buf.used - i) i)) = false
        ∧ (rd packet.buf.p (i + count_while not_eol packet.buf.p (packet.buf.used - i) i) = CR →
            i + count_while not_eol packet.buf.p (packet.buf.used - i) i + 1 < packet.buf.used
            ∧ rd packet.buf.p
                (i + count_while not_eol packet.buf.p (packet.buf.used - i) i + 1) = LF)
        ∧ header_step_nc packet i
            = header_step_line { packet with current_line :=
                ⟨packet.current_line.offs, packet.current_line.len
                  + count_while not_eol packet.buf.p (packet.buf.used - i) i⟩ }
              ((if rd packet.buf.p
                    (i + count_while not_eol packet.buf.p (packet.buf.used - i) i) = CR
                then i + count_while not_eol packet.buf.p (packet.buf.used - i) i + 1
                else i + count_while not_eol packet.buf.p (packet.buf.used - i) i) + 1)) := by
  have hle := count_while_le not_eol packet.buf.p (packet.buf.used - i) i
  have hstop := count_while_stop not_eol packet.buf.p (packet.buf.used - i) i
  unfold header_step_nc
  simp only
  generalize count_while not_eol packet.buf.p (packet.buf.used - i) i = k at hle hstop ⊢
  by_cases h1 : i + k = packet.buf.used
  · left; rw [if_pos h1]
  · rw [if_neg h1]
    by_cases h2 : rd packet.buf.p (i + k) = CR ∧ i + k + 1 = packet.buf.used
    · left; rw [if_pos h2]
    · rw [if_neg h2]
      by_cases h3 : rd packet.buf.p (i + k) = CR ∧ rd packet.buf.p (i + k + 1) ≠ LF
      · right; left; rw [if_pos h3]
      · rw [if_neg h3]
        right; right
        refine ⟨by omega, hstop (by omega), ?_, rfl⟩
        intro hcr
        simp only [hcr, true_and, not_not] at h2 h3
        exact ⟨by omega, h3⟩

theorem header_step_nc_line (packet : packet_t) (i k : Nat)
    (hall : ∀ x, x < k → not_eol (rd packet.buf.p (i + x)) = true)
    (hk : i + k < packet.buf.used)
    (hstop : not_eol (rd packet.buf.p (i + k)) = false)
    (hcr : rd packet.buf.p (i + k) = CR →
      i + k + 1 < packet.buf.used ∧ rd packet.buf.p (i + k + 1) = LF) :
    header_step_nc packet i
      = header_step_line { packet with current_line :=
          ⟨packet.current_line.offs, packet.current_line.len + k⟩ }
        ((if rd packet.buf.p (i + k) = CR then i + k + 1 else i + k) + 1) := by
  have hc : count_while not_eol packet.buf.p (packet.buf.used - i) i = k :=
    count_while_eq not_eol packet.buf.p _ i k hall (by omega) hstop
  unfold header_step_nc
  simp only
  rw [hc]
  rw [if_neg (by omega)]
  by_cases hcr1 : rd packet.buf.p (i + k) = CR
  · obtain ⟨h1, h2⟩ := hcr hcr1
    rw [if_neg (by intro h; omega), if_neg (by intro h; exact h.2 h2)]
  · rw [if_neg (fun h => hcr1 h.1), if_neg (fun h => hcr1 h.1)]

theorem spans_rel_current_line (g : loc_t → loc_t) (c : Int) (a b : packet_t) (x y : loc_t)
    (h : spans_rel g c a b) :
    spans_rel g c { a with current_line := x } { b with current_line := y } := h

theorem header_step_line_header_line (a1 : packet_t) (i2 : Nat)
    (hlen : a1.current_line.len ≠ 0) (hoffs : a1.current_line.offs ≠ 0) :
    header_step_line a1 i2
      = match header_line a1 with
        | Res.ret c packet2 =>
          if c = 0 then Step.done (Res.ret 0 packet2)
          else Step.cont ({ packet2 with current_line := ⟨i2, 0⟩ }, i2)
        | Res.abort => Step.done Res.abort
        | Res.nofuel => Step.done Res.nofuel := by
  unfold header_step_line
  rw [if_neg hlen, if_neg hoffs]

/-- A header line (L2): the turn goes on in both states, in related states. -/
theorem header_step_line_rel (g : loc_t → loc_t) (c : Int) (a1 b1 : packet_t)
    (sa la sb lb l i i2a i2b j : Nat) (a2 : packet_t)
    (ha : a1.current_line = ⟨sa, la⟩) (hb : b1.current_line = ⟨sb, lb⟩)
    (hR : spans_rel g c a1 b1)
    (hq : header_step_line a1 i2a = Step.cont (a2, j))
    (hla : 0 < la) (hsa : 0 < sa) (hsb : 0 < sb)
    (hl : l = count_while is_tag a1.buf.p la sa)
    (hi : i = l + 1 + count_while is_space a1.buf.p (la - (l + 1)) (sa + l + 1))
    (hbytes : ∀ x, x < i → rd b1.buf.p (sb + x) = rd a1.buf.p (sa + x))
    (hnsp : is_space (rd b1.buf.p (sb + i)) = false)
    (hlb : i < lb)
    (hcl : (lb = la ∧ ∀ x, x < la → rd b1.buf.p (sb + x) = rd a1.buf.p (sa + x))
      ∨ ¬ (l = 14 ∧ strncasecmp_eq a1.buf.p sa (bytes "Content-Length") = true))
    (hg : ∀ k : Nat, k ≤ i →
      g ⟨(sa : Int) + k, (la : Int) - k⟩ = ⟨(sb : Int) + k, (lb : Int) - k⟩) :
    ∃ b2, header_step_line b1 i2b = Step.cont (b2, i2b) ∧ j = i2a ∧ spans_rel g c a2 b2
      ∧ a2.current_line = ⟨i2a, 0⟩ ∧ b2.current_line = ⟨i2b, 0⟩
      ∧ a2.buf = a1.buf ∧ b2.buf = b1.buf ∧ a2.header = a1.header ∧ b2.header = b1.header := by
  rw [header_step_line_header_line a1 i2a (by rw [ha]; simp; omega) (by rw [ha]; simp; omega)]
    at hq
  rw [header_step_line_header_line b1 i2b (by rw [hb]; simp; omega) (by rw [hb]; simp; omega)]
  rcases header_line_keeps a1 with e | ⟨ca, qa, e, hca, k1, k2, k3, k4, k5⟩
  · rw [e] at hq; simp at hq
  · rw [e] at hq
    simp only at hq
    rcases hca with hca | hca
    · rw [if_pos hca] at hq; simp at hq
    · subst hca
      rw [if_neg (by decide)] at hq
      simp only [Step.cont.injEq, Prod.mk.injEq] at hq
      obtain ⟨hq1, hq2⟩ := hq
      obtain ⟨qb, eb, hRq⟩ := header_line_rel g c a1 b1 sa la sb lb l i qa ha hb hR e hl hi
        hbytes hnsp hlb hcl hg hsa hsb
      rcases header_line_keeps b1 with e2 | ⟨cb, qb2, e2, hcb, m1, m2, m3, m4, m5⟩
      · rw [e2] at eb; simp at eb
      · rw [e2] at eb
        simp only [Res.ret.injEq] at eb
        obtain ⟨eb1, eb2⟩ := eb
        subst eb1 eb2
        rw [e2]
        simp only
        rw [if_neg (by decide)]
        subst hq1
        refine ⟨_, rfl, hq2.symm, hRq, rfl, rfl, k1, m1, k2, m2⟩

theorem header_step_line_complete (b1 : packet_t) (i2 : Nat)
    (hlen : b1.current_line.len = 0) (hoffs : b1.current_line.offs ≠ 0)
    (h1 : b1.via.offs ≠ 0) (h2 : b1.from_.offs ≠ 0) (h3 : b1.to_.offs ≠ 0)
    (h4 : b1.content_length.offs ≠ 0) :
    header_step_line b1 i2
      = Step.done (Res.ret 1 { b1 with
          header := ⟨i2⟩,
          status := if b1.buf.used ≥ u32 ((i2 : Int) + b1.data.len) then PACKET_READY
                    else b1.status }) := by
  unfold header_step_line
  rw [if_pos hlen, if_neg hoffs, if_neg (by simp [h1, h2, h3, h4])]
  simp only
  split_ifs <;> rfl

theorem header_step_line_done (a1 : packet_t) (i2 : Nat) (r : packet_t)
    (h : header_step_line a1 i2 = Step.done (Res.ret 1 r)) :
    a1.current_line.len = 0 ∧ a1.current_line.offs ≠ 0
    ∧ a1.via.offs ≠ 0 ∧ a1.from_.offs ≠ 0 ∧ a1.to_.offs ≠ 0 ∧ a1.content_length.offs ≠ 0
    ∧ r = { a1 with
          header := ⟨i2⟩,
          status := if a1.buf.used ≥ u32 ((i2 : Int) + a1.data.len) then PACKET_READY
                    else a1.status } := by
  by_cases hlen : a1.current_line.len = 0
  · by_cases hoffs : a1.current_line.offs = 0
    · unfold header_step_line at h
      rw [if_pos hlen, if_pos hoffs] at h
      simp at h
    · by_cases hm : a1.via.offs = 0 ∨ a1.from_.offs = 0 ∨ a1.to_.offs = 0
          ∨ a1.content_length.offs = 0
      · unfold header_step_line at h
        rw [if_pos hlen, if_neg hoffs, if_pos hm] at h
        simp at h
      · simp only [not_or] at hm
        obtain ⟨h1, h2, h3, h4⟩ := hm
        rw [header_step_line_complete a1 i2 hlen hoffs h1 h2 h3 h4] at h
        simp only [Step.done.injEq, Res.ret.injEq, true_and] at h
        exact ⟨hlen, hoffs, h1, h2, h3, h4, h.symm⟩
  · exfalso
    by_cases hoffs : a1.current_line.offs = 0
    · unfold header_step_line at h
      rw [if_neg hlen, if_pos hoffs] at h
      generalize first_line a1 = fl at h
      obtain ⟨ok, p2⟩ := fl
      split_ifs at h
      all_goals (cases ok <;> simp at h)
    · rw [header_step_line_header_line a1 i2 hlen hoffs] at h
      rcases header_line_keeps a1 with e | ⟨ca, qa, e, hca, _⟩
      · rw [e] at h; simp at h
      · rw [e] at h
        simp only at h
        rcases hca with hca | hca
        · subst hca; simp at h
        · subst hca; simp at h

theorem header_line_ok (a : packet_t) (sa la : Nat) (q : packet_t)
    (ha : a.current_line = ⟨sa, la⟩) (hq : header_line a = Res.ret 1 q) :
    0 < count_while is_tag a.buf.p la sa
    ∧ count_while is_tag a.buf.p la sa < la
    ∧ rd a.buf.p (sa + count_while is_tag a.buf.p la sa) = COLON
    ∧ count_while is_tag a.buf.p la sa + 1
        + count_while is_space a.buf.p (la - (count_while is_tag a.buf.p la sa + 1))
            (sa + count_while is_tag a.buf.p la sa + 1) < la := by
  have hle := count_while_le is_tag a.buf.p la sa
  unfold header_line at hq
  simp only [ha, Int.toNat_ofNat] at hq
  generalize count_while is_tag a.buf.p la sa = l at hq hle ⊢
  by_cases h1 : l = 0 ∨ l = la ∨ rd a.buf.p (sa + l) ≠ COLON
  · rw [if_pos h1] at hq; simp at hq
  · rw [if_neg h1] at hq
    simp only [not_or, not_not] at h1
    obtain ⟨h10, h1l, h1c⟩ := h1
    by_cases h2 : ¬ (l + 1 + count_while is_space a.buf.p (la - (l + 1)) (sa + l + 1) < la)
    · rw [if_pos h2] at hq; simp at hq
    · rw [not_not] at h2
      exact ⟨by omega, by omega, h1c, h2⟩

theorem header_step_line_cont (a1 : packet_t) (i2 j : Nat) (a2 : packet_t)
    (hlen : a1.current_line.len ≠ 0) (hoffs : a1.current_line.offs ≠ 0)
    (h : header_step_line a1 i2 = Step.cont (a2, j)) :
    ∃ q, header_line a1 = Res.ret 1 q ∧ j = i2 := by
  rw [header_step_line_header_line a1 i2 hlen hoffs] at h
  rcases header_line_keeps a1 with e | ⟨ca, qa, e, hca, _⟩
  · rw [e] at h; simp at h
  · rw [e] at h
    simp only at h
    rcases hca with hca | hca
    · subst hca; simp at h
    · subst hca
      rw [if_neg (by decide)] at h
      simp only [Step.cont.injEq, Prod.mk.injEq] at h
      exact ⟨qa, e, h.2.symm⟩

theorem header_step_line_empty (a1 : packet_t) (i2 j : Nat) (a2 : packet_t)
    (hlen : a1.current_line.len = 0) (hoffs : a1.current_line.offs ≠ 0) :
    header_step_line a1 i2 ≠ Step.cont (a2, j) := by
  intro h
  unfold header_step_line at h
  rw [if_pos hlen, if_neg hoffs] at h
  simp only at h
  split_ifs at h

/-- One turn of the loop over the same line at two places (not the first
line): the turn goes on in both states. -/
theorem header_step_nc_rel_cont (g : loc_t → loc_t) (c : Int) (a b : packet_t)
    (sa sb lim j : Nat) (a2 : packet_t)
    (ha : a.current_line = ⟨sa, 0⟩) (hb : b.current_line = ⟨sb, 0⟩)
    (hsa : 0 < sa) (hsb : 0 < sb)
    (hR : spans_rel g c a b)
    (hq : header_step_nc a sa = Step.cont (a2, j))
    (hsl : sa ≤ lim) (hj : j ≤ lim) (hlima : lim ≤ a.buf.used)
    (hlimb : lim - sa + sb ≤ b.buf.used)
    (hbytes : ∀ x, sa + x < lim → rd b.buf.p (sb + x) = rd a.buf.p (sa + x))
    (hg : ∀ len k : Nat, sa + len ≤ lim → k ≤ len →
      g ⟨(sa : Int) + k, (len : Int) - k⟩ = ⟨(sb : Int) + k, (len : Int) - k⟩) :
    ∃ b2, header_step_nc b sb = Step.cont (b2, j - sa + sb) ∧ spans_rel g c a2 b2
      ∧ a2.current_line = ⟨j, 0⟩ ∧ b2.current_line = ⟨((j - sa + sb : Nat) : Int), 0⟩
      ∧ a2.buf = a.buf ∧ b2.buf = b.buf ∧ a2.header = a.header ∧ b2.header = b.header
      ∧ sa < j := by
  rcases header_step_nc_cases a sa (by omega) with e | e | ⟨h1, h2, h3, e⟩
  · rw [e] at hq; simp at hq
  · rw [e] at hq; simp at hq
  · rw [e] at hq
    have hall := count_while_all not_eol a.buf.p (a.buf.used - sa) sa
    generalize count_while not_eol a.buf.p (a.buf.used - sa) sa = k at h1 h2 h3 e hq hall
    simp only [ha, zero_add] at hq
    by_cases hk0 : k = 0
    · exfalso
      exact header_step_line_empty _ _ _ _ (by simp [hk0]) (by simp; omega) hq
    · obtain ⟨q, hqq, hji⟩ := header_step_line_cont _ _ _ _ (by simp; omega) (by simp; omega) hq
      obtain ⟨o1, o2, o3, o4⟩ := header_line_ok _ sa k q rfl hqq
      simp only at o1 o2 o3 o4
      have hjk : sa + k < j := by rw [hji]; split_ifs <;> omega
      have hb0 : rd b.buf.p (sb + k) = rd a.buf.p (sa + k) := hbytes k (by omega)
      have hstep : header_step_nc b sb
          = header_step_line { b with current_line := ⟨b.current_line.offs, b.current_line.len + k⟩ }
              ((if rd b.buf.p (sb + k) = CR then sb + k + 1 else sb + k) + 1) := by
        apply header_step_nc_line
        · intro x hx; rw [hbytes x (by omega)]; exact hall x hx
        · omega
        · rw [hb0]; exact h2
        · intro hcr
          rw [hb0] at hcr
          obtain ⟨h31, h32⟩ := h3 hcr
          have hj2 : j = sa + k + 2 := by rw [hji, if_pos hcr]
          refine ⟨by omega, ?_⟩
          have := hbytes (k + 1) (by omega)
          rw [show sb + k + 1 = sb + (k + 1) by omega, this,
            show sa + (k + 1) = sa + k + 1 by omega]
          exact h32
      rw [hstep]
      simp only [hb, zero_add]
      have hi2 : (if rd b.buf.p (sb + k) = CR then sb + k + 1 else sb + k) + 1 = j - sa + sb := by
        rw [hb0, hji]; split_ifs <;> omega
      rw [hi2]
      obtain ⟨b2, hb2, _, hR2, c1, c2, c3, c4, c5, c6⟩ := header_step_line_rel g c
        { a with current_line := ⟨(sa : Int), (k : Int)⟩ }
        { b with current_line := ⟨(sb : Int), (k : Int)⟩ } sa k sb k
        (count_while is_tag a.buf.p k sa)
        (count_while is_tag a.buf.p k sa + 1
          + count_while is_space a.buf.p (k - (count_while is_tag a.buf.p k sa + 1))
              (sa + count_while is_tag a.buf.p k sa + 1))
        ((if rd a.buf.p (sa + k) = CR then sa + k + 1 else sa + k) + 1) (j - sa + sb) j a2
        rfl rfl hR hq (by omega) hsa hsb rfl rfl
        (fun x hx => hbytes x (by omega))
        (by
          have := hbytes (count_while is_tag a.buf.p k sa + 1
            + count_while is_space a.buf.p (k - (count_while is_tag a.buf.p k sa + 1))
                (sa + count_while is_tag a.buf.p k sa + 1)) (by omega)
          simp only at this ⊢
          rw [this]
          have hst := count_while_stop is_space a.buf.p (k - (count_while is_tag a.buf.p k sa + 1))
            (sa + count_while is_tag a.buf.p k sa + 1) (by omega)
          rw [show sa + (count_while is_tag a.buf.p k sa + 1
            + count_while is_space a.buf.p (k - (count_while is_tag a.buf.p k sa + 1))
                (sa + count_while is_tag a.buf.p k sa + 1))
            = sa + count_while is_tag a.buf.p k sa + 1
              + count_while is_space a.buf.p (k - (count_while is_tag a.buf.p k sa + 1))
                (sa + count_while is_tag a.buf.p k sa + 1) by omega]
          exact hst)
        o4
        (Or.inl ⟨rfl, fun x hx => hbytes x (by omega)⟩)
        (fun k2 hk2 => hg k k2 (by omega) (by omega))
      refine ⟨b2, hb2, hR2, ?_, c2, c3, c4, c5, c6, by omega⟩
      rw [c1, hji]

/-- One turn of the loop over the empty line that ends the header, at two
places: both states complete the header. -/
theorem header_step_nc_rel_done (g : loc_t → loc_t) (c : Int) (a b : packet_t)
    (sa sb lim : Nat) (r : packet_t)
    (ha : a.current_line = ⟨sa, 0⟩) (hb : b.current_line = ⟨sb, 0⟩)
    (hsa : 0 < sa) (hsb : 0 < sb)
    (hR : spans_rel g c a b)
    (hq : header_step_nc a sa = Step.done (Res.ret 1 r)) (hhdr : r.header ≠ a.header)
    (hsl : sa ≤ lim) (hj : r.header.len ≤ lim) (hlima : lim ≤ a.buf.used)
    (hlimb : lim - sa + sb ≤ b.buf.used)
    (hbytes : ∀ x, sa + x < lim → rd b.buf.p (sb + x) = rd a.buf.p (sa + x)) :
    ∃ j : Nat, sa < j
      ∧ r = { a with header := ⟨j⟩,
                     status := if a.buf.used ≥ u32 ((j : Int) + a.data.len) then PACKET_READY
                               else a.status }
      ∧ header_step_nc b sb
          = Step.done (Res.ret 1 { b with
              header := ⟨((j - sa + sb : Nat) : Int)⟩,
              status := if b.buf.used ≥ u32 (((j - sa + sb : Nat) : Int) + b.data.len)
                        then PACKET_READY else b.status }) := by
  rcases header_step_nc_cases a sa (by omega) with e | e | ⟨h1, h2, h3, e⟩
  · rw [e] at hq
    simp only [Step.done.injEq, Res.ret.injEq, true_and] at hq
    subst hq
    exact absurd rfl hhdr
  · rw [e] at hq; simp at hq
  · rw [e] at hq
    generalize count_while not_eol a.buf.p (a.buf.used - sa) sa = k at h1 h2 h3 e hq
    simp only [ha, zero_add] at hq
    obtain ⟨d1, d2, d3, d4, d5, d6, d7⟩ := header_step_line_done _ _ _ hq
    simp only at d1 d2 d3 d4 d5 d6 d7
    have hk0 : k = 0 := by exact_mod_cast d1
    subst hk0
    simp only [Nat.add_zero, Nat.cast_zero] at h1 h2 h3 d7 hq
    have hjr : r.header.len
        = (((if rd a.buf.p sa = CR then sa + 1 else sa) + 1 : Nat) : Int) := by
      rw [d7]
    have hjl : (if rd a.buf.p sa = CR then sa + 1 else sa) + 1 ≤ lim := by
      rw [hjr] at hj; exact_mod_cast hj
    have hlt : sa < (if rd a.buf.p sa = CR then sa + 1 else sa) + 1 := by split_ifs <;> omega
    have hb0 : rd b.buf.p sb = rd a.buf.p sa := hbytes 0 (by omega)
    have hu : sb + 0 < b.buf.used := by omega
    refine ⟨(if rd a.buf.p sa = CR then sa + 1 else sa) + 1, hlt, ?_, ?_⟩
    · rw [d7]
      cases a
      simp only at ha
      subst ha
      rfl
    · skip
      have hs : not_eol (rd b.buf.p (sb + 0)) = false := by rw [Nat.add_zero, hb0]; exact h2
      have hc : rd b.buf.p (sb + 0) = CR →
          sb + 0 + 1 < b.buf.used ∧ rd b.buf.p (sb + 0 + 1) = LF := by
        intro hcr
        rw [Nat.add_zero] at hcr ⊢
        rw [hb0] at hcr
        obtain ⟨h31, h32⟩ := h3 hcr
        rw [if_pos hcr] at hjl
        refine ⟨by omega, ?_⟩
        rw [hbytes 1 (by omega)]
        exact h32
      have hstep := header_step_nc_line b sb 0 (fun x hx => absurd hx (Nat.not_lt_zero x)) hu hs hc
      have hi2 : (if rd b.buf.p sb = CR then sb + 1 else sb) + 1
          = (if rd a.buf.p sa = CR then sa + 1 else sa) + 1 - sa + sb := by
        rw [hb0]; split_ifs <;> omega
      have hb1 : ({ b with current_line :=
          ⟨b.current_line.offs, b.current_line.len + ((0 : Nat) : Int)⟩ } : packet_t) = b := by
        cases b
        simp only at hb
        subst hb
        rfl
      rw [hstep, hb1]
      simp only [Nat.add_zero]
      rw [hi2]
      obtain ⟨r1, r2, r3, r4, r5, r6, z1, z2, z3, z4, z5, z6, rm, rs, rdt, rc⟩ := hR
      exact header_step_line_complete b _ (by rw [hb]) (by rw [hb]; simp; omega)
        (by intro h; exact d3 (z2.mp h)) (by intro h; exact d4 (z3.mp h))
        (by intro h; exact d5 (z4.mp h)) (by intro h; exact d6 (z6.mp h))

theorem header_step_nc_cont_facts (a : packet_t) (sa j : Nat) (a2 : packet_t)
    (ha : a.current_line = ⟨sa, 0⟩) (hsa : 0 < sa) (hu : sa ≤ a.buf.used)
    (hq : header_step_nc a sa = Step.cont (a2, j)) :
    a2.current_line = ⟨j, 0⟩ ∧ sa < j ∧ j ≤ a.buf.used ∧ a2.buf = a.buf ∧ a2.header = a.header := by
  rcases header_step_nc_cases a sa hu with e | e | ⟨h1, h2, h3, e⟩
  · rw [e] at hq; simp at hq
  · rw [e] at hq; simp at hq
  · rw [e] at hq
    generalize count_while not_eol a.buf.p (a.buf.used - sa) sa = k at h1 h2 h3 e hq
    simp only [ha, zero_add] at hq
    by_cases hk0 : k = 0
    · exfalso
      exact header_step_line_empty _ _ _ _ (by simp [hk0]) (by simp; omega) hq
    · obtain ⟨q, hqq, hji⟩ := header_step_line_cont _ _ _ _ (by simp; omega) (by simp; omega) hq
      rw [header_step_line_header_line _ _ (by simp; omega) (by simp; omega), hqq] at hq
      simp only [one_ne_zero, ↓reduceIte, Step.cont.injEq, Prod.mk.injEq] at hq
      rcases header_line_keeps { a with current_line := ⟨(sa : Int), (k : Int)⟩ }
        with e2 | ⟨cb, qb, e2, hcb, m1, m2, m3, m4, m5⟩
      · rw [e2] at hqq; simp at hqq
      · rw [e2] at hqq
        simp only [Res.ret.injEq] at hqq
        obtain ⟨_, hqb⟩ := hqq
        subst hqb
        obtain ⟨hq1, hq2⟩ := hq
        subst hq1
        refine ⟨by rw [hq2], ?_, ?_, m1, m2⟩
        · rw [hji]; split_ifs <;> omega
        · rw [hji]
          by_cases hcr : rd a.buf.p (sa + k) = CR
          · rw [if_pos hcr]; have := (h3 hcr).1; omega
          · rw [if_neg hcr]; omega

theorem header_step_nc_done_facts (a : packet_t) (sa : Nat) (r : packet_t)
    (hu : sa ≤ a.buf.used)
    (hq : header_step_nc a sa = Step.done (Res.ret 1 r)) (hhdr : r.header ≠ a.header) :
    (sa : Int) < r.header.len ∧ r.header.len ≤ a.buf.used := by
  rcases header_step_nc_cases a sa hu with e | e | ⟨h1, h2, h3, e⟩
  · rw [e] at hq
    simp only [Step.done.injEq, Res.ret.injEq, true_and] at hq
    subst hq
    exact absurd rfl hhdr
  · rw [e] at hq; simp at hq
  · rw [e] at hq
    generalize count_while not_eol a.buf.p (a.buf.used - sa) sa = k at h1 h2 h3 e hq
    obtain ⟨d1, d2, d3, d4, d5, d6, d7⟩ := header_step_line_done _ _ _ hq
    rw [d7]
    simp only
    by_cases hcr : rd a.buf.p (sa + k) = CR
    · rw [if_pos hcr]; have := (h3 hcr).1; push_cast; omega
    · rw [if_neg hcr]; push_cast; omega

/-- The header of a completed run ends behind the line where the run started. -/
theorem header_loop_nc_header_gt (f : Nat) (a : packet_t) (sa : Nat) (r : packet_t)
    (ha : a.current_line = ⟨sa, 0⟩) (hsa : 0 < sa) (hu : sa ≤ a.buf.used)
    (hq : header_loop_nc f a sa = Res.ret 1 r) (hhdr : r.header ≠ a.header) :
    (sa : Int) < r.header.len ∧ r.header.len ≤ a.buf.used := by
  induction f generalizing a sa with
  | zero => simp [header_loop_nc] at hq
  | succ n ih =>
    unfold header_loop_nc at hq
    cases hs : header_step_nc a sa with
    | cont x =>
      obtain ⟨a2, j⟩ := x
      rw [hs] at hq
      simp only at hq
      obtain ⟨c1, c2, c3, c4, c5⟩ := header_step_nc_cont_facts a sa j a2 ha hsa hu hs
      have := ih a2 j c1 (by omega) (by rw [c4]; exact c3) hq (by rw [c5]; exact hhdr)
      rw [c4] at this
      exact ⟨by omega, this.2⟩
    | done res =>
      rw [hs] at hq
      simp only at hq
      subst hq
      exact header_step_nc_done_facts a sa r hu hs hhdr

/-! ### The header loop over the same lines at two places -/

/-- Runs of the header loop over the same lines, held at `sa` in one buffer
and at `sb` in the other: when the first run completes the header, so does the
second, with the spans mapped by `g`. -/
theorem header_loop_nc_rel (g : loc_t → loc_t) (c : Int) (f : Nat) (a b : packet_t)
    (sa sb lim : Nat) (r : packet_t)
    (ha : a.current_line = ⟨sa, 0⟩) (hb : b.current_line = ⟨sb, 0⟩)
    (hsa : 0 < sa) (hsb : 0 < sb)
    (hR : spans_rel g c a b)
    (hq : header_loop_nc f a sa = Res.ret 1 r) (hhdr : r.header ≠ a.header)
    (hj : r.header.len ≤ lim)
    (hsl : sa ≤ lim) (hlima : lim ≤ a.buf.used) (hlimb : lim - sa + sb ≤ b.buf.used)
    (hbytes : ∀ x, sa + x < lim → rd b.buf.p (sb + x) = rd a.buf.p (sa + x))
    (hg : ∀ t len k : Nat, sa ≤ t → t + len ≤ lim → k ≤ len →
      g ⟨(t : Int) + k, (len : Int) - k⟩ = ⟨((t - sa + sb : Nat) : Int) + k, (len : Int) - k⟩) :
    ∃ (a2 b2 : packet_t) (j : Nat), spans_rel g c a2 b2 ∧ sa < j ∧ j ≤ lim
      ∧ a2.buf = a.buf ∧ b2.buf = b.buf
      ∧ r = { a2 with header := ⟨j⟩,
                      status := if a2.buf.used ≥ u32 ((j : Int) + a2.data.len) then PACKET_READY
                                else a2.status }
      ∧ header_loop_nc f b sb
          = Res.ret 1 { b2 with
              header := ⟨((j - sa + sb : Nat) : Int)⟩,
              status := if b2.buf.used ≥ u32 (((j - sa + sb : Nat) : Int) + b2.data.len)
                        then PACKET_READY else b2.status } := by
  induction f generalizing a b sa sb with
  | zero => simp [header_loop_nc] at hq
  | succ n ih =>
    unfold header_loop_nc at hq ⊢
    cases hs : header_step_nc a sa with
    | cont x =>
      obtain ⟨a1, j1⟩ := x
      rw [hs] at hq
      simp only at hq
      obtain ⟨c1, c2, c3, c4, c5⟩ := header_step_nc_cont_facts a sa j1 a1 ha hsa (by omega) hs
      have hgt := header_loop_nc_header_gt n a1 j1 r c1 (by omega) (by rw [c4]; exact c3) hq
        (by rw [c5]; exact hhdr)
      have hj1 : j1 ≤ lim := by have := hgt.1; omega
      obtain ⟨b1, e1, hR1, d1, d2, d3, d4, d5, d6, d7⟩ := header_step_nc_rel_cont g c a b sa sb lim
        j1 a1 ha hb hsa hsb hR hs hsl hj1 hlima hlimb hbytes
        (fun len k h1 h2 => by
          have := hg sa len k (le_refl _) h1 h2
          rw [show sa - sa + sb = sb by omega] at this
          exact this)
      rw [e1]
      simp only
      obtain ⟨a2, b2, j, k1, k2, k3, k4, k5, k6, k7⟩ := ih a1 b1 j1 (j1 - sa + sb) d1 d2
        (by omega) (by omega) hR1 hq (by rw [d5]; exact hhdr) hj1
        (by rw [d3]; exact hlima) (by rw [d4]; omega)
        (fun x hx => by
          have := hbytes (j1 - sa + x) (by omega)
          rw [d3, d4, show j1 - sa + sb + x = sb + (j1 - sa + x) by omega, this,
            show sa + (j1 - sa + x) = j1 + x by omega])
        (fun t len k h1 h2 h3 => by
          have := hg t len k (by omega) h2 h3
          rw [show t - j1 + (j1 - sa + sb) = t - sa + sb by omega]
          exact this)
      refine ⟨a2, b2, j, k1, by omega, k3, by rw [k4, d3], by rw [k5, d4], k6, ?_⟩
      rw [k7, show j - j1 + (j1 - sa + sb) = j - sa + sb by omega]
    | done res =>
      rw [hs] at hq
      simp only at hq
      subst hq
      obtain ⟨j, e1, e2, e3⟩ := header_step_nc_rel_done g c a b sa sb lim r ha hb hsa hsb hR hs
        hhdr hsl hj hlima hlimb hbytes
      refine ⟨a, b, j, hR, e1, ?_, rfl, rfl, e2, ?_⟩
      · rw [e2] at hj
        simp only at hj
        exact_mod_cast hj
      · rw [e3]

/-! ### The line that holds a replacement -/

theorem is_addr_char_not_eol (c : Nat) (h : is_addr_char c = true) : not_eol c = true := by
  unfold is_addr_char is_digit DOT at h
  unfold not_eol CR LF
  simp only [Bool.or_eq_true, Bool.and_eq_true, decide_eq_true_eq] at h ⊢
  omega

theorem is_addr_char_not_tag (c : Nat) (h : is_addr_char c = true) : is_tag c = false := by
  unfold is_addr_char is_digit DOT at h
  unfold is_tag is_alpha
  simp only [Bool.or_eq_true, Bool.and_eq_true, decide_eq_true_eq] at h
  simp only [Bool.or_eq_false_iff, Bool.and_eq_false_iff, decide_eq_false_iff_not]
  omega

theorem is_addr_char_not_alpha (c : Nat) (h : is_addr_char c = true) : is_alpha c = false := by
  unfold is_addr_char is_digit DOT at h
  unfold is_alpha
  simp only [Bool.or_eq_true, Bool.and_eq_true, decide_eq_true_eq] at h
  simp only [Bool.or_eq_false_iff, Bool.and_eq_false_iff, decide_eq_false_iff_not]
  omega

theorem is_addr_char_not_space (c : Nat) (h : is_addr_char c = true) : is_space c = false := by
  unfold is_addr_char is_digit DOT at h
  unfold is_space SP
  simp only [Bool.or_eq_true, Bool.and_eq_true, decide_eq_true_eq] at h
  simp only [decide_eq_false_iff_not]
  omega

theorem is_addr_char_not_colon (c : Nat) (h : is_addr_char c = true) : c ≠ COLON := by
  unfold is_addr_char is_digit DOT at h
  unfold COLON
  simp only [Bool.or_eq_true, Bool.and_eq_true, decide_eq_true_eq] at h
  omega

theorem content_length_digits_all (p : List Nat) (base n i : Nat) (v : Int)
    (h : (content_length_digits p base n i v).1 = i + n) (x : Nat) (hx : x < n) :
    is_digit (rd p (base + i + x)) = true := by
  induction n generalizing i v x with
  | zero => omega
  | succ n ih =>
    unfold content_length_digits at h
    by_cases hd : is_digit (rd p (base + i)) = true
    · rw [if_pos hd] at h
      cases x with
      | zero => exact hd
      | succ x =>
        have := ih (i + 1) _ (by rw [h]; omega) x (by omega)
        rw [show base + i + (x + 1) = base + (i + 1) + x by omega]
        exact this
    · rw [if_neg hd] at h
      simp only at h
      omega

/-- The value of an accepted `Content-Length` line is made of digits. -/
theorem header_line_content_length_digits (a : packet_t) (sa la l i : Nat) (q : packet_t)
    (ha : a.current_line = ⟨sa, la⟩) (hi : i < la)
    (hq : header_line_content_length a l i = Res.ret 1 q) (x : Nat) (hx1 : i ≤ x) (hx2 : x < la) :
    is_digit (rd a.buf.p (sa + x)) = true := by
  unfold header_line_content_length at hq
  simp only [ha, Int.toNat_ofNat] at hq
  have hle := content_length_digits_le a.buf.p sa (la - i) i a.data.len
  have hall := content_length_digits_all a.buf.p sa (la - i) i a.data.len
  generalize content_length_digits a.buf.p sa (la - i) i a.data.len = res at hq hle hall
  obtain ⟨i1, v⟩ := res
  simp only at hq hle hall
  by_cases h1 : a.content_length.offs ≠ 0
  · rw [if_pos h1] at hq; simp at hq
  · rw [if_neg h1] at hq
    by_cases h2 : a.data.len ≠ 0
    · rw [if_pos h2] at hq; simp at hq
    · rw [if_neg h2] at hq
      by_cases h3 : is_digit (rd a.buf.p (sa + i)) = false
      · rw [if_pos h3] at hq; simp at hq
      · rw [if_neg h3] at hq
        by_cases h4 : i1 = la
        · have := hall (by omega) (x - i) (by omega)
          rw [show sa + i + (x - i) = sa + x by omega] at this
          exact this
        · rw [if_neg h4] at hq; simp at hq

theorem header_line_cl_digits (a : packet_t) (sa la l i : Nat) (q : packet_t)
    (ha : a.current_line = ⟨sa, la⟩) (hq : header_line a = Res.ret 1 q)
    (hl : l = count_while is_tag a.buf.p la sa)
    (hi : i = l + 1 + count_while is_space a.buf.p (la - (l + 1)) (sa + l + 1))
    (hcl : l = 14 ∧ strncasecmp_eq a.buf.p sa (bytes "Content-Length") = true)
    (x : Nat) (hx1 : i ≤ x) (hx2 : x < la) :
    is_digit (rd a.buf.p (sa + x)) = true := by
  obtain ⟨o1, o2, o3, o4⟩ := header_line_ok a sa la q ha hq
  rw [← hl] at o1 o2 o3 o4
  rw [← hi] at o4
  unfold header_line at hq
  simp only [ha, Int.toNat_ofNat] at hq
  rw [← hl] at hq
  rw [← hi] at hq
  rw [if_neg (by simp only [not_or, not_not]; exact ⟨by omega, by omega, o3⟩),
    if_neg (by rw [not_not]; exact o4)] at hq
  unfold header_line_tag at hq
  simp only [ha, Int.toNat_ofNat] at hq
  obtain ⟨hl14, hcmp⟩ := hcl
  rw [if_neg (by intro h; omega), if_neg (by intro h; omega), if_neg (by intro h; omega),
    if_neg (by intro h; omega), if_pos ⟨hl14, hcmp⟩] at hq
  exact header_line_content_length_digits a sa la l i q ha o4 hq x hx1 hx2

/-- A replacement of digits and dots that is an address literal or a port
literal behind an address does not lie in a `Content-Length` line. -/
theorem editable_not_content_length (a : packet_t) (sa la l i e n : Nat) (q : packet_t)
    (ha : a.current_line = ⟨sa, la⟩) (hq : header_line a = Res.ret 1 q)
    (hl : l = count_while is_tag a.buf.p la sa)
    (hi : i = l + 1 + count_while is_space a.buf.p (la - (l + 1)) (sa + l + 1))
    (hed : editable a.buf.p e n) (h1 : sa + i ≤ e) (h2 : e + n ≤ sa + la) :
    ¬ (l = 14 ∧ strncasecmp_eq a.buf.p sa (bytes "Content-Length") = true) := by
  intro hcl
  have hdig := header_line_cl_digits a sa la l i q ha hq hl hi hcl
  obtain ⟨o1, o2, o3, o4⟩ := header_line_ok a sa la q ha hq
  rw [← hl] at o1 o2 o3
  obtain ⟨hall, hk⟩ := hed
  rcases hk with ⟨h4, y, hy, hdot⟩ | ⟨h1l, h2e, hcol, hdg⟩
  · have := hdig (e + y - sa) (by omega) (by omega)
    rw [show sa + (e + y - sa) = e + y by omega, hdot] at this
    revert this; decide
  · by_cases he : sa + i < e
    · have := hdig (e - 1 - sa) (by omega) (by omega)
      rw [show sa + (e - 1 - sa) = e - 1 by omega, hcol] at this
      revert this; decide
    · have hei : e = sa + i := by omega
      by_cases hsp : count_while is_space a.buf.p (la - (l + 1)) (sa + l + 1) = 0
      · have ht := count_while_all is_tag a.buf.p la sa (l - 1) (by rw [← hl]; omega)
        rw [show sa + (l - 1) = e - 2 by omega] at ht
        have := is_addr_char_not_tag (rd a.buf.p (e - 2)) (by
          unfold is_addr_char; rw [hdg]; rfl)
        rw [ht] at this
        exact absurd this (by decide)
      · have hs := count_while_all is_space a.buf.p (la - (l + 1)) (sa + l + 1)
          (count_while is_space a.buf.p (la - (l + 1)) (sa + l + 1) - 1) (by omega)
        rw [show sa + l + 1 + (count_while is_space a.buf.p (la - (l + 1)) (sa + l + 1) - 1)
          = e - 1 by omega, hcol] at hs
        revert hs; decide

theorem loc_shift_in (e : Nat) (d : Int) (s k2 k kb : Nat) (h1 : s + k2 ≤ e) (h2 : e < s + k)
    (h3 : (kb : Int) = k + d) :
    loc_shift e d ⟨(s : Int) + k2, (k : Int) - k2⟩ = ⟨(s : Int) + k2, (kb : Int) - k2⟩ := by
  unfold loc_shift
  simp only
  rw [if_neg (by push_cast; omega), if_pos (by push_cast; omega)]
  congr 1
  omega

theorem loc_shift_before (e : Nat) (d : Int) (s k2 k : Nat) (h2 : s + k ≤ e) (h3 : k2 ≤ k) :
    loc_shift e d ⟨(s : Int) + k2, (k : Int) - k2⟩ = ⟨(s : Int) + k2, (k : Int) - k2⟩ := by
  unfold loc_shift
  simp only
  rw [if_neg (by push_cast; omega), if_neg (by push_cast; omega)]

theorem loc_shift_after (e : Nat) (d : Int) (offs len : Int) (h2 : (e : Int) < offs) :
    loc_shift e d ⟨offs, len⟩ = ⟨offs + d, len⟩ := by
  unfold loc_shift
  simp only
  rw [if_pos h2]

/-- One turn of the loop over a header line that holds the replacement. -/
theorem header_step_nc_edit (c : Int) (a b : packet_t) (s e n j : Nat) (w : List Nat)
    (a2 : packet_t)
    (ha : a.current_line = ⟨s, 0⟩) (hb : b.current_line = ⟨s, 0⟩) (hs : 0 < s)
    (hR : spans_rel (loc_shift e ((w.length : Int) - n)) c a b)
    (hE : edited a.buf b.buf e n w)
    (hq : header_step_nc a s = Step.cont (a2, j))
    (hse : s ≤ e) (hej : e < j)
    (hed : editable a.buf.p e n) (hw1 : 1 ≤ w.length)
    (hnew : ∀ y, y < w.length → is_addr_char (rd w y) = true) :
    ∃ b2, header_step_nc b s = Step.cont (b2, j - n + w.length)
      ∧ spans_rel (loc_shift e ((w.length : Int) - n)) c a2 b2
      ∧ a2.current_line = ⟨j, 0⟩ ∧ b2.current_line = ⟨((j - n + w.length : Nat) : Int), 0⟩
      ∧ a2.buf = a.buf ∧ b2.buf = b.buf ∧ a2.header = a.header ∧ b2.header = b.header
      ∧ e + n < j := by
  obtain ⟨hEl, hEu, hE1, hE2, hE3⟩ := hE
  have hn1 : 1 ≤ n := by
    rcases hed.2 with ⟨h, _⟩ | ⟨h, _⟩ <;> omega
  have hce := hed.1
  rcases header_step_nc_cases a s (by omega) with e1 | e1 | ⟨h1, h2, h3, e1⟩
  · rw [e1] at hq; simp at hq
  · rw [e1] at hq; simp at hq
  · rw [e1] at hq
    have hall := count_while_all not_eol a.buf.p (a.buf.used - s) s
    generalize count_while not_eol a.buf.p (a.buf.used - s) s = k at h1 h2 h3 e1 hq hall
    simp only [ha, zero_add] at hq
    by_cases hk0 : k = 0
    · exfalso
      exact header_step_line_empty _ _ _ _ (by simp [hk0]) (by simp; omega) hq
    · obtain ⟨q, hqq, hji⟩ := header_step_line_cont _ _ _ _ (by simp; omega) (by simp; omega) hq
      obtain ⟨o1, o2, o3, o4⟩ := header_line_ok _ s k q rfl hqq
      simp only at o1 o2 o3 o4
      have htag := count_while_all is_tag a.buf.p k s
      have hspc := count_while_all is_space a.buf.p
        (k - (count_while is_tag a.buf.p k s + 1)) (s + count_while is_tag a.buf.p k s + 1)
      have hsps := count_while_stop is_space a.buf.p
        (k - (count_while is_tag a.buf.p k s + 1)) (s + count_while is_tag a.buf.p k s + 1)
      have hncl := editable_not_content_length
        { a with current_line := ⟨(s : Int), (k : Int)⟩ } s k
        (count_while is_tag a.buf.p k s)
        (count_while is_tag a.buf.p k s + 1
          + count_while is_space a.buf.p (k - (count_while is_tag a.buf.p k s + 1))
              (s + count_while is_tag a.buf.p k s + 1)) e n q rfl hqq rfl rfl hed
      generalize hl : count_while is_tag a.buf.p k s = l at o1 o2 o3 o4 htag hspc hsps hncl
      generalize hsp : count_while is_space a.buf.p (k - (l + 1)) (s + l + 1) = sp
        at o4 hspc hsps hncl
      have hjk : s + k < j := by rw [hji]; split_ifs <;> omega
      -- the place of the replacement in the line
      have he_lt : e < s + k := by
        by_contra hc
        have h0 := is_addr_char_not_eol _ (hce 0 hn1)
        rw [Nat.add_zero] at h0
        by_cases hek : e = s + k
        · rw [hek, h2] at h0; exact absurd h0 (by decide)
        · by_cases hcr : rd a.buf.p (s + k) = CR
          · rw [if_pos hcr] at hji
            have : e = s + k + 1 := by omega
            rw [this, (h3 hcr).2] at h0
            exact absurd h0 (by decide)
          · rw [if_neg hcr] at hji
            omega
      have hrange : e + n ≤ s + k := by
        by_contra hc
        have h0 := is_addr_char_not_eol _ (hce (s + k - e) (by omega))
        rw [show e + (s + k - e) = s + k by omega, h2] at h0
        exact absurd h0 (by decide)
      have hei : s + (l + 1 + sp) ≤ e := by
        by_contra hc
        have h0 := hce 0 hn1
        rw [Nat.add_zero] at h0
        by_cases c1 : e < s + l
        · have := htag (e - s) (by omega)
          rw [show s + (e - s) = e by omega, is_addr_char_not_tag _ h0] at this
          exact absurd this (by decide)
        · by_cases c2 : e = s + l
          · rw [c2] at h0
            exact is_addr_char_not_colon _ h0 o3
          · have := hspc (e - (s + l + 1)) (by omega)
            rw [show s + l + 1 + (e - (s + l + 1)) = e by omega,
              is_addr_char_not_space _ h0] at this
            exact absurd this (by decide)
      -- the line in the other buffer
      have hb0 : rd b.buf.p (s + (k - n + w.length)) = rd a.buf.p (s + k) := by
        have := hE3 (s + k - (e + n)) (by omega)
        rw [show e + w.length + (s + k - (e + n)) = s + (k - n + w.length) by omega,
          show e + n + (s + k - (e + n)) = s + k by omega] at this
        exact this
      have hstep := header_step_nc_line b s (k - n + w.length)
        (by
          intro x hx
          by_cases c1 : s + x < e
          · rw [hE1 _ c1]; exact hall x (by omega)
          · by_cases c2 : s + x < e + w.length
            · have := hE2 (s + x - e) (by omega)
              rw [show e + (s + x - e) = s + x by omega] at this
              rw [this]
              exact is_addr_char_not_eol _ (hnew _ (by omega))
            · have := hE3 (s + x - (e + w.length)) (by omega)
              rw [show e + w.length + (s + x - (e + w.length)) = s + x by omega] at this
              rw [this]
              have := hall (e + n + (s + x - (e + w.length)) - s) (by omega)
              rw [show s + (e + n + (s + x - (e + w.length)) - s)
                = e + n + (s + x - (e + w.length)) by omega] at this
              exact this)
        (by omega) (by rw [hb0]; exact h2)
        (by
          intro hcr
          rw [hb0] at hcr
          obtain ⟨h31, h32⟩ := h3 hcr
          refine ⟨by omega, ?_⟩
          have := hE3 (s + k + 1 - (e + n)) (by omega)
          rw [show e + w.length + (s + k + 1 - (e + n)) = s + (k - n + w.length) + 1 by omega,
            show e + n + (s + k + 1 - (e + n)) = s + k + 1 by omega] at this
          rw [this]
          exact h32)
      rw [hstep]
      simp only [hb, zero_add]
      have hi2 : (if rd b.buf.p (s + (k - n + w.length)) = CR then s + (k - n + w.length) + 1
          else s + (k - n + w.length)) + 1 = j - n + w.length := by
        rw [hb0, hji]; split_ifs <;> omega
      rw [hi2]
      obtain ⟨b2, hb2, _, hR2, c1, c2, c3, c4, c5, c6⟩ := header_step_line_rel
        (loc_shift e ((w.length : Int) - n)) c
        { a with current_line := ⟨(s : Int), (k : Int)⟩ }
        { b with current_line := ⟨(s : Int), ((k - n + w.length : Nat) : Int)⟩ }
        s k s (k - n + w.length) l (l + 1 + sp)
        ((if rd a.buf.p (s + k) = CR then s + k + 1 else s + k) + 1) (j - n + w.length) j a2
        rfl rfl hR hq (by omega) hs hs
        hl.symm (by simp only; rw [hsp])
        (fun x hx => hE1 _ (by omega))
        (by
          by_cases c1 : s + (l + 1 + sp) < e
          · simp only
            rw [hE1 _ c1, show s + (l + 1 + sp) = s + l + 1 + sp by omega]
            exact hsps (by omega)
          · have := hE2 0 hw1
            simp only
            rw [show s + (l + 1 + sp) = e + 0 by omega, this]
            exact is_addr_char_not_space _ (hnew 0 hw1))
        (by omega)
        (Or.inr (hncl hei hrange))
        (fun k2 hk2 => loc_shift_in e _ s k2 k _ (by omega) he_lt (by push_cast; omega))
      refine ⟨b2, hb2, hR2, ?_, c2, c3, c4, c5, c6, by omega⟩
      rw [c1, hji]

/-! ### The first line -/

theorem strncasecmp_eq_get (p : List Nat) (off : Nat) (lit : List Nat)
    (h : strncasecmp_eq p off lit = true) (j : Nat) (hj : j < lit.length) :
    tolower (rd p (off + j)) = tolower (rd lit j) := by
  unfold strncasecmp_eq at h
  simp only [beq_iff_eq] at h
  have h1 := congrArg (fun l => l.getD j 0) h
  simp only at h1
  rw [List.getD_eq_getElem _ _ (by simp; exact hj), List.getD_eq_getElem _ _ (by simp; exact hj)]
    at h1
  simp only [List.getElem_map, List.getElem_range] at h1
  rw [h1]
  unfold rd
  rw [List.getD_eq_getElem _ _ hj]

theorem tolower_not_alpha (c d : Nat) (h : tolower c = d) (hd : is_alpha d = false) : c = d := by
  unfold tolower at h
  unfold is_alpha at hd
  simp only [Bool.or_eq_false_iff, Bool.and_eq_false_iff, decide_eq_false_iff_not] at hd
  split_ifs at h <;> omega

theorem tolower_alpha (c : Nat) (h : is_alpha c = true) : is_alpha (tolower c) = true := by
  unfold tolower
  unfold is_alpha at h ⊢
  simp only [Bool.or_eq_true, Bool.and_eq_true, decide_eq_true_eq] at h ⊢
  split_ifs <;> omega

/-- A line that begins with a method name and a space is not a status line. -/
theorem not_status_of_method (p : List Nat) (m : Nat) (hm : 0 < m)
    (hal : ∀ x, x < m → is_alpha (rd p x) = true) (hsp : rd p m = SP) :
    strncasecmp_eq p 0 (bytes "SIP/2.0 ") = false := by
  by_contra hc
  rw [Bool.not_eq_false] at hc
  have hg := strncasecmp_eq_get p 0 (bytes "SIP/2.0 ") hc
  by_cases h4 : 4 ≤ m
  · have := hg 3 (by decide)
    have ha := tolower_alpha _ (hal 3 (by omega))
    rw [Nat.zero_add] at this
    rw [this] at ha
    revert ha; decide
  · have hm3 : m = 1 ∨ m = 2 ∨ m = 3 := by omega
    rcases hm3 with h | h | h <;> subst h
    · have := hg 1 (by decide); rw [Nat.zero_add, hsp] at this; revert this; decide
    · have := hg 2 (by decide); rw [Nat.zero_add, hsp] at this; revert this; decide
    · have := hg 3 (by decide); rw [Nat.zero_add, hsp] at this; revert this; decide

theorem first_line_rel (a b : packet_t) (la lb : Nat) (q : packet_t)
    (ha : a.current_line.len = la) (hb : b.current_line.len = lb)
    (hm : a.method.len = 0) (hmb : b.method.len = 0)
    (hq : first_line a = (true, q))
    (hlb : 8 < lb)
    (hstat : strncasecmp_eq a.buf.p 0 (bytes "SIP/2.0 ") = true →
      ∀ x, x < 8 → rd b.buf.p x = rd a.buf.p x)
    (hreq : strncasecmp_eq a.buf.p 0 (bytes "SIP/2.0 ") = false →
      (∀ x, x ≤ count_while is_alpha a.buf.p la 0 → rd b.buf.p x = rd a.buf.p x)
      ∧ (∀ x, x < 8 → rd b.buf.p (lb - 8 + x) = rd a.buf.p (la - 8 + x))
      ∧ count_while is_alpha a.buf.p la 0 < lb) :
    first_line b = (true, { b with method := q.method }) ∧ q = { a with method := q.method } := by
  unfold first_line at hq ⊢
  simp only [ha, hb, hm, hmb, Int.toNat_ofNat, Int.toNat_zero, sub_zero, zero_add] at hq ⊢
  by_cases h8 : (la : Int) > 8
  · rw [if_pos h8] at hq
    rw [if_pos (by omega)]
    by_cases hst : strncasecmp_eq a.buf.p 0 (bytes "SIP/2.0 ") = true
    · rw [if_pos hst] at hq
      rw [strncasecmp_eq_shift a.buf.p b.buf.p 0 0 (bytes "SIP/2.0 ")
        (fun x hx => by
          rw [Nat.zero_add]; exact hstat hst x hx), if_pos hst]
      simp only [Prod.mk.injEq, true_and] at hq
      subst hq
      have hmeq : a.method = b.method := by
        cases ha2 : a.method with
        | mk x =>
          cases hb2 : b.method with
          | mk y =>
            rw [ha2] at hm; rw [hb2] at hmb
            simp only at hm hmb
            rw [hm, hmb]
      rw [hmeq]
      exact ⟨rfl, by rw [← hmeq]⟩
    · rw [if_neg hst] at hq
      rw [Bool.not_eq_true] at hst
      obtain ⟨r1, r2, r3⟩ := hreq hst
      by_cases hsf : strncasecmp_eq a.buf.p ((la : Int) - 8).toNat (bytes " SIP/2.0") = false
      · rw [if_pos hsf] at hq; simp at hq
      · rw [if_neg hsf] at hq
        have hle := count_while_le is_alpha a.buf.p la 0
        have hall := count_while_all is_alpha a.buf.p la 0
        have hstop := count_while_stop is_alpha a.buf.p la 0
        generalize hmm : count_while is_alpha a.buf.p la 0 = m at hq r1 r3 hle hall hstop
        by_cases hbad : (m : Int) = 0 ∨ (m : Int) = la ∨ rd a.buf.p m ≠ SP
        · rw [if_pos hbad] at hq; simp at hq
        · rw [if_neg hbad] at hq
          simp only [Prod.mk.injEq, true_and] at hq
          simp only [not_or, not_not] at hbad
          obtain ⟨b1, b2, b3⟩ := hbad
          have hm0 : 0 < m := by omega
          have hmla : m < la := by omega
          have hcb : count_while is_alpha b.buf.p lb 0 = m := by
            apply count_while_eq
            · intro x hx
              rw [Nat.zero_add, r1 x (by omega)]
              have := hall x hx
              rw [Nat.zero_add] at this
              exact this
            · exact r3
            · rw [Nat.zero_add, r1 m (le_refl _)]
              have := hstop hmla
              rw [Nat.zero_add] at this
              exact this
          have hnst : strncasecmp_eq b.buf.p 0 (bytes "SIP/2.0 ") = false := by
            apply not_status_of_method b.buf.p m hm0
            · intro x hx
              rw [r1 x (by omega)]
              have := hall x hx
              rw [Nat.zero_add] at this
              exact this
            · rw [r1 m (le_refl _)]; exact b3
          rw [if_neg (by rw [hnst]; simp)]
          rw [strncasecmp_eq_shift a.buf.p b.buf.p ((la : Int) - 8).toNat ((lb : Int) - 8).toNat
            (bytes " SIP/2.0") (fun x hx => by
              rw [show ((lb : Int) - 8).toNat = lb - 8 by omega,
                show ((la : Int) - 8).toNat = la - 8 by omega]
              exact r2 x hx)]
          rw [if_neg hsf, hcb]
          rw [if_neg (by
            simp only [not_or, not_not]
            exact ⟨b1, by omega, by rw [r1 m (le_refl _)]; exact b3⟩)]
          subst hq
          exact ⟨rfl, rfl⟩
  · rw [if_neg h8] at hq; simp at hq

theorem tolower_is_alpha (c : Nat) (h : is_alpha (tolower c) = true) : is_alpha c = true := by
  unfold tolower at h
  unfold is_alpha at h ⊢
  simp only [Bool.or_eq_true, Bool.and_eq_true, decide_eq_true_eq] at h ⊢
  split_ifs at h <;> omega

/-- A byte that matches a letter of a literal is no digit and no dot; a byte
that matches another character of a literal is that character. -/
theorem literal_byte (c d : Nat) (h : tolower c = tolower d) :
    (is_alpha d = true → is_addr_char c = false) ∧ (is_alpha d = false → c = d) := by
  constructor
  · intro hd
    have h1 : is_alpha c = true := tolower_is_alpha c (by rw [h]; exact tolower_alpha d hd)
    cases hc : is_addr_char c with
    | false => rfl
    | true => rw [is_addr_char_not_alpha c hc] at h1; exact absurd h1 (by decide)
  · intro hd
    have h2 : tolower d = d := by
      unfold tolower
      unfold is_alpha at hd
      simp only [Bool.or_eq_false_iff, Bool.and_eq_false_iff, decide_eq_false_iff_not] at hd
      split_ifs <;> omega
    rw [h2] at h
    exact tolower_not_alpha c d h hd

/-- A replacement does not touch the protocol name at the beginning of a status line. -/
theorem editable_status (p : List Nat) (e n : Nat)
    (h : strncasecmp_eq p 0 (bytes "SIP/2.0 ") = true) (hed : editable p e n) : 8 ≤ e := by
  by_contra hc
  have hg := fun j hj => literal_byte _ _ (strncasecmp_eq_get p 0 (bytes "SIP/2.0 ") h j hj)
  simp only [Nat.zero_add] at hg
  obtain ⟨hall, hk⟩ := hed
  have hn1 : 1 ≤ n := by rcases hk with ⟨h, _⟩ | ⟨h, _⟩ <;> omega
  have h0 := hall 0 hn1
  rw [Nat.add_zero] at h0
  have b0 := (hg 0 (by decide)).1 (by decide)
  have b1 := (hg 1 (by decide)).1 (by decide)
  have b2 := (hg 2 (by decide)).1 (by decide)
  have b3 := (hg 3 (by decide)).2 (by decide)
  have b4 := (hg 4 (by decide)).2 (by decide)
  have b5 := (hg 5 (by decide)).2 (by decide)
  have b7 := (hg 7 (by decide)).2 (by decide)
  have e456 : e = 4 ∨ e = 5 ∨ e = 6 := by
    have : e < 8 := by omega
    interval_cases e
    · rw [b0] at h0; exact absurd h0 (by decide)
    · rw [b1] at h0; exact absurd h0 (by decide)
    · rw [b2] at h0; exact absurd h0 (by decide)
    · rw [b3] at h0; revert h0; decide
    · exact Or.inl rfl
    · exact Or.inr (Or.inl rfl)
    · exact Or.inr (Or.inr rfl)
    · rw [b7] at h0; revert h0; decide
  have hn7 : e + n ≤ 7 := by
    by_contra hc2
    have := hall (7 - e) (by omega)
    rw [show e + (7 - e) = 7 by omega, b7] at this
    revert this; decide
  rcases hk with ⟨h4, _⟩ | ⟨_, _, hcol, _⟩
  · omega
  · rcases e456 with h | h | h <;> subst h
    · rw [show 4 - 1 = 3 by rfl, b3] at hcol; revert hcol; decide
    · rw [show 5 - 1 = 4 by rfl, b4] at hcol; revert hcol; decide
    · rw [show 6 - 1 = 5 by rfl, b5] at hcol; revert hcol; decide

/-- A replacement does not touch the protocol name at the end of a request line. -/
theorem editable_request (p : List Nat) (e n k : Nat) (hk8 : 8 ≤ k)
    (h : strncasecmp_eq p (k - 8) (bytes " SIP/2.0") = true) (hed : editable p e n)
    (hek : e + n ≤ k) : e + n ≤ k - 8 := by
  by_contra hc
  have hg := fun j hj => literal_byte _ _ (strncasecmp_eq_get p (k - 8) (bytes " SIP/2.0") h j hj)
  obtain ⟨hall, hk⟩ := hed
  have hn1 : 1 ≤ n := by rcases hk with ⟨h, _⟩ | ⟨h, _⟩ <;> omega
  have b0 := (hg 0 (by decide)).2 (by decide)
  have b1 := (hg 1 (by decide)).1 (by decide)
  have b2 := (hg 2 (by decide)).1 (by decide)
  have b3 := (hg 3 (by decide)).1 (by decide)
  have b4 := (hg 4 (by decide)).2 (by decide)
  have b5 := (hg 5 (by decide)).2 (by decide)
  have b6 := (hg 6 (by decide)).2 (by decide)
  -- the last byte of the range lies in the literal
  have hlast := hall (n - 1) (by omega)
  have hl5 : k - 8 + 5 ≤ e + (n - 1) := by
    by_contra hc2
    have : e + (n - 1) = k - 8 + 0 ∨ e + (n - 1) = k - 8 + 1 ∨ e + (n - 1) = k - 8 + 2
        ∨ e + (n - 1) = k - 8 + 3 ∨ e + (n - 1) = k - 8 + 4 := by omega
    rcases this with h | h | h | h | h <;> rw [h] at hlast
    · rw [b0] at hlast; revert hlast; decide
    · rw [b1] at hlast; exact absurd hlast (by decide)
    · rw [b2] at hlast; exact absurd hlast (by decide)
    · rw [b3] at hlast; exact absurd hlast (by decide)
    · rw [b4] at hlast; revert hlast; decide
  have he5 : k - 8 + 5 ≤ e := by
    by_contra hc2
    have := hall (k - 8 + 4 - e) (by omega)
    rw [show e + (k - 8 + 4 - e) = k - 8 + 4 by omega, b4] at this
    revert this; decide
  rcases hk with ⟨h4, _⟩ | ⟨_, _, hcol, _⟩
  · omega
  · have : e - 1 = k - 8 + 4 ∨ e - 1 = k - 8 + 5 ∨ e - 1 = k - 8 + 6 := by omega
    rcases this with h | h | h <;> rw [h] at hcol
    · rw [b4] at hcol; revert hcol; decide
    · rw [b5] at hcol; revert hcol; decide
    · rw [b6] at hcol; revert hcol; decide

theorem header_step_line_first (a1 : packet_t) (i2 : Nat)
    (hlen : a1.current_line.len ≠ 0) (hoffs : a1.current_line.offs = 0)
    (hm : a1.method.len = 0) :
    header_step_line a1 i2
      = match first_line a1 with
        | (true, packet2) => Step.cont ({ packet2 with current_line := ⟨i2, 0⟩ }, i2)
        | (false, packet2) => Step.done (Res.ret 0 { packet2 with status := PACKET_ERROR }) := by
  unfold header_step_line
  rw [if_neg hlen, if_pos hoffs, if_neg (by rw [hm]; simp)]

theorem first_line_ok (a : packet_t) (k : Nat) (q : packet_t)
    (ha : a.current_line.len = k) (hm : a.method.len = 0) (hfl : first_line a = (true, q)) :
    8 < k ∧ (strncasecmp_eq a.buf.p 0 (bytes "SIP/2.0 ") = false →
      strncasecmp_eq a.buf.p (k - 8) (bytes " SIP/2.0") = true
      ∧ 0 < count_while is_alpha a.buf.p k 0 ∧ count_while is_alpha a.buf.p k 0 < k
      ∧ rd a.buf.p (count_while is_alpha a.buf.p k 0) = SP) := by
  have hle := count_while_le is_alpha a.buf.p k 0
  unfold first_line at hfl
  simp only [ha, hm, Int.toNat_ofNat, Int.toNat_zero, sub_zero, zero_add] at hfl
  by_cases h8 : (k : Int) > 8
  · rw [if_pos h8] at hfl
    refine ⟨by omega, ?_⟩
    intro hst
    rw [if_neg (by rw [hst]; simp)] at hfl
    by_cases hsf : strncasecmp_eq a.buf.p ((k : Int) - 8).toNat (bytes " SIP/2.0") = false
    · rw [if_pos hsf] at hfl; simp at hfl
    · rw [if_neg hsf] at hfl
      rw [Bool.not_eq_false, show ((k : Int) - 8).toNat = k - 8 by omega] at hsf
      generalize count_while is_alpha a.buf.p k 0 = m at hfl hle ⊢
      by_cases hbad : (m : Int) = 0 ∨ (m : Int) = k ∨ rd a.buf.p m ≠ SP
      · rw [if_pos hbad] at hfl; simp at hfl
      · simp only [not_or, not_not] at hbad
        exact ⟨hsf, by omega, by omega, hbad.2.2⟩
  · rw [if_neg h8] at hfl; simp at hfl

theorem spans_rel_method (g : loc_t → loc_t) (c : Int) (a b : packet_t)
    (hR : spans_rel g c a b) (mm : len_t) (x y : loc_t) :
    spans_rel g c { a with method := mm, current_line := x }
      { b with method := mm, current_line := y } := by
  obtain ⟨r1, r2, r3, r4, r5, r6, z1, z2, z3, z4, z5, z6, rm, rs, rdt, rc⟩ := hR
  exact ⟨r1, r2, r3, r4, r5, r6, z1, z2, z3, z4, z5, z6, rfl, rs, rdt, rc⟩

/-- The turn of the loop over a line with a replacement reads the line with
the new bytes. -/
theorem header_step_nc_line_edited (a b : packet_t) (s e n k : Nat) (w : List Nat)
    (hE : edited a.buf b.buf e n w)
    (hall : ∀ x, x < k → not_eol (rd a.buf.p (s + x)) = true)
    (h1 : s + k < a.buf.used) (h2 : not_eol (rd a.buf.p (s + k)) = false)
    (h3 : rd a.buf.p (s + k) = CR → s + k + 1 < a.buf.used ∧ rd a.buf.p (s + k + 1) = LF)
    (hse : s ≤ e) (hrange : e + n ≤ s + k)
    (hnew : ∀ y, y < w.length → is_addr_char (rd w y) = true) :
    header_step_nc b s
      = header_step_line { b with current_line :=
            ⟨b.current_line.offs, b.current_line.len + ((k - n + w.length : Nat) : Int)⟩ }
          ((if rd a.buf.p (s + k) = CR then s + k + 1 else s + k) + 1 - n + w.length) := by
  obtain ⟨hEl, hEu, hE1, hE2, hE3⟩ := hE
  have hb0 : rd b.buf.p (s + (k - n + w.length)) = rd a.buf.p (s + k) := by
    have := hE3 (s + k - (e + n)) (by omega)
    rw [show e + w.length + (s + k - (e + n)) = s + (k - n + w.length) by omega,
      show e + n + (s + k - (e + n)) = s + k by omega] at this
    exact this
  have hstep := header_step_nc_line b s (k - n + w.length)
    (by
      intro x hx
      by_cases c1 : s + x < e
      · rw [hE1 _ c1]; exact hall x (by omega)
      · by_cases c2 : s + x < e + w.length
        · have := hE2 (s + x - e) (by omega)
          rw [show e + (s + x - e) = s + x by omega] at this
          rw [this]
          exact is_addr_char_not_eol _ (hnew _ (by omega))
        · have := hE3 (s + x - (e + w.length)) (by omega)
          rw [show e + w.length + (s + x - (e + w.length)) = s + x by omega] at this
          rw [this]
          have := hall (e + n + (s + x - (e + w.length)) - s) (by omega)
          rw [show s + (e + n + (s + x - (e + w.length)) - s)
            = e + n + (s + x - (e + w.length)) by omega] at this
          exact this)
    (by omega) (by rw [hb0]; exact h2)
    (by
      intro hcr
      rw [hb0] at hcr
      obtain ⟨h31, h32⟩ := h3 hcr
      refine ⟨by omega, ?_⟩
      have := hE3 (s + k + 1 - (e + n)) (by omega)
      rw [show e + w.length + (s + k + 1 - (e + n)) = s + (k - n + w.length) + 1 by omega,
        show e + n + (s + k + 1 - (e + n)) = s + k + 1 by omega] at this
      rw [this]
      exact h32)
  rw [hstep, hb0]
  congr 1
  split_ifs <;> omega

/-- The first turn of the loop on a buffer and on the buffer with a replacement. -/
theorem header_step_nc_first (g : loc_t → loc_t) (c : Int) (a b : packet_t) (e n j : Nat)
    (w : List Nat) (a2 : packet_t)
    (ha : a.current_line = ⟨0, 0⟩) (hb : b.current_line = ⟨0, 0⟩)
    (hm : a.method.len = 0) (hmb : b.method.len = 0)
    (hR : spans_rel g c a b)
    (hE : edited a.buf b.buf e n w)
    (hq : header_step_nc a 0 = Step.cont (a2, j))
    (hka : not_eol (rd a.buf.p 0) = true)
    (hed : editable a.buf.p e n) (hw1 : 1 ≤ w.length)
    (hnew : ∀ y, y < w.length → is_addr_char (rd w y) = true) :
    ∃ b2 jb, header_step_nc b 0 = Step.cont (b2, jb) ∧ spans_rel g c a2 b2
      ∧ a2.current_line = ⟨j, 0⟩ ∧ b2.current_line = ⟨(jb : Int), 0⟩
      ∧ a2.buf = a.buf ∧ b2.buf = b.buf ∧ a2.header = a.header ∧ b2.header = b.header
      ∧ 0 < j ∧ j ≤ a.buf.used
      ∧ (j ≤ e → jb = j) ∧ (e < j → e + n < j ∧ jb = j - n + w.length) := by
  have hE0 := hE
  obtain ⟨hEl, hEu, hE1, hE2, hE3⟩ := hE
  have hn1 : 1 ≤ n := by
    rcases hed.2 with ⟨h, _⟩ | ⟨h, _⟩ <;> omega
  have hce := hed.1
  rcases header_step_nc_cases a 0 (by omega) with e1 | e1 | ⟨h1, h2, h3, e1⟩
  · rw [e1] at hq; simp at hq
  · rw [e1] at hq; simp at hq
  · rw [e1] at hq
    have hall := count_while_all not_eol a.buf.p (a.buf.used - 0) 0
    generalize count_while not_eol a.buf.p (a.buf.used - 0) 0 = k at h1 h2 h3 e1 hq hall
    have hk0 : k ≠ 0 := by
      intro h; subst h; rw [Nat.add_zero, hka] at h2; exact absurd h2 (by decide)
    have hA1 : ({ a with current_line :=
        ⟨a.current_line.offs, a.current_line.len + (k : Int)⟩ } : packet_t)
        = { a with current_line := ⟨(0 : Int), (k : Int)⟩ } := by
      rw [ha]; simp
    rw [hA1, header_step_line_first { a with current_line := ⟨(0 : Int), (k : Int)⟩ } _
      (by simp; omega) rfl hm] at hq
    cases hfl : first_line { a with current_line := ⟨(0 : Int), (k : Int)⟩ } with
    | mk ok q =>
      rw [hfl] at hq
      cases ok with
      | false => simp at hq
      | true =>
        simp only [Step.cont.injEq, Prod.mk.injEq] at hq
        obtain ⟨hq1, hq2⟩ := hq
        obtain ⟨hk8, hreqa⟩ := first_line_ok { a with current_line := ⟨(0 : Int), (k : Int)⟩ }
          k q rfl hm hfl
        simp only at hreqa
        have hjk : 0 + k < j := by rw [← hq2]; split_ifs <;> omega
        have hju : j ≤ a.buf.used := by
          rw [← hq2]
          by_cases hcr : rd a.buf.p (0 + k) = CR
          · rw [if_pos hcr]; have := (h3 hcr).1; omega
          · rw [if_neg hcr]; omega
        -- what remains once the line of the other buffer is known
        have fin : ∀ kb jb : Nat,
            header_step_nc b 0
              = header_step_line { b with current_line :=
                  ⟨b.current_line.offs, b.current_line.len + (kb : Int)⟩ } jb →
            kb ≠ 0 →
            first_line { b with current_line := ⟨(0 : Int), (kb : Int)⟩ }
              = (true, { ({ b with current_line := ⟨(0 : Int), (kb : Int)⟩ } : packet_t) with
                          method := q.method }) →
            q = { ({ a with current_line := ⟨(0 : Int), (k : Int)⟩ } : packet_t) with
                    method := q.method } →
            ∃ b2, header_step_nc b 0 = Step.cont (b2, jb) ∧ spans_rel g c a2 b2
              ∧ a2.current_line = ⟨j, 0⟩ ∧ b2.current_line = ⟨(jb : Int), 0⟩
              ∧ a2.buf = a.buf ∧ b2.buf = b.buf ∧ a2.header = a.header
              ∧ b2.header = b.header := by
          intro kb jb hst hkb f1 f2
          have hB1 : ({ b with current_line :=
              ⟨b.current_line.offs, b.current_line.len + (kb : Int)⟩ } : packet_t)
              = { b with current_line := ⟨(0 : Int), (kb : Int)⟩ } := by
            rw [hb]; simp
          rw [hst, hB1, header_step_line_first { b with current_line := ⟨(0 : Int), (kb : Int)⟩ } _
            (by simp; omega) rfl hmb, f1]
          simp only
          refine ⟨_, rfl, ?_, ?_, rfl, ?_, rfl, ?_, rfl⟩
          · rw [← hq1, f2]
            exact spans_rel_method g c a b hR q.method _ _
          · rw [← hq1, hq2]
          · rw [← hq1, f2]
          · rw [← hq1, f2]
        by_cases hje : j ≤ e
        · -- the replacement lies behind the first line
          have hstep := header_step_nc_line b 0 k
            (by intro x hx; rw [hE1 _ (by omega)]; exact hall x hx)
            (by omega) (by rw [hE1 _ (by omega)]; exact h2)
            (by
              intro hcr
              rw [hE1 _ (by omega)] at hcr
              obtain ⟨h31, h32⟩ := h3 hcr
              rw [if_pos hcr] at hq2
              refine ⟨by omega, ?_⟩
              rw [hE1 _ (by omega)]
              exact h32)
          rw [hE1 (0 + k) (by omega), hq2] at hstep
          obtain ⟨f1, f2⟩ := first_line_rel { a with current_line := ⟨(0 : Int), (k : Int)⟩ }
            { b with current_line := ⟨(0 : Int), (k : Int)⟩ } k k q rfl rfl hm hmb hfl hk8
            (fun _ x hx => hE1 x (by omega))
            (fun hst =>
              ⟨fun x hx => hE1 x (by have := (hreqa hst).2.2.1; simp only at hx; omega),
               fun x hx => hE1 _ (by omega), (hreqa hst).2.2.1⟩)
          obtain ⟨b2, g1, g2, g3, g4, g5, g6, g7, g8⟩ := fin k j hstep hk0 f1 f2
          exact ⟨b2, j, g1, g2, g3, g4, g5, g6, g7, g8, by omega, hju, fun _ => rfl,
            fun h => absurd hje (by omega)⟩
        · -- the replacement lies in the first line
          have he_lt : e < 0 + k := by
            by_contra hc
            have h0 := is_addr_char_not_eol _ (hce 0 hn1)
            rw [Nat.add_zero] at h0
            by_cases hek : e = 0 + k
            · rw [hek, h2] at h0; exact absurd h0 (by decide)
            · by_cases hcr : rd a.buf.p (0 + k) = CR
              · rw [if_pos hcr] at hq2
                have : e = 0 + k + 1 := by omega
                rw [this, (h3 hcr).2] at h0
                exact absurd h0 (by decide)
              · rw [if_neg hcr] at hq2
                omega
          have hrange : e + n ≤ 0 + k := by
            by_contra hc
            have h0 := is_addr_char_not_eol _ (hce (0 + k - e) (by omega))
            rw [show e + (0 + k - e) = 0 + k by omega, h2] at h0
            exact absurd h0 (by decide)
          have hstep := header_step_nc_line_edited a b 0 e n k w hE0 hall h1 h2 h3 (by omega)
            hrange hnew
          rw [hq2] at hstep
          have hfirst : ∃ f1 : first_line { b with current_line :=
              ⟨(0 : Int), ((k - n + w.length : Nat) : Int)⟩ }
              = (true, { ({ b with current_line :=
                  ⟨(0 : Int), ((k - n + w.length : Nat) : Int)⟩ } : packet_t) with
                  method := q.method }),
              q = { ({ a with current_line := ⟨(0 : Int), (k : Int)⟩ } : packet_t) with
                    method := q.method } := by
            by_cases hst : strncasecmp_eq a.buf.p 0 (bytes "SIP/2.0 ") = true
            · have he8 := editable_status a.buf.p e n hst hed
              obtain ⟨f1, f2⟩ := first_line_rel { a with current_line := ⟨(0 : Int), (k : Int)⟩ }
                { b with current_line := ⟨(0 : Int), ((k - n + w.length : Nat) : Int)⟩ }
                k (k - n + w.length) q rfl rfl hm hmb hfl (by omega)
                (fun _ x hx => hE1 x (by omega))
                (fun h => by simp only at h hst; rw [hst] at h; exact absurd h (by decide))
              exact ⟨f1, f2⟩
            · rw [Bool.not_eq_true] at hst
              obtain ⟨s1, s2, s3, s4⟩ := hreqa hst
              have hsuf := editable_request a.buf.p e n k (by omega) s1 hed (by omega)
              have hme : count_while is_alpha a.buf.p k 0 < e := by
                by_contra hc
                have h0 := hce 0 hn1
                rw [Nat.add_zero] at h0
                by_cases c1 : e = count_while is_alpha a.buf.p k 0
                · rw [c1, s4] at h0; revert h0; decide
                · have := count_while_all is_alpha a.buf.p k 0 e (by omega)
                  rw [Nat.zero_add, is_addr_char_not_alpha _ h0] at this
                  exact absurd this (by decide)
              obtain ⟨f1, f2⟩ := first_line_rel { a with current_line := ⟨(0 : Int), (k : Int)⟩ }
                { b with current_line := ⟨(0 : Int), ((k - n + w.length : Nat) : Int)⟩ }
                k (k - n + w.length) q rfl rfl hm hmb hfl (by omega)
                (fun h => by simp only at h hst; rw [hst] at h; exact absurd h (by decide))
                (fun _ => ⟨fun x hx => hE1 x (by simp only at hx; omega),
                  fun x hx => by
                    have := hE3 (k - 8 + x - (e + n)) (by omega)
                    rw [show e + w.length + (k - 8 + x - (e + n)) = k - n + w.length - 8 + x
                      by omega, show e + n + (k - 8 + x - (e + n)) = k - 8 + x by omega] at this
                    exact this,
                  by simp only; omega⟩)
              exact ⟨f1, f2⟩
          obtain ⟨f1, f2⟩ := hfirst
          obtain ⟨b2, g1, g2, g3, g4, g5, g6, g7, g8⟩ := fin (k - n + w.length) (j - n + w.length)
            hstep (by omega) f1 f2
          exact ⟨b2, j - n + w.length, g1, g2, g3, g4, g5, g6, g7, g8, by omega, hju,
            fun h => absurd h hje, fun _ => ⟨by omega, rfl⟩⟩

/-! ### The header loop on a buffer and on the buffer with a replacement -/

theorem header_step_nc_done_line (a : packet_t) (s : Nat) (r : packet_t)
    (ha : a.current_line = ⟨s, 0⟩) (hu : s ≤ a.buf.used)
    (hq : header_step_nc a s = Step.done (Res.ret 1 r)) (hhdr : r.header ≠ a.header) :
    not_eol (rd a.buf.p s) = false
    ∧ r.header.len ≤ (s : Int) + 2
    ∧ (r.header.len = (s : Int) + 2 → rd a.buf.p (s + 1) = LF) := by
  rcases header_step_nc_cases a s hu with e | e | ⟨h1, h2, h3, e⟩
  · rw [e] at hq
    simp only [Step.done.injEq, Res.ret.injEq, true_and] at hq
    subst hq
    exact absurd rfl hhdr
  · rw [e] at hq; simp at hq
  · rw [e] at hq
    generalize count_while not_eol a.buf.p (a.buf.used - s) s = k at h1 h2 h3 e hq
    simp only [ha, zero_add] at hq
    obtain ⟨d1, d2, d3, d4, d5, d6, d7⟩ := header_step_line_done _ _ _ hq
    simp only at d1
    have hk0 : k = 0 := by exact_mod_cast d1
    subst hk0
    rw [Nat.add_zero] at h2 h3
    rw [d7]
    simp only [Nat.add_zero]
    refine ⟨h2, ?_, ?_⟩
    · split_ifs <;> push_cast <;> omega
    · intro h
      by_cases hcr : rd a.buf.p s = CR
      · exact (h3 hcr).2
      · rw [if_neg hcr] at h; push_cast at h; omega

/-- Parsing from a line at or before the replacement (not the first line). -/
theorem header_loop_nc_edit_from (c : Int) (f : Nat) (a b : packet_t) (s e n : Nat)
    (w : List Nat) (r : packet_t)
    (ha : a.current_line = ⟨s, 0⟩) (hb : b.current_line = ⟨s, 0⟩) (hs : 0 < s) (hse : s ≤ e)
    (hR : spans_rel (loc_shift e ((w.length : Int) - n)) c a b)
    (hE : edited a.buf b.buf e n w)
    (hq : header_loop_nc f a s = Res.ret 1 r) (hhdr : r.header ≠ a.header)
    (hen : (e : Int) + n ≤ r.header.len)
    (hed : editable a.buf.p e n) (hw1 : 1 ≤ w.length)
    (hnew : ∀ y, y < w.length → is_addr_char (rd w y) = true) :
    ∃ (a2 b2 : packet_t) (j : Nat), spans_rel (loc_shift e ((w.length : Int) - n)) c a2 b2
      ∧ e + n < j ∧ j ≤ a.buf.used ∧ a2.buf = a.buf ∧ b2.buf = b.buf
      ∧ r = { a2 with header := ⟨j⟩,
                      status := if a2.buf.used ≥ u32 ((j : Int) + a2.data.len) then PACKET_READY
                                else a2.status }
      ∧ header_loop_nc f b s
          = Res.ret 1 { b2 with
              header := ⟨((j - n + w.length : Nat) : Int)⟩,
              status := if b2.buf.used ≥ u32 (((j - n + w.length : Nat) : Int) + b2.data.len)
                        then PACKET_READY else b2.status } := by
  have hn1 : 1 ≤ n := by
    rcases hed.2 with ⟨h, _⟩ | ⟨h, _⟩ <;> omega
  induction f generalizing a b s with
  | zero => simp [header_loop_nc] at hq
  | succ m ih =>
    have hE0 := hE
    obtain ⟨hEl, hEu, hE1, hE2, hE3⟩ := hE
    unfold header_loop_nc at hq ⊢
    cases hst : header_step_nc a s with
    | done res =>
      exfalso
      rw [hst] at hq
      simp only at hq
      subst hq
      obtain ⟨x1, x2, x3⟩ := header_step_nc_done_line a s r ha (by omega) hst hhdr
      have h0 := is_addr_char_not_eol _ (hed.1 0 hn1)
      rw [Nat.add_zero] at h0
      by_cases hes : e = s
      · rw [hes, x1] at h0; exact absurd h0 (by decide)
      · have : e = s + 1 := by omega
        rw [this, x3 (by omega)] at h0
        exact absurd h0 (by decide)
    | cont x =>
      obtain ⟨a1, j1⟩ := x
      rw [hst] at hq
      simp only at hq
      obtain ⟨c1, c2, c3, c4, c5⟩ := header_step_nc_cont_facts a s j1 a1 ha hs (by omega) hst
      have hgt := header_loop_nc_header_gt m a1 j1 r c1 (by omega) (by rw [c4]; exact c3) hq
        (by rw [c5]; exact hhdr)
      by_cases hje : j1 ≤ e
      · obtain ⟨b1, e1, hR1, d1, d2, d3, d4, d5, d6, d7⟩ := header_step_nc_rel_cont
          (loc_shift e ((w.length : Int) - n)) c a b s s e j1 a1 ha hb hs hs hR hst hse hje
          (by omega) (by omega) (fun x hx => hE1 _ hx)
          (fun len k h1 h2 => loc_shift_before e _ s k len h1 h2)
        rw [show j1 - s + s = j1 by omega] at e1 d2
        rw [e1]
        simp only
        obtain ⟨a2, b2, j, k1, k2, k3, k4, k5, k6, k7⟩ := ih a1 b1 j1 d1 d2 (by omega) hje hR1
          (by rw [d3, d4]; exact hE0) hq (by rw [d5]; exact hhdr)
          (by rw [d3]; exact hed)
        exact ⟨a2, b2, j, k1, k2, by rw [← d3]; exact k3, by rw [k4, d3], by rw [k5, d4], k6, k7⟩
      · obtain ⟨b1, e1, hR1, d1, d2, d3, d4, d5, d6, d7⟩ := header_step_nc_edit c a b s e n j1 w
          a1 ha hb hs hR hE0 hst hse (by omega) hed hw1 hnew
        rw [e1]
        simp only
        obtain ⟨a2, b2, j, k1, k2, k3, k4, k5, k6, k7⟩ := header_loop_nc_rel
          (loc_shift e ((w.length : Int) - n)) c m a1 b1 j1 (j1 - n + w.length) a.buf.used r
          d1 d2 (by omega) (by omega) hR1 hq (by rw [d5]; exact hhdr)
          (by have := hgt.2; rw [c4] at this; exact this) (by omega) (by rw [d3])
          (by rw [d4]; omega)
          (fun x hx => by
            have := hE3 (j1 + x - (e + n)) (by omega)
            rw [show e + w.length + (j1 + x - (e + n)) = j1 - n + w.length + x by omega,
              show e + n + (j1 + x - (e + n)) = j1 + x by omega] at this
            rw [d3, d4]
            exact this)
          (fun t len k h1 h2 h3 => by
            rw [loc_shift_after e _ _ _ (by push_cast; omega)]
            congr 1
            push_cast [Nat.cast_sub (show j1 ≤ t from h1), Nat.cast_sub (show n ≤ j1 by omega)]
            ring)
        refine ⟨a2, b2, j, k1, by omega, k3, by rw [k4, d3], by rw [k5, d4], k6, ?_⟩
        rw [k7, show j - j1 + (j1 - n + w.length) = j - n + w.length by omega]

theorem spans_rel_start (e : Nat) (d : Int) (ba bb : buf_t) :
    spans_rel (loc_shift e d) 0 (start ba) (start bb) := by
  have h0 : loc_shift (e : Int) d ⟨0, 0⟩ = ⟨0, 0⟩ := by
    unfold loc_shift
    simp only
    rw [if_neg (by omega), if_neg (by omega)]
  unfold spans_rel start packet_zero
  simp only [h0, add_zero, true_and, and_self, implies_true]

/-- Parsing a buffer and the buffer with a replacement inside the header: when
the first parse completes the header, so does the second, and its spans are
those of the first, adjusted as `loc_adjust` adjusts them. -/
theorem header_loop_nc_edit (f : Nat) (ba bb : buf_t) (e n : Nat) (w : List Nat) (r : packet_t)
    (hE : edited ba bb e n w)
    (hq : header_loop_nc f (start ba) 0 = Res.ret 1 r) (hhdr : r.header.len ≠ 0)
    (hka : not_eol (rd ba.p 0) = true)
    (hen : (e : Int) + n ≤ r.header.len)
    (hed : editable ba.p e n) (hw1 : 1 ≤ w.length)
    (hnew : ∀ y, y < w.length → is_addr_char (rd w y) = true) :
    ∃ (a2 b2 : packet_t) (j : Nat), spans_rel (loc_shift e ((w.length : Int) - n)) 0 a2 b2
      ∧ e + n < j ∧ j ≤ ba.used ∧ a2.buf = ba ∧ b2.buf = bb
      ∧ r = { a2 with header := ⟨j⟩,
                      status := if a2.buf.used ≥ u32 ((j : Int) + a2.data.len) then PACKET_READY
                                else a2.status }
      ∧ header_loop_nc f (start bb) 0
          = Res.ret 1 { b2 with
              header := ⟨((j - n + w.length : Nat) : Int)⟩,
              status := if b2.buf.used ≥ u32 (((j - n + w.length : Nat) : Int) + b2.data.len)
                        then PACKET_READY else b2.status } := by
  have hn1 : 1 ≤ n := by
    rcases hed.2 with ⟨h, _⟩ | ⟨h, _⟩ <;> omega
  have hhdr2 : r.header ≠ (start ba).header := by
    intro h; apply hhdr; rw [h]; rfl
  cases f with
  | zero => simp [header_loop_nc] at hq
  | succ m =>
    have hE0 := hE
    obtain ⟨hEl, hEu, hE1, hE2, hE3⟩ := hE
    unfold header_loop_nc at hq ⊢
    cases hst : header_step_nc (start ba) 0 with
    | done res =>
      exfalso
      rw [hst] at hq
      simp only at hq
      subst hq
      rcases header_step_nc_cases (start ba) 0 (Nat.zero_le _) with e1 | e1 | ⟨h1, h2, h3, e1⟩
      · rw [e1] at hst
        simp only [Step.done.injEq, Res.ret.injEq, true_and] at hst
        apply hhdr; rw [← hst]; rfl
      · rw [e1] at hst; simp at hst
      · rw [e1] at hst
        obtain ⟨d1, d2, _⟩ := header_step_line_done _ _ _ hst
        exact d2 rfl
    | cont x =>
      obtain ⟨a1, j1⟩ := x
      rw [hst] at hq
      simp only at hq
      obtain ⟨b1, jb, e1, hR1, d1, d2, d3, d4, d5, d6, d7, d8, d9, d10⟩ := header_step_nc_first
        (loc_shift e ((w.length : Int) - n)) 0 (start ba) (start bb) e n j1 w a1 rfl rfl rfl rfl
        (spans_rel_start e _ ba bb) hE0 hst hka hed hw1 hnew
      have hb1 : a1.buf = ba := d3
      have hb2 : b1.buf = bb := d4
      rw [e1]
      simp only
      have hgt := header_loop_nc_header_gt m a1 j1 r d1 d7 (by rw [hb1]; exact d8) hq
        (by rw [d5]; exact hhdr2)
      by_cases hje : j1 ≤ e
      · rw [d9 hje] at d2 ⊢
        obtain ⟨a2, b2, j, k1, k2, k3, k4, k5, k6, k7⟩ := header_loop_nc_edit_from 0 m a1 b1 j1
          e n w r d1 d2 d7 hje hR1 (by rw [hb1, hb2]; exact hE0) hq (by rw [d5]; exact hhdr2) hen
          (by rw [hb1]; exact hed) hw1 hnew
        exact ⟨a2, b2, j, k1, k2, by rw [← hb1]; exact k3, by rw [k4, hb1], by rw [k5, hb2],
          k6, k7⟩
      · obtain ⟨d11, d12⟩ := d10 (by omega)
        rw [d12] at d2 ⊢
        have hj1u : j1 ≤ ba.used := d8
        obtain ⟨a2, b2, j, k1, k2, k3, k4, k5, k6, k7⟩ := header_loop_nc_rel
          (loc_shift e ((w.length : Int) - n)) 0 m a1 b1 j1 (j1 - n + w.length) ba.used r
          d1 d2 d7 (by omega) hR1 hq (by rw [d5]; exact hhdr2)
          (by have := hgt.2; rw [hb1] at this; exact this) (by omega) (by rw [hb1])
          (by rw [hb2]; omega)
          (fun x hx => by
            have := hE3 (j1 + x - (e + n)) (by omega)
            rw [show e + w.length + (j1 + x - (e + n)) = j1 - n + w.length + x by omega,
              show e + n + (j1 + x - (e + n)) = j1 + x by omega] at this
            rw [hb1, hb2]
            exact this)
          (fun t len k h1 h2 h3 => by
            rw [loc_shift_after e _ _ _ (by push_cast; omega)]
            congr 1
            push_cast [Nat.cast_sub (show j1 ≤ t from h1), Nat.cast_sub (show n ≤ j1 by omega)]
            ring)
        refine ⟨a2, b2, j, k1, by omega, k3, by rw [k4, hb1], by rw [k5, hb2], k6, ?_⟩
        rw [k7, show j - j1 + (j1 - n + w.length) = j - n + w.length by omega]

/-! ## What the scanners accept -/

/-- C11 (code defect): in the window `300.1.2.3.4`, `addr_find` reports the
dotted quad `1.2.3.4` at offset 4, which is immediately preceded by a dot:
after the rejected candidate `300`, the scan goes on behind the byte that
stopped `is_addr`, and `is_addr` never looks at the byte before a candidate. -/
theorem addr_find_after_dot :
    addr_find dotted_packet ⟨0, 0, 11⟩ = some (4, 7)
    ∧ view_from dotted_packet ⟨0, 0, 11⟩ 4 = bytes "1.2.3.4"
    ∧ rd dotted_packet.buf.p 3 = DOT := by
  decide!

/-- C14 (code defect): the Via value of `rport_message` is
`SIP/2.0/UDP h;rport=70000;rport=5060`.  `modify_via_rport` with the port text
40000 returns success and leaves the packet as it is, although the value 5060
of the second rport parameter is a valid port literal: the skip behind the
rejected value 70000 swallows the semicolon of the next parameter. -/
theorem modify_via_rport_misses_second :
    next_packet packet_zero rport_message = Res.ret 1 rport_packet
    ∧ (rport_packet.buf.p.drop 28).take 36 = bytes "SIP/2.0/UDP h;rport=70000;rport=5060"
    ∧ rport_packet.via = ⟨28, 36⟩
    ∧ is_port (bytes "5060") = (true, 4)
    ∧ modify_via_rport rport_packet ⟨bytes "9.9.9.9", bytes "40000"⟩ = Res.ret 1 rport_packet := by
  decide!

/-- C12 (counterexample): behind the address `1.2.3.4` the window holds
`:0123`, a run of 4 digits with the value 123 that no digit follows;
`port_find` reports no port, because `is_port` rejects a leading `0`. -/
theorem port_find_leading_zero :
    addr_find zero_port_packet ⟨0, 0, 12⟩ = some (0, 7)
    ∧ rd zero_port_packet.buf.p 7 = COLON
    ∧ port_literal_claimed (view_from zero_port_packet ⟨0, 0, 12⟩ 8) 4 = true
    ∧ port_find zero_port_packet ⟨0, 0, 12⟩ 0 7 = none := by
  decide!

/-! ## The port literals that `is_port` accepts -/

theorem is_digit_iff (c : Nat) : is_digit c = true ↔ 48 ≤ c ∧ c ≤ 57 := by
  simp [is_digit]

theorem take_all_iff (f : Nat → Bool) (s : List Nat) (n : Nat) (hn : n ≤ s.length) :
    (s.take n).all f = true ↔ ∀ k, k < n → f (rd s k) = true := by
  rw [List.all_eq_true]
  constructor
  · intro h k hk
    apply h
    have hk2 : k < (s.take n).length := by simp; omega
    have : rd s k = (s.take n)[k] := by
      simp [rd, List.getD_eq_getElem?_getD, List.getElem?_eq_getElem (show k < s.length by omega)]
    rw [this]
    exact List.getElem_mem hk2
  · intro h x hx
    obtain ⟨k, hk, rfl⟩ := List.getElem_of_mem hx
    have hk2 : k < n := by simp at hk; omega
    have : (s.take n)[k] = rd s k := by
      simp [rd, List.getD_eq_getElem?_getD, List.getElem?_eq_getElem (show k < s.length by omega)]
    rw [this]
    exact h k hk2

theorem drop_take_cons (s : List Nat) (pl m : Nat) (h : pl < s.length) :
    (s.drop pl).take (m + 1) = rd s pl :: (s.drop (pl + 1)).take m := by
  rw [List.drop_eq_getElem_cons h, List.take_succ_cons]
  simp [rd, List.getD_eq_getElem?_getD, List.getElem?_eq_getElem h]

/-- The loop of `is_port` entered with a value that is not 0 takes all the
digits that follow. -/
theorem is_port_loop_run (s : List Nat) (f pl pv : Nat) (hpv : 0 < pv) (hf : s.length ≤ pl + f)
    (hpl : pl ≤ s.length) :
    pl ≤ (is_port_loop s f pl pv).1 ∧ (is_port_loop s f pl pv).1 ≤ s.length
    ∧ (∀ k, pl ≤ k → k < (is_port_loop s f pl pv).1 → is_digit (rd s k) = true)
    ∧ ((is_port_loop s f pl pv).1 < s.length
        → is_digit (rd s (is_port_loop s f pl pv).1) = false)
    ∧ 0 < (is_port_loop s f pl pv).2
    ∧ (is_port_loop s f pl pv).2
        = ((s.drop pl).take ((is_port_loop s f pl pv).1 - pl)).foldl
            (fun v c => v * 10 + (c - 48)) pv := by
  induction f generalizing pl pv with
  | zero =>
    have : pl = s.length := by omega
    subst this
    simp only [is_port_loop]
    exact ⟨le_refl _, le_refl _, fun k a b => by omega, fun h => by omega, hpv, by simp⟩
  | succ f ih =>
    unfold is_port_loop
    by_cases h1 : pl < s.length
    · rw [if_pos h1]
      by_cases h2 : (pv = 0 ∧ 49 ≤ rd s pl ∧ rd s pl ≤ 57) ∨ (pv ≠ 0 ∧ 48 ≤ rd s pl ∧ rd s pl ≤ 57)
      · rw [if_pos h2]
        have hd : 48 ≤ rd s pl ∧ rd s pl ≤ 57 := by omega
        obtain ⟨i1, i2, i3, i4, i5, i6⟩ := ih (pl + 1) (pv * 10 + rd s pl - 48) (by omega)
          (by omega) (by omega)
        refine ⟨by omega, i2, ?_, i4, i5, ?_⟩
        · intro k hk1 hk2
          by_cases hk : k = pl
          · subst hk; exact (is_digit_iff _).2 hd
          · exact i3 k (by omega) hk2
        · rw [i6]
          have e : (is_port_loop s f (pl + 1) (pv * 10 + rd s pl - 48)).1 - pl
              = ((is_port_loop s f (pl + 1) (pv * 10 + rd s pl - 48)).1 - (pl + 1)) + 1 := by
            omega
          rw [e, drop_take_cons s pl _ h1, List.foldl_cons]
          congr 1
          omega
      · rw [if_neg h2]
        refine ⟨le_refl _, hpl, fun k a b => by omega, fun _ => ?_, hpv, by simp⟩
        cases hdg : is_digit (rd s pl) with
        | false => rfl
        | true =>
          have := (is_digit_iff _).1 hdg
          exact absurd (Or.inr ⟨by omega, this⟩) h2
    · rw [if_neg h1]
      have : pl = s.length := by omega
      subst this
      exact ⟨le_refl _, le_refl _, fun k a b => by omega, fun h => by omega, hpv, by simp⟩

theorem is_port_loop_first (s : List Nat) (f : Nat) :
    is_port_loop s (f + 1) 0 0
      = if 0 < s.length ∧ 49 ≤ rd s 0 ∧ rd s 0 ≤ 57 then is_port_loop s f 1 (rd s 0 - 48)
        else (0, 0) := by
  simp only [is_port_loop]
  by_cases h1 : 0 < s.length <;> by_cases h0 : 49 ≤ rd s 0 ∧ rd s 0 ≤ 57 <;> simp [h1, h0]

/-- The function `is_port` accepts `n` bytes exactly when the bytes start
with a run of `n` digits, 1 to 5 of them, that does not start with `0`, has a
value of at most 65535, and is not followed by a digit. -/
theorem is_port_iff (s : List Nat) (n : Nat) :
    is_port s = (true, n) ↔ port_literal s n = true := by
  unfold is_port port_literal digit_run
  simp only [Bool.and_eq_true, decide_eq_true_eq, Bool.not_eq_true', Bool.and_eq_false_imp]
  by_cases hs : s.length = 0
  · rw [hs]
    simp only [is_port_loop]
    constructor
    · intro h; simp at h
    · rintro ⟨⟨⟨⟨⟨⟨n1, n2⟩, n3⟩, n4⟩, n5⟩, n6⟩, n7⟩; omega
  · have hfuel : is_port_loop s s.length 0 0 = is_port_loop s ((s.length - 1) + 1) 0 0 := by
      congr 1; omega
    by_cases h0 : 49 ≤ rd s 0 ∧ rd s 0 ≤ 57
    · have hloop : is_port_loop s s.length 0 0
          = is_port_loop s (s.length - 1) 1 (rd s 0 - 48) := by
        rw [hfuel, is_port_loop_first, if_pos ⟨by omega, h0⟩]
      rw [hloop]
      obtain ⟨i1, i2, i3, i4, i5, i6⟩ := is_port_loop_run s (s.length - 1) 1 (rd s 0 - 48)
        (by omega) (by omega) (by omega)
      generalize is_port_loop s (s.length - 1) 1 (rd s 0 - 48) = r at i1 i2 i3 i4 i5 i6
      obtain ⟨pl, pv⟩ := r
      simp only at i1 i2 i3 i4 i5 i6 ⊢
      have hval : digits_value (s.take pl) = pv := by
        unfold digits_value
        have e : s.take pl = (s.drop 0).take ((pl - 1) + 1) := by
          simp; congr 1; omega
        rw [e, drop_take_cons s 0 _ (by omega), List.foldl_cons, i6]
        congr 1
        omega
      have hall : ∀ k, k < pl → is_digit (rd s k) = true := by
        intro k hk
        by_cases hk0 : k = 0
        · subst hk0; exact (is_digit_iff _).2 (by omega)
        · exact i3 k (by omega) hk
      constructor
      · intro h
        split at h
        · rename_i hc
          simp only [Prod.mk.injEq, true_and] at h
          subst h
          obtain ⟨c1, c2, c3, c4⟩ := hc
          refine ⟨⟨⟨⟨⟨⟨by omega, c2⟩, by omega⟩, ?_⟩, ?_⟩, by omega⟩, ?_⟩
          · exact (take_all_iff is_digit s pl (by omega)).2 hall
          · intro hlt
            exact i4 (by omega)
          · rw [hval]; omega
        · simp at h
      · rintro ⟨⟨⟨⟨⟨⟨n1, n2⟩, n3⟩, n4⟩, n5⟩, n6⟩, n7⟩
        have n4b := (take_all_iff is_digit s n (by omega)).1 n4
        have hn : n = pl := by
          by_contra hne
          rcases Nat.lt_or_gt_of_ne hne with hlt | hgt
          · have a1 := i3 n (by omega) hlt
            have a2 := n5 (by omega)
            rw [a1] at a2; simp at a2
          · have a1 := n4b pl hgt
            have a2 := i4 (by omega)
            rw [a1] at a2; simp at a2
        subst hn
        rw [hval] at n7
        rw [if_pos ⟨by omega, n2, i5, by omega⟩]
    · have hloop : is_port_loop s s.length 0 0 = (0, 0) := by
        rw [hfuel, is_port_loop_first, if_neg (fun h => h0 h.2)]
      rw [hloop]
      simp only [Nat.lt_irrefl, gt_iff_lt, false_and, ↓reduceIte]
      constructor
      · intro h; simp at h
      · rintro ⟨⟨⟨⟨⟨⟨n1, n2⟩, n3⟩, n4⟩, n5⟩, n6⟩, n7⟩
        have n4b := (take_all_iff is_digit s n (by omega)).1 n4 0 (by omega)
        have := (is_digit_iff _).1 n4b
        omega

/-- C12 (amended): `port_find` behind the address at `addr_i` of length
`addr_l` reports the offset `j` and the length `n` exactly when
`j = addr_i + addr_l + 1`, the byte right after the address lies in the window
and is a colon, and the bytes of the window from `j` on start with a run of
`n` decimal digits, 1 to 5 of them, that does not begin with `0`, has a value
of at most 65535 and is not followed by another digit in the window.  In all
other cases it reports none. -/
theorem port_find_spec (packet : packet_t) (data : data_t) (addr_i addr_l j n : Nat) :
    port_find packet data addr_i addr_l = some (j, n)
      ↔ (j = addr_i + addr_l + 1 ∧ addr_i + addr_l < data.l
          ∧ rd packet.buf.p (data.p + (addr_i + addr_l)) = COLON
          ∧ port_literal (view_from packet data j) n = true) := by
  unfold port_find
  simp only
  constructor
  · intro h
    split at h
    · rename_i hc
      split at h
      · split at h
        · rename_i pl hip
          simp only [Option.some.injEq, Prod.mk.injEq] at h
          obtain ⟨h1, h2⟩ := h
          subst h1 h2
          exact ⟨rfl, hc.1, hc.2, (is_port_iff _ _).1 hip⟩
        · simp at h
      · simp at h
    · simp at h
  · rintro ⟨h1, h2, h3, h4⟩
    subst h1
    have hp := (is_port_iff _ _).2 h4
    have hb := is_port_true_bounds _ _ hp
    have hv := view_from_length packet data (addr_i + addr_l + 1)
    rw [if_pos ⟨h2, h3⟩, if_pos (by omega), hp]

/-! ## The header loop on buffers that hold the same bytes, all outcomes -/

theorem header_loop_view_congr (f : Nat) (a : packet_t) (b : buf_t) (i : Nat)
    (hext : buf_ext a.buf b []) (hinv : line_inv a i) (hi : i ≤ a.buf.used) :
    res_view (header_loop f (with_buf a b) i) = res_view (header_loop f a i) := by
  induction f generalizing a b i with
  | zero => rfl
  | succ f ih =>
    rw [header_loop, header_loop]
    have hs := header_step_ext a b [] i hext hinv hi
    have hbu := buf_ext_used hext
    revert hs
    cases header_step a i with
    | cont st =>
      obtain ⟨a1, i1⟩ := st
      intro hs
      obtain ⟨b1, h1, h2, h3, h4, _⟩ := hs
      rw [h1]
      exact ih a1 b1 i1 h2 h3 h4
    | done r =>
      intro hs
      cases r with
      | ret c qa =>
        simp only at hs ⊢
        rcases hs with ⟨h1, qb1, h2, h2b, h3⟩ | ⟨h1, a1, i2, _, hbuf, _, h4, h5⟩
            | ⟨h1, k, h2, _, _, _, h6⟩
        · subst h1
          rw [h2, h3 (by trivial)]
          simp only [res_view]
          rw [view_with_buf _ b (by rw [h2b]; exact hext)]
        · subst h1
          rw [h5, h4]
          have e : b.used = a.buf.used := by simp at hbu; exact hbu
          rw [e]
          simp only [res_view]
          rw [view_with_buf _ b (by simp only [hbuf]; exact hext)]
        · subst h1
          rw [h6 (by trivial)]
          simp only [res_view]
          rw [view_with_buf _ b (by rw [h2]; exact hext)]
      | abort =>
        simp only at hs
        rw [hs]
      | nofuel => exact absurd hs (by simp)

/-- The header loop started on two buffers that hold the same bytes in use,
with enough fuel on both sides, ends with the same view. -/
theorem header_loop_start_view (f1 f2 : Nat) (b1 b2 : buf_t)
    (h1 : b1.used ≤ b1.p.length) (h2 : b2.used ≤ b2.p.length)
    (hc : b2.p.take b2.used = b1.p.take b1.used)
    (hf1 : b1.used < f1) (hf2 : b2.used < f2) :
    res_view (header_loop f2 (start b2) 0) = res_view (header_loop f1 (start b1) 0) := by
  have hext : buf_ext (start b1).buf b2 [] := ⟨h1, h2, by simpa [start] using hc⟩
  have hu := buf_ext_used hext
  simp only [start, List.length_nil, Nat.add_zero] at hu
  have hinv : line_inv (start b1) 0 := by simp [line_inv, start, packet_zero]
  have e : start b2 = with_buf (start b1) b2 := rfl
  rw [e, header_loop_view_congr f2 (start b1) b2 0 hext hinv (Nat.zero_le _)]
  have n1 : header_loop f1 (start b1) 0 ≠ Res.nofuel :=
    header_loop_fuel_enough f1 (start b1) 0 h1 hinv (Nat.zero_le _) (by simpa [start] using hf1)
  have n2 : header_loop f2 (start b1) 0 ≠ Res.nofuel :=
    header_loop_fuel_enough f2 (start b1) 0 h1 hinv (Nat.zero_le _)
      (by simp only [start]; omega)
  by_cases hle : f1 ≤ f2
  · rw [header_loop_fuel_le f1 f2 _ _ hle n1]
  · rw [header_loop_fuel_le f2 f1 _ _ (by omega) n2]

/-! ## `next_packet` on a packet that is Ready -/

/-- A call of `next_packet` on a Ready packet is a call on the packet from
which the message has been dropped. -/
theorem next_packet_dropped (q : packet_t) (c : List Nat)
    (hl : q.status = PACKET_READY → u32 (q.header.len + q.data.len) ≤ q.buf.used) :
    next_packet q c = next_packet (dropped q) c := by
  unfold dropped
  by_cases hst : q.status = PACKET_READY
  · rw [if_pos hst]
    have e : (reset_packet (with_buf { q with status := PACKET_INCOMPLETE }
        (shift_buf q.buf (u32 (q.header.len + q.data.len))))).status ≠ PACKET_READY := by
      simp [reset_packet, with_buf]
    unfold next_packet
    rw [if_pos hst, if_pos (hl hst), if_neg e]
    rfl
  · rw [if_neg hst]

theorem dropped_not_ready (q : packet_t) : (dropped q).status ≠ PACKET_READY := by
  unfold dropped
  by_cases hst : q.status = PACKET_READY
  · rw [if_pos hst]; simp [reset_packet, with_buf]
  · rw [if_neg hst]; exact hst

theorem dropped_content (q : packet_t) (hb : q.buf.used ≤ q.buf.p.length)
    (hl : q.status = PACKET_READY → u32 (q.header.len + q.data.len) ≤ q.buf.used) :
    (dropped q).buf.used ≤ (dropped q).buf.p.length
    ∧ content (dropped q)
        = (content q).drop (if q.status = PACKET_READY then u32 (q.header.len + q.data.len)
                            else 0) := by
  unfold dropped
  by_cases hst : q.status = PACKET_READY
  · simp only [if_pos hst]
    obtain ⟨s1, s2⟩ := shift_buf_content q.buf _ (hl hst) hb
    exact ⟨s2, s1⟩
  · simp only [if_neg hst]
    exact ⟨hb, by simp⟩

/-- C18: a chunk that would bring the buffered length (after a message that
was Ready has been dropped) above 12288 bytes makes `next_packet` return
failure with status Error, and the buffer is the one without the chunk; a
chunk that brings it to at most 12288 bytes, so also to exactly 12288, is
appended, and the call goes on with the header loop or the test of the body
length.  The buffer memory holds the bytes in use, a Ready packet holds its
message, and the sum of the lengths is in the range of `uint32_t`, as it is
for every chunk that the callers pass (`sfd_receive` and `udp_receive` take a
`uint16_t` size). -/
theorem next_packet_size_limit (q : packet_t) (c : List Nat)
    (hb : q.buf.used ≤ q.buf.p.length)
    (hl : q.status = PACKET_READY → u32 (q.header.len + q.data.len) ≤ q.buf.used)
    (h32 : (dropped q).buf.used + c.length < 4294967296) :
    (2 * SIP_MAX_LEN < (dropped q).buf.used + c.length →
      next_packet q c = Res.ret 0 { dropped q with status := PACKET_ERROR })
    ∧ ((dropped q).buf.used + c.length ≤ 2 * SIP_MAX_LEN →
      ∃ b2, b2.used = (dropped q).buf.used + c.length
        ∧ b2.p.take b2.used = content (dropped q) ++ c
        ∧ next_packet q c
          = if (dropped q).header.len = 0 then
              header_loop (b2.used + 1)
                (with_buf { dropped q with status := PACKET_INCOMPLETE } b2)
                (u32 ((dropped q).current_line.offs + (dropped q).current_line.len))
            else if b2.used ≥ u32 ((dropped q).header.len + (dropped q).data.len) then
              Res.ret 1 (with_buf { dropped q with status := PACKET_READY } b2)
            else Res.ret 1 (with_buf { dropped q with status := PACKET_INCOMPLETE } b2)) := by
  rw [next_packet_dropped q c hl]
  refine ⟨fun h => ?_, fun h => ?_⟩
  · exact next_packet_too_large (dropped q) c (dropped_not_ready q) h32 h
  · obtain ⟨b2, e1, e2⟩ := next_packet_not_ready (dropped q) c (dropped_not_ready q)
      (dropped_content q hb hl).1 h
    exact ⟨b2, buf_ext_used e1, e1.2.2, e2⟩

/-- C18 (witness): 12289 bytes fed to a fresh packet. -/
theorem next_packet_size_limit_witness :
    next_packet packet_zero (List.replicate 12289 0)
      = Res.ret 0 { dropped packet_zero with status := PACKET_ERROR } :=
  (next_packet_size_limit packet_zero (List.replicate 12289 0) (Nat.le_refl 0)
    (fun h => absurd h (by decide))
    (by rw [List.length_replicate]; decide)).1 (by rw [List.length_replicate]; decide)

/-! ## `next_packet` fed with one line in the middle of a header -/

theorem rd_append_right (p q : List Nat) (x : Nat) : rd (p ++ q) (p.length + x) = rd q x := by
  unfold rd
  simp [List.getD_eq_getElem?_getD, List.getElem?_append_right]

/-- The bytes that a chunk adds to the buffer. -/
theorem buf_ext_rd_new {a b : buf_t} {c : List Nat} (h : buf_ext a b c) (x : Nat)
    (hx : x < c.length) : rd b.p (a.used + x) = rd c x := by
  have hu := buf_ext_used h
  obtain ⟨h1, h2, h3⟩ := h
  rw [← rd_take b.p b.used (a.used + x) (by omega), h3]
  have hl : (a.p.take a.used).length = a.used := by simp; omega
  have e := rd_append_right (a.p.take a.used) c x
  rw [hl] at e
  exact e

/-- The header loop entered at the end of the bytes in use returns success. -/
theorem header_loop_at_end (f : Nat) (p : packet_t)
    (hl : p.current_line.len ≤ SIP_MAX_LEN) :
    header_loop (f + 1) p p.buf.used
      = Res.ret 1 { p with current_line := ⟨p.current_line.offs, p.current_line.len + (0 : Nat)⟩ } := by
  rw [header_loop]
  unfold header_step
  simp only [Nat.sub_self, count_while, Nat.add_zero]
  rw [if_neg (by push_cast; omega)]
  simp

theorem header_loop_at_end_eq (f i : Nat) (p : packet_t) (hf : 0 < f) (hi : i = p.buf.used)
    (hl : p.current_line.len ≤ SIP_MAX_LEN) :
    header_loop f p i
      = Res.ret 1 { p with current_line := ⟨p.current_line.offs, p.current_line.len + (0 : Nat)⟩ } := by
  subst hi
  obtain ⟨g, rfl⟩ : ∃ g, f = g + 1 := ⟨f - 1, by omega⟩
  exact header_loop_at_end g p hl

/-- A call of `next_packet` on a packet that stands at the start of a line,
with a chunk that starts with a complete line: the line is processed, and the
loop goes on behind it. -/
theorem next_packet_line (q : packet_t) (line eol rest : List Nat)
    (hst : q.status ≠ PACKET_READY) (hh : q.header.len = 0)
    (hb : q.buf.used ≤ q.buf.p.length) (hcl : q.current_line = ⟨q.buf.used, 0⟩)
    (heol : eol = [CR, LF] ∨ eol = [LF])
    (hline : ∀ x, x < line.length → not_eol (rd line x) = true)
    (hsz : q.buf.used + (line ++ eol ++ rest).length ≤ 2 * SIP_MAX_LEN) :
    ∃ b2, buf_ext q.buf b2 (line ++ eol ++ rest)
      ∧ next_packet q (line ++ eol ++ rest)
        = if line.length > SIP_MAX_LEN then
            Res.ret 0 { with_buf q b2 with current_line := ⟨q.buf.used, line.length⟩,
                                           status := PACKET_ERROR }
          else
            match header_step_line
                { with_buf q b2 with status := PACKET_INCOMPLETE,
                                     current_line := ⟨q.buf.used, line.length⟩ }
                (q.buf.used + line.length + eol.length) with
            | Step.cont (p1, i1) => header_loop b2.used p1 i1
            | Step.done r => r := by
  obtain ⟨b2, e1, e2⟩ := next_packet_not_ready q (line ++ eol ++ rest) hst hb hsz
  refine ⟨b2, e1, ?_⟩
  have hu := buf_ext_used e1
  have hsz2 : q.buf.used + (line ++ eol ++ rest).length ≤ 12288 := by
    simpa [SIP_MAX_LEN] using hsz
  have hel : 1 ≤ eol.length ∧ eol.length ≤ 2 := by
    rcases heol with h | h <;> rw [h] <;> simp
  have hlen : (line ++ eol ++ rest).length = line.length + eol.length + rest.length := by
    simp only [List.length_append]
  have hu32 : u32 (q.current_line.offs + q.current_line.len) = q.buf.used := by
    rw [hcl]
    simp only [Int.add_zero]
    exact u32_nat _ (by omega)
  rw [e2, if_pos hh, hu32, header_loop]
  -- the bytes of the chunk
  have hrd : ∀ x, x < (line ++ eol ++ rest).length →
      rd b2.p (q.buf.used + x) = rd (line ++ eol ++ rest) x := fun x hx => buf_ext_rd_new e1 x hx
  have hrdl : ∀ x, x < line.length → rd b2.p (q.buf.used + x) = rd line x := by
    intro x hx
    rw [hrd x (by omega), List.append_assoc, rd_append_left _ _ _ hx]
  have hrde : ∀ x, x < eol.length → rd b2.p (q.buf.used + line.length + x) = rd eol x := by
    intro x hx
    rw [Nat.add_assoc, hrd (line.length + x) (by omega), List.append_assoc, rd_append_right,
      rd_append_left _ _ _ hx]
  have hall : ∀ x, x < line.length → not_eol (rd b2.p (q.buf.used + x)) = true := by
    intro x hx; rw [hrdl x hx]; exact hline x hx
  have h0 := hrde 0 (by omega)
  rw [Nat.add_zero] at h0
  have hstop : not_eol (rd b2.p (q.buf.used + line.length)) = false := by
    rw [h0]; rcases heol with h | h <;> rw [h] <;> decide
  have hcr : rd b2.p (q.buf.used + line.length) = CR →
      q.buf.used + line.length + 1 < b2.used ∧ rd b2.p (q.buf.used + line.length + 1) = LF := by
    intro hc
    rw [h0] at hc
    rcases heol with h | h
    · have hl2 : eol.length = 2 := by rw [h]; rfl
      have h1 := hrde 1 (by omega)
      rw [h] at h1
      exact ⟨by omega, by rw [h1]; rfl⟩
    · rw [h] at hc; exact absurd hc (by decide)
  have hi2 : (if rd b2.p (q.buf.used + line.length) = CR then q.buf.used + line.length + 1
              else q.buf.used + line.length) + 1 = q.buf.used + line.length + eol.length := by
    rw [h0]
    rcases heol with h | h
    · rw [h]; simp [rd, CR, LF]
    · rw [h]; simp [rd, CR, LF]
  have hc : count_while not_eol b2.p (b2.used - q.buf.used) q.buf.used = line.length :=
    count_while_eq not_eol b2.p _ _ _ hall (by omega) hstop
  by_cases hlong : line.length > SIP_MAX_LEN
  · rw [if_pos hlong]
    unfold header_step
    simp only [with_buf, hc, hcl]
    rw [if_pos (by push_cast; omega)]
    simp
  · rw [if_neg hlong]
    rw [header_step_eq_nc _ _ (by
      simp only [with_buf, hc, hcl]; push_cast; omega)]
    rw [header_step_nc_line _ q.buf.used line.length hall (by simp only [with_buf]; omega)
      hstop (by simpa [with_buf] using hcr)]
    simp only [with_buf] at hi2 ⊢
    rw [hi2, hcl]
    simp only [Int.zero_add, Nat.add_sub_cancel]

/-! ## The end of the header -/

/-- C16: the header of `negative_length_message` announces `Content-Length:
40000`; it is complete, all four fields have been seen, and the buffer holds
102 bytes.  The body length is stored in an `int16_t` and is -25536 (the wrap
of C9), so header length + body length = 102 - 25536 is not above the 102
bytes that the buffer holds; the status is Incomplete, not Ready: the sum is
converted to `uint32_t` before the comparison.  The header of
`long_length_message` announces `Content-Length: 65536` and is complete as
well; the recorded body length is 0 and the status is Ready, while the buffer
holds the 102 bytes of the header and none of the body. -/
theorem header_complete_negative_length :
    next_packet packet_zero negative_length_message = Res.ret 1 negative_length_packet
    ∧ negative_length_packet.status = PACKET_INCOMPLETE
    ∧ negative_length_packet.header.len + negative_length_packet.data.len
        ≤ negative_length_packet.buf.used
    ∧ next_packet packet_zero long_length_message = Res.ret 1 long_length_packet
    ∧ long_length_packet.status = PACKET_READY
    ∧ long_length_packet.header.len = long_length_packet.buf.used
    ∧ body_bytes long_length_packet = [] := by
  decide!

/-! ## Header lines by name -/

theorem is_tag_of_tolower (c d : Nat) (h : tolower c = tolower d) (hd : is_tag d = true) :
    is_tag c = true := by
  unfold is_tag is_alpha at *
  unfold tolower at h
  simp only [Bool.or_eq_true, Bool.and_eq_true, decide_eq_true_eq] at hd ⊢
  split_ifs at h <;> omega

theorem rd_map_tolower (l : List Nat) (k : Nat) (hk : k < l.length) :
    rd (l.map tolower) k = tolower (rd l k) := by
  unfold rd
  rw [List.getD_eq_getElem _ _ (by simpa using hk), List.getD_eq_getElem _ _ hk, List.getElem_map]

/-- A tag that equals a name up to the case of the letters. -/
theorem named_tag (tag name : List Nat) (h : tag.map tolower = name.map tolower)
    (hn : ∀ k, k < name.length → is_tag (rd name k) = true) :
    tag.length = name.length
    ∧ (∀ k, k < tag.length → tolower (rd tag k) = tolower (rd name k))
    ∧ (∀ k, k < tag.length → is_tag (rd tag k) = true) := by
  have hl : tag.length = name.length := by
    have := congrArg List.length h
    simpa using this
  have ht : ∀ k, k < tag.length → tolower (rd tag k) = tolower (rd name k) := by
    intro k hk
    rw [← rd_map_tolower tag k hk, ← rd_map_tolower name k (by omega), h]
  exact ⟨hl, ht, fun k hk => is_tag_of_tolower _ _ (ht k hk) (hn k (by omega))⟩

theorem strncasecmp_eq_of_bytes (p : List Nat) (off : Nat) (tag lit : List Nat)
    (hl : tag.length = lit.length)
    (hb : ∀ k, k < tag.length → rd p (off + k) = rd tag k)
    (ht : ∀ k, k < tag.length → tolower (rd tag k) = tolower (rd lit k)) :
    strncasecmp_eq p off lit = true := by
  unfold strncasecmp_eq
  rw [beq_iff_eq]
  apply List.ext_getElem
  · simp
  · intro k h1 h2
    simp only [List.length_map, List.length_range] at h1
    simp only [List.getElem_map, List.getElem_range]
    rw [hb k (by omega), ht k (by omega)]
    unfold rd
    rw [List.getD_eq_getElem _ _ h1]

/-! ## The header loop over the lines of a chunk -/

/-- The results of the Content-Length case of a header line. -/
theorem header_line_content_length_ret (P : packet_t) (l i s len : Nat)
    (hcl : P.current_line = ⟨s, len⟩) (c : Int) (P2 : packet_t)
    (h : header_line_content_length P l i = Res.ret c P2) :
    (c = 0 ∧ P2.status = PACKET_ERROR)
    ∨ (c = 1 ∧ line_frame P P2 ∧ P.content_length.offs = 0 ∧ P2.content_length.offs ≠ 0
        ∧ P2.via_line = P.via_line ∧ P2.via = P.via ∧ P2.from_ = P.from_ ∧ P2.to_ = P.to_
        ∧ P2.contact = P.contact) := by
  unfold header_line_content_length at h
  simp only at h
  generalize content_length_digits _ _ _ _ _ = r at h
  obtain ⟨i1, v⟩ := r
  simp only at h
  split_ifs at h with h1 h2 h3 h4 <;> first
    | (simp only [Res.ret.injEq] at h; obtain ⟨e1, e2⟩ := h; subst e1 e2
       exact Or.inl ⟨rfl, rfl⟩)
    | exact Res.noConfusion h
    | (simp only [Res.ret.injEq] at h; obtain ⟨e1, e2⟩ := h; subst e1 e2
       refine Or.inr ⟨rfl, ⟨rfl, rfl, rfl, rfl, rfl⟩, not_not.mp h1, ?_, rfl, rfl, rfl, rfl, rfl⟩
       simp only [hcl]; omega)

/-- The results of the cases of a header line by its tag, for a line behind the
first line. -/
theorem header_line_tag_ret (P : packet_t) (l i s len : Nat)
    (hcl : P.current_line = ⟨s, len⟩) (hs : 0 < s) (c : Int) (P2 : packet_t)
    (h : header_line_tag P l i = Res.ret c P2) :
    (c = 0 ∧ P2.status = PACKET_ERROR)
    ∨ (c = 1 ∧ line_frame P P2
        ∧ ((P.via.offs = 0 → P.via_line.offs = 0) → P2.via.offs = 0 → P2.via_line.offs = 0)
        ∧ ((P.content_length.offs = 0 → P.data.len = 0) →
            P2.content_length.offs = 0 → P2.data.len = 0)
        ∧ (P.via.offs ≠ 0 → P2.via.offs ≠ 0) ∧ (P.from_.offs ≠ 0 → P2.from_.offs ≠ 0)
        ∧ (P.to_.offs ≠ 0 → P2.to_.offs ≠ 0)
        ∧ (P.content_length.offs ≠ 0 → P2.content_length.offs ≠ 0)
        ∧ (l = 3 ∧ strncasecmp_eq P.buf.p s (bytes "Via") = true →
            P.via.offs = 0 ∧ P2.via.offs ≠ 0)
        ∧ (l = 4 ∧ strncasecmp_eq P.buf.p s (bytes "From") = true →
            P.from_.offs = 0 ∧ P2.from_.offs ≠ 0)
        ∧ (l = 2 ∧ strncasecmp_eq P.buf.p s (bytes "To") = true →
            P.to_.offs = 0 ∧ P2.to_.offs ≠ 0)
        ∧ (l = 14 ∧ strncasecmp_eq P.buf.p s (bytes "Content-Length") = true →
            P.content_length.offs = 0 ∧ P2.content_length.offs ≠ 0)
        ∧ (P.contact.offs ≠ 0 → P2.contact = P.contact)
        ∧ (¬ (l = 7 ∧ strncasecmp_eq P.buf.p s (bytes "Contact") = true) →
            P2.contact = P.contact)
        ∧ (l = 7 ∧ strncasecmp_eq P.buf.p s (bytes "Contact") = true → P.contact.offs = 0 →
            P2.contact = ⟨(s : Int) + i, (len : Int) - i⟩)) := by
  have hcl2 := header_line_content_length_ret P l i s len hcl c P2
  unfold header_line_tag at h
  simp only [hcl, Int.toNat_ofNat] at h
  by_cases c1 : l = 3 ∧ strncasecmp_eq P.buf.p s (bytes "Via") = true
  · rw [if_pos c1] at h
    by_cases d1 : P.via.offs ≠ 0
    · rw [if_pos d1] at h
      simp only [Res.ret.injEq] at h; obtain ⟨e1, e2⟩ := h; subst e1 e2
      exact Or.inl ⟨rfl, rfl⟩
    · rw [if_neg d1] at h
      by_cases d2 : P.via_line.offs ≠ 0
      · rw [if_pos d2] at h; exact Res.noConfusion h
      · rw [if_neg d2] at h
        simp only [Res.ret.injEq] at h; obtain ⟨e1, e2⟩ := h; subst e1 e2
        refine Or.inr ⟨rfl, ⟨rfl, rfl, rfl, rfl, ?_⟩, ?_, ?_, ?_, ?_, ?_, ?_, ?_, ?_, ?_, ?_, ?_, ?_, ?_⟩
        all_goals (try dsimp only)
        all_goals (try rw [hcl])
        all_goals (intros; first | rfl | assumption | contradiction | omega | tauto)
  · rw [if_neg c1] at h
    by_cases c2 : l = 4 ∧ strncasecmp_eq P.buf.p s (bytes "From") = true
    · rw [if_pos c2] at h
      by_cases d1 : P.from_.offs ≠ 0
      · rw [if_pos d1] at h
        simp only [Res.ret.injEq] at h; obtain ⟨e1, e2⟩ := h; subst e1 e2
        exact Or.inl ⟨rfl, rfl⟩
      · rw [if_neg d1] at h
        simp only [Res.ret.injEq] at h; obtain ⟨e1, e2⟩ := h; subst e1 e2
        refine Or.inr ⟨rfl, ⟨rfl, rfl, rfl, rfl, ?_⟩, ?_, ?_, ?_, ?_, ?_, ?_, ?_, ?_, ?_, ?_, ?_, ?_, ?_⟩
        all_goals (try dsimp only)
        all_goals (try rw [hcl])
        all_goals (intros; first | rfl | assumption | contradiction | omega | tauto)
    · rw [if_neg c2] at h
      by_cases c3 : l = 2 ∧ strncasecmp_eq P.buf.p s (bytes "To") = true
      · rw [if_pos c3] at h
        by_cases d1 : P.to_.offs ≠ 0
        · rw [if_pos d1] at h
          simp only [Res.ret.injEq] at h; obtain ⟨e1, e2⟩ := h; subst e1 e2
          exact Or.inl ⟨rfl, rfl⟩
        · rw [if_neg d1] at h
          simp only [Res.ret.injEq] at h; obtain ⟨e1, e2⟩ := h; subst e1 e2
          refine Or.inr ⟨rfl, ⟨rfl, rfl, rfl, rfl, ?_⟩, ?_, ?_, ?_, ?_, ?_, ?_, ?_, ?_, ?_, ?_, ?_, ?_, ?_⟩
          all_goals (try dsimp only)
          all_goals (try rw [hcl])
          all_goals (intros; first | rfl | assumption | contradiction | omega | tauto)
      · rw [if_neg c3] at h
        by_cases c4 : l = 7 ∧ strncasecmp_eq P.buf.p s (bytes "Contact") = true
        · rw [if_pos c4] at h
          by_cases d1 : P.contact.offs ≠ 0
          · rw [if_pos d1] at h
            simp only [Res.ret.injEq] at h; obtain ⟨e1, e2⟩ := h; subst e1 e2
            refine Or.inr ⟨rfl, ⟨rfl, rfl, rfl, rfl, ?_⟩, ?_, ?_, ?_, ?_, ?_, ?_, ?_, ?_, ?_, ?_, ?_, ?_, ?_⟩
            all_goals (try dsimp only)
            all_goals (try rw [hcl])
            all_goals (intros; first | rfl | assumption | contradiction | omega | tauto)
          · rw [if_neg d1] at h
            simp only [Res.ret.injEq] at h; obtain ⟨e1, e2⟩ := h; subst e1 e2
            refine Or.inr ⟨rfl, ⟨rfl, rfl, rfl, rfl, ?_⟩, ?_, ?_, ?_, ?_, ?_, ?_, ?_, ?_, ?_, ?_, ?_, ?_, ?_⟩
            all_goals (try dsimp only)
            all_goals (try rw [hcl])
            all_goals (intros; first | rfl | assumption | contradiction | omega | tauto)
        · rw [if_neg c4] at h
          by_cases c5 : l = 14 ∧ strncasecmp_eq P.buf.p s (bytes "Content-Length") = true
          · rw [if_pos c5] at h
            rcases hcl2 h with ⟨e1, e2⟩ | ⟨e1, ⟨f1, f2, f3, f4, f5⟩, g1, g2, g3, g4, g5, g6, g7⟩
            · exact Or.inl ⟨e1, e2⟩
            · refine Or.inr ⟨e1, ⟨f1, f2, f3, f4, f5⟩, ?_, ?_, ?_, ?_, ?_, ?_, ?_, ?_, ?_, ?_, ?_,
                ?_, ?_⟩
              all_goals (try rw [g3]); all_goals (try rw [g4]); all_goals (try rw [g5])
              all_goals (try rw [g6]); all_goals (try rw [g7])
              all_goals (intros; first | rfl | assumption | contradiction | omega | tauto)
          · rw [if_neg c5] at h
            simp only [Res.ret.injEq] at h; obtain ⟨e1, e2⟩ := h; subst e1 e2
            refine Or.inr ⟨rfl, ⟨rfl, rfl, rfl, rfl, ?_⟩, ?_, ?_, ?_, ?_, ?_, ?_, ?_, ?_, ?_, ?_, ?_, ?_, ?_⟩
            all_goals (try dsimp only)
            all_goals (try rw [hcl])
            all_goals (intros; first | rfl | assumption | contradiction | omega | tauto)

/-- With the spans that the header loop maintains, the processing of a header
line returns. -/
theorem header_line_content_length_total (P : packet_t) (l i : Nat)
    (hd : P.content_length.offs = 0 → P.data.len = 0) :
    ∃ c P2, header_line_content_length P l i = Res.ret c P2 := by
  unfold header_line_content_length
  simp only
  generalize content_length_digits _ _ _ _ _ = r
  obtain ⟨i1, v⟩ := r
  simp only
  by_cases d1 : P.content_length.offs ≠ 0
  · rw [if_pos d1]; exact ⟨_, _, rfl⟩
  · rw [if_neg d1, if_neg (by rw [hd (not_not.mp d1)]; simp)]
    split_ifs <;> exact ⟨_, _, rfl⟩

theorem header_line_tag_total (P : packet_t) (l i : Nat)
    (hv : P.via.offs = 0 → P.via_line.offs = 0)
    (hd : P.content_length.offs = 0 → P.data.len = 0) :
    ∃ c P2, header_line_tag P l i = Res.ret c P2 := by
  have hcl := header_line_content_length_total P l i hd
  unfold header_line_tag
  simp only
  generalize header_line_content_length P l i = r at hcl
  by_cases c1 : l = 3 ∧ strncasecmp_eq P.buf.p P.current_line.offs.toNat (bytes "Via") = true
  · rw [if_pos c1]
    by_cases d1 : P.via.offs ≠ 0
    · rw [if_pos d1]; exact ⟨_, _, rfl⟩
    · rw [if_neg d1, if_neg (by rw [hv (not_not.mp d1)]; simp)]; exact ⟨_, _, rfl⟩
  · rw [if_neg c1]
    split_ifs <;> first | exact ⟨_, _, rfl⟩ | exact hcl

theorem header_line_total (P : packet_t)
    (hv : P.via.offs = 0 → P.via_line.offs = 0)
    (hd : P.content_length.offs = 0 → P.data.len = 0) :
    ∃ c P2, header_line P = Res.ret c P2 := by
  unfold header_line
  simp only
  generalize count_while is_tag _ _ _ = l
  generalize count_while is_space _ _ _ = sp
  have ht := header_line_tag_total P l (l + 1 + sp) hv hd
  split_ifs <;> first | exact ⟨_, _, rfl⟩ | exact ht

theorem take_map_rd (f : Nat → Nat) (line : List Nat) (n : Nat) (hn : n ≤ line.length) :
    (line.take n).map f = (List.range n).map (fun k => f (rd line k)) := by
  apply List.ext_getElem
  · simp; omega
  · intro k h1 h2
    simp only [List.length_map, List.length_range] at h2
    simp only [List.getElem_map, List.getElem_take, List.getElem_range]
    unfold rd
    rw [List.getD_eq_getElem _ _ (by omega)]

theorem line_named_lt (name line : List Nat) (h : line_named name line = true) :
    name.length < line.length := by
  unfold line_named at h
  simp only [Bool.and_eq_true, decide_eq_true_eq] at h
  by_contra hc
  have : rd line name.length = 0 := by
    unfold rd
    rw [List.getD_eq_default _ _ (by omega)]
  rw [this] at h
  exact absurd h.2 (by decide)

/-- The tag of a line that lies in the buffer at the offset `s`, by the name
of the line. -/
theorem tag_named (p line name : List Nat) (s : Nat)
    (hbytes : ∀ x, x < line.length → rd p (s + x) = rd line x)
    (hl : count_while is_tag p line.length s < line.length)
    (hc : rd p (s + count_while is_tag p line.length s) = COLON)
    (hn : ∀ k, k < name.length → is_tag (rd name k) = true) :
    line_named name line = true
      ↔ (count_while is_tag p line.length s = name.length
          ∧ strncasecmp_eq p s name = true) := by
  constructor
  · intro h
    have hlt := line_named_lt name line h
    unfold line_named at h
    simp only [Bool.and_eq_true, decide_eq_true_eq, beq_iff_eq] at h
    obtain ⟨h1, h2⟩ := h
    obtain ⟨t1, t2, t3⟩ := named_tag (line.take name.length) name h1 hn
    have hrt : ∀ k, k < name.length → rd (line.take name.length) k = rd line k :=
      fun k hk => rd_take line name.length k hk
    have hcnt : count_while is_tag p line.length s = name.length := by
      apply count_while_eq
      · intro x hx
        rw [hbytes x (by omega), ← hrt x hx]
        exact t3 x (by omega)
      · exact hlt
      · rw [hbytes _ hlt, h2]; decide
    refine ⟨hcnt, ?_⟩
    exact strncasecmp_eq_of_bytes p s (line.take name.length) name t1
      (fun k hk => by rw [hbytes k (by omega), hrt k (by omega)]) t2
  · rintro ⟨h1, h2⟩
    unfold line_named
    simp only [Bool.and_eq_true, decide_eq_true_eq, beq_iff_eq]
    rw [h1] at hl hc
    refine ⟨?_, by rw [← hbytes _ hl]; exact hc⟩
    unfold strncasecmp_eq at h2
    rw [beq_iff_eq] at h2
    rw [take_map_rd tolower line name.length (by omega), ← h2]
    apply List.map_congr_left
    intro k hk
    rw [List.mem_range] at hk
    rw [hbytes k (by omega)]

theorem seen_step (a b : Int) (nm : Bool) (h1 : a ≠ 0 → b ≠ 0)
    (h2 : nm = true → a = 0 ∧ b ≠ 0) :
    (if a ≠ 0 then 1 else 0) + (if nm = true then 1 else 0) ≤ (if b ≠ 0 then 1 else 0) := by
  by_cases ha : a ≠ 0
  · rw [if_pos ha, if_pos (h1 ha)]
    by_cases hn : nm = true
    · exact absurd (h2 hn).1 ha
    · rw [if_neg hn]
  · rw [if_neg ha]
    by_cases hn : nm = true
    · rw [if_pos hn, if_pos (h2 hn).2]
    · rw [if_neg hn]; split_ifs <;> omega

/-- The results of the processing of a header line behind the first line: a
failure has the status Error; a success keeps the fields that had been seen,
has seen the field whose name the line has, which had not been seen, and has as
Contact span the one that had been recorded or the value of the line. -/
theorem header_line_at (P : packet_t) (s : Nat) (line : List Nat)
    (hcl : P.current_line = ⟨s, line.length⟩) (hs : 0 < s)
    (hbytes : ∀ x, x < line.length → rd P.buf.p (s + x) = rd line x)
    (c : Int) (P2 : packet_t) (h : header_line P = Res.ret c P2) :
    (c = 0 ∧ P2.status = PACKET_ERROR)
    ∨ (c = 1 ∧ line_frame P P2
        ∧ ((P.via.offs = 0 → P.via_line.offs = 0) → P2.via.offs = 0 → P2.via_line.offs = 0)
        ∧ ((P.content_length.offs = 0 → P.data.len = 0) →
            P2.content_length.offs = 0 → P2.data.len = 0)
        ∧ (∀ fld, seen_count P fld + (if line_named (field_name fld) line = true then 1 else 0)
            ≤ seen_count P2 fld)
        ∧ (P.contact.offs ≠ 0 → P2.contact = P.contact)
        ∧ (line_named (bytes "Contact") line = false → P2.contact = P.contact)
        ∧ (line_named (bytes "Contact") line = true → P.contact.offs = 0 →
            P2.contact = value_span s 7 line ∧ 0 < (value_span s 7 line).len)) := by
  have hle := count_while_le is_tag P.buf.p line.length s
  unfold header_line at h
  simp only [hcl, Int.toNat_ofNat] at h
  by_cases c1 : count_while is_tag P.buf.p line.length s = 0
      ∨ count_while is_tag P.buf.p line.length s = line.length
      ∨ rd P.buf.p (s + count_while is_tag P.buf.p line.length s) ≠ COLON
  · rw [if_pos c1] at h
    simp only [Res.ret.injEq] at h; obtain ⟨e1, e2⟩ := h; subst e1 e2
    exact Or.inl ⟨rfl, rfl⟩
  · rw [if_neg c1] at h
    simp only [not_or, not_not] at c1
    obtain ⟨c10, c1l, c1c⟩ := c1
    by_cases c2 : ¬ (count_while is_tag P.buf.p line.length s + 1
        + count_while is_space P.buf.p (line.length - (count_while is_tag P.buf.p line.length s + 1))
            (s + count_while is_tag P.buf.p line.length s + 1) < line.length)
    · rw [if_pos c2] at h
      simp only [Res.ret.injEq] at h; obtain ⟨e1, e2⟩ := h; subst e1 e2
      exact Or.inl ⟨rfl, rfl⟩
    · rw [if_neg c2] at h
      rw [not_not] at c2
      have hnm := fun name hn => tag_named P.buf.p line name s hbytes (by omega) c1c hn
      rcases header_line_tag_ret P _ _ s line.length hcl hs c P2 h with
        ⟨e1, e2⟩ | ⟨e1, fr, i1, i2, k1, k2, k3, k4, n1, n2, n3, n4, q1, q2, q3⟩
      · exact Or.inl ⟨e1, e2⟩
      · refine Or.inr ⟨e1, fr, i1, i2, ?_, q1, ?_, ?_⟩
        · intro fld
          cases fld
          · exact seen_step _ _ _ k1 (fun hh => n1 ((hnm (bytes "Via") (by decide)).1 hh))
          · exact seen_step _ _ _ k2 (fun hh => n2 ((hnm (bytes "From") (by decide)).1 hh))
          · exact seen_step _ _ _ k3 (fun hh => n3 ((hnm (bytes "To") (by decide)).1 hh))
          · exact seen_step _ _ _ k4
              (fun hh => n4 ((hnm (bytes "Content-Length") (by decide)).1 hh))
        · intro hh
          apply q2
          intro hcon
          have := (hnm (bytes "Contact") (by decide)).2 hcon
          rw [hh] at this
          exact absurd this (by decide)
        · intro hh hc0
          obtain ⟨m1, m2⟩ := (hnm (bytes "Contact") (by decide)).1 hh
          have m1b : count_while is_tag P.buf.p line.length s = 7 := m1
          have hsp : count_while is_space P.buf.p (line.length - (7 + 1)) (s + 7 + 1)
              = count_while is_space line (line.length - (7 + 1)) (7 + 1) := by
            apply count_while_shift
            intro x hx
            rw [show s + 7 + 1 + x = s + (7 + 1 + x) by omega]
            exact hbytes _ (by omega)
          have c3 : 7 + 1 + count_while is_space line (line.length - (7 + 1)) (7 + 1)
              < line.length := by
            rw [← hsp, ← m1b]; exact c2
          have e3 := q3 ⟨m1, m2⟩ hc0
          rw [m1b, hsp] at e3
          rw [e3]
          unfold value_span
          refine ⟨?_, ?_⟩
          · simp only [loc_t.mk.injEq]
            constructor <;> push_cast <;> ring
          · simp only
            omega

theorem all_rd (f : Nat → Bool) (line : List Nat) (h : line.all f = true) :
    ∀ x, x < line.length → f (rd line x) = true := by
  intro x hx
  rw [List.all_eq_true] at h
  unfold rd
  rw [List.getD_eq_getElem _ _ hx]
  exact h _ (List.getElem_mem _)

theorem is_line_facts (x : List Nat × List Nat) (h : is_line x = true) :
    0 < x.1.length ∧ (∀ k, k < x.1.length → not_eol (rd x.1 k) = true)
    ∧ (x.2 = [CR, LF] ∨ x.2 = [LF]) ∧ 1 ≤ x.2.length := by
  unfold is_line at h
  simp only [Bool.and_eq_true, decide_eq_true_eq, Bool.or_eq_true, beq_iff_eq] at h
  obtain ⟨⟨h1, h2⟩, h3⟩ := h
  refine ⟨h1, all_rd not_eol x.1 h2, h3, ?_⟩
  rcases h3 with e | e <;> rw [e] <;> simp

/-- A turn of the header loop on a line that is complete in the buffer, of
which `k0` bytes have been scanned: a line that is too long is an error, every
other line is processed. -/
theorem header_step_at_line (P : packet_t) (s k0 : Nat) (line eol : List Nat)
    (hcl : P.current_line = ⟨s, k0⟩) (hk0 : k0 ≤ line.length)
    (hbytes : ∀ x, x < (line ++ eol).length → rd P.buf.p (s + x) = rd (line ++ eol) x)
    (hend : s + line.length + eol.length ≤ P.buf.used)
    (hline : ∀ x, x < line.length → not_eol (rd line x) = true)
    (heol : eol = [CR, LF] ∨ eol = [LF]) :
    header_step P (s + k0)
      = if line.length > SIP_MAX_LEN then
          Step.done (Res.ret 0 { P with current_line := ⟨s, line.length⟩,
                                        status := PACKET_ERROR })
        else header_step_line { P with current_line := ⟨s, line.length⟩ }
               (s + line.length + eol.length) := by
  have hel : 1 ≤ eol.length ∧ eol.length ≤ 2 := by
    rcases heol with h | h <;> rw [h] <;> simp
  have hrdl : ∀ x, x < line.length → rd P.buf.p (s + x) = rd line x := by
    intro x hx
    rw [hbytes x (by simp only [List.length_append]; omega), rd_append_left _ _ _ hx]
  have hrde : ∀ x, x < eol.length → rd P.buf.p (s + line.length + x) = rd eol x := by
    intro x hx
    rw [Nat.add_assoc, hbytes (line.length + x) (by simp only [List.length_append]; omega),
      rd_append_right]
  have hall : ∀ x, x < line.length - k0 → not_eol (rd P.buf.p (s + k0 + x)) = true := by
    intro x hx
    rw [Nat.add_assoc, hrdl (k0 + x) (by omega)]; exact hline _ (by omega)
  have hpos : s + k0 + (line.length - k0) = s + line.length := by omega
  have h0 := hrde 0 (by omega)
  rw [Nat.add_zero] at h0
  have hstop : not_eol (rd P.buf.p (s + k0 + (line.length - k0))) = false := by
    rw [hpos, h0]; rcases heol with h | h <;> rw [h] <;> decide
  have hcr : rd P.buf.p (s + k0 + (line.length - k0)) = CR →
      s + k0 + (line.length - k0) + 1 < P.buf.used
      ∧ rd P.buf.p (s + k0 + (line.length - k0) + 1) = LF := by
    rw [hpos]
    intro hc
    rw [h0] at hc
    rcases heol with h | h
    · have hl2 : eol.length = 2 := by rw [h]; rfl
      have h1 := hrde 1 (by omega)
      rw [h] at h1
      exact ⟨by omega, by rw [h1]; rfl⟩
    · rw [h] at hc; exact absurd hc (by decide)
  have hi2 : (if rd P.buf.p (s + line.length) = CR then s + line.length + 1
              else s + line.length) + 1 = s + line.length + eol.length := by
    rw [h0]
    rcases heol with h | h
    · rw [h]; simp [rd, CR, LF]
    · rw [h]; simp [rd, CR, LF]
  have hc : count_while not_eol P.buf.p (P.buf.used - (s + k0)) (s + k0) = line.length - k0 :=
    count_while_eq not_eol P.buf.p _ _ _ hall (by omega) hstop
  have hlen : ((k0 : Int) + ((line.length - k0 : Nat) : Int)) = (line.length : Int) := by omega
  by_cases hlong : line.length > SIP_MAX_LEN
  · rw [if_pos hlong]
    unfold header_step
    simp only [hc, hcl, hlen]
    rw [if_pos (by push_cast; omega)]
  · rw [if_neg hlong]
    rw [header_step_eq_nc _ _ (by simp only [hc, hcl]; push_cast; omega)]
    rw [header_step_nc_line _ (s + k0) (line.length - k0) hall (by omega) hstop hcr]
    rw [hpos, hi2, hcl]
    simp only [hlen]

theorem header_lines_one (s : Nat) (x : List Nat × List Nat) (t : List (List Nat × List Nat)) :
    header_lines s (x :: t) = header_lines s [x] ++ t := by
  unfold header_lines
  split_ifs <;> simp

theorem header_lines_pos (s : Nat) (ls : List (List Nat × List Nat)) (hs : 0 < s) :
    header_lines s ls = ls := by
  unfold header_lines
  rw [if_neg (by omega)]

theorem seen_count_le (P : packet_t) (fld : field_t) : seen_count P fld ≤ 1 := by
  unfold seen_count
  split_ifs <;> omega

/-- A turn of the header loop on a line that is complete in the buffer: it is
an error, or the loop goes on at the start of the next line, with the field
seen whose name the line has when it is a header line. -/
theorem line_turn (P : packet_t) (s k0 : Nat) (x : List Nat × List Nat)
    (hinv : loop_inv P s k0) (hk0 : k0 ≤ x.1.length) (hx : is_line x = true)
    (hbytes : ∀ y, y < (x.1 ++ x.2).length → rd P.buf.p (s + y) = rd (x.1 ++ x.2) y)
    (hend : s + x.1.length + x.2.length ≤ P.buf.used) :
    (∃ r, header_step P (s + k0) = Step.done (Res.ret 0 r) ∧ r.status = PACKET_ERROR)
    ∨ (∃ P2, header_step P (s + k0) = Step.cont (P2, s + x.1.length + x.2.length)
        ∧ loop_inv P2 (s + x.1.length + x.2.length) 0
        ∧ P2.buf = P.buf ∧ P2.status = P.status
        ∧ (∀ fld, seen_count P fld + named_count fld (header_lines s [x]) ≤ seen_count P2 fld)
        ∧ (P.contact.offs ≠ 0 → P2.contact = P.contact)
        ∧ ((∀ y, y ∈ header_lines s [x] → line_named (bytes "Contact") y.1 = false) →
            P2.contact = P.contact)
        ∧ (0 < s → line_named (bytes "Contact") x.1 = true → P.contact.offs = 0 →
            P2.contact = value_span s 7 x.1 ∧ 0 < (value_span s 7 x.1).len)) := by
  obtain ⟨line, eol⟩ := x
  obtain ⟨l0, hline, heol, he1⟩ := is_line_facts _ hx
  simp only at l0 hline heol he1 hk0 hbytes hend ⊢
  obtain ⟨hcl, hh, hm, hv, hd⟩ := hinv
  rw [header_step_at_line P s k0 line eol hcl hk0 hbytes hend hline heol]
  by_cases hlong : line.length > SIP_MAX_LEN
  · rw [if_pos hlong]
    exact Or.inl ⟨_, rfl, rfl⟩
  · rw [if_neg hlong]
    have hrdl : ∀ y, y < line.length → rd P.buf.p (s + y) = rd line y := by
      intro y hy
      rw [hbytes y (by simp only [List.length_append]; omega), rd_append_left _ _ _ hy]
    by_cases hs : s = 0
    · subst hs
      unfold header_step_line
      simp only
      rw [if_neg (by first | omega | (simp only; omega)), if_pos (by simp), if_neg (by rw [hm rfl]; simp)]
      obtain ⟨k1, k2, k3, k4, k5, k6, k7, k8, k9, k10, k11⟩ :=
        first_line_keeps { P with current_line := ⟨((0 : Nat) : Int), (line.length : Int)⟩ }
      generalize first_line { P with current_line := ⟨((0 : Nat) : Int), (line.length : Int)⟩ }
        = fl at k1 k2 k3 k4 k5 k6 k7 k8 k9 k10 k11
      obtain ⟨ok, P1⟩ := fl
      simp only at k1 k2 k3 k4 k5 k6 k7 k8 k9 k10 k11
      cases ok
      · exact Or.inl ⟨_, rfl, rfl⟩
      · right
        refine ⟨_, rfl, ⟨rfl, by simp only [k3]; exact hh, ?_,
          by simp only [k6, k7]; exact hv, by simp only [k4, k11]; exact hd⟩, k1, k2, ?_, ?_, ?_, ?_⟩
        · intro h; omega
        · intro fld
          have e : named_count fld (header_lines (0 + 0) [(line, eol)]) = 0 := rfl
          have e2 : seen_count { P1 with current_line := ⟨((0 + line.length + eol.length : Nat) : Int), 0⟩ } fld
              = seen_count P fld := by
            cases fld <;> simp only [seen_count, field_loc, k7, k8, k9, k11]
          simp only [Nat.zero_add] at e e2 ⊢
          rw [e2]
          have e3 : named_count fld (header_lines 0 [(line, eol)]) = 0 := rfl
          rw [e3]
          omega
        · intro _; exact k10
        · intro _; exact k10
        · intro h; omega
    · have hs0 : 0 < s := by omega
      rw [header_step_line_header_line _ _ (by first | omega | (simp only; omega)) (by first | omega | (simp only; omega))]
      obtain ⟨c, P2, e⟩ := header_line_total { P with current_line := ⟨s, line.length⟩ } hv hd
      rw [e]
      rcases header_line_at { P with current_line := ⟨s, line.length⟩ } s line rfl hs0 hrdl
          c P2 e with ⟨e1, e2⟩ | ⟨e1, ⟨f1, f2, f3, f4, f5⟩, i1, i2, cnt, q1, q2, q3⟩
      · subst e1
        exact Or.inl ⟨_, rfl, e2⟩
      · subst e1
        right
        simp only at f1 f2 f3 f4 f5 i1 i2 cnt q1 q2 q3
        refine ⟨_, rfl, ⟨rfl, by simp only [f2]; exact hh, by intro h; omega, i1 hv, i2 hd⟩,
          f1, f3, ?_, q1, ?_, ?_⟩
        · intro fld
          have := cnt fld
          rw [header_lines_pos _ _ hs0]
          unfold named_count
          simp only [List.countP_cons, List.countP_nil, Nat.zero_add]
          exact this
        · intro h
          rw [header_lines_pos _ _ hs0] at h
          exact q2 (h _ (List.mem_singleton.mpr rfl))
        · intro _ h1 h2; exact q3 h1 h2

theorem join_lines_length_cons (line eol : List Nat) (t : List (List Nat × List Nat)) :
    (join_lines ((line, eol) :: t)).length
      = line.length + eol.length + (join_lines t).length := by
  simp [join_lines]
  omega

theorem join_lines_append (a b : List (List Nat × List Nat)) :
    join_lines (a ++ b) = join_lines a ++ join_lines b := by
  induction a with
  | nil => rfl
  | cons x t ih =>
    obtain ⟨line, eol⟩ := x
    show join_lines ((line, eol) :: (t ++ b)) = _
    simp only [join_lines, ih, List.append_assoc]

/-- The header loop over complete header lines behind the first line: it ends
with an error, or it reaches the end of the lines with every field seen whose
name one of the lines has, each of them once. -/
theorem lines_run (ls : List (List Nat × List Nat)) :
    ∀ (f s : Nat) (P : packet_t), loop_inv P s 0 → 0 < s →
      (∀ y, y < (join_lines ls).length → rd P.buf.p (s + y) = rd (join_lines ls) y) →
      s + (join_lines ls).length ≤ P.buf.used →
      (∀ x, x ∈ ls → is_line x = true) →
      P.buf.used - s < f →
      (∃ r, header_loop f P s = Res.ret 0 r ∧ r.status = PACKET_ERROR)
      ∨ (∃ P2 f2, header_loop f P s = header_loop f2 P2 (s + (join_lines ls).length)
          ∧ loop_inv P2 (s + (join_lines ls).length) 0
          ∧ P2.buf = P.buf ∧ P2.status = P.status
          ∧ P.buf.used - (s + (join_lines ls).length) < f2
          ∧ (∀ fld, seen_count P fld + named_count fld ls ≤ seen_count P2 fld)
          ∧ (P.contact.offs ≠ 0 → P2.contact = P.contact)
          ∧ ((∀ y, y ∈ ls → line_named (bytes "Contact") y.1 = false) →
              P2.contact = P.contact)) := by
  induction ls with
  | nil =>
    intro f s P hinv hs hb he hl hf
    right
    simp only [join_lines, List.length_nil, Nat.add_zero]
    exact ⟨P, f, rfl, hinv, rfl, rfl, hf, fun fld => Nat.le_refl _, fun _ => rfl, fun _ => rfl⟩
  | cons x t ih =>
    intro f s P hinv hs hb he hl hf
    obtain ⟨line, eol⟩ := x
    have hjl : join_lines ((line, eol) :: t) = line ++ eol ++ join_lines t := rfl
    have hlen := join_lines_length_cons line eol t
    obtain ⟨f1, rfl⟩ : ∃ f1, f = f1 + 1 := ⟨f - 1, by omega⟩
    have hx := hl _ (List.mem_cons_self _ _)
    obtain ⟨l0, hline, heol, he1⟩ := is_line_facts _ hx
    simp only at l0 hline heol he1
    have hle : (line ++ eol).length = line.length + eol.length := List.length_append _ _
    have hb1 : ∀ y, y < (line ++ eol).length → rd P.buf.p (s + y) = rd (line ++ eol) y := by
      intro y hy
      rw [hb y (by omega), hjl, rd_append_left _ _ _ hy]
    rcases line_turn P s 0 (line, eol) hinv (Nat.zero_le _) hx hb1 (by simp only; omega) with
      ⟨r, e1, e2⟩ | ⟨P1, e1, inv1, b1, st1, cnt1, c1, c2, c3⟩
    · left
      refine ⟨r, ?_, e2⟩
      rw [Nat.add_zero] at e1
      rw [header_loop, e1]
    · rw [Nat.add_zero] at e1
      simp only at e1 inv1
      have hb2 : ∀ y, y < (join_lines t).length →
          rd P1.buf.p (s + line.length + eol.length + y) = rd (join_lines t) y := by
        intro y hy
        rw [b1, show s + line.length + eol.length + y = s + ((line ++ eol).length + y) by omega,
          hb _ (by omega), hjl, rd_append_right]
      rcases ih f1 (s + line.length + eol.length) P1 inv1 (by omega) hb2 (by rw [b1]; omega)
          (fun x hx => hl x (List.mem_cons_of_mem _ hx)) (by rw [b1]; omega) with
        ⟨r, e3, e4⟩ | ⟨P2, f2, e3, inv2, b2, st2, hf2, cnt2, d1, d2⟩
      · left
        refine ⟨r, ?_, e4⟩
        rw [header_loop, e1]
        exact e3
      · right
        have hpos : s + (join_lines ((line, eol) :: t)).length
            = s + line.length + eol.length + (join_lines t).length := by omega
        rw [hpos]
        refine ⟨P2, f2, ?_, inv2, b2.trans b1, st2.trans st1, ?_, ?_, ?_, ?_⟩
        · rw [header_loop, e1]
          exact e3
        · rw [b1] at hf2; exact hf2
        · intro fld
          have a := cnt1 fld
          have b := cnt2 fld
          rw [header_lines_pos _ _ hs] at a
          unfold named_count at a b ⊢
          simp only [List.countP_cons, List.countP_nil] at a ⊢
          omega
        · intro h
          rw [d1 (by rw [c1 h]; exact h), c1 h]
        · intro h
          rw [d2 (fun y hy => h y (List.mem_cons_of_mem _ hy)), c2 (by
            rw [header_lines_pos _ _ hs]
            intro y hy
            rw [List.mem_singleton] at hy
            subst hy
            exact h _ (List.mem_cons_self _ _))]

/-- The header loop over complete lines of which the first may be the first
line of the message, with `k` bytes of it scanned. -/
theorem lines_from (x : List Nat × List Nat) (t : List (List Nat × List Nat))
    (f s k : Nat) (P : packet_t) (hinv : loop_inv P s k) (hk : k ≤ x.1.length)
    (hb : ∀ y, y < (join_lines (x :: t)).length →
      rd P.buf.p (s + y) = rd (join_lines (x :: t)) y)
    (he : s + (join_lines (x :: t)).length ≤ P.buf.used)
    (hl : ∀ y, y ∈ x :: t → is_line y = true) (hf : P.buf.used - (s + k) < f) :
    (∃ r, header_loop f P (s + k) = Res.ret 0 r ∧ r.status = PACKET_ERROR)
    ∨ (∃ P2 f2, header_loop f P (s + k)
            = header_loop f2 P2 (s + (join_lines (x :: t)).length)
        ∧ loop_inv P2 (s + (join_lines (x :: t)).length) 0
        ∧ P2.buf = P.buf ∧ P2.status = P.status
        ∧ P.buf.used - (s + (join_lines (x :: t)).length) < f2
        ∧ (∀ fld, seen_count P fld + named_count fld (header_lines s (x :: t))
            ≤ seen_count P2 fld)
        ∧ (P.contact.offs ≠ 0 → P2.contact = P.contact)
        ∧ ((∀ y, y ∈ header_lines s (x :: t) → line_named (bytes "Contact") y.1 = false) →
            P2.contact = P.contact)) := by
  obtain ⟨line, eol⟩ := x
  have hjl : join_lines ((line, eol) :: t) = line ++ eol ++ join_lines t := rfl
  have hlen := join_lines_length_cons line eol t
  obtain ⟨f1, rfl⟩ : ∃ f1, f = f1 + 1 := ⟨f - 1, by omega⟩
  have hx := hl _ (List.mem_cons_self _ _)
  obtain ⟨l0, hline, heol, he1⟩ := is_line_facts _ hx
  simp only at l0 hline heol he1 hk
  have hle : (line ++ eol).length = line.length + eol.length := List.length_append _ _
  have hb1 : ∀ y, y < (line ++ eol).length → rd P.buf.p (s + y) = rd (line ++ eol) y := by
    intro y hy
    rw [hb y (by omega), hjl, rd_append_left _ _ _ hy]
  rcases line_turn P s k (line, eol) hinv hk hx hb1 (by simp only; omega) with
    ⟨r, e1, e2⟩ | ⟨P1, e1, inv1, b1, st1, cnt1, c1, c2, c3⟩
  · left
    refine ⟨r, ?_, e2⟩
    rw [header_loop, e1]
  · simp only at e1 inv1
    have hb2 : ∀ y, y < (join_lines t).length →
        rd P1.buf.p (s + line.length + eol.length + y) = rd (join_lines t) y := by
      intro y hy
      rw [b1, show s + line.length + eol.length + y = s + ((line ++ eol).length + y) by omega,
        hb _ (by omega), hjl, rd_append_right]
    rcases lines_run t f1 (s + line.length + eol.length) P1 inv1 (by omega) hb2
        (by rw [b1]; omega) (fun x hx => hl x (List.mem_cons_of_mem _ hx))
        (by rw [b1]; omega) with
      ⟨r, e3, e4⟩ | ⟨P2, f2, e3, inv2, b2, st2, hf2, cnt2, d1, d2⟩
    · left
      refine ⟨r, ?_, e4⟩
      rw [header_loop, e1]
      exact e3
    · right
      have hpos : s + (join_lines ((line, eol) :: t)).length
          = s + line.length + eol.length + (join_lines t).length := by omega
      rw [hpos]
      refine ⟨P2, f2, ?_, inv2, b2.trans b1, st2.trans st1, ?_, ?_, ?_, ?_⟩
      · rw [header_loop, e1]
        exact e3
      · rw [b1] at hf2; exact hf2
      · intro fld
        have a := cnt1 fld
        have b := cnt2 fld
        rw [header_lines_one]
        unfold named_count at a b ⊢
        rw [List.countP_append]
        omega
      · intro h
        rw [d1 (by rw [c1 h]; exact h), c1 h]
      · intro h
        rw [header_lines_one] at h
        rw [d2 (fun y hy => h y (List.mem_append_right _ hy)),
          c2 (fun y hy => h y (List.mem_append_left _ hy))]

theorem header_line_kept (P : packet_t) (s len : Nat) (hcl : P.current_line = ⟨s, len⟩)
    (hs : 0 < s) (c : Int) (P2 : packet_t) (h : header_line P = Res.ret c P2) :
    c = 0 ∨ (c = 1 ∧ (P.contact.offs ≠ 0 → P2.contact = P.contact)) := by
  unfold header_line at h
  dsimp only at h
  split_ifs at h
  all_goals first
    | (simp only [Res.ret.injEq] at h; exact Or.inl h.1.symm)
    | (rcases header_line_tag_ret P _ _ s len hcl hs c P2 h with
        ⟨e1, _⟩ | ⟨e1, _, _, _, _, _, _, _, _, _, _, _, q1, _, _⟩
       · exact Or.inl e1
       · exact Or.inr ⟨e1, q1⟩)

theorem header_step_line_contact (P1 : packet_t) (i2 s k : Nat)
    (hcl : P1.current_line = ⟨s, k⟩) (hs : 0 < s) (hc : P1.contact.offs ≠ 0) :
    (∀ P2 j, header_step_line P1 i2 = Step.cont (P2, j) →
        P2.contact = P1.contact ∧ P2.current_line = ⟨i2, 0⟩)
    ∧ (∀ cc r, header_step_line P1 i2 = Step.done (Res.ret cc r) → cc ≠ 0 →
        r.contact = P1.contact) := by
  by_cases hk : k = 0
  · unfold header_step_line
    rw [if_pos (by rw [hcl, hk]; rfl), if_neg (by rw [hcl]; simp only; omega)]
    constructor
    · intro P2 j h
      dsimp only at h
      split_ifs at h
    · intro cc r h hcc
      dsimp only at h
      split_ifs at h
      · simp only [Step.done.injEq, Res.ret.injEq] at h
        exact absurd h.1.symm hcc
      · simp only [Step.done.injEq, Res.ret.injEq] at h
        rw [← h.2]
      · simp only [Step.done.injEq, Res.ret.injEq] at h
        rw [← h.2]
  · rw [header_step_line_header_line P1 i2 (by rw [hcl]; simp only; omega)
      (by rw [hcl]; simp only; omega)]
    have hk := header_line_kept P1 s k hcl hs
    cases e : header_line P1 with
    | ret c P2 =>
      rcases hk c P2 e with e1 | ⟨e1, q1⟩
      · subst e1
        simp only [if_true]
        constructor
        · intro P3 j h; exact Step.noConfusion h
        · intro cc r h hcc
          simp only [Step.done.injEq, Res.ret.injEq] at h
          exact absurd h.1.symm hcc
      · subst e1
        simp only [show ¬ ((1 : Int) = 0) by decide, if_false]
        constructor
        · intro P3 j h
          simp only [Step.cont.injEq, Prod.mk.injEq] at h
          rw [← h.1]
          exact ⟨q1 hc, rfl⟩
        · intro cc r h hcc; exact Step.noConfusion h
    | abort =>
      simp only
      exact ⟨fun _ _ h => Step.noConfusion h, fun _ _ h _ => by simp at h⟩
    | nofuel =>
      simp only
      exact ⟨fun _ _ h => Step.noConfusion h, fun _ _ h _ => by simp at h⟩

theorem header_step_contact (P : packet_t) (s k i : Nat) (hcl : P.current_line = ⟨s, k⟩)
    (hs : 0 < s) (hc : P.contact.offs ≠ 0) :
    (∀ P1 i1, header_step P i = Step.cont (P1, i1) →
        P1.contact = P.contact ∧ ∃ s1 k1 : Nat, P1.current_line = ⟨s1, k1⟩ ∧ 0 < s1)
    ∧ (∀ cc r, header_step P i = Step.done (Res.ret cc r) → cc ≠ 0 →
        r.contact = P.contact) := by
  unfold header_step
  simp only
  generalize count_while not_eol P.buf.p (P.buf.used - i) i = n
  have hcl1 : ({ P with current_line := ⟨P.current_line.offs, P.current_line.len + n⟩ }
      : packet_t).current_line = ⟨s, ((k + n : Nat) : Int)⟩ := by
    simp only [hcl]; push_cast; rfl
  constructor
  · intro P1 i1 h
    split_ifs at h
    all_goals
      obtain ⟨a1, a2⟩ := (header_step_line_contact _ _ s (k + n) hcl1 hs hc).1 P1 i1 h
      exact ⟨a1, _, 0, a2, by omega⟩
  · intro cc r h hcc
    split_ifs at h
    all_goals first
      | exact (header_step_line_contact _ _ s (k + n) hcl1 hs hc).2 cc r h hcc
      | (simp only [Step.done.injEq, Res.ret.injEq] at h
         first
           | exact absurd h.1.symm hcc
           | rw [← h.2])

/-- A Contact span that has been recorded behind the first line is the
Contact span of every success of the header loop. -/
theorem header_loop_contact_kept (f : Nat) :
    ∀ (P : packet_t) (s k i : Nat), P.current_line = ⟨s, k⟩ → 0 < s → P.contact.offs ≠ 0 →
      ∀ cc r, header_loop f P i = Res.ret cc r → cc ≠ 0 → r.contact = P.contact := by
  induction f with
  | zero => intro P s k i _ _ _ cc r h; simp [header_loop] at h
  | succ f ih =>
    intro P s k i hcl hs hc cc r h hcc
    rw [header_loop] at h
    obtain ⟨a1, a2⟩ := header_step_contact P s k i hcl hs hc
    cases e : header_step P i with
    | cont st =>
      obtain ⟨P1, i1⟩ := st
      rw [e] at h
      simp only at h
      obtain ⟨b1, s1, k1, b2, b3⟩ := a1 P1 i1 e
      rw [ih P1 s1 k1 i1 b2 b3 (by rw [b1]; exact hc) cc r h hcc, b1]
    | done res =>
      rw [e] at h
      simp only at h
      subst h
      exact a2 cc r e hcc

/-- The tag of a line that has a name. -/
theorem line_named_tag (p line name : List Nat) (s m : Nat)
    (hbytes : ∀ x, x < line.length → rd p (s + x) = rd line x)
    (hn : ∀ k, k < name.length → is_tag (rd name k) = true)
    (h : line_named name line = true) (hm : line.length ≤ m) :
    count_while is_tag p m s = name.length ∧ strncasecmp_eq p s name = true
    ∧ name.length < line.length ∧ rd p (s + name.length) = COLON := by
  have hlt := line_named_lt name line h
  unfold line_named at h
  simp only [Bool.and_eq_true, decide_eq_true_eq, beq_iff_eq] at h
  obtain ⟨h1, h2⟩ := h
  obtain ⟨t1, t2, t3⟩ := named_tag (line.take name.length) name h1 hn
  have hrt : ∀ k, k < name.length → rd (line.take name.length) k = rd line k :=
    fun k hk => rd_take line name.length k hk
  refine ⟨?_, ?_, hlt, by rw [hbytes _ hlt, h2]⟩
  · apply count_while_eq
    · intro x hx
      rw [hbytes x (by omega), ← hrt x hx]
      exact t3 x (by omega)
    · omega
    · rw [hbytes _ hlt, h2]; decide
  · exact strncasecmp_eq_of_bytes p s (line.take name.length) name t1
      (fun k hk => by rw [hbytes k (by omega), hrt k (by omega)]) t2

/-- A turn of the header loop on a complete line named Contact that has a
value, when a Contact span has been recorded: the loop goes on with the next
line, and the packet is the same apart from the current line. -/
theorem contact_line_turn (P : packet_t) (s k0 : Nat) (line eol : List Nat)
    (hcl : P.current_line = ⟨s, k0⟩) (hs : 0 < s) (hk0 : k0 ≤ line.length)
    (hx : is_line (line, eol) = true)
    (hbytes : ∀ y, y < (line ++ eol).length → rd P.buf.p (s + y) = rd (line ++ eol) y)
    (hend : s + line.length + eol.length ≤ P.buf.used)
    (hmax : line.length ≤ SIP_MAX_LEN)
    (hn : line_named (bytes "Contact") line = true)
    (hval : 0 < (value_span s 7 line).len)
    (hc : P.contact.offs ≠ 0) :
    header_step P (s + k0)
      = Step.cont ({ P with current_line := ⟨((s + line.length + eol.length : Nat) : Int), 0⟩ },
          s + line.length + eol.length) := by
  obtain ⟨l0, hline, heol, he1⟩ := is_line_facts _ hx
  simp only at l0 hline heol he1
  rw [header_step_at_line P s k0 line eol hcl hk0 hbytes hend hline heol, if_neg (by omega)]
  have hrdl : ∀ y, y < line.length → rd P.buf.p (s + y) = rd line y := by
    intro y hy
    rw [hbytes y (by simp only [List.length_append]; omega), rd_append_left _ _ _ hy]
  rw [header_step_line_header_line _ _ (by simp only; omega) (by simp only; omega)]
  obtain ⟨m1, m2, m3, m4⟩ := line_named_tag P.buf.p line (bytes "Contact") s line.length hrdl
    (by decide) hn (Nat.le_refl _)
  have m1b : count_while is_tag P.buf.p line.length s = 7 := m1
  have m3b : 7 < line.length := m3
  have m4b : rd P.buf.p (s + 7) = COLON := m4
  have hsp : count_while is_space P.buf.p (line.length - (7 + 1)) (s + 7 + 1)
      = count_while is_space line (line.length - (7 + 1)) (7 + 1) := by
    apply count_while_shift
    intro x hx
    rw [show s + 7 + 1 + x = s + (7 + 1 + x) by omega]
    exact hrdl _ (by omega)
  have hv : 7 + 1 + count_while is_space line (line.length - (7 + 1)) (7 + 1) < line.length := by
    unfold value_span at hval
    simp only at hval
    omega
  have e : header_line { P with current_line := ⟨(s : Int), (line.length : Int)⟩ }
      = Res.ret 1 { P with current_line := ⟨(s : Int), (line.length : Int)⟩ } := by
    unfold header_line
    simp only [Int.toNat_ofNat, m1b, hsp]
    rw [if_neg (by rw [m4b]; simp only [ne_eq, not_true_eq_false, or_false]; omega),
      if_neg (by simp only [not_not]; exact hv)]
    unfold header_line_tag
    simp [m2, hc]
  rw [e]
  rfl

/-- The header loop from a complete line named Contact, when no Contact span
has been recorded: every success has the value of the line as Contact span. -/
theorem contact_line_run (P : packet_t) (s k0 f : Nat) (x : List Nat × List Nat)
    (hinv : loop_inv P s k0) (hs : 0 < s) (hk0 : k0 ≤ x.1.length) (hx : is_line x = true)
    (hbytes : ∀ y, y < (x.1 ++ x.2).length → rd P.buf.p (s + y) = rd (x.1 ++ x.2) y)
    (hend : s + x.1.length + x.2.length ≤ P.buf.used)
    (hn : line_named (bytes "Contact") x.1 = true) (hc : P.contact.offs = 0)
    (cc : Int) (r : packet_t) (h : header_loop f P (s + k0) = Res.ret cc r) (hcc : cc ≠ 0) :
    r.contact = value_span s 7 x.1 := by
  cases f with
  | zero => simp [header_loop] at h
  | succ f =>
    rw [header_loop] at h
    rcases line_turn P s k0 x hinv hk0 hx hbytes hend with
      ⟨r1, e1, e2⟩ | ⟨P1, e1, inv1, b1, st1, cnt1, c1, c2, c3⟩
    · rw [e1] at h
      simp only [Res.ret.injEq] at h
      exact absurd h.1 (fun hh => hcc hh.symm)
    · rw [e1] at h
      simp only at h
      obtain ⟨v1, v2⟩ := c3 hs hn hc
      have hoff : P1.contact.offs ≠ 0 := by
        rw [v1]
        unfold value_span
        simp only
        omega
      rw [header_loop_contact_kept f P1 (s + x.1.length + x.2.length) 0 _ inv1.1 (by omega) hoff
        cc r h hcc, v1]

theorem seen_count_with_buf (d : packet_t) (st : packet_status_t) (b : buf_t) (fld : field_t) :
    seen_count (with_buf { d with status := st } b) fld = seen_count d fld := by
  cases fld <;> rfl

/-- The bytes of the buffer behind the offset `s`, when they begin with the
bytes `a`. -/
theorem rd_of_drop (p a rest : List Nat) (n s : Nat) (hn : n ≤ p.length)
    (h : (p.take n).drop s = a ++ rest) :
    (∀ y, y < a.length → rd p (s + y) = rd a y) ∧ (0 < a.length → s + a.length ≤ n) := by
  have hl : n - s = a.length + rest.length := by
    have := congrArg List.length h
    simp only [List.length_drop, List.length_take, List.length_append] at this
    omega
  constructor
  · intro y hy
    rw [← rd_append_left a rest y hy, ← h, rd_drop, rd_take _ _ _ (by omega)]
  · intro h0; omega

/-- A turn of the header loop on a line that is not complete in the buffer:
the bytes in use end with bytes of the line, or with the CR behind them.  The
line is too long, or the call returns with the length of the line so far. -/
theorem header_step_partial (P : packet_t) (s k0 n : Nat) (tail : List Nat)
    (hcl : P.current_line = ⟨s, k0⟩) (hu : s + k0 + n + tail.length = P.buf.used)
    (hall : ∀ x, x < n → not_eol (rd P.buf.p (s + k0 + x)) = true)
    (ht : tail = [] ∨ (tail = [CR] ∧ rd P.buf.p (s + k0 + n) = CR)) :
    header_step P (s + k0)
      = if k0 + n > SIP_MAX_LEN then
          Step.done (Res.ret 0 { P with current_line := ⟨s, ((k0 + n : Nat) : Int)⟩,
                                        status := PACKET_ERROR })
        else Step.done (Res.ret 1 { P with current_line := ⟨s, ((k0 + n : Nat) : Int)⟩ }) := by
  have hc : count_while not_eol P.buf.p (P.buf.used - (s + k0)) (s + k0) = n := by
    rcases ht with h | ⟨h, hr⟩
    · rw [h] at hu
      simp only [List.length_nil, Nat.add_zero] at hu
      have e : P.buf.used - (s + k0) = n := by omega
      rw [e]
      exact count_while_full _ _ _ _ hall
    · rw [h] at hu
      simp only [List.length_singleton] at hu
      exact count_while_eq _ _ _ _ _ hall (by omega) (by rw [hr]; decide)
  unfold header_step
  simp only [hc, hcl]
  have hlen : ((k0 : Int) + (n : Int)) = ((k0 + n : Nat) : Int) := by push_cast; rfl
  rw [hlen]
  by_cases hlong : k0 + n > SIP_MAX_LEN
  · rw [if_pos hlong, if_pos (by simp only [SIP_MAX_LEN] at hlong ⊢; omega)]
  · rw [if_neg hlong, if_neg (by simp only [SIP_MAX_LEN] at hlong ⊢; omega)]
    rcases ht with h | ⟨h, hr⟩
    · rw [h] at hu
      simp only [List.length_nil, Nat.add_zero] at hu
      rw [if_pos hu]
    · rw [h] at hu
      simp only [List.length_singleton] at hu
      rw [if_neg (by omega), if_pos ⟨hr, hu⟩]

/-- The header loop at a line that is not complete in the buffer: a success
has recorded the length of the line so far and nothing else. -/
theorem partial_line_end (f : Nat) (P : packet_t) (s0 k0 : Nat) (part tail : List Nat)
    (hcl : P.current_line = ⟨s0, k0⟩) (hk : k0 ≤ part.length)
    (hbytes : ∀ y, y < (part ++ tail).length → rd P.buf.p (s0 + y) = rd (part ++ tail) y)
    (hu : s0 + part.length + tail.length = P.buf.used)
    (hp : part.all not_eol = true) (ht : tail = [] ∨ tail = [CR])
    (cc : Int) (r : packet_t) (h : header_loop (f + 1) P (s0 + k0) = Res.ret cc r)
    (hcc : cc ≠ 0) :
    cc = 1 ∧ r = { P with current_line := ⟨s0, ((part.length : Nat) : Int)⟩ } := by
  have hall : ∀ x, x < part.length - k0 → not_eol (rd P.buf.p (s0 + k0 + x)) = true := by
    intro x hx
    rw [Nat.add_assoc, hbytes (k0 + x) (by simp only [List.length_append]; omega),
      rd_append_left _ _ _ (by omega)]
    exact all_rd not_eol part hp _ (by omega)
  have ht2 : tail = [] ∨ (tail = [CR] ∧ rd P.buf.p (s0 + k0 + (part.length - k0)) = CR) := by
    rcases ht with e | e
    · exact Or.inl e
    · refine Or.inr ⟨e, ?_⟩
      have e2 : s0 + k0 + (part.length - k0) = s0 + part.length := by omega
      rw [e2, hbytes part.length (by rw [e]; simp)]
      have e4 := rd_append_right part tail 0
      rw [Nat.add_zero] at e4
      rw [e4, e]
      rfl
  rw [header_loop, header_step_partial P s0 k0 (part.length - k0) tail hcl (by omega) hall ht2] at h
  have e3 : k0 + (part.length - k0) = part.length := by omega
  rw [e3] at h
  split_ifs at h
  · simp only [Res.ret.injEq] at h
    exact absurd h.1.symm hcc
  · simp only [Res.ret.injEq] at h
    exact ⟨h.1.symm, h.2.symm⟩

/-- C17: the packet `dropped q` with which a call of `next_packet` goes on
stands in the header (`loop_inv`: header length 0) at the line with the offset
`s`, of which `k` bytes have been scanned, and the bytes of the buffer and of
the chunk behind that offset begin with the complete lines `ls`, none empty,
followed by any bytes `rest`; at the offset 0 the first of the lines is the
first line of the message, the others are header lines (`header_lines`).  A
fresh packet with a whole message as chunk is the case `s = 0`, `k = 0`.
(1) If two of the header lines have the name of the field `fld` (Via, From, To
or Content-Length, letters compared without case), or one has and the field
has been seen before, the call returns failure with status Error.
(2) If no Contact span has been recorded and `line` is the first header line
named Contact, every success of the call has the value of `line` as Contact
span, whatever follows the line, other lines named Contact included.
(3) A Contact span that has been recorded is the Contact span of every success
of the call.
(4) A turn of the header loop on a complete line named Contact that has a
value, when a Contact span has been recorded, goes on with the next line and
leaves the packet as it was, apart from the current line: it is accepted.
(5) When the bytes `rest` behind the lines are the start `part` of a line,
without its end or with the CR of its end, a success of the call leaves a
packet that stands in the header at that line with `part` scanned, with the
bytes of the chunk behind those it had, and with every field seen that had
been seen or whose name one of the header lines has: the packet with which
the next call goes on. -/
theorem duplicate_header_line (q : packet_t) (c : List Nat) (s k : Nat)
    (ls : List (List Nat × List Nat)) (rest : List Nat)
    (hb : q.buf.used ≤ q.buf.p.length)
    (hl : q.status = PACKET_READY → u32 (q.header.len + q.data.len) ≤ q.buf.used)
    (h32 : (dropped q).buf.used + c.length < 4294967296)
    (hinv : loop_inv (dropped q) s k) (hsk : s + k ≤ (dropped q).buf.used)
    (hbytes : (content (dropped q) ++ c).drop s = join_lines ls ++ rest)
    (hls : ∀ x, x ∈ ls → is_line x = true)
    (hk : ∀ x t, ls = x :: t → k ≤ x.1.length) :
    (∀ fld, 2 ≤ seen_count (dropped q) fld + named_count fld (header_lines s ls) →
        ∃ r, next_packet q c = Res.ret 0 r ∧ r.status = PACKET_ERROR)
    ∧ (∀ pre line eol post cc r, ls = pre ++ (line, eol) :: post → (s = 0 → pre ≠ []) →
        (dropped q).contact.offs = 0 →
        (∀ x, x ∈ header_lines s pre → line_named (bytes "Contact") x.1 = false) →
        line_named (bytes "Contact") line = true →
        next_packet q c = Res.ret cc r → cc ≠ 0 →
        r.contact = value_span (s + (join_lines pre).length) 7 line)
    ∧ (∀ cc r, 0 < s → (dropped q).contact.offs ≠ 0 →
        next_packet q c = Res.ret cc r → cc ≠ 0 → r.contact = (dropped q).contact)
    ∧ (∀ (P : packet_t) (s1 k1 : Nat) (line eol : List Nat),
        P.current_line = ⟨s1, k1⟩ → 0 < s1 → k1 ≤ line.length → is_line (line, eol) = true →
        (∀ y, y < (line ++ eol).length → rd P.buf.p (s1 + y) = rd (line ++ eol) y) →
        s1 + line.length + eol.length ≤ P.buf.used → line.length ≤ SIP_MAX_LEN →
        line_named (bytes "Contact") line = true → 0 < (value_span s1 7 line).len →
        P.contact.offs ≠ 0 →
        header_step P (s1 + k1)
          = Step.cont ({ P with current_line :=
                           ⟨((s1 + line.length + eol.length : Nat) : Int), 0⟩ },
              s1 + line.length + eol.length))
    ∧ (∀ part tail cc r, rest = part ++ tail → part.all not_eol = true →
        (tail = [] ∨ tail = [CR]) → (ls = [] → k ≤ part.length) →
        next_packet q c = Res.ret cc r → cc ≠ 0 →
        r.status = PACKET_INCOMPLETE
        ∧ loop_inv r (s + (join_lines ls).length) part.length
        ∧ r.buf.used ≤ r.buf.p.length
        ∧ content r = content (dropped q) ++ c
        ∧ (∀ fld, seen_count (dropped q) fld + named_count fld (header_lines s ls)
            ≤ seen_count r fld)
        ∧ ((∀ x, x ∈ header_lines s ls → line_named (bytes "Contact") x.1 = false) →
            r.contact = (dropped q).contact)) := by
  have hdr := dropped_not_ready q
  have hdc := (dropped_content q hb hl).1
  rw [next_packet_dropped q c hl]
  generalize dropped q = d at h32 hinv hsk hbytes hdr hdc ⊢
  refine ⟨?_, ?_, ?_, fun P s1 k1 line eol a1 a2 a3 a4 a5 a6 a7 a8 a9 a10 =>
    contact_line_turn P s1 k1 line eol a1 a2 a3 a4 a5 a6 a7 a8 a9 a10, ?_⟩
  all_goals by_cases hsz : d.buf.used + c.length ≤ 2 * SIP_MAX_LEN
  · -- (1)
    intro fld h2
    obtain ⟨b2, hext, hnp⟩ := next_packet_not_ready d c hdr hdc hsz
    obtain ⟨hcl, hh, hm, hv, hd⟩ := hinv
    have hu := buf_ext_used hext
    have hu32 : u32 (d.current_line.offs + d.current_line.len) = s + k := by
      rw [hcl]
      have := u32_nat (s + k) (by simp only [SIP_MAX_LEN] at hsz; omega)
      push_cast at this
      exact this
    rw [hnp, if_pos hh, hu32]
    have hinv0 : loop_inv (with_buf { d with status := PACKET_INCOMPLETE } b2) s k :=
      ⟨hcl, hh, hm, hv, hd⟩
    cases ls with
    | nil =>
      have := seen_count_le d fld
      have e : named_count fld (header_lines s []) = 0 := by
        unfold header_lines named_count; split_ifs <;> rfl
      omega
    | cons x t =>
      obtain ⟨r1, r2⟩ := rd_of_drop b2.p (join_lines (x :: t)) rest b2.used s hext.2.1
        (by rw [hext.2.2]; exact hbytes)
      have hpos : 0 < (join_lines (x :: t)).length := by
        obtain ⟨line, eol⟩ := x
        have := (is_line_facts _ (hls _ (List.mem_cons_self _ _))).1
        rw [join_lines_length_cons]
        simp only at this
        omega
      rcases lines_from x t (b2.used + 1) s k _ hinv0 (hk x t rfl) r1 (r2 hpos) hls
          (by simp only [with_buf]; omega) with
        ⟨r, e1, e2⟩ | ⟨P2, f2, _, _, _, _, _, cnt, _, _⟩
      · exact ⟨r, e1, e2⟩
      · have a := cnt fld
        rw [seen_count_with_buf] at a
        have b := seen_count_le P2 fld
        omega
  · intro fld _
    rw [next_packet_too_large d c hdr h32 (by omega)]
    exact ⟨_, rfl, rfl⟩
  · -- (2)
    intro pre line eol post cc r hls2 hpre hc0 hnc hn hres hcc
    obtain ⟨b2, hext, hnp⟩ := next_packet_not_ready d c hdr hdc hsz
    obtain ⟨hcl, hh, hm, hv, hd⟩ := hinv
    have hu := buf_ext_used hext
    have hu32 : u32 (d.current_line.offs + d.current_line.len) = s + k := by
      rw [hcl]
      have := u32_nat (s + k) (by simp only [SIP_MAX_LEN] at hsz; omega)
      push_cast at this
      exact this
    rw [hnp, if_pos hh, hu32] at hres
    have hinv0 : loop_inv (with_buf { d with status := PACKET_INCOMPLETE } b2) s k :=
      ⟨hcl, hh, hm, hv, hd⟩
    subst hls2
    have hxl := hls (line, eol) (List.mem_append_right _ (List.mem_cons_self _ _))
    obtain ⟨l0, _, _, he1⟩ := is_line_facts _ hxl
    simp only at l0 he1
    have hjl : join_lines (pre ++ (line, eol) :: post)
        = join_lines pre ++ ((line ++ eol) ++ join_lines post) := by
      rw [join_lines_append]; rfl
    obtain ⟨r1, r2⟩ := rd_of_drop b2.p (join_lines pre ++ (line ++ eol))
      (join_lines post ++ rest) b2.used s hext.2.1
      (by
        rw [hext.2.2]
        show List.drop s (content d ++ c) = _
        rw [hbytes, hjl]; simp only [List.append_assoc])
    have r2b := r2 (by simp only [List.length_append]; omega)
    simp only [List.length_append] at r2b
    have hbl : ∀ y, y < (line ++ eol).length →
        rd b2.p (s + (join_lines pre).length + y) = rd (line ++ eol) y := by
      intro y hy
      rw [Nat.add_assoc, r1 _ (by simp only [List.length_append] at hy ⊢; omega),
        rd_append_right]
    cases pre with
    | nil =>
      have hs : 0 < s := by
        rcases Nat.eq_zero_or_pos s with h0 | h0
        · exact absurd rfl (hpre h0)
        · exact h0
      simp only [join_lines, List.length_nil, Nat.add_zero] at hbl r2b ⊢
      exact contact_line_run _ s k (b2.used + 1) (line, eol) hinv0 hs
        (hk (line, eol) post rfl) hxl hbl (by simp only [with_buf]; omega) hn hc0 cc r hres hcc
    | cons x t =>
      have hpos : 0 < (join_lines (x :: t)).length := by
        obtain ⟨l1, e1⟩ := x
        have := (is_line_facts _ (hls _ (List.mem_append_left _ (List.mem_cons_self _ _)))).1
        rw [join_lines_length_cons]
        simp only at this
        omega
      rcases lines_from x t (b2.used + 1) s k _ hinv0 (hk x (t ++ (line, eol) :: post) rfl)
          (fun y hy => by
            show rd b2.p (s + y) = _
            rw [r1 y (by simp only [List.length_append]; omega), rd_append_left _ _ _ hy])
          (by simp only [with_buf]; omega)
          (fun y hy => hls y (List.mem_append_left _ hy))
          (by simp only [with_buf]; omega) with
        ⟨r0, e1, e2⟩ | ⟨P2, f2, e1, inv2, b2e, _, hf2, _, _, d2⟩
      · rw [e1] at hres
        simp only [Res.ret.injEq] at hres
        exact absurd hres.1 (fun hh => hcc hh.symm)
      · rw [e1] at hres
        have hc2 : P2.contact.offs = 0 := by rw [d2 hnc]; exact hc0
        have := contact_line_run P2 (s + (join_lines (x :: t)).length) 0 f2 (line, eol) inv2
          (by omega) (Nat.zero_le _) hxl (by rw [b2e]; exact hbl)
          (by rw [b2e]; simp only [with_buf]; omega) hn hc2 cc r
          (by rw [Nat.add_zero]; exact hres) hcc
        exact this
  · intro pre line eol post cc r _ _ _ _ _ hres hcc
    rw [next_packet_too_large d c hdr h32 (by omega)] at hres
    simp only [Res.ret.injEq] at hres
    exact absurd hres.1 (fun hh => hcc hh.symm)
  · -- (3)
    intro cc r hs hc hres hcc
    obtain ⟨b2, hext, hnp⟩ := next_packet_not_ready d c hdr hdc hsz
    obtain ⟨hcl, hh, hm, hv, hd⟩ := hinv
    rw [hnp, if_pos hh] at hres
    exact header_loop_contact_kept _ (with_buf { d with status := PACKET_INCOMPLETE } b2) s k _
      hcl hs hc cc r hres hcc
  · intro cc r _ _ hres hcc
    rw [next_packet_too_large d c hdr h32 (by omega)] at hres
    simp only [Res.ret.injEq] at hres
    exact absurd hres.1 (fun hh => hcc hh.symm)
  · -- (5)
    intro part tail cc r hrest hp ht hk2 hres hcc
    obtain ⟨b2, hext, hnp⟩ := next_packet_not_ready d c hdr hdc hsz
    obtain ⟨hcl, hh, hm, hv, hd⟩ := hinv
    have hu := buf_ext_used hext
    have hu32 : u32 (d.current_line.offs + d.current_line.len) = s + k := by
      rw [hcl]
      have := u32_nat (s + k) (by simp only [SIP_MAX_LEN] at hsz; omega)
      push_cast at this
      exact this
    rw [hnp, if_pos hh, hu32] at hres
    have hinv0 : loop_inv (with_buf { d with status := PACKET_INCOMPLETE } b2) s k :=
      ⟨hcl, hh, hm, hv, hd⟩
    subst hrest
    have hdrop : (b2.p.take b2.used).drop s = join_lines ls ++ (part ++ tail) := by
      rw [hext.2.2]; exact hbytes
    have hlen : s + (join_lines ls).length + part.length + tail.length = b2.used := by
      have := congrArg List.length hdrop
      simp only [List.length_drop, List.length_take, List.length_append] at this
      have h2 := hext.2.1
      omega
    obtain ⟨r1, _⟩ := rd_of_drop b2.p (join_lines ls ++ (part ++ tail)) [] b2.used s hext.2.1
      (by rw [List.append_nil]; exact hdrop)
    have hbl : ∀ y, y < (part ++ tail).length →
        rd b2.p (s + (join_lines ls).length + y) = rd (part ++ tail) y := by
      intro y hy
      rw [Nat.add_assoc, r1 _ (by simp only [List.length_append] at hy ⊢; omega),
        rd_append_right]
    cases ls with
    | nil =>
      simp only [join_lines, List.length_nil, Nat.add_zero] at hbl hlen ⊢
      obtain ⟨_, e2⟩ := partial_line_end b2.used
        (with_buf { d with status := PACKET_INCOMPLETE } b2) s k part tail hcl (hk2 rfl) hbl
        hlen hp ht cc r hres hcc
      subst e2
      refine ⟨rfl, ⟨rfl, hh, hm, hv, hd⟩, hext.2.1, hext.2.2, fun fld => ?_, fun _ => rfl⟩
      have e : named_count fld (header_lines s []) = 0 := by
        unfold header_lines named_count; split_ifs <;> rfl
      rw [e]
      cases fld <;> exact Nat.le_refl _
    | cons x t =>
      have hpos : 0 < (join_lines (x :: t)).length := by
        obtain ⟨line, eol⟩ := x
        have := (is_line_facts _ (hls _ (List.mem_cons_self _ _))).1
        rw [join_lines_length_cons]
        simp only at this
        omega
      rcases lines_from x t (b2.used + 1) s k _ hinv0 (hk x t rfl)
          (fun y hy => by
            show rd b2.p (s + y) = _
            rw [r1 y (by simp only [List.length_append]; omega), rd_append_left _ _ _ hy])
          (by simp only [with_buf]; omega) hls
          (by simp only [with_buf]; omega) with
        ⟨r0, e1, e2⟩ | ⟨P2, f2, e1, inv2, b2e, st2, hf2, cnt, _, d2⟩
      · rw [e1] at hres
        simp only [Res.ret.injEq] at hres
        exact absurd hres.1 (fun hh => hcc hh.symm)
      · rw [e1] at hres
        obtain ⟨g, rfl⟩ : ∃ g, f2 = g + 1 := ⟨f2 - 1, by omega⟩
        obtain ⟨_, e2⟩ := partial_line_end g P2 (s + (join_lines (x :: t)).length) 0 part tail
          inv2.1 (Nat.zero_le _) (by rw [b2e]; exact hbl)
          (by rw [b2e]; simp only [with_buf]; omega) hp ht cc r
          (by rw [Nat.add_zero]; exact hres) hcc
        subst e2
        obtain ⟨_, i2, i3, i4, i5⟩ := inv2
        refine ⟨?_, ⟨rfl, i2, i3, i4, i5⟩, ?_, ?_, fun fld => ?_, fun hn => ?_⟩
        · show P2.status = _
          rw [st2]; rfl
        · show P2.buf.used ≤ P2.buf.p.length
          rw [b2e]; exact hext.2.1
        · show P2.buf.p.take P2.buf.used = _
          rw [b2e]; exact hext.2.2
        · have a := cnt fld
          rw [seen_count_with_buf] at a
          have b : seen_count { P2 with current_line :=
              ⟨((s + (join_lines (x :: t)).length : Nat) : Int), ((part.length : Nat) : Int)⟩ } fld
              = seen_count P2 fld := by cases fld <;> rfl
          rw [b]; exact a
        · show P2.contact = _
          rw [d2 hn]; rfl
  · intro part tail cc r _ _ _ _ hres hcc
    rw [next_packet_too_large d c hdr h32 (by omega)] at hres
    simp only [Res.ret.injEq] at hres
    exact absurd hres.1 (fun hh => hcc hh.symm)

/-- C17 (witness): a message with the lines `INVITE sip:a SIP/2.0`, `Via: x`,
`From: y` and `via: z`, fed to a fresh packet in one call, is an error; the message
with the lines `two_contact_lines`, fed in one call, is Ready, and its Contact
span is the value `<sip:a@1.2.3.4>` of the first Contact line.  The message
with the two Via lines fed in two calls, the first with the bytes up to `Fr`
of the line `From: y`: the first call leaves `split_via_packet`, which stands at
the third line with two bytes scanned and has seen Via, and the second call is
an error. -/
theorem duplicate_header_line_witness :
    (∃ r, next_packet packet_zero (join_lines two_via_lines ++ [CR, LF]) = Res.ret 0 r
        ∧ r.status = PACKET_ERROR)
    ∧ next_packet packet_zero (join_lines two_contact_lines ++ [CR, LF])
        = Res.ret 1 two_contact_packet
    ∧ two_contact_packet.status = PACKET_READY
    ∧ two_contact_packet.contact
        = value_span (0 + (join_lines (two_contact_lines.take 4)).length) 7
            (bytes "Contact: <sip:a@1.2.3.4>")
    ∧ (two_contact_packet.buf.p.drop two_contact_packet.contact.offs.toNat).take
          two_contact_packet.contact.len.toNat = bytes "<sip:a@1.2.3.4>"
    ∧ next_packet packet_zero (join_lines (two_via_lines.take 2) ++ bytes "Fr")
        = Res.ret 1 split_via_packet
    ∧ loop_inv split_via_packet 30 2
    ∧ 1 ≤ seen_count split_via_packet field_t.via
    ∧ (∃ r, next_packet split_via_packet (bytes "om: y\r\nvia: z\r\n\r\n") = Res.ret 0 r
        ∧ r.status = PACKET_ERROR) := by
  have hd : ((content (dropped packet_zero) ++ (join_lines two_via_lines ++ [CR, LF])).drop 0
        = join_lines two_via_lines ++ [CR, LF]
      ∧ (content (dropped packet_zero) ++ (join_lines two_contact_lines ++ [CR, LF])).drop 0
        = join_lines two_contact_lines ++ [CR, LF]
      ∧ (content (dropped packet_zero) ++ (join_lines (two_via_lines.take 2) ++ bytes "Fr")).drop 0
        = join_lines (two_via_lines.take 2) ++ bytes "Fr"
      ∧ (content (dropped split_via_packet) ++ bytes "om: y\r\nvia: z\r\n\r\n").drop 30
        = join_lines (two_via_lines.drop 2) ++ [CR, LF])
      ∧ next_packet packet_zero (join_lines two_contact_lines ++ [CR, LF])
        = Res.ret 1 two_contact_packet
      ∧ (two_contact_packet.buf.p.drop two_contact_packet.contact.offs.toNat).take
          two_contact_packet.contact.len.toNat = bytes "<sip:a@1.2.3.4>"
      ∧ next_packet packet_zero (join_lines (two_via_lines.take 2) ++ bytes "Fr")
        = Res.ret 1 split_via_packet := by
    decide!
  obtain ⟨⟨b1, b2, b3, b4⟩, a1, a2, a3⟩ := hd
  have h1 := (duplicate_header_line packet_zero (join_lines (two_via_lines.take 2) ++ bytes "Fr")
      0 0 (two_via_lines.take 2) (bytes "Fr") (by decide) (fun h => absurd h (by decide))
      (by decide) ⟨rfl, rfl, fun _ => rfl, fun _ => rfl, fun _ => rfl⟩ (by decide) b3
      (by decide) (fun _ _ _ => Nat.zero_le _)).2.2.2.2
      (bytes "Fr") [] 1 split_via_packet (by decide) (by decide) (Or.inl rfl)
      (fun h => absurd h (by decide)) a3 (by decide)
  exact ⟨(duplicate_header_line packet_zero (join_lines two_via_lines ++ [CR, LF]) 0 0
      two_via_lines [CR, LF] (by decide) (fun h => absurd h (by decide)) (by decide)
      ⟨rfl, rfl, fun _ => rfl, fun _ => rfl, fun _ => rfl⟩ (by decide) b1
      (by decide) (fun _ _ _ => Nat.zero_le _)).1 field_t.via (by decide),
   a1, by decide,
   (duplicate_header_line packet_zero (join_lines two_contact_lines ++ [CR, LF]) 0 0
      two_contact_lines [CR, LF] (by decide) (fun h => absurd h (by decide)) (by decide)
      ⟨rfl, rfl, fun _ => rfl, fun _ => rfl, fun _ => rfl⟩ (by decide) b2
      (by decide) (fun _ _ _ => Nat.zero_le _)).2.1
      (two_contact_lines.take 4) (bytes "Contact: <sip:a@1.2.3.4>") [CR, LF]
      (two_contact_lines.drop 5) 1 two_contact_packet (by decide) (fun _ => by decide)
      (by decide) (by decide) (by decide) a1 (by decide),
   a2, a3, h1.2.1, h1.2.2.2.2.1 field_t.via,
   (duplicate_header_line split_via_packet (bytes "om: y\r\nvia: z\r\n\r\n") 30 2
      (two_via_lines.drop 2) [CR, LF] (by decide) (fun h => absurd h (by decide)) (by decide)
      h1.2.1 (by decide) b4 (by decide) (fun x t h => by
        have e : x = (bytes "From: y", [CR, LF]) := (List.cons.inj h).1.symm
        rw [e]; decide)).1 field_t.via (by decide)⟩

/-! ## The first line -/

theorem count_while_takeWhile (f : Nat → Bool) (l : List Nat) (n i : Nat)
    (h : i + n ≤ l.length) :
    count_while f l n i = (((l.drop i).take n).takeWhile f).length := by
  induction n generalizing i with
  | zero => simp [count_while]
  | succ n ih =>
    unfold count_while
    rw [drop_take_cons l i n (by omega), List.takeWhile_cons]
    by_cases hf : f (rd l i) = true
    · rw [if_pos hf, hf, ih (i + 1) (by omega)]
      simp
    · rw [if_neg hf]
      simp [hf]

theorem map_range_rd (f : Nat → Nat) (l : List Nat) (off n : Nat) (h : off + n ≤ l.length) :
    (List.range n).map (fun k => f (rd l (off + k))) = ((l.drop off).take n).map f := by
  apply List.ext_getElem
  · simp; omega
  · intro k h1 h2
    simp only [List.length_map, List.length_range] at h1
    simp only [List.getElem_map, List.getElem_range, List.getElem_take, List.getElem_drop]
    unfold rd
    rw [List.getD_eq_getElem _ _ (by omega)]

theorem strncasecmp_eq_list (l : List Nat) (off : Nat) (lit : List Nat)
    (h : off + lit.length ≤ l.length) :
    strncasecmp_eq l off lit = (((l.drop off).take lit.length).map tolower == lit.map tolower) := by
  unfold strncasecmp_eq
  rw [map_range_rd tolower l off lit.length h]

/-- A method line has more than 8 bytes. -/
theorem method_line_long (l : List Nat) (h : method_line l = true) : 8 < l.length := by
  unfold method_line at h
  simp only [Bool.and_eq_true, beq_iff_eq, decide_eq_true_eq] at h
  obtain ⟨⟨h1, h2⟩, h3⟩ := h
  have hlen := congrArg List.length h1
  simp only [List.length_map, List.length_drop] at hlen
  have h8 : (bytes " SIP/2.0").length = 8 := by decide
  rw [h8] at hlen
  by_contra hc
  have hl8 : l.length = 8 := by omega
  rw [hl8, Nat.sub_self, List.drop_zero] at h1
  cases l with
  | nil => simp at hl8
  | cons c t =>
    have e : (bytes " SIP/2.0").map tolower = [32, 115, 105, 112, 47, 50, 46, 48] := by decide
    rw [e] at h1
    simp only [List.map_cons, List.cons.injEq] at h1
    have hc0 : tolower c = 32 := h1.1
    have hna : is_alpha c = false := by
      unfold tolower at hc0
      unfold is_alpha
      simp only [Bool.or_eq_false_iff, Bool.and_eq_false_iff, decide_eq_false_iff_not]
      split_ifs at hc0 <;> omega
    unfold letter_run at h2
    rw [List.takeWhile_cons, hna] at h2
    simp at h2

/-- The function `first_line` on a packet whose buffer starts with the line. -/
theorem first_line_spec (P : packet_t) (l : List Nat)
    (hlen : P.current_line.len = l.length) (hm : P.method.len = 0)
    (hbytes : ∀ x, x < l.length → rd P.buf.p x = rd l x) :
    (first_line P).1 = (status_line l || method_line l)
    ∧ (status_line l = true → (first_line P).2.method.len = 0)
    ∧ (status_line l = false → method_line l = true →
        (first_line P).2.method.len = letter_run l) := by
  have hcount : count_while is_alpha P.buf.p l.length 0 = letter_run l := by
    rw [count_while_shift is_alpha l P.buf.p l.length 0 0 (by simpa using hbytes),
      count_while_takeWhile is_alpha l l.length 0 (by omega)]
    simp [letter_run]
  have hrun : letter_run l ≤ l.length := by
    unfold letter_run
    exact List.Sublist.length_le (List.takeWhile_sublist _)
  by_cases h8 : 8 < l.length
  · have hs : strncasecmp_eq P.buf.p 0 (bytes "SIP/2.0 ")
        = ((l.take 8).map tolower == (bytes "SIP/2.0 ").map tolower) := by
      rw [strncasecmp_eq_shift l P.buf.p 0 0 _ (fun x hx => by
        have h8b : (bytes "SIP/2.0 ").length = 8 := by decide
        rw [h8b] at hx
        simpa using hbytes x (by omega))]
      rw [strncasecmp_eq_list l 0 _ (by
        have h8b : (bytes "SIP/2.0 ").length = 8 := by decide
        omega)]
      have h8b : (bytes "SIP/2.0 ").length = 8 := by decide
      rw [h8b, List.drop_zero]
    have he : strncasecmp_eq P.buf.p (l.length - 8) (bytes " SIP/2.0")
        = ((l.drop (l.length - 8)).map tolower == (bytes " SIP/2.0").map tolower) := by
      have h8b : (bytes " SIP/2.0").length = 8 := by decide
      rw [strncasecmp_eq_shift l P.buf.p (l.length - 8) (l.length - 8) _ (fun x hx => by
        rw [h8b] at hx
        exact hbytes _ (by omega))]
      rw [strncasecmp_eq_list l (l.length - 8) _ (by omega), h8b]
      rw [List.take_of_length_le (by simp; omega)]
    have hS : status_line l = ((l.take 8).map tolower == (bytes "SIP/2.0 ").map tolower) := by
      unfold status_line; simp [h8]
    have hrl : rd l l.length = 0 := by unfold rd; simp
    have hrd : letter_run l < l.length → rd P.buf.p (letter_run l) = rd l (letter_run l) :=
      fun h => hbytes _ h
    unfold first_line
    simp only [hlen, hm, Int.sub_zero, Int.toNat_ofNat, Int.toNat_zero, Int.zero_add]
    rw [if_pos (by omega), show ((l.length : Int) - 8).toNat = l.length - 8 by omega, hs, he,
      hcount, ← hS]
    by_cases c1 : status_line l = true
    · rw [if_pos c1, c1]
      exact ⟨by simp, fun _ => hm, fun h => by simp at h⟩
    · rw [if_neg c1]
      simp only [Bool.not_eq_true] at c1
      rw [c1]
      by_cases c2 : ((l.drop (l.length - 8)).map tolower == (bytes " SIP/2.0").map tolower)
          = false
      · have hml : method_line l = false := by
          unfold method_line; rw [c2]; rfl
        rw [if_pos c2, hml]
        exact ⟨rfl, fun h => by simp at h, fun _ h => by simp at h⟩
      · rw [if_neg c2]
        simp only [Bool.not_eq_false] at c2
        by_cases c3 : (letter_run l : Int) = 0 ∨ (letter_run l : Int) = l.length
            ∨ rd P.buf.p (letter_run l) ≠ SP
        · have hml : method_line l = false := by
            cases hc : method_line l with
            | false => rfl
            | true =>
              exfalso
              unfold method_line at hc
              simp only [Bool.and_eq_true, decide_eq_true_eq] at hc
              obtain ⟨⟨_, g1⟩, g2⟩ := hc
              have hlt : letter_run l < l.length := by
                by_contra hge
                have : letter_run l = l.length := by omega
                rw [this, hrl] at g2
                exact absurd g2 (by decide)
              rcases c3 with c | c | c
              · omega
              · omega
              · rw [hrd hlt] at c; exact c g2
          rw [if_pos c3, hml]
          exact ⟨rfl, fun h => by simp at h, fun _ h => by simp at h⟩
        · simp only [not_or, not_not] at c3
          obtain ⟨g1, g2, g3⟩ := c3
          have hlt : letter_run l < l.length := by omega
          rw [hrd hlt] at g3
          have hml : method_line l = true := by
            unfold method_line
            rw [c2]
            simp only [Bool.true_and, Bool.and_eq_true, decide_eq_true_eq]
            exact ⟨by omega, g3⟩
          rw [if_neg (by
            simp only [not_or, not_not]
            exact ⟨g1, g2, by rw [hrd hlt]; exact g3⟩), hml]
          exact ⟨rfl, fun h => by simp at h, fun _ _ => rfl⟩
  · have hns : status_line l = false := by
      unfold status_line; simp [h8]
    have hnm : method_line l = false := by
      cases hc : method_line l with
      | false => rfl
      | true => exact absurd (method_line_long l hc) h8
    unfold first_line
    simp only [hlen]
    rw [if_neg (by omega), hns, hnm]
    simp

/-- C15 (counterexample): the line `sip/2.0 200 OK` is accepted although it
neither begins with the literal `SIP/2.0 ` nor is a method line, and the line
`SIP/2.0 ` is rejected although it begins with the literal. -/
theorem first_line_claim_differs :
    status_line_claimed (bytes "sip/2.0 200 OK") = false
    ∧ method_line_claimed (bytes "sip/2.0 200 OK") = false
    ∧ next_packet packet_zero (bytes "sip/2.0 200 OK\r\n")
        = Res.ret 1 { packet_zero with
            buf := ⟨bytes "sip/2.0 200 OK\r\n" ++ List.replicate 1008 0, 1024, 16⟩,
            status := PACKET_INCOMPLETE, current_line := ⟨16, 0⟩ }
    ∧ status_line_claimed (bytes "SIP/2.0 ") = true
    ∧ next_packet packet_zero (bytes "SIP/2.0 \r\n")
        = Res.ret 0 { packet_zero with
            buf := ⟨bytes "SIP/2.0 \r\n" ++ List.replicate 1014 0, 1024, 10⟩,
            status := PACKET_ERROR, current_line := ⟨0, 8⟩ } := by
  decide!

/-- C15 (amended): a line of 1 to 6144 bytes without CR and LF, followed by
its end of line, is fed to a fresh packet.  If the line has more than 8 bytes
and begins with `SIP/2.0 ` (letters compared without case), `next_packet`
returns success with the method length 0.  Otherwise, if the line ends with
` SIP/2.0` (letters compared without case) and begins with a non-empty run of
ASCII letters followed by a space, `next_packet` returns success and the method
length is the length of the run.  Every other line makes `next_packet` return
failure with status Error. -/
theorem first_line_accepted (l eol : List Nat)
    (heol : eol = [CR, LF] ∨ eol = [LF]) (hne : 0 < l.length)
    (hl : ∀ x, x < l.length → not_eol (rd l x) = true)
    (hmax : l.length ≤ SIP_MAX_LEN) :
    (status_line l = true →
      ∃ r, next_packet packet_zero (l ++ eol) = Res.ret 1 r ∧ r.status = PACKET_INCOMPLETE
        ∧ r.method.len = 0)
    ∧ (status_line l = false → method_line l = true →
      ∃ r, next_packet packet_zero (l ++ eol) = Res.ret 1 r ∧ r.status = PACKET_INCOMPLETE
        ∧ r.method.len = letter_run l)
    ∧ (status_line l = false → method_line l = false →
      ∃ r, next_packet packet_zero (l ++ eol) = Res.ret 0 r ∧ r.status = PACKET_ERROR) := by
  have hel : 1 ≤ eol.length ∧ eol.length ≤ 2 := by
    rcases heol with h | h <;> rw [h] <;> simp
  have hmax2 : l.length ≤ 6144 := by simpa [SIP_MAX_LEN] using hmax
  obtain ⟨b2, e1, e2⟩ := next_packet_line packet_zero l eol [] (by decide) rfl (by decide) rfl
    heol hl (by
      simp only [packet_zero, List.length_append, List.length_nil, SIP_MAX_LEN]
      omega)
  simp only [List.append_nil] at e1 e2
  rw [if_neg (by omega)] at e2
  have hu := buf_ext_used e1
  have hu0 : b2.used = l.length + eol.length := by
    simpa [packet_zero, List.length_append] using hu
  have hbytes : ∀ x, x < l.length → rd b2.p x = rd l x := by
    intro x hx
    have := buf_ext_rd_new e1 x (by simp only [List.length_append]; omega)
    rw [rd_append_left _ _ _ hx] at this
    simpa [packet_zero] using this
  rw [header_step_line_first
    { with_buf packet_zero b2 with
      status := PACKET_INCOMPLETE,
      current_line := ⟨packet_zero.buf.used, l.length⟩ } _
    (by simp only; omega) rfl rfl] at e2
  obtain ⟨f1, f2, f3⟩ := first_line_spec
    { with_buf packet_zero b2 with
      status := PACKET_INCOMPLETE,
      current_line := ⟨packet_zero.buf.used, l.length⟩ } l rfl rfl hbytes
  obtain ⟨k1, k2, _, _, k5, _⟩ := first_line_keeps
    { with_buf packet_zero b2 with
      status := PACKET_INCOMPLETE,
      current_line := ⟨packet_zero.buf.used, l.length⟩ }
  revert e2 f1 f2 f3 k1 k2 k5
  generalize first_line
    { with_buf packet_zero b2 with
      status := PACKET_INCOMPLETE,
      current_line := ⟨packet_zero.buf.used, l.length⟩ } = r
  obtain ⟨ok, p2⟩ := r
  intro e2 f1 f2 f3 k1 k2 k5
  simp only [with_buf] at e2 f1 f2 f3 k1 k2 k5
  have hgo : ok = true →
      next_packet packet_zero (l ++ eol)
        = Res.ret 1 { p2 with current_line := ⟨((b2.used : Nat) : Int), (0 : Int) + (0 : Nat)⟩ } := by
    intro hok
    rw [e2, hok]
    simp only
    have hi2 : packet_zero.buf.used + l.length + eol.length = b2.used := by
      rw [hu0]; simp [packet_zero]
    rw [hi2]
    exact header_loop_at_end_eq b2.used b2.used _ (by omega) (by simp only; rw [k1])
      (by simp [SIP_MAX_LEN])
  refine ⟨fun hs => ?_, fun hs hm => ?_, fun hs hm => ?_⟩
  · rw [hs] at f1
    exact ⟨_, hgo (by simpa using f1), k2, f2 hs⟩
  · rw [hs, hm] at f1
    exact ⟨_, hgo (by simpa using f1), k2, f3 hs hm⟩
  · rw [hs, hm] at f1
    simp only [Bool.or_self] at f1
    rw [e2, f1]
    exact ⟨_, rfl, rfl⟩

/-- C15 (witness): the request line of a REGISTER. -/
theorem first_line_accepted_witness :
    status_line (bytes "REGISTER sip:h SIP/2.0") = false
    ∧ method_line (bytes "REGISTER sip:h SIP/2.0") = true
    ∧ letter_run (bytes "REGISTER sip:h SIP/2.0") = 8
    ∧ ∃ r, next_packet packet_zero (bytes "REGISTER sip:h SIP/2.0" ++ [CR, LF]) = Res.ret 1 r
        ∧ r.status = PACKET_INCOMPLETE
        ∧ r.method.len = letter_run (bytes "REGISTER sip:h SIP/2.0") :=
  ⟨by decide, by decide, by decide,
   (first_line_accepted (bytes "REGISTER sip:h SIP/2.0") [CR, LF] (Or.inl rfl) (by decide)
      (by decide) (by decide)).2.1 (by decide) (by decide)⟩

/-! ## Keep-alive lines -/

/-- The turn of the header loop over an empty first line drops the line. -/
theorem header_step_line_keep_alive (P : packet_t) (i2 : Nat)
    (hlen : P.current_line.len = 0) (hoffs : P.current_line.offs = 0) :
    header_step_line P i2
      = Step.cont (reset_packet { P with buf := shift_buf P.buf i2 }, 0) := by
  unfold header_step_line
  rw [if_pos hlen, if_pos hoffs]
  rfl

/-- C19 (amended): an empty line (CR LF, or LF alone) followed by bytes `r`,
not more than 12288 bytes in all, fed to a fresh packet gives the same return
value, status, lengths, field spans and bytes in use as `r` alone; an empty
line alone gives success with status Incomplete, no bytes in use and all
lengths and spans zero. -/
theorem keep_alive_line (r eol : List Nat) (heol : eol = [CR, LF] ∨ eol = [LF])
    (hsz : eol.length + r.length ≤ 2 * SIP_MAX_LEN) :
    res_view (next_packet packet_zero (eol ++ r)) = res_view (next_packet packet_zero r)
    ∧ res_view (next_packet packet_zero eol)
        = Res.ret 1 (view { packet_zero with status := PACKET_INCOMPLETE }) := by
  have hel : 1 ≤ eol.length ∧ eol.length ≤ 2 := by
    rcases heol with h | h <;> rw [h] <;> simp
  refine ⟨?_, ?_⟩
  · obtain ⟨b2, e1, e2⟩ := next_packet_line packet_zero [] eol r (by decide) rfl (by decide) rfl
      heol (fun x hx => by simp at hx) (by
        simp only [packet_zero, List.nil_append, List.length_append]
        omega)
    simp only [List.nil_append, List.length_nil] at e1 e2
    rw [if_neg (by simp [SIP_MAX_LEN])] at e2
    rw [header_step_line_keep_alive _ _ rfl rfl] at e2
    simp only at e2
    have e2b : next_packet packet_zero (eol ++ r)
        = header_loop b2.used (start (shift_buf b2 eol.length)) 0 := by
      rw [e2]
      simp [reset_packet, start, with_buf, packet_zero]
    obtain ⟨b3, g1, g2⟩ := next_packet_not_ready packet_zero r (by decide) (by decide) (by
      simp only [packet_zero]; omega)
    rw [if_pos (show packet_zero.header.len = 0 from rfl),
      show u32 (packet_zero.current_line.offs + packet_zero.current_line.len) = 0 by decide] at g2
    have g2b : next_packet packet_zero r = header_loop (b3.used + 1) (start b3) 0 := g2
    have hu2 := buf_ext_used e1
    have hu3 := buf_ext_used g1
    simp only [packet_zero, Nat.zero_add, List.length_append] at hu2 hu3
    have hc2 : b2.p.take b2.used = eol ++ r := by simpa [packet_zero] using e1.2.2
    have hc3 : b3.p.take b3.used = r := by simpa [packet_zero] using g1.2.2
    obtain ⟨s1, s2⟩ := shift_buf_content b2 eol.length (by omega) e1.2.1
    rw [hc2, List.drop_left] at s1
    have hsu : (shift_buf b2 eol.length).used = b2.used - eol.length := rfl
    have hv := header_loop_start_view (b3.used + 1) b2.used b3 (shift_buf b2 eol.length)
      g1.2.1 s2 (by rw [s1, hc3]) (by omega) (by rw [hsu]; omega)
    rw [e2b, g2b]
    exact hv
  · rcases heol with h | h <;> subst h <;> decide!

theorem rd_replicate (n a x : Nat) (h : x < n) : rd (List.replicate n a) x = a := by
  unfold rd
  rw [List.getD_eq_getElem _ _ (by simpa using h)]
  simp

/-- The header loop over a buffer that holds only line feeds drops them all. -/
theorem header_loop_line_feeds (n : Nat) (b : buf_t) (f : Nat) (hb : b.used ≤ b.p.length)
    (hc : b.p.take b.used = List.replicate n LF) (hf : n < f) :
    ∃ b1, header_loop f (start b) 0 = Res.ret 1 (start b1) ∧ b1.used = 0 := by
  induction n generalizing b f with
  | zero =>
    have hu : b.used = 0 := by
      have := congrArg List.length hc
      simp only [List.length_take, List.length_replicate] at this
      omega
    refine ⟨b, ?_, hu⟩
    rw [header_loop_at_end_eq f 0 (start b) hf (by simp [start, hu]) (by simp [start, packet_zero])]
    rfl
  | succ n ih =>
    have hu : b.used = n + 1 := by
      have := congrArg List.length hc
      simp only [List.length_take, List.length_replicate] at this
      omega
    obtain ⟨g, rfl⟩ : ∃ g, f = g + 1 := ⟨f - 1, by omega⟩
    have h0 : rd b.p 0 = LF := by
      rw [← rd_take b.p b.used 0 (by omega), hc]
      exact rd_replicate _ _ _ (by omega)
    rw [header_loop]
    rw [header_step_eq_nc (start b) 0 (by
      have : count_while not_eol (start b).buf.p ((start b).buf.used - 0) 0 = 0 :=
        count_while_eq not_eol _ _ 0 0 (fun x hx => by omega) (by simp [start]; omega)
          (by simp only [start, Nat.add_zero]; rw [h0]; decide)
      rw [this]
      simp [start, packet_zero])]
    rw [header_step_nc_line (start b) 0 0 (fun x hx => by omega) (by simp [start]; omega)
      (by simp only [start, Nat.add_zero]; rw [h0]; decide)
      (by simp only [start, Nat.add_zero]; rw [h0]; intro h; exact absurd h (by decide))]
    have hne : ¬ rd (start b).buf.p (0 + 0) = CR := by
      simp only [start, Nat.add_zero]; rw [h0]; decide
    rw [if_neg hne]
    rw [header_step_line_keep_alive _ _ (by simp [start, packet_zero]) (by simp [start, packet_zero])]
    simp only
    obtain ⟨s1, s2⟩ := shift_buf_content b 1 (by omega) hb
    rw [hc] at s1
    have hd : (List.replicate (n + 1) LF).drop 1 = List.replicate n LF := by
      simp [List.drop_replicate]
    rw [hd] at s1
    exact ih (shift_buf b 1) g s2 s1 (by omega)

/-- C19 (counterexample): 12287 line feeds fed to a fresh packet are dropped
as keep-alive lines and the call returns success; with an empty line CR LF in
front the chunk has 12289 bytes and the call returns failure with status
Error. -/
theorem keep_alive_line_too_large :
    (∃ b1, next_packet packet_zero (List.replicate 12287 LF) = Res.ret 1 (start b1) ∧ b1.used = 0)
    ∧ next_packet packet_zero ([CR, LF] ++ List.replicate 12287 LF)
        = Res.ret 0 { packet_zero with status := PACKET_ERROR } := by
  refine ⟨?_, ?_⟩
  · obtain ⟨b3, g1, g2⟩ := next_packet_not_ready packet_zero (List.replicate 12287 LF)
      (by decide) (by decide) (by rw [List.length_replicate]; decide)
    rw [if_pos (show packet_zero.header.len = 0 from rfl),
      show u32 (packet_zero.current_line.offs + packet_zero.current_line.len) = 0 by decide] at g2
    have g2b : next_packet packet_zero (List.replicate 12287 LF)
        = header_loop (b3.used + 1) (start b3) 0 := g2
    have hu3 := buf_ext_used g1
    rw [List.length_replicate] at hu3
    have hc3 : b3.p.take b3.used = List.replicate 12287 LF := by
      have := g1.2.2
      simpa only [packet_zero, List.take_nil, List.nil_append] using this
    rw [g2b]
    exact header_loop_line_feeds 12287 b3 (b3.used + 1) g1.2.1 hc3 (by
      rw [hu3]; omega)
  · exact next_packet_too_large packet_zero _ (by decide)
      (by rw [List.length_append, List.length_replicate]; decide)
      (by rw [List.length_append, List.length_replicate]; decide)

/-- C19 (witness): a keep-alive line in front of the first bytes of a request. -/
theorem keep_alive_line_witness :
    res_view (next_packet packet_zero ([CR, LF] ++ bytes "OPTIONS"))
        = res_view (next_packet packet_zero (bytes "OPTIONS"))
    ∧ res_view (next_packet packet_zero [CR, LF])
        = Res.ret 1 (view { packet_zero with status := PACKET_INCOMPLETE }) :=
  keep_alive_line (bytes "OPTIONS") [CR, LF] (Or.inl rfl) (by decide)

/-! ## A Ready message followed by further bytes -/

/-- The header loop that ends Ready on a buffer ends Ready, with the same
lengths and spans, on every extension of the buffer. -/
theorem header_loop_ext_ready (fa fb : Nat) (a : packet_t) (b : buf_t) (c2 : List Nat)
    (i : Nat) (qa : packet_t)
    (hext : buf_ext a.buf b c2) (hinv : line_inv a i) (hi : i ≤ a.buf.used)
    (hst : a.status = PACKET_INCOMPLETE) (hfab : fa ≤ fb)
    (ha : header_loop fa a i = Res.ret 1 qa) (hready : qa.status = PACKET_READY) :
    ∃ b1, buf_ext qa.buf b1 c2 ∧ header_loop fb (with_buf a b) i = Res.ret 1 (with_buf qa b1)
      ∧ qa.buf.used ≤ a.buf.used ∧ u32 (qa.header.len + qa.data.len) ≤ qa.buf.used := by
  induction fa generalizing fb a b i with
  | zero => simp [header_loop] at ha
  | succ fa ih =>
    obtain ⟨gb, rfl⟩ : ∃ gb, fb = gb + 1 := ⟨fb - 1, by omega⟩
    rw [header_loop] at ha ⊢
    have hs := header_step_ext a b c2 i hext hinv hi
    have hbu := buf_ext_used hext
    revert hs ha
    cases header_step a i with
    | cont st =>
      obtain ⟨a1, i1⟩ := st
      intro ha hs
      obtain ⟨b1, h1, h2, h3, h4, h5, h5b, h6, h7⟩ := hs
      rw [h1]
      simp only at ha ⊢
      obtain ⟨b', g1, g2, g3, g4⟩ := ih gb a1 b1 i1 h2 h3 h4 (by rw [h7]; exact hst) (by omega) ha
      exact ⟨b', g1, g2, by omega, g4⟩
    | done r =>
      intro ha hs
      cases r with
      | ret c qa1 =>
        simp only at hs ha ⊢
        simp only [Res.ret.injEq] at ha
        obtain ⟨hc, hq⟩ := ha
        subst hc hq
        rcases hs with ⟨h1, _⟩ | ⟨_, a1, i2, hi2, hbuf, hst1, h4, h5⟩ | ⟨_, k, h2, _⟩
        · exact absurd h1 (by decide)
        · by_cases hra : a.buf.used ≥ u32 (i2 + a1.data.len)
          · have hrb : b.used ≥ u32 (i2 + a1.data.len) := by omega
            rw [h5, h4]
            simp only [if_pos hra, if_pos hrb]
            refine ⟨b, ?_, rfl, ?_, ?_⟩
            · simp only [hbuf]; exact hext
            · simp only [hbuf]; exact le_refl _
            · simp only [hbuf]; exact hra
          · rw [h4] at hready
            simp only [if_neg hra] at hready
            rw [hst] at hready
            exact absurd hready (by decide)
        · rw [h2] at hready
          simp only at hready
          rw [hst] at hready
          exact absurd hready (by decide)
      | abort => simp at ha
      | nofuel => simp at ha

/-- C20 (counterexample): `rport_message` fed alone to a fresh packet is Ready
with header length + body length = 119, its own length; followed by 12288
further bytes in the same call it makes `next_packet` return failure with
status Error. -/
theorem pipelined_too_large :
    next_packet packet_zero rport_message = Res.ret 1 rport_packet
    ∧ rport_packet.status = PACKET_READY
    ∧ rport_packet.header.len + rport_packet.data.len = rport_message.length
    ∧ next_packet packet_zero (rport_message ++ List.replicate 12288 0)
        = Res.ret 0 { packet_zero with status := PACKET_ERROR } := by
  refine ⟨by decide!, rfl, by decide, ?_⟩
  have hl : rport_message.length = 119 := by decide
  exact next_packet_too_large packet_zero _ (by decide)
    (by rw [List.length_append, List.length_replicate, hl]; decide)
    (by rw [List.length_append, List.length_replicate, hl]; decide)

/-- C20 (amended): `m1` fed alone to a fresh packet becomes Ready with header
length + body length = |m1|, and `m1` and `m2` have not more than 12288 bytes
in all.  Then `m1` followed by `m2` in one call yields Ready with the lengths
and field spans of `m1` and with the bytes of `m2` behind those of the
message; the following call with an empty chunk starts from a packet without
the first header length + body length bytes, whose bytes in use are those of
`m2` and whose lengths and spans are zero, and it ends with the same return
value, status, lengths, field spans and bytes in use as `m2` fed alone to a
fresh packet. -/
theorem next_packet_pipelined (m1 m2 : List Nat) (pk1 : packet_t)
    (h1 : next_packet packet_zero m1 = Res.ret 1 pk1) (hready : pk1.status = PACKET_READY)
    (hlen : pk1.header.len + pk1.data.len = m1.length)
    (hsz : m1.length + m2.length ≤ 2 * SIP_MAX_LEN) :
    ∃ pk12, next_packet packet_zero (m1 ++ m2) = Res.ret 1 pk12
      ∧ pk12.status = PACKET_READY
      ∧ pk12.header = pk1.header ∧ pk12.data = pk1.data ∧ pk12.method = pk1.method
      ∧ pk12.via_line = pk1.via_line ∧ pk12.via = pk1.via ∧ pk12.from_ = pk1.from_
      ∧ pk12.to_ = pk1.to_ ∧ pk12.contact = pk1.contact
      ∧ pk12.content_length = pk1.content_length
      ∧ content pk12 = content pk1 ++ m2
      ∧ view (dropped pk12) = view (start ⟨m2, m2.length, m2.length⟩)
      ∧ res_view (next_packet pk12 []) = res_view (next_packet packet_zero m2) := by
  have hsz2 : m1.length + m2.length ≤ 12288 := by simpa [SIP_MAX_LEN] using hsz
  have hz : packet_zero.status ≠ PACKET_READY := by decide
  have hu0 : u32 (packet_zero.current_line.offs + packet_zero.current_line.len) = 0 := by decide
  have h0 : packet_zero.header.len = 0 := rfl
  -- the three calls on a fresh packet
  obtain ⟨bA, a1, a2⟩ := next_packet_not_ready packet_zero m1 hz (by decide) (by
    simp only [packet_zero]; omega)
  obtain ⟨bB, b1, b2⟩ := next_packet_not_ready packet_zero (m1 ++ m2) hz (by decide) (by
    simp only [packet_zero, List.length_append]; omega)
  obtain ⟨bC, c1, c2⟩ := next_packet_not_ready packet_zero m2 hz (by decide) (by
    simp only [packet_zero]; omega)
  rw [if_pos h0, hu0] at a2 b2 c2
  have a3 : next_packet packet_zero m1 = header_loop (bA.used + 1) (start bA) 0 := a2
  have b3 : next_packet packet_zero (m1 ++ m2) = header_loop (bB.used + 1) (start bB) 0 := b2
  have c3 : next_packet packet_zero m2 = header_loop (bC.used + 1) (start bC) 0 := c2
  have hAc : bA.p.take bA.used = m1 := by simpa [packet_zero] using a1.2.2
  have hBc : bB.p.take bB.used = m1 ++ m2 := by simpa [packet_zero] using b1.2.2
  have hCc : bC.p.take bC.used = m2 := by simpa [packet_zero] using c1.2.2
  have hAu : bA.used = m1.length := by simpa [packet_zero] using buf_ext_used a1
  have hBu : bB.used = m1.length + m2.length := by
    simpa [packet_zero, List.length_append] using buf_ext_used b1
  have hCu : bC.used = m2.length := by simpa [packet_zero] using buf_ext_used c1
  have hext : buf_ext (start bA).buf bB m2 := ⟨a1.2.1, b1.2.1, by
    simp only [start]; rw [hBc, hAc]⟩
  rw [a3] at h1
  obtain ⟨b', g1, g2, g3, g4⟩ := header_loop_ext_ready (bA.used + 1) (bB.used + 1) (start bA) bB
    m2 0 pk1 hext (by simp [line_inv, start, packet_zero]) (Nat.zero_le _) rfl (by omega) h1
    hready
  have g2b : header_loop (bB.used + 1) (start bB) 0 = Res.ret 1 (with_buf pk1 b') := g2
  have hu32 : u32 (pk1.header.len + pk1.data.len) = m1.length := by
    rw [hlen]; exact u32_nat _ (by omega)
  rw [hu32] at g4
  simp only [start] at g3
  have hpu : pk1.buf.used = m1.length := by omega
  have hb'u := buf_ext_used g1
  have hb'c : b'.p.take b'.used = content pk1 ++ m2 := g1.2.2
  have hcl : (content pk1).length = m1.length := by
    simp only [content, List.length_take]
    have := g1.1
    omega
  -- the packet after the drop
  have hdrop : dropped (with_buf pk1 b') = start (shift_buf b' m1.length) := by
    unfold dropped
    rw [if_pos (by simpa [with_buf] using hready)]
    simp only [with_buf, hu32]
    rfl
  obtain ⟨s1, s2⟩ := shift_buf_content b' m1.length (by omega) g1.2.1
  rw [hb'c, ← hcl, List.drop_left] at s1
  rw [hcl] at s1
  have hsu : (shift_buf b' m1.length).used = m2.length := by
    show b'.used - m1.length = m2.length
    omega
  refine ⟨with_buf pk1 b', by rw [b3, g2b], hready, rfl, rfl, rfl, rfl, rfl, rfl, rfl, rfl, rfl,
    hb'c, ?_, ?_⟩
  · rw [hdrop]
    simp only [view, start, content, packet_zero]
    rw [s1]
    simp
  · rw [next_packet_dropped _ _ (fun _ => by simp only [with_buf, hu32]; omega), hdrop]
    obtain ⟨bD, d1, d2⟩ := next_packet_not_ready (start (shift_buf b' m1.length)) []
      (by simp [start]) (by simpa [start] using s2) (by
        simp only [start, List.length_nil, hsu]; omega)
    rw [if_pos (show (start (shift_buf b' m1.length)).header.len = 0 from rfl)] at d2
    have d3 : next_packet (start (shift_buf b' m1.length)) []
        = header_loop (bD.used + 1) (start bD) 0 := by
      rw [d2]
      rfl
    have hDc : bD.p.take bD.used = m2 := by
      have := d1.2.2
      simp only [start, List.append_nil] at this
      rw [this, s1]
    rw [d3, c3]
    exact header_loop_start_view (bC.used + 1) (bD.used + 1) bC bD c1.2.1 d1.2.1
      (by rw [hDc, hCc]) (by omega) (by omega)

/-- C20 (witness): `rport_message` followed by the first bytes of a request. -/
theorem next_packet_pipelined_witness :
    ∃ pk12, next_packet packet_zero (rport_message ++ bytes "OPTIONS") = Res.ret 1 pk12
      ∧ pk12.status = PACKET_READY
      ∧ pk12.header = rport_packet.header ∧ pk12.data = rport_packet.data
      ∧ pk12.method = rport_packet.method
      ∧ pk12.via_line = rport_packet.via_line ∧ pk12.via = rport_packet.via
      ∧ pk12.from_ = rport_packet.from_
      ∧ pk12.to_ = rport_packet.to_ ∧ pk12.contact = rport_packet.contact
      ∧ pk12.content_length = rport_packet.content_length
      ∧ content pk12 = content rport_packet ++ bytes "OPTIONS"
      ∧ view (dropped pk12)
          = view (start ⟨bytes "OPTIONS", (bytes "OPTIONS").length, (bytes "OPTIONS").length⟩)
      ∧ res_view (next_packet pk12 []) = res_view (next_packet packet_zero (bytes "OPTIONS")) :=
  next_packet_pipelined rport_message (bytes "OPTIONS") rport_packet (by decide!) rfl
    (by decide) (by decide)

/-! ## Sessions and registered sockets -/

/-- A datagram that consists of an empty line leaves the state as it is when
it arrives at the shared UDP socket: `next_packet` returns success with the
status Incomplete, and `client_udp_setup` returns. -/
theorem client_udp_setup_keep_alive (w : world_t) (env : udp_setup_env) (peer local_ : addr_t)
    (h : env.datagram = some (keep_alive_datagram, peer, local_)) :
    client_udp_setup w env = Res.ret 1 w := by
  have e : next_packet packet_zero keep_alive_datagram
      = Res.ret 1 { packet_zero with status := PACKET_INCOMPLETE,
                                     buf := ⟨CR :: LF :: List.replicate 1022 0, 1024, 0⟩ } := by decide!
  unfold client_udp_setup
  rw [h]
  simp only [e]
  rfl

/-- C24 (counterexample): a session can have its TCP pair and its UDP pair
open at the same time.  In the state after startup a Fon connects by TCP
(`client_tcp_setup`, handles 5 and 6) and sends a REGISTER with the Contact
identity `abc` (`on_client_event` on the registered handle 5), which makes
`abc` the identity of the session.  Then an OPTIONS datagram with the identity
`abc` in its From header arrives at the shared UDP socket: `client_udp_setup`
finds the connected TCP session and opens the UDP handles 7 and 8 on it. -/
theorem tcp_session_opens_udp_pair :
    client_tcp_setup initial_world tcp_env_ok = Res.ret 1 tcp_world
    ∧ registry tcp_world = [⟨1, none, true, 5, -1, 6, -1⟩]
    ∧ tcp_world.poll_list = [⟨6, 1, true⟩, ⟨5, 1, true⟩, ⟨4, 0, false⟩, ⟨3, 0, false⟩]
    ∧ on_client_event tcp_world 5 1 (some register_abc_message) true
        = Res.ret 1 tcp_registered_world
    ∧ registry tcp_registered_world = [⟨1, some (bytes "abc"), true, 5, -1, 6, -1⟩]
    ∧ Res.map registry
        (client_udp_setup tcp_registered_world (udp_env_ok options_abc_message "40001" 7))
        = Res.ret 1 [⟨1, some (bytes "abc"), true, 5, 7, 6, 8⟩] := by
  decide!

/-- C25 (code defect): when `tcp_accept` fails, the session that
`client_tcp_setup` has put into the registry stays there, with the connected
flag set and no open leg: `tcp_disconnect` does nothing for the handle `-1`,
so `client_cleanup` is never called.  The same holds when the local address
of the accepted connection cannot be read or the accepted handle cannot be
registered; and when the connection to the Box is open but cannot be
registered, the session stays with the connected flag cleared. -/
theorem tcp_setup_failure_keeps_session :
    registry initial_world = []
    ∧ Res.map registry (client_tcp_setup initial_world { tcp_env_ok with accept := none })
        = Res.ret 1 [⟨1, none, true, -1, -1, -1, -1⟩]
    ∧ Res.map registry (client_tcp_setup initial_world { tcp_env_ok with fon_local := none })
        = Res.ret 1 [⟨1, none, true, -1, -1, -1, -1⟩]
    ∧ Res.map registry (client_tcp_setup initial_world { tcp_env_ok with fon_register := false })
        = Res.ret 1 [⟨1, none, true, -1, -1, -1, -1⟩]
    ∧ Res.map registry (client_tcp_setup initial_world { tcp_env_ok with box_register := false })
        = Res.ret 1 [⟨1, none, false, -1, -1, -1, -1⟩] := by
  decide!

/-- C26 (code defect): `client_disconnect` on a session with an open leg that
is not registered closes the legs but leaves the session in the registry.
`half_registered_world` is the state in which `client_udp_setup` calls
`client_disconnect` after the handle 8 to the Box could not be registered:
the handles 7 and 8 are closed, and the session is still in the registry,
with the connected flag cleared. -/
theorem disconnect_keeps_half_registered_session :
    client_udp_setup initial_world
        { udp_env_ok register_abc_message "40001" 7 with box_register := false }
      = client_disconnect half_registered_world 1
    ∧ registry half_registered_world = [⟨1, some (bytes "abc"), false, -1, 7, -1, 8⟩]
    ∧ Res.map (fun w => (registry w, w.closed)) (client_disconnect half_registered_world 1)
        = Res.ret 1 ([⟨1, some (bytes "abc"), false, -1, -1, -1, -1⟩], [8, 7]) := by
  decide!

/-- C27 (code defect): a datagram that consists of an empty line and arrives
on the UDP leg of an established session ends the session.  `udp_world` is the
state after a REGISTER datagram of the identity `abc` created a session with
the registered handles 7 and 8; for the empty line `next_packet` returns
success with the status Incomplete, and `on_client_event` disconnects a UDP
session whose packet is incomplete: both handles are closed and the session is
removed. -/
theorem keep_alive_disconnects_udp_session :
    client_udp_setup initial_world (udp_env_ok register_abc_message "40001" 7)
      = Res.ret 1 udp_world
    ∧ registry udp_world = [⟨1, some (bytes "abc"), true, -1, 7, -1, 8⟩]
    ∧ udp_world.poll_list = [⟨8, 1, true⟩, ⟨7, 1, true⟩, ⟨4, 0, false⟩, ⟨3, 0, false⟩]
    ∧ Res.map (fun w => (registry w, w.closed))
        (on_client_event udp_world 7 1 (some keep_alive_datagram) true)
        = Res.ret 1 ([], [8, 7]) := by
  decide!

/-! ## Lengths of the accepted literals -/

theorem is_addr_octet_digits (s : List Nat) (n oi ov al : Nat) :
    (is_addr_octet s n oi ov al).1 ≤ oi + n := by
  induction n generalizing oi ov al with
  | zero => simp [is_addr_octet]
  | succ n ih =>
    unfold is_addr_octet
    split
    · have := ih (oi + 1) (ov * 10 + rd s al - 48) (al + 1)
      omega
    · simp

theorem is_addr_loop_length (s : List Nat) (n octet al : Nat) (hn : octet + n = 4)
    (h : (is_addr_loop s n octet al).1 = 4) :
    al + 2 * n ≤ (is_addr_loop s n octet al).2 + (if octet = 0 then 1 else 0)
    ∧ (is_addr_loop s n octet al).2 + (if octet = 0 then 1 else 0) ≤ al + 4 * n := by
  induction n generalizing octet al with
  | zero =>
    have : octet ≠ 0 := by omega
    simp [is_addr_loop, this]
  | succ n ih =>
    unfold is_addr_loop at h ⊢
    split at h
    · simp only at h
      omega
    · rename_i hdot
      rw [if_neg hdot]
      simp only at h ⊢
      obtain ⟨o1, o2, _⟩ := is_addr_octet_spec s 3 0 0 (if octet > 0 then al + 1 else al)
      have o4 := is_addr_octet_digits s 3 0 0 (if octet > 0 then al + 1 else al)
      generalize is_addr_octet s 3 0 0 (if octet > 0 then al + 1 else al) = r at h o1 o2 o4 ⊢
      obtain ⟨oi, ov, al2⟩ := r
      simp only at h o1 o2 o4 ⊢
      split at h
      · simp only at h
        omega
      · rename_i hok
        rw [if_neg hok]
        obtain ⟨i1, i2⟩ := ih (octet + 1) al2 (by omega) h
        rw [if_neg (by omega)] at i1 i2
        have hoi : 0 < oi := by omega
        by_cases ho : octet = 0
        · subst ho
          simp only [gt_iff_lt, lt_self_iff_false, if_false] at o1
          simp only [if_true]
          omega
        · have ho1 : octet > 0 := by omega
          rw [if_pos ho1] at o1
          rw [if_neg ho]
          omega

/-- When `is_addr` accepts, the reported length is between 7 and 15. -/
theorem is_addr_true_length (s : List Nat) (n : Nat) (h : is_addr s = (true, n)) :
    7 ≤ n ∧ n ≤ 15 := by
  unfold is_addr at h
  have hl := is_addr_loop_length s 4 0 0 rfl
  generalize is_addr_loop s 4 0 0 = r at h hl
  obtain ⟨octet, al⟩ := r
  simp only at h hl
  split at h
  · rename_i hc
    simp only [Prod.mk.injEq, true_and] at h
    subst h
    have := hl hc.1
    simp only [if_true] at this
    omega
  · simp at h

/-! ## Sessions keep their data while legs are closed -/

theorem sessions_from_refl (w : world_t) : sessions_from w w :=
  fun c1 h => ⟨c1, h, rfl⟩

theorem sessions_from_trans {w w1 w2 : world_t} (h1 : sessions_from w w1)
    (h2 : sessions_from w1 w2) : sessions_from w w2 := by
  intro c2 hc2
  obtain ⟨c1, hc1, e1⟩ := h2 c2 hc2
  obtain ⟨c, hc, e⟩ := h1 c1 hc1
  exact ⟨c, hc, e1.trans e⟩

theorem sessions_from_update (w : world_t) (ptr : Nat) (f : client_context_t → client_context_t)
    (hf : ∀ c, session_data (f c) = session_data c) :
    sessions_from w (update_client w ptr f) := by
  intro c1 hc1
  simp only [update_client, List.mem_map] at hc1
  obtain ⟨c, hc, e⟩ := hc1
  refine ⟨c, hc, ?_⟩
  rw [← e]
  split
  · exact hf c
  · rfl

theorem sessions_from_lists {w w1 : world_t} (h : w1.client_list = w.client_list) :
    sessions_from w w1 := by
  intro c1 hc1
  rw [h] at hc1
  exact ⟨c1, hc1, rfl⟩

theorem session_data_set_sfd (c : client_context_t) (leg : leg_t) (sfd : Int) :
    session_data (set_sfd c leg sfd) = session_data c := by
  cases leg <;> rfl

theorem session_data_connected (c : client_context_t) (b : Bool) :
    session_data { c with connected := b } = session_data c := rfl

theorem sfd_unregister_sessions (cb : world_t → Nat → Res world_t)
    (hcb : ∀ w x k w1, cb w x = Res.ret k w1 → sessions_from w w1)
    (w : world_t) (ptr : Nat) (leg : leg_t) (k : Int) (w1 : world_t)
    (h : sfd_unregister cb w ptr leg = Res.ret k w1) : sessions_from w w1 := by
  unfold sfd_unregister at h
  split at h
  · simp at h
  · rename_i c hc
    split at h
    · rename_i pi hpi
      simp only at h
      split at h
      · refine sessions_from_trans ?_ (hcb _ _ _ _ h)
        exact sessions_from_update _ _ _ (fun c => session_data_set_sfd c leg (-1))
      · simp only [Res.ret.injEq] at h
        rw [← h.2]
        exact sessions_from_update _ _ _ (fun c => session_data_set_sfd c leg (-1))
    · simp only [Res.ret.injEq] at h
      rw [← h.2]
      exact sessions_from_update _ _ _ (fun c => session_data_set_sfd c leg (-1))

theorem tcp_disconnect_sessions (cb : world_t → Nat → Res world_t)
    (hcb : ∀ w x k w1, cb w x = Res.ret k w1 → sessions_from w w1)
    (w : world_t) (ptr : Nat) (leg : leg_t) (k : Int) (w1 : world_t)
    (h : tcp_disconnect cb w ptr leg = Res.ret k w1) : sessions_from w w1 := by
  unfold tcp_disconnect at h
  split at h
  · simp at h
  · split at h
    · have h2 := sfd_unregister_sessions cb hcb _ _ _ _ _ h
      exact sessions_from_trans (sessions_from_lists rfl) h2
    · simp only [Res.ret.injEq] at h
      rw [← h.2]
      exact sessions_from_refl w

theorem udp_disconnect_sessions (cb : world_t → Nat → Res world_t)
    (hcb : ∀ w x k w1, cb w x = Res.ret k w1 → sessions_from w w1)
    (w : world_t) (ptr : Nat) (leg : leg_t) (k : Int) (w1 : world_t)
    (h : udp_disconnect cb w ptr leg = Res.ret k w1) : sessions_from w w1 := by
  unfold udp_disconnect at h
  split at h
  · simp at h
  · split at h
    · have h2 := sfd_unregister_sessions cb hcb _ _ _ _ _ h
      exact sessions_from_trans (sessions_from_lists rfl) h2
    · simp only [Res.ret.injEq] at h
      rw [← h.2]
      exact sessions_from_refl w

theorem sessions_from_eraseP (w : world_t) (f : client_context_t → Bool) :
    sessions_from w { w with client_list := w.client_list.eraseP f } := by
  intro c1 hc1
  exact ⟨c1, List.mem_of_mem_eraseP hc1, rfl⟩

theorem client_cleanup_sessions (n : Nat) (w : world_t) (ptr : Nat) (k : Int) (w1 : world_t)
    (h : client_cleanup n w ptr = Res.ret k w1) : sessions_from w w1 := by
  induction n generalizing w ptr k w1 with
  | zero => simp [client_cleanup] at h
  | succ n ih =>
    unfold client_cleanup at h
    split at h
    · simp at h
    · rename_i c hc
      split at h
      · simp at h
      · simp only at h
        have hu : sessions_from w (update_client w ptr (fun c => { c with connected := false })) :=
          sessions_from_update _ _ _ (fun c => session_data_connected c false)
        split at h
        · exact sessions_from_trans hu (udp_disconnect_sessions _ ih _ _ _ _ _ h)
        · split at h
          · exact sessions_from_trans hu (tcp_disconnect_sessions _ ih _ _ _ _ _ h)
          · split at h
            · exact sessions_from_trans hu (udp_disconnect_sessions _ ih _ _ _ _ _ h)
            · simp only [Res.ret.injEq] at h
              rw [← h.2]
              exact sessions_from_trans hu (sessions_from_eraseP _ _)

/-- The function `client_disconnect` leaves the sessions that
stay in the registry as they are, up to the connected flag and the handles. -/
theorem client_disconnect_sessions (w : world_t) (ptr : Nat) (k : Int) (w1 : world_t)
    (h : client_disconnect w ptr = Res.ret k w1) : sessions_from w w1 := by
  unfold client_disconnect at h
  split at h
  · simp at h
  · exact tcp_disconnect_sessions _ (client_cleanup_sessions _) _ _ _ _ _ h

/-! ## The learned addresses fit their fields -/

theorem learned_fit_iff (w : world_t) :
    learned_fit w = true ↔ ∀ c, c ∈ w.client_list → session_fits c = true := by
  simp [learned_fit, List.all_eq_true]

theorem session_fits_data (c c1 : client_context_t) (h : session_data c1 = session_data c) :
    session_fits c1 = session_fits c := by
  have h1 := congrArg (fun x => x.fon_contact) h
  have h2 := congrArg (fun x => x.fon_rtp) h
  simp only [session_data] at h1 h2
  simp [session_fits, h1, h2]

theorem learned_fit_sessions {w w1 : world_t} (h : sessions_from w w1)
    (hw : learned_fit w = true) : learned_fit w1 = true := by
  rw [learned_fit_iff] at hw ⊢
  intro c1 hc1
  obtain ⟨c, hc, e⟩ := h c1 hc1
  rw [session_fits_data c c1 e]
  exact hw c hc

theorem learned_fit_update (w : world_t) (ptr : Nat) (f : client_context_t → client_context_t)
    (hf : ∀ c, session_fits c = true → session_fits (f c) = true)
    (hw : learned_fit w = true) : learned_fit (update_client w ptr f) = true := by
  rw [learned_fit_iff] at hw ⊢
  intro c1 hc1
  simp only [update_client, List.mem_map] at hc1
  obtain ⟨c, hc, e⟩ := hc1
  rw [← e]
  split
  · exact hf c (hw c hc)
  · exact hw c hc

theorem session_fits_set_packet (c : client_context_t) (leg : leg_t) (packet : packet_t) :
    session_fits (set_packet c leg packet) = session_fits c := by
  cases leg <;> rfl

theorem fon_to_box_stale_sessions (w : world_t) (packet : packet_t) (i l : Int) (k : Int)
    (w1 : world_t) (h : fon_to_box_stale w packet i l = Res.ret k w1) : sessions_from w w1 := by
  unfold fon_to_box_stale at h
  split at h
  · split at h
    · exact client_disconnect_sessions _ _ _ _ h
    · simp only [Res.ret.injEq] at h
      rw [← h.2]
      exact sessions_from_refl w
  · simp only [Res.ret.injEq] at h
    rw [← h.2]
    exact sessions_from_refl w

theorem take_fits (p : List Nat) (i l n : Nat) (h : l ≤ n) : ((p.drop i).take l).length ≤ n := by
  rw [List.length_take]
  omega

theorem fon_to_box_first_fit (w : world_t) (ptr : Nat) (leg : leg_t) (k : Int) (w1 : world_t)
    (hw : learned_fit w = true) (h : fon_to_box_first w ptr leg = Res.ret k w1) :
    learned_fit w1 = true := by
  unfold fon_to_box_first at h
  split at h
  · simp at h
  · rename_i client hc
    split at h
    · simp only [Res.ret.injEq] at h
      rw [← h.2]; exact hw
    · simp only at h
      split at h
      · simp only [Res.ret.injEq] at h
        rw [← h.2]; exact hw
      · split at h
        · simp only [Res.ret.injEq] at h
          rw [← h.2]; exact hw
        · split at h
          · simp only [Res.ret.injEq] at h
            rw [← h.2]; exact hw
          · rename_i ci cl hci
            split at h
            · simp at h
            · simp at h
            · rename_i k0 w0 hst
              have h0 : learned_fit w0 = true :=
                learned_fit_sessions (fon_to_box_stale_sessions _ _ _ _ _ _ hst) hw
              have h2 : ∀ t, learned_fit (update_client w0 ptr
                  (fun c => { c with contact_id := some t })) = true :=
                fun t => learned_fit_update _ _ _ (fun c hc => hc) h0
              split at h
              · rename_i ai al hai
                split at h
                · split at h
                  · rename_i pi pl hpi
                    simp only [Res.ret.injEq] at h
                    rw [← h.2]
                    apply learned_fit_update _ _ _ _ (h2 _)
                    intro c hc
                    obtain ⟨_, _, _, ha⟩ := addr_find_bounds _ _ _ _ hai
                    have hal := is_addr_true_length _ _ ha
                    obtain ⟨_, _, _, hpl, _⟩ := port_find_bounds _ _ _ _ _ _ hpi
                    simp only [session_fits, addr_fits, Bool.and_eq_true, decide_eq_true_eq] at hc ⊢
                    have t1 := take_fits (get_ep client leg).packet.buf.p ai al 15 hal.2
                    have t2 := take_fits (get_ep client leg).packet.buf.p pi pl 5 hpl
                    exact ⟨⟨by omega, by omega⟩, hc.2⟩
                  · simp only [Res.ret.injEq] at h
                    rw [← h.2]; exact h2 _
                · simp only [Res.ret.injEq] at h
                  rw [← h.2]; exact h2 _
              · simp only [Res.ret.injEq] at h
                rw [← h.2]; exact h2 _

theorem rtp_find_loop_length (packet : packet_t) (fp bp : addr_t) (n : Nat) (d : data_t)
    (a : List Nat) (h : rtp_find_loop packet fp bp n d = some a) : a.length ≤ 15 := by
  induction n generalizing d with
  | zero => simp [rtp_find_loop] at h
  | succ n ih =>
    unfold rtp_find_loop at h
    split at h
    · simp at h
    · rename_i ai al hai
      split at h
      · exact ih _ h
      · simp only [Option.some.injEq] at h
        obtain ⟨_, _, _, ha⟩ := addr_find_bounds _ _ _ _ hai
        have hal := is_addr_true_length _ _ ha
        rw [← h]
        exact take_fits _ _ _ _ hal.2

theorem fon_to_box_rewrite_fit (w : world_t) (ptr : Nat) (leg : leg_t) (k : Int) (w1 : world_t)
    (hw : learned_fit w = true) (h : fon_to_box_rewrite w ptr leg = Res.ret k w1) :
    learned_fit w1 = true := by
  have hp : ∀ packet, learned_fit (update_client w ptr (fun cl => set_packet cl leg packet)) = true :=
    fun packet => learned_fit_update _ _ _
      (fun c hc => by rw [session_fits_set_packet]; exact hc) hw
  unfold fon_to_box_rewrite at h
  split at h
  · simp at h
  · rename_i client hc
    simp only at h
    split at h
    · split at h
      · simp at h
      · simp at h
      · split at h
        · simp only [Res.ret.injEq] at h
          rw [← h.2]; exact hp _
        · split at h
          · simp at h
          · simp at h
          · simp only [Res.ret.injEq] at h
            rw [← h.2]; exact hp _
    · split at h
      · have hcm : session_fits client = true :=
          (learned_fit_iff w).mp hw client (List.mem_of_find?_eq_some hc)
        have hr : ∀ rtp : addr_t, addr_fits rtp = true →
            learned_fit (update_client w ptr (fun cl => { cl with fon_rtp := rtp })) = true := by
          intro rtp hrtp
          apply learned_fit_update _ _ _ _ hw
          intro c hc
          simp only [session_fits, Bool.and_eq_true] at hc ⊢
          exact ⟨hc.1, hrtp⟩
        have hrtp : addr_fits (fon_to_box_rtp client leg) = true := by
          simp only [session_fits, Bool.and_eq_true] at hcm
          unfold fon_to_box_rtp
          simp only
          split
          · split
            · rename_i a ha
              have := rtp_find_loop_length _ _ _ _ _ _ ha
              have h2 := hcm.2
              simp only [addr_fits, Bool.and_eq_true, decide_eq_true_eq] at h2 ⊢
              exact ⟨by omega, h2.2⟩
            · exact hcm.2
          · exact hcm.2
        generalize fon_to_box_rtp client leg = rtp at h hrtp
        split at h
        · split at h
          · simp at h
          · simp at h
          · simp only [Res.ret.injEq] at h
            rw [← h.2]
            exact learned_fit_update _ _ _
              (fun c hc => by rw [session_fits_set_packet]; exact hc) (hr _ hrtp)
        · simp only [Res.ret.injEq] at h
          rw [← h.2]; exact hr _ hrtp
      · simp only [Res.ret.injEq] at h
        rw [← h.2]; exact hw

/-- C30: when `is_addr` accepts, the reported length is between 7 and 15 and
at most the available length; when `is_port` accepts, the reported length is
between 1 and 5 and at most the available length; and when the learned contact
address and relay address of every session fit the 16 byte address field and
the 6 byte port field of `addr_t` together with the terminating zero byte,
they still do after `fon_to_box`, which copies an accepted address and port
of the message into them. -/
theorem literal_lengths_fit (s : List Nat) (n : Nat) :
    (is_addr s = (true, n) → 7 ≤ n ∧ n ≤ 15 ∧ n ≤ s.length)
    ∧ (is_port s = (true, n) → 1 ≤ n ∧ n ≤ 5 ∧ n ≤ s.length)
    ∧ ∀ (w : world_t) (ptr : Nat) (leg : leg_t) (c : Int) (w1 : world_t),
        learned_fit w = true → fon_to_box w ptr leg = Res.ret c w1 → learned_fit w1 = true := by
  refine ⟨fun h => ⟨(is_addr_true_length s n h).1, (is_addr_true_length s n h).2,
      (is_addr_true_bounds s n h).2⟩, fun h => is_port_true_bounds s n h, ?_⟩
  intro w ptr leg c w1 hw h
  unfold fon_to_box at h
  split at h
  · simp at h
  · simp at h
  · rename_i c0 w0 h0
    have hw0 := fon_to_box_first_fit _ _ _ _ _ hw h0
    split at h
    · simp only [Res.ret.injEq] at h
      rw [← h.2]; exact hw0
    · exact fon_to_box_rewrite_fit _ _ _ _ _ hw0 h

theorem literal_lengths_fit_witness :
    is_addr (bytes "1.2.3.4:1111>") = (true, 7) ∧ (7 ≤ 7 ∧ 7 ≤ 15 ∧ 7 ≤ 13)
    ∧ is_port (bytes "1111>") = (true, 4) ∧ (1 ≤ 4 ∧ 4 ≤ 5 ∧ 4 ≤ 5)
    ∧ learned_fit tcp_ready_world = true
    ∧ (∃ w1, fon_to_box tcp_ready_world 1 FON_TCP = Res.ret 1 w1
        ∧ w1.client_list.map (fun c => (c.fon_contact.addr, c.fon_contact.port))
            = [(bytes "1.2.3.4", bytes "1111")]
        ∧ learned_fit w1 = true) := by
  have hd : learned_fit tcp_ready_world = true
      ∧ fon_to_box tcp_ready_world 1 FON_TCP
          = Res.ret 1 (ret_state (fon_to_box tcp_ready_world 1 FON_TCP) tcp_ready_world)
      ∧ (ret_state (fon_to_box tcp_ready_world 1 FON_TCP) tcp_ready_world).client_list.map
            (fun c => (c.fon_contact.addr, c.fon_contact.port))
          = [(bytes "1.2.3.4", bytes "1111")] := by
    decide!
  obtain ⟨a1, a2, a3⟩ := hd
  exact ⟨by decide, (literal_lengths_fit (bytes "1.2.3.4:1111>") 7).1 (by decide),
   by decide, (literal_lengths_fit (bytes "1111>") 4).2.1 (by decide),
   a1,
   ⟨ret_state (fon_to_box tcp_ready_world 1 FON_TCP) tcp_ready_world, a2, a3,
    (literal_lengths_fit [] 0).2.2 tcp_ready_world 1 FON_TCP 1 _ a1 a2⟩⟩

/-! ## Tracked spans behind an edit -/

theorem span_moved_refl (a : loc_t) (i l : Int) : span_moved a a i l 0 := by
  refine ⟨fun _ => rfl, fun _ => ?_, fun _ => ?_, fun h => h⟩ <;> simp

theorem loc_adjust_moved (a b : loc_t) (i l delta : Int) (hi : 0 ≤ i) (hl : 0 < l)
    (hd : 0 ≤ l + delta) (hfit : span_fits a delta)
    (h : loc_adjust a i l delta = some b) : span_moved a b i l delta := by
  obtain ⟨f1, f2, f3⟩ := hfit
  unfold loc_adjust at h
  split at h
  · rename_i h1
    split at h
    · rename_i h2
      simp only [Option.some.injEq] at h
      rw [i16_eq _ (by omega) (by omega)] at h
      subst h
      refine ⟨fun _ => by omega, fun _ => by omega, fun _ => rfl, fun e => ?_⟩
      rw [e] at h1
      simp only at h1
      omega
    · simp at h
  · rename_i h1
    split at h
    · rename_i h2
      split at h
      · rename_i h3
        simp only [Option.some.injEq] at h
        rw [i16_eq _ (by omega) (by omega)] at h
        subst h
        refine ⟨fun _ => by omega, fun _ => rfl, fun _ => by omega, fun e => ?_⟩
        rw [e] at h2
        simp only at h2
        omega
      · simp at h
    · rename_i h2
      simp only [Option.some.injEq] at h
      subst h
      refine ⟨fun _ => rfl, fun _ => by omega, fun _ => by omega, fun e => e⟩

/-- C28, for a range that is not empty: after a successful `data_modify` on
the header view that replaces the `replace_l > 0` bytes at `replace_i` by
`with_l` bytes, every tracked span (Via line, Via value, From, To, Contact,
Content-Length) that lies in the buffer and stays in the range of `int16_t`
has moved as described: kept when it ends at or before `replace_i` or was
never recorded, longer by `with_l - replace_l` when it contains the range,
shifted by `with_l - replace_l` when it starts at or behind the end of the
range. -/
theorem data_modify_spans (packet : packet_t) (data : data_t) (replace_i replace_l : Nat)
    (w : List Nat) (packet1 : packet_t) (data1 : data_t)
    (hwf : buf_wf packet.buf) (hview : data.p = 0)
    (hhdr : packet.header.len ≤ packet.buf.used) (hl : 0 < replace_l)
    (h : data_modify packet data replace_i replace_l w = Res.ret 1 (packet1, data1)) :
    (span_fits packet.via_line ((w.length : Int) - replace_l) →
      span_moved packet.via_line packet1.via_line replace_i replace_l ((w.length : Int) - replace_l))
    ∧ (span_fits packet.via ((w.length : Int) - replace_l) →
      span_moved packet.via packet1.via replace_i replace_l ((w.length : Int) - replace_l))
    ∧ (span_fits packet.from_ ((w.length : Int) - replace_l) →
      span_moved packet.from_ packet1.from_ replace_i replace_l ((w.length : Int) - replace_l))
    ∧ (span_fits packet.to_ ((w.length : Int) - replace_l) →
      span_moved packet.to_ packet1.to_ replace_i replace_l ((w.length : Int) - replace_l))
    ∧ (span_fits packet.contact ((w.length : Int) - replace_l) →
      span_moved packet.contact packet1.contact replace_i replace_l
        ((w.length : Int) - replace_l))
    ∧ (span_fits packet.content_length ((w.length : Int) - replace_l) →
      span_moved packet.content_length packet1.content_length replace_i replace_l
        ((w.length : Int) - replace_l)) := by
  unfold data_modify at h
  rw [if_pos hview] at h
  split at h
  · rename_i hassert
    obtain ⟨ha1, ha2⟩ := hassert
    obtain ⟨_, _, _, _, _, _, _, hsame, hdiff⟩ :=
      data_modify_at_header packet data replace_i replace_i replace_l w packet1 data1 hwf hview
        (by omega) (by omega) h
    by_cases hwl : w.length = replace_l
    · obtain ⟨_, e1, e2, e3, e4, e5, e6, _⟩ := hsame hwl
      rw [e1, e2, e3, e4, e5, e6, hwl, sub_self]
      exact ⟨fun _ => span_moved_refl _ _ _, fun _ => span_moved_refl _ _ _,
        fun _ => span_moved_refl _ _ _, fun _ => span_moved_refl _ _ _,
        fun _ => span_moved_refl _ _ _, fun _ => span_moved_refl _ _ _⟩
    · obtain ⟨_, e1, e2, e3, e4, e5, e6, _⟩ := hdiff hwl
      have hi : (0 : Int) ≤ replace_i := by omega
      have hl1 : (0 : Int) < replace_l := by omega
      have hd : (0 : Int) ≤ replace_l + ((w.length : Int) - replace_l) := by omega
      exact ⟨fun f => loc_adjust_moved _ _ _ _ _ hi hl1 hd f e1,
        fun f => loc_adjust_moved _ _ _ _ _ hi hl1 hd f e2,
        fun f => loc_adjust_moved _ _ _ _ _ hi hl1 hd f e3,
        fun f => loc_adjust_moved _ _ _ _ _ hi hl1 hd f e4,
        fun f => loc_adjust_moved _ _ _ _ _ hi hl1 hd f e5,
        fun f => loc_adjust_moved _ _ _ _ _ hi hl1 hd f e6⟩
  · simp at h

/-- C28 (witness): the address 1.2.3.4 in the Contact line of a REGISTER is
replaced by 10.20.30.40: the Contact span, which contains the range, grows by
4, and the Content-Length span, which lies behind it, moves by 4. -/
theorem data_modify_spans_witness :
    data_modify (register_packet "1.2.3.4" "5060") ⟨0, 0, 128⟩ 92 7 (bytes "10.20.30.40")
      = Res.ret 1 ({ register_packet "10.20.30.40" "5060" with current_line := ⟨126, 0⟩ },
          ⟨0, 0, 132⟩)
    ∧ (register_packet "1.2.3.4" "5060").contact = ⟨85, 20⟩
    ∧ span_moved (register_packet "1.2.3.4" "5060").contact ⟨85, 24⟩ (92 : Nat) (7 : Nat)
        (((bytes "10.20.30.40").length : Int) - (7 : Nat))
    ∧ (register_packet "1.2.3.4" "5060").content_length = ⟨122, 2⟩
    ∧ span_moved (register_packet "1.2.3.4" "5060").content_length ⟨126, 2⟩ (92 : Nat) (7 : Nat)
        (((bytes "10.20.30.40").length : Int) - (7 : Nat)) :=
  ⟨by decide!, by decide,
   (data_modify_spans (register_packet "1.2.3.4" "5060") ⟨0, 0, 128⟩ 92 7 (bytes "10.20.30.40")
      { register_packet "10.20.30.40" "5060" with current_line := ⟨126, 0⟩ } ⟨0, 0, 132⟩
      (by decide) rfl (by decide) (by decide) (by decide!)).2.2.2.2.1
      ⟨by decide, by decide, by decide⟩,
   by decide,
   (data_modify_spans (register_packet "1.2.3.4" "5060") ⟨0, 0, 128⟩ 92 7 (bytes "10.20.30.40")
      { register_packet "10.20.30.40" "5060" with current_line := ⟨126, 0⟩ } ⟨0, 0, 132⟩
      (by decide) rfl (by decide) (by decide) (by decide!)).2.2.2.2.2
      ⟨by decide, by decide, by decide⟩⟩

/-- C28 (counterexample): a successful `data_modify` on the header view that
inserts one byte at offset 85 (`replace_l = 0`), where the Contact span
`(85, 20)` starts.  The span starts at the end of the empty range, for which
the description keeps the length and moves the offset; `loc_adjust` keeps the
offset and makes the span longer: the Contact span is `(85, 21)` and not
`(86, 20)`. -/
theorem data_modify_spans_empty_range :
    (register_packet "1.2.3.4" "5060").contact = ⟨85, 20⟩
    ∧ Res.map (fun r => r.1.contact)
        (data_modify (register_packet "1.2.3.4" "5060") ⟨0, 0, 128⟩ 85 0 [SP])
      = Res.ret 1 ⟨85, 21⟩
    ∧ ¬ span_moved (register_packet "1.2.3.4" "5060").contact ⟨85, 21⟩ 85 0 1 := by
  refine ⟨by decide, by decide!, ?_⟩
  unfold span_moved
  decide

/-! ## The length of a Ready message -/

theorem i16_le (x : Int) (h : -32768 ≤ x) : i16 x ≤ x := by
  unfold i16; omega

theorem i16_le_max (x : Int) : i16 x ≤ 32767 := by
  unfold i16; omega

theorem u16_ge (x : Int) (h : x < 65536) : x ≤ (u16 x : Int) := by
  unfold u16; omega

theorem buf_resize_used (b b1 : buf_t) (size : Nat) (h : buf_resize b size = some b1) :
    b1.used = b.used := by
  unfold buf_resize at h
  split at h
  · simp only at h
    split at h
    · simp at h
    · split at h
      · simp at h
      · simp only [Option.some.injEq] at h
        rw [← h]
  · simp only [Option.some.injEq] at h
    rw [h]

theorem loc_adjust_all_keeps (p q : packet_t) (i l d : Int) (h : loc_adjust_all p i l d = some q) :
    q.buf = p.buf ∧ q.header = p.header ∧ q.data = p.data := by
  unfold loc_adjust_all at h
  split at h
  · simp only [Option.some.injEq] at h
    rw [← h]
    exact ⟨rfl, rfl, rfl⟩
  · simp at h

theorem data_modify_at_ready (packet : packet_t) (data : data_t) (is_data : Bool) (i ri l : Nat)
    (w : List Nat) (packet1 : packet_t) (data1 : data_t)
    (hwf : buf_wf packet.buf) (hwl : w.length ≤ 32767)
    (hpos : if is_data = true then (0 : Int) ≤ packet.data.len + ((w.length : Int) - l)
            else (0 : Int) ≤ packet.header.len + ((w.length : Int) - l))
    (hinv : packet.header.len + packet.data.len ≤ packet.buf.used)
    (h : data_modify_at packet data is_data i ri l w = Res.ret 1 (packet1, data1)) :
    packet1.header.len + packet1.data.len ≤ packet1.buf.used := by
  obtain ⟨hlen, hused, halloc⟩ := hwf
  unfold data_modify_at at h
  split at h
  · simp only at h
    split at h
    · split at h
      · simp at h
      · rename_i b hb
        have hbu := buf_resize_used _ _ _ hb
        have hx : (packet.buf.used : Int) + ((w.length : Int) - l) < 65536 := by
          by_contra hc
          have e : u32 ((packet.buf.used : Int) + ((w.length : Int) - l))
              = ((packet.buf.used : Int) + ((w.length : Int) - l)).toNat := by
            have := u32_eq ((packet.buf.used : Int) + ((w.length : Int) - l)) (by omega) (by omega)
            omega
          rw [e] at hb
          obtain ⟨_, _, _, h4, h5⟩ := buf_resize_some _ _ _ hb (by omega) halloc
          omega
        have hu := u16_ge _ hx
        rw [hbu] at h
        cases is_data with
        | true =>
          simp only [if_true] at h hpos
          simp only [Res.ret.injEq, Prod.mk.injEq, true_and] at h
          rw [← h.1]
          simp only
          have := i16_le (packet.data.len + ((w.length : Int) - l)) (by omega)
          omega
        | false =>
          simp only [Bool.false_eq_true, if_false] at h hpos
          split at h
          · simp at h
          · rename_i pk2 hpk2
            obtain ⟨k1, k2, k3⟩ := loc_adjust_all_keeps _ _ _ _ _ hpk2
            simp only [Res.ret.injEq, Prod.mk.injEq, true_and] at h
            rw [← h.1]
            simp only
            rw [k2, k3]
            simp only
            have := i16_le (packet.header.len + ((w.length : Int) - l)) (by omega)
            omega
    · simp only [Res.ret.injEq, Prod.mk.injEq, true_and] at h
      rw [← h.1]
      exact hinv
  · simp only [Res.ret.injEq, Prod.mk.injEq, true_and] at h
    rw [← h.1]
    exact hinv

/-- A successful `data_modify` keeps `header.len + data.len <= buf.used`. -/
theorem data_modify_ready (packet : packet_t) (data : data_t) (replace_i replace_l : Nat)
    (w : List Nat) (packet1 : packet_t) (data1 : data_t)
    (hwf : buf_wf packet.buf) (hh : packet.header.len ≤ 32767) (hd : packet.data.len ≤ 32767)
    (hinv : packet.header.len + packet.data.len ≤ packet.buf.used)
    (h : data_modify packet data replace_i replace_l w = Res.ret 1 (packet1, data1)) :
    packet1.header.len + packet1.data.len ≤ packet1.buf.used := by
  unfold data_modify at h
  split at h
  · split at h
    · rename_i ha
      exact data_modify_at_ready _ _ _ _ _ _ _ _ _ hwf (by omega)
        (by simp only [Bool.false_eq_true, if_false]; omega) hinv h
    · simp at h
  · split at h
    · rename_i ha
      exact data_modify_at_ready _ _ _ _ _ _ _ _ _ hwf (by omega)
        (by simp only [if_true]; omega) hinv h
    · simp at h

theorem content_length_digits_max (p : List Nat) (base n i : Nat) (v : Int) (hv : v ≤ 32767) :
    (content_length_digits p base n i v).2 ≤ 32767 := by
  induction n generalizing i v with
  | zero => simpa [content_length_digits] using hv
  | succ n ih =>
    unfold content_length_digits
    split
    · exact ih _ _ (i16_le_max _)
    · exact hv

theorem header_line_content_length_ready (packet : packet_t) (l i : Nat) (c : Int) (q : packet_t)
    (h : header_line_content_length packet l i = Res.ret c q) :
    (q.status = packet.status ∨ q.status = PACKET_ERROR) ∧ q.buf = packet.buf
    ∧ (packet.data.len ≤ 32767 → q.data.len ≤ 32767) := by
  unfold header_line_content_length at h
  simp only at h
  split at h
  · simp only [Res.ret.injEq] at h
    rw [← h.2]
    exact ⟨Or.inr rfl, rfl, fun x => x⟩
  · split at h
    · simp at h
    · split at h
      · simp only [Res.ret.injEq] at h
        rw [← h.2]
        exact ⟨Or.inr rfl, rfl, fun x => x⟩
      · have hd := content_length_digits_max packet.buf.p packet.current_line.offs.toNat
          (packet.current_line.len.toNat - i) i packet.data.len
        generalize content_length_digits packet.buf.p packet.current_line.offs.toNat
          (packet.current_line.len.toNat - i) i packet.data.len = r at h hd
        obtain ⟨i1, v⟩ := r
        simp only at h hd
        split at h
        · simp only [Res.ret.injEq] at h
          rw [← h.2]
          exact ⟨Or.inl rfl, rfl, hd⟩
        · simp only [Res.ret.injEq] at h
          rw [← h.2]
          exact ⟨Or.inr rfl, rfl, hd⟩

theorem header_line_tag_ready (packet : packet_t) (l i : Nat) (c : Int) (q : packet_t)
    (h : header_line_tag packet l i = Res.ret c q) :
    (q.status = packet.status ∨ q.status = PACKET_ERROR) ∧ q.buf = packet.buf
    ∧ (packet.data.len ≤ 32767 → q.data.len ≤ 32767) := by
  unfold header_line_tag at h
  simp only at h
  split_ifs at h <;> first
    | exact header_line_content_length_ready packet l i c q h
    | (simp only [Res.ret.injEq] at h
       rw [← h.2]
       first
         | exact ⟨Or.inr rfl, rfl, fun x => x⟩
         | exact ⟨Or.inl rfl, rfl, fun x => x⟩)
    | simp at h

theorem header_line_ready (packet : packet_t) (c : Int) (q : packet_t)
    (h : header_line packet = Res.ret c q) :
    (q.status = packet.status ∨ q.status = PACKET_ERROR) ∧ q.buf = packet.buf
    ∧ (packet.data.len ≤ 32767 → q.data.len ≤ 32767) := by
  unfold header_line at h
  simp only at h
  split_ifs at h <;> first
    | exact header_line_tag_ready packet _ _ c q h
    | (simp only [Res.ret.injEq] at h
       rw [← h.2]
       exact ⟨Or.inr rfl, rfl, fun x => x⟩)

/-- What the header loop keeps for the next turn, and what holds when it sets
the status Ready. -/
theorem header_step_line_ready (p1 : packet_t) (i2 : Nat)
    (hst : p1.status ≠ PACKET_READY) (hi : i2 ≤ p1.buf.used) (hu : p1.buf.used ≤ 65535)
    (hd : p1.data.len ≤ 32767) :
    (∀ p2 j, header_step_line p1 i2 = Step.cont (p2, j) →
      p2.status ≠ PACKET_READY ∧ j ≤ p2.buf.used ∧ p2.buf.used ≤ 65535 ∧ p2.data.len ≤ 32767)
    ∧ (∀ k r, header_step_line p1 i2 = Step.done (Res.ret k r) → r.status = PACKET_READY →
      r.header.len + r.data.len ≤ r.buf.used) := by
  unfold header_step_line
  split
  · split
    · refine ⟨fun p2 j h => ?_, fun k r h => by simp at h⟩
      simp only [Step.cont.injEq, Prod.mk.injEq] at h
      rw [← h.1, ← h.2]
      refine ⟨hst, Nat.zero_le _, ?_, ?_⟩
      · simp only [reset_packet]; omega
      · simp [reset_packet]
    · split
      · refine ⟨fun p2 j h => by simp at h, fun k r h hr => ?_⟩
        simp only [Step.done.injEq, Res.ret.injEq] at h
        rw [← h.2] at hr
        simp at hr
      · simp only
        split
        · rename_i hge
          refine ⟨fun p2 j h => by simp at h, fun k r h hr => ?_⟩
          simp only [Step.done.injEq, Res.ret.injEq] at h
          rw [← h.2]
          simp only
          by_cases hneg : (i2 : Int) + p1.data.len < 0
          · omega
          · have := u32_eq ((i2 : Int) + p1.data.len) (by omega) (by omega)
            omega
        · refine ⟨fun p2 j h => by simp at h, fun k r h hr => ?_⟩
          simp only [Step.done.injEq, Res.ret.injEq] at h
          rw [← h.2] at hr
          exact absurd hr hst
  · split
    · split
      · exact ⟨fun p2 j h => by simp at h, fun k r h => by simp at h⟩
      · obtain ⟨f1, f2, _, f4, _⟩ := first_line_keeps p1
        generalize first_line p1 = fl at f1 f2 f4
        obtain ⟨ok, q⟩ := fl
        simp only at f1 f2 f4
        cases ok with
        | true =>
          refine ⟨fun p2 j h => ?_, fun k r h => by simp at h⟩
          simp only [Step.cont.injEq, Prod.mk.injEq] at h
          rw [← h.1, ← h.2]
          simp only
          rw [f1, f2, f4]
          exact ⟨hst, hi, hu, hd⟩
        | false =>
          refine ⟨fun p2 j h => by simp at h, fun k r h hr => ?_⟩
          simp only [Step.done.injEq, Res.ret.injEq] at h
          rw [← h.2] at hr
          simp at hr
    · have hl := header_line_ready p1
      generalize header_line p1 = r0 at hl
      cases r0 with
      | abort => exact ⟨fun p2 j h => by simp at h, fun k r h => by simp at h⟩
      | nofuel => exact ⟨fun p2 j h => by simp at h, fun k r h => by simp at h⟩
      | ret c q =>
        obtain ⟨g1, g2, g3⟩ := hl c q rfl
        have hq : q.status ≠ PACKET_READY := by
          rcases g1 with g | g
          · rw [g]; exact hst
          · rw [g]; decide
        simp only
        split
        · refine ⟨fun p2 j h => by simp at h, fun k r h hr => ?_⟩
          simp only [Step.done.injEq, Res.ret.injEq] at h
          rw [← h.2] at hr
          exact absurd hr hq
        · refine ⟨fun p2 j h => ?_, fun k r h => by simp at h⟩
          simp only [Step.cont.injEq, Prod.mk.injEq] at h
          rw [← h.1, ← h.2]
          simp only
          rw [g2]
          exact ⟨hq, hi, hu, g3 hd⟩

theorem header_step_ready (p : packet_t) (i : Nat)
    (hst : p.status ≠ PACKET_READY) (hi : i ≤ p.buf.used) (hu : p.buf.used ≤ 65535)
    (hd : p.data.len ≤ 32767) :
    (∀ p2 j, header_step p i = Step.cont (p2, j) →
      p2.status ≠ PACKET_READY ∧ j ≤ p2.buf.used ∧ p2.buf.used ≤ 65535 ∧ p2.data.len ≤ 32767)
    ∧ (∀ k r, header_step p i = Step.done (Res.ret k r) → r.status = PACKET_READY →
      r.header.len + r.data.len ≤ r.buf.used) := by
  unfold header_step
  simp only
  have hk := count_while_le not_eol p.buf.p (p.buf.used - i) i
  generalize count_while not_eol p.buf.p (p.buf.used - i) i = k at hk
  split
  · refine ⟨fun p2 j h => by simp at h, fun k r h hr => ?_⟩
    simp only [Step.done.injEq, Res.ret.injEq] at h
    rw [← h.2] at hr
    simp at hr
  · split
    · refine ⟨fun p2 j h => by simp at h, fun k r h hr => ?_⟩
      simp only [Step.done.injEq, Res.ret.injEq] at h
      rw [← h.2] at hr
      exact absurd hr hst
    · rename_i hne
      split
      · refine ⟨fun p2 j h => by simp at h, fun k r h hr => ?_⟩
        simp only [Step.done.injEq, Res.ret.injEq] at h
        rw [← h.2] at hr
        exact absurd hr hst
      · rename_i hcr
        split
        · refine ⟨fun p2 j h => by simp at h, fun k r h hr => ?_⟩
          simp only [Step.done.injEq, Res.ret.injEq] at h
          rw [← h.2] at hr
          simp at hr
        · refine header_step_line_ready
            { p with current_line := ⟨p.current_line.offs, p.current_line.len + k⟩ } _ hst ?_ hu hd
          simp only
          split
          · rename_i hc
            have : ¬ (i + k + 1 = p.buf.used) := fun e => hcr ⟨hc, e⟩
            omega
          · omega

theorem header_loop_ready (f : Nat) (p : packet_t) (i : Nat) (k : Int) (r : packet_t)
    (hst : p.status ≠ PACKET_READY) (hi : i ≤ p.buf.used) (hu : p.buf.used ≤ 65535)
    (hd : p.data.len ≤ 32767)
    (h : header_loop f p i = Res.ret k r) (hr : r.status = PACKET_READY) :
    r.header.len + r.data.len ≤ r.buf.used := by
  induction f generalizing p i with
  | zero => simp [header_loop] at h
  | succ f ih =>
    obtain ⟨s1, s2⟩ := header_step_ready p i hst hi hu hd
    unfold header_loop at h
    generalize header_step p i = st at h s1 s2
    cases st with
    | cont x =>
      obtain ⟨p2, j⟩ := x
      obtain ⟨a1, a2, a3, a4⟩ := s1 p2 j rfl
      exact ih p2 j a1 a2 a3 a4 h
    | done r0 =>
      simp only at h
      subst h
      exact s2 k r rfl hr

theorem buf_append_used (b b1 : buf_t) (c : List Nat) (k : Int)
    (h : buf_append b c = Res.ret k b1) (hk : k ≠ 0) :
    b1.used = u16 ((b.used : Int) + c.length) := by
  unfold buf_append at h
  split at h
  · rename_i b0 hb0
    split at h
    · simp at h
    · simp only [Res.ret.injEq] at h
      rw [← h.2, buf_resize_used _ _ _ hb0]
  · simp only [Res.ret.injEq] at h
    exact absurd h.1.symm hk

theorem next_packet_from_ready (p0 : packet_t) (c : List Nat) (k : Int) (r : packet_t)
    (hst : p0.status ≠ PACKET_READY)
    (hc : p0.buf.used + c.length < 4294967296) (hu : p0.buf.used ≤ 65535)
    (h0 : 0 ≤ p0.current_line.offs + p0.current_line.len)
    (h1 : p0.current_line.offs + p0.current_line.len ≤ p0.buf.used)
    (hh : p0.header.len ≤ 32767) (hd : p0.data.len ≤ 32767)
    (h : next_packet p0 c = Res.ret k r)
    (hr : r.status = PACKET_READY) : r.header.len + r.data.len ≤ r.buf.used := by
  have e1 : u32 ((p0.buf.used : Int) + c.length) = p0.buf.used + c.length := by
    have := u32_nat (p0.buf.used + c.length) (by omega); push_cast at this; exact this
  unfold next_packet at h
  rw [if_neg hst] at h
  simp only [e1] at h
  split at h
  · simp only [Res.ret.injEq] at h
    rw [← h.2] at hr
    simp at hr
  · rename_i hsz
    simp only [SIP_MAX_LEN] at hsz
    split at h
    · simp at h
    · simp at h
    rename_i kb b hb
    split at h
    · simp only [Res.ret.injEq] at h
      rw [← h.2] at hr
      simp at hr
    · rename_i hkb
      have hbu := buf_append_used _ _ _ _ hb hkb
      have e2 : u16 ((p0.buf.used : Int) + c.length) = p0.buf.used + c.length := by
        have := u16_nat (p0.buf.used + c.length) (by omega); push_cast at this; exact this
      rw [e2] at hbu
      split at h
      · have e3 : u32 (p0.current_line.offs + p0.current_line.len)
            = (p0.current_line.offs + p0.current_line.len).toNat := by
          have := u32_eq (p0.current_line.offs + p0.current_line.len) h0 (by omega)
          omega
        rw [e3] at h
        exact header_loop_ready (b.used + 1) { p0 with status := PACKET_INCOMPLETE, buf := b }
          (p0.current_line.offs + p0.current_line.len).toNat k r (by simp)
          (by simp only; omega) (by simp only; omega) hd h hr
      · split at h
        · rename_i hge
          simp only [Res.ret.injEq] at h
          rw [← h.2]
          simp only
          by_cases hneg : p0.header.len + p0.data.len < 0
          · omega
          · have := u32_eq (p0.header.len + p0.data.len) (by omega) (by omega)
            omega
        · simp only [Res.ret.injEq] at h
          rw [← h.2] at hr
          simp at hr

/-- A packet with which `next_packet` returns the status Ready has
`header.len + data.len <= buf.used`. -/
theorem next_packet_ready_length (q : packet_t) (c : List Nat) (k : Int) (r : packet_t)
    (hc : q.buf.used + c.length < 4294967296) (hu : q.buf.used ≤ 65535)
    (hwf : q.status ≠ PACKET_READY →
      0 ≤ q.current_line.offs + q.current_line.len
      ∧ q.current_line.offs + q.current_line.len ≤ q.buf.used
      ∧ q.header.len ≤ 32767 ∧ q.data.len ≤ 32767)
    (h : next_packet q c = Res.ret k r) (hr : r.status = PACKET_READY) :
    r.header.len + r.data.len ≤ r.buf.used := by
  by_cases hst : q.status = PACKET_READY
  · by_cases hl : u32 (q.header.len + q.data.len) ≤ q.buf.used
    · rw [next_packet_dropped q c (fun _ => hl)] at h
      have hdu : (dropped q).buf.used ≤ q.buf.used := by
        unfold dropped
        rw [if_pos hst]
        simp only [reset_packet, with_buf, shift_buf]
        omega
      have hd0 : (dropped q).current_line = ⟨0, 0⟩ ∧ (dropped q).header = ⟨0⟩
          ∧ (dropped q).data = ⟨0⟩ := by
        unfold dropped
        rw [if_pos hst]
        exact ⟨rfl, rfl, rfl⟩
      obtain ⟨d1, d2, d3⟩ := hd0
      refine next_packet_from_ready (dropped q) c k r (dropped_not_ready q) (by omega) (by omega)
        ?_ ?_ ?_ ?_ h hr
      · rw [d1]; decide
      · rw [d1]; simp
      · rw [d2]; decide
      · rw [d3]; decide
    · unfold next_packet at h
      rw [if_pos hst] at h
      simp only [if_neg hl] at h
      simp at h
  · obtain ⟨w0, w1, w2, w3⟩ := hwf hst
    exact next_packet_from_ready q c k r hst hc hu w0 w1 w2 w3 h hr

/-- C29: a packet with which `next_packet` returns the status Ready has
`header.len + data.len <= buf.used`, and a successful `data_modify` on a
packet with `header.len + data.len <= buf.used` returns a packet that has it
too.  The packet given to `next_packet` holds at most 65535 bytes, the size
test of `next_packet` does not wrap, and, when it is not Ready, its current
line lies in the bytes in use and its lengths are `int16_t` values; the packet
given to `data_modify` has a well-formed buffer and lengths that are `int16_t`
values. -/
theorem ready_length_kept (q : packet_t) (c : List Nat) (k : Int) (r : packet_t)
    (packet : packet_t) (data : data_t) (replace_i replace_l : Nat) (w : List Nat)
    (packet1 : packet_t) (data1 : data_t)
    (hc : q.buf.used + c.length < 4294967296) (hu : q.buf.used ≤ 65535)
    (hq : q.status ≠ PACKET_READY →
      0 ≤ q.current_line.offs + q.current_line.len
      ∧ q.current_line.offs + q.current_line.len ≤ q.buf.used
      ∧ q.header.len ≤ 32767 ∧ q.data.len ≤ 32767)
    (hwf : buf_wf packet.buf) (hh : packet.header.len ≤ 32767) (hd : packet.data.len ≤ 32767) :
    (next_packet q c = Res.ret k r → r.status = PACKET_READY →
      r.header.len + r.data.len ≤ r.buf.used)
    ∧ (packet.header.len + packet.data.len ≤ packet.buf.used →
        data_modify packet data replace_i replace_l w = Res.ret 1 (packet1, data1) →
        packet1.header.len + packet1.data.len ≤ packet1.buf.used) :=
  ⟨fun h hr => next_packet_ready_length q c k r hc hu hq h hr,
   fun hinv h => data_modify_ready packet data replace_i replace_l w packet1 data1 hwf hh hd hinv h⟩

/-- C29 (witness): `next_packet` makes a Ready packet of 128 bytes of a
REGISTER, and `data_modify` replaces the address 1.2.3.4 of its Contact line by
10.20.30.40, which gives a packet of 132 bytes. -/
theorem ready_length_kept_witness :
    next_packet packet_zero (register_message "1.2.3.4" "5060")
      = Res.ret 1 (register_packet "1.2.3.4" "5060")
    ∧ (register_packet "1.2.3.4" "5060").status = PACKET_READY
    ∧ (register_packet "1.2.3.4" "5060").header.len + (register_packet "1.2.3.4" "5060").data.len
        ≤ (register_packet "1.2.3.4" "5060").buf.used
    ∧ data_modify (register_packet "1.2.3.4" "5060") ⟨0, 0, 128⟩ 92 7 (bytes "10.20.30.40")
      = Res.ret 1 ({ register_packet "10.20.30.40" "5060" with current_line := ⟨126, 0⟩ },
          ⟨0, 0, 132⟩)
    ∧ ({ register_packet "10.20.30.40" "5060" with current_line := ⟨126, 0⟩ } : packet_t).header.len
        + ({ register_packet "10.20.30.40" "5060" with current_line := ⟨126, 0⟩ } : packet_t).data.len
        ≤ ({ register_packet "10.20.30.40" "5060" with current_line := ⟨126, 0⟩ } : packet_t).buf.used :=
  ⟨by decide!, by decide,
   (ready_length_kept packet_zero (register_message "1.2.3.4" "5060") 1
      (register_packet "1.2.3.4" "5060") (register_packet "1.2.3.4" "5060") ⟨0, 0, 128⟩ 92 7
      (bytes "10.20.30.40") { register_packet "10.20.30.40" "5060" with current_line := ⟨126, 0⟩ }
      ⟨0, 0, 132⟩ (by decide) (by decide) (fun _ => by decide) (by decide) (by decide)
      (by decide)).1 (by decide!) (by decide),
   by decide!,
   (ready_length_kept packet_zero (register_message "1.2.3.4" "5060") 1
      (register_packet "1.2.3.4" "5060") (register_packet "1.2.3.4" "5060") ⟨0, 0, 128⟩ 92 7
      (bytes "10.20.30.40") { register_packet "10.20.30.40" "5060" with current_line := ⟨126, 0⟩ }
      ⟨0, 0, 132⟩ (by decide) (by decide) (fun _ => by decide) (by decide) (by decide)
      (by decide)).2 (by decide) (by decide!)⟩

/-! ## The first message of a TCP session -/

theorem slice_mid (p : List Nat) (o n : Nat) (A B C : List Nat)
    (hv : (p.drop o).take n = A ++ B ++ C) :
    (p.drop (o + A.length)).take B.length = B := by
  have h1 := congrArg (fun l => (l.drop A.length).take B.length) hv
  simp only [List.append_assoc, List.drop_left, List.take_left] at h1
  rw [List.drop_take, List.drop_drop, List.take_take] at h1
  have hl := congrArg List.length hv
  simp only [List.length_take, List.length_drop, List.length_append] at hl
  rw [Nat.min_eq_left (by omega)] at h1
  exact h1

theorem slice_end (p : List Nat) (o n : Nat) (A C : List Nat)
    (hv : (p.drop o).take n = A ++ C) :
    (p.drop (o + A.length)).take (n - A.length) = C := by
  have h1 := congrArg (fun l => l.drop A.length) hv
  simp only [List.drop_left] at h1
  rw [List.drop_take, List.drop_drop] at h1
  exact h1

theorem slice_rd (p : List Nat) (o n : Nat) (v : List Nat) (hv : (p.drop o).take n = v)
    (x : Nat) (hx : x < v.length) : rd p (o + x) = rd v x := by
  have hl := congrArg List.length hv
  simp only [List.length_take, List.length_drop] at hl
  rw [← hv, rd_take _ _ _ (by omega), rd_drop]

theorem rd_cons_zero (a : Nat) (l : List Nat) : rd (a :: l) 0 = a := rfl

theorem rd_sip (sip : List Nat) (h : sip.map tolower = bytes "sip:") :
    sip.length = 4 ∧ rd sip 0 ≠ 60 ∧ ∀ k, k < 4 → tolower (rd sip k) = tolower (rd (bytes "sip:") k) := by
  have hl := congrArg List.length h
  simp only [List.length_map] at hl
  have hl4 : sip.length = 4 := by rw [hl]; decide
  have hk : ∀ k, k < 4 → tolower (rd sip k) = rd (bytes "sip:") k := by
    intro k hk
    rw [← rd_map_tolower sip k (by omega), h]
  refine ⟨hl4, ?_, ?_⟩
  · intro e
    have := hk 0 (by omega)
    rw [e] at this
    revert this
    decide
  · intro k hk4
    rw [hk k hk4]
    have : k = 0 ∨ k = 1 ∨ k = 2 ∨ k = 3 := by omega
    rcases this with e | e | e | e <;> subst e <;> decide

/-- The function `contact_id` on a value that is an optional `<`, then `sip:`,
then a user part without `@` that is not empty, then `@`. -/
theorem contact_id_form (packet : packet_t) (loc : loc_t) (lt sip user tail : List Nat)
    (ho : 0 ≤ loc.offs) (hfit : loc.offs + loc.len ≤ 32767)
    (hv : (packet.buf.p.drop loc.offs.toNat).take loc.len.toNat = lt ++ sip ++ user ++ 64 :: tail)
    (hn : (lt ++ sip ++ user ++ 64 :: tail).length = loc.len)
    (hlt : lt = [] ∨ lt = [60]) (hsip : sip.map tolower = bytes "sip:")
    (hu : user ≠ []) (hat : 64 ∉ user) :
    contact_id packet loc = some (loc.offs + lt.length + 4, (user.length : Int)) := by
  obtain ⟨s4, s0, sk⟩ := rd_sip sip hsip
  have hul : 0 < user.length := List.length_pos.mpr hu
  simp only [List.length_append, List.length_cons] at hn
  have hrd : ∀ x, x < (lt ++ sip ++ user ++ 64 :: tail).length →
      rd packet.buf.p (loc.offs.toNat + x) = rd (lt ++ sip ++ user ++ 64 :: tail) x :=
    fun x hx => slice_rd _ _ _ _ hv x hx
  have hlen : (lt ++ sip ++ user ++ 64 :: tail).length
      = lt.length + sip.length + user.length + (tail.length + 1) := by
    simp only [List.length_append, List.length_cons]
  have hltl : lt.length ≤ 1 := by rcases hlt with h | h <;> rw [h] <;> simp
  -- the optional `<`
  have h1 : (if loc.offs < loc.offs + loc.len ∧ rd packet.buf.p loc.offs.toNat = 60
      then loc.offs + 1 else loc.offs) = loc.offs + lt.length := by
    have h0 := hrd 0 (by omega)
    rw [Nat.add_zero] at h0
    rcases hlt with h | h
    · subst h
      have : rd ([] ++ sip ++ user ++ 64 :: tail) 0 = rd sip 0 := by
        rw [List.nil_append, List.append_assoc, rd_append_left _ _ _ (by omega)]
      rw [h0, this, if_neg (fun hh => s0 hh.2)]
      simp
    · subst h
      have : rd ([60] ++ sip ++ user ++ 64 :: tail) 0 = 60 := rfl
      rw [h0, this, if_pos ⟨by omega, rfl⟩]
      simp
  have e1 : (loc.offs + lt.length).toNat = loc.offs.toNat + lt.length := by omega
  have hs : strncasecmp_eq packet.buf.p (loc.offs + lt.length).toNat (bytes "sip:") = true := by
    rw [e1]
    apply strncasecmp_eq_of_bytes _ _ sip _ (by rw [s4]; decide)
    · intro k hk
      rw [Nat.add_assoc, hrd (lt.length + k) (by omega)]
      rw [List.append_assoc, List.append_assoc, rd_append_right, rd_append_left _ _ _ hk]
    · intro k hk
      exact sk k (by omega)
  have e2 : (loc.offs + lt.length + 4).toNat = loc.offs.toNat + (lt.length + 4) := by omega
  have hk : count_while (fun c => decide (c ≠ 64)) packet.buf.p
      (loc.offs + loc.len - (loc.offs + lt.length + 4)).toNat (loc.offs + lt.length + 4).toNat
      = user.length := by
    rw [e2]
    have hpre : (lt ++ sip).length = lt.length + 4 := by rw [List.length_append, s4]
    apply count_while_eq
    · intro x hx
      rw [Nat.add_assoc, hrd (lt.length + 4 + x) (by omega), ← hpre,
        List.append_assoc (lt ++ sip), rd_append_right, rd_append_left _ _ _ hx]
      have hm : rd user x ∈ user := by
        unfold rd
        rw [List.getD_eq_getElem _ _ hx]
        exact List.getElem_mem _
      simp only [ne_eq, decide_not, Bool.not_eq_true', decide_eq_false_iff_not]
      intro e
      exact hat (e ▸ hm)
    · omega
    · rw [Nat.add_assoc, hrd (lt.length + 4 + user.length) (by omega)]
      have : lt.length + 4 + user.length = (lt ++ sip ++ user).length := by
        rw [List.length_append, hpre]
      rw [this]
      have := rd_append_right (lt ++ sip ++ user) (64 :: tail) 0
      rw [Nat.add_zero] at this
      rw [this]
      simp [rd_cons_zero]
  unfold contact_id
  simp only [h1, hs, hk]
  rw [if_pos ⟨by omega, trivial⟩, if_pos ⟨by omega, by omega⟩]
  rw [i16_eq _ (by omega) (by omega), i16_eq _ (by omega) (by omega)]

theorem find_client_update (w : world_t) (ptr : Nat) (f : client_context_t → client_context_t)
    (hf : ∀ c, (f c).ptr = c.ptr) :
    find_client (update_client w ptr f) ptr = (find_client w ptr).map f := by
  unfold find_client update_client
  simp only
  induction w.client_list with
  | nil => rfl
  | cons c l ih =>
    simp only [List.map_cons, List.find?_cons]
    by_cases hc : c.ptr = ptr
    · simp [hc, hf]
    · simp [hc, ih]

theorem addr_find_at (packet : packet_t) (d : data_t) (al : Nat)
    (h : is_addr (view_from packet d d.i) = (true, al)) (hi : d.i < d.l) :
    addr_find packet d = some (d.i, al) := by
  unfold addr_find
  obtain ⟨n, hn⟩ : ∃ n, d.l - d.i = n + 1 := ⟨d.l - d.i - 1, by omega⟩
  rw [hn]
  unfold addr_find_loop
  rw [if_pos hi, h]

theorem addr_find_not_at (packet : packet_t) (d : data_t) (n al : Nat)
    (h : is_addr (view_from packet d d.i) = (false, n)) :
    addr_find packet d ≠ some (d.i, al) := by
  intro hc
  obtain ⟨_, _, _, b4⟩ := addr_find_bounds _ _ _ _ hc
  rw [h] at b4
  simp at b4

/-- The address and the port that `fon_to_box` takes from the bytes `tail`
behind the `@` of the Contact value, which are the window `d` from its cursor
on. -/
theorem contact_addr_port (packet : packet_t) (d : data_t) (tail : List Nat)
    (hp : d.p = 0) (hview : (packet.buf.p.drop d.i).take (d.l - d.i) = tail)
    (hl : d.l - d.i = tail.length) :
    (∀ addr port rest, tail = addr ++ (58 :: (port ++ rest)) →
      is_addr tail = (true, addr.length) → is_port (port ++ rest) = (true, port.length) →
      addr_find packet d = some (d.i, addr.length)
      ∧ port_find packet d d.i addr.length = some (d.i + addr.length + 1, port.length)
      ∧ (packet.buf.p.drop d.i).take addr.length = addr
      ∧ (packet.buf.p.drop (d.i + addr.length + 1)).take port.length = port)
    ∧ (∀ al pi pl, addr_find packet d = some (d.i, al) →
      port_find packet d d.i al = some (pi, pl) →
      ∃ addr port rest, tail = addr ++ (58 :: (port ++ rest))
        ∧ is_addr tail = (true, addr.length) ∧ is_port (port ++ rest) = (true, port.length)) := by
  have hvf : view_from packet d d.i = tail := by
    unfold view_from
    rw [hp, Nat.zero_add]
    exact hview
  refine ⟨fun addr port rest ht ha hpo => ?_, fun al pi pl ha hpf => ?_⟩
  · have hal := is_addr_true_length _ _ ha
    have hpl := is_port_true_bounds _ _ hpo
    have htl : tail.length = addr.length + (1 + (port.length + rest.length)) := by
      rw [ht]; simp only [List.length_append, List.length_cons]; omega
    have hv2 : (packet.buf.p.drop d.i).take (d.l - d.i) = (addr ++ [58]) ++ (port ++ rest) := by
      rw [hview, ht]; simp
    have hv3 : (packet.buf.p.drop d.i).take (d.l - d.i) = ([] ++ addr) ++ (58 :: (port ++ rest)) := by
      rw [hview, ht]; simp
    have hv4 : (packet.buf.p.drop d.i).take (d.l - d.i) = ((addr ++ [58]) ++ port) ++ rest := by
      rw [hview, ht]; simp
    have hend := slice_end _ _ _ _ _ hv2
    have e58 : (addr ++ [58]).length = addr.length + 1 := by simp
    rw [e58] at hend
    have hcol : rd packet.buf.p (d.i + addr.length) = 58 := by
      rw [slice_rd _ _ _ _ hview addr.length (by omega), ht]
      have := rd_append_right addr (58 :: (port ++ rest)) 0
      rw [Nat.add_zero] at this
      rw [this]; rfl
    refine ⟨addr_find_at packet d _ (by rw [hvf]; exact ha) (by omega), ?_, ?_, ?_⟩
    · unfold port_find
      simp only
      rw [hp, Nat.zero_add, if_pos ⟨by omega, hcol⟩, if_pos (by omega)]
      have hvp : view_from packet d (d.i + addr.length + 1) = port ++ rest := by
        unfold view_from
        rw [hp, Nat.zero_add, ← hend]
        congr 1
        omega
      rw [hvp, hpo]
    · have := slice_mid _ _ _ _ _ _ hv3
      simpa using this
    · have := slice_mid _ _ _ _ _ _ hv4
      rw [e58] at this
      rw [Nat.add_assoc]
      exact this
  · obtain ⟨_, a2, a3, a4⟩ := addr_find_bounds _ _ _ _ ha
    obtain ⟨p1, p2, p3, p4, p5, p6⟩ := port_find_bounds _ _ _ _ _ _ hpf
    rw [hvf] at a4
    rw [hp, Nat.zero_add] at p5
    have hal : al < tail.length := by omega
    have hvp : view_from packet d pi = tail.drop (al + 1) := by
      have e1 : d.i + al + 1 = d.i + (al + 1) := by omega
      have e2 : d.l - (d.i + (al + 1)) = d.l - d.i - (al + 1) := by omega
      unfold view_from
      rw [hp, Nat.zero_add, p1, e1, e2, ← hview, List.drop_take, List.drop_drop]
    rw [hvp] at p6
    have hplb := is_port_true_bounds _ _ p6
    refine ⟨tail.take al, (tail.drop (al + 1)).take pl, (tail.drop (al + 1)).drop pl, ?_, ?_, ?_⟩
    · rw [List.take_append_drop]
      have h58 : rd tail al = 58 := by
        rw [← slice_rd _ _ _ _ hview al hal]; exact p5
      conv_lhs => rw [← List.take_append_drop al tail]
      congr 1
      rw [List.drop_eq_getElem_cons hal]
      congr 1
      have : rd tail al = tail[al] := by
        unfold rd
        rw [List.getD_eq_getElem _ _ hal]
      rw [← this, h58]
    · rw [List.length_take, Nat.min_eq_left (by omega)]
      exact a4
    · rw [List.take_append_drop, List.length_take, Nat.min_eq_left hplb.2.2]
      exact p6

/-- The block for the first message behind the loop over the session list. -/
theorem fon_to_box_first_learn (w : world_t) (ptr : Nat) (leg : leg_t) (client : client_context_t)
    (packet : packet_t) (ci cl c0 : Int) (w1 : world_t)
    (hc : find_client w ptr = some client) (hid : client.contact_id = none)
    (hpk : (get_ep client leg).packet = packet)
    (hm : packet.method.len ≠ 0) (ho : packet.contact.offs ≠ 0)
    (hci : contact_id packet packet.contact = some (ci, cl))
    (hst : fon_to_box_stale w packet ci cl = Res.ret c0 w1) :
    fon_to_box_first w ptr leg
      = match addr_find packet
            ⟨0, u16 (u16 ci + (cl + 1)), u16 (packet.contact.offs + packet.contact.len)⟩ with
        | some (addr_i, addr_l) =>
          if addr_i = u16 (u16 ci + (cl + 1)) then
            match port_find packet
                ⟨0, u16 (u16 ci + (cl + 1)), u16 (packet.contact.offs + packet.contact.len)⟩
                addr_i addr_l with
            | some (port_i, port_l) =>
              Res.ret 1 (update_client
                (update_client w1 ptr (fun c =>
                  { c with contact_id := some ((packet.buf.p.drop (u16 ci)).take cl.toNat) }))
                ptr (fun c =>
                  { c with fon_contact := ⟨(packet.buf.p.drop addr_i).take addr_l,
                                           (packet.buf.p.drop port_i).take port_l⟩ }))
            | none =>
              Res.ret 0 (update_client w1 ptr (fun c =>
                { c with contact_id := some ((packet.buf.p.drop (u16 ci)).take cl.toNat) }))
          else
            Res.ret 0 (update_client w1 ptr (fun c =>
              { c with contact_id := some ((packet.buf.p.drop (u16 ci)).take cl.toNat) }))
        | none =>
          Res.ret 0 (update_client w1 ptr (fun c =>
            { c with contact_id := some ((packet.buf.p.drop (u16 ci)).take cl.toNat) })) := by
  unfold fon_to_box_first
  simp only [hc, hid, hpk, if_neg hm, if_neg ho, hci, hst]

theorem session_set_packet (c : client_context_t) (leg : leg_t) (packet : packet_t) :
    (set_packet c leg packet).ptr = c.ptr ∧ (set_packet c leg packet).contact_id = c.contact_id
    ∧ (set_packet c leg packet).fon_contact = c.fon_contact
    ∧ (set_packet c leg packet).fon_rtp = c.fon_rtp := by
  cases leg <;> exact ⟨rfl, rfl, rfl, rfl⟩

/-- The rewriting of a message of a session with a learned contact address
leaves the identity and the learned contact address of the session alone. -/
theorem fon_to_box_rewrite_keeps (w : world_t) (ptr : Nat) (leg : leg_t)
    (client : client_context_t) (c : Int) (w1 : world_t)
    (hc : find_client w ptr = some client) (hne : client.fon_contact.addr.length ≠ 0)
    (h : fon_to_box_rewrite w ptr leg = Res.ret c w1) :
    ∃ cl, find_client w1 ptr = some cl ∧ cl.contact_id = client.contact_id
      ∧ cl.fon_contact = client.fon_contact := by
  have hp : ∀ packet, ∃ cl,
      find_client (update_client w ptr (fun cl => set_packet cl leg packet)) ptr = some cl
      ∧ cl.contact_id = client.contact_id ∧ cl.fon_contact = client.fon_contact := by
    intro packet
    rw [find_client_update _ _ _ (fun c => (session_set_packet c leg packet).1), hc]
    obtain ⟨_, s2, s3, _⟩ := session_set_packet client leg packet
    exact ⟨_, rfl, s2, s3⟩
  unfold fon_to_box_rewrite at h
  rw [hc] at h
  simp only [if_pos hne] at h
  split at h
  · simp at h
  · simp at h
  · split at h
    · simp only [Res.ret.injEq] at h
      rw [← h.2]; exact hp _
    · split at h
      · simp at h
      · simp at h
      · simp only [Res.ret.injEq] at h
        rw [← h.2]; exact hp _

/-- C21: the first message of a fresh TCP session (`contact_id` is NULL),
whose packet is `packet`.  When the message has no method, no Contact span or
no user part that `contact_id` decodes, `fon_to_box` returns failure.  When it
is a request whose Contact value is an optional `<`, then `sip:` in any case,
then a user part without `@` that is not empty, then `@` and the bytes `tail`,
and the loop over the session list has returned and left the session alone:
if `tail` is an address literal, then `:` and a port literal, the block for
the first message stores the user part as identity and the address and the
port as learned contact address, `fon_to_box` goes on with the rewriting, and
every state with which `fon_to_box` returns has this identity and contact
address; if `tail` is not of this form, `fon_to_box` returns failure. -/
theorem fon_to_box_first_message (w : world_t) (ptr : Nat) (leg : leg_t)
    (client : client_context_t) (packet : packet_t)
    (hc : find_client w ptr = some client) (hid : client.contact_id = none)
    (hpk : (get_ep client leg).packet = packet) :
    (packet.method.len = 0 ∨ packet.contact.offs = 0
        ∨ contact_id packet packet.contact = none → fon_to_box w ptr leg = Res.ret 0 w)
    ∧ ∀ (lt sip user tail : List Nat) (c0 : Int) (w1 : world_t),
        packet.method.len ≠ 0 → 0 < packet.contact.offs →
        packet.contact.offs + packet.contact.len ≤ 32767 →
        contact_value packet = lt ++ sip ++ user ++ 64 :: tail →
        ((lt ++ sip ++ user ++ 64 :: tail).length : Int) = packet.contact.len →
        (lt = [] ∨ lt = [60]) → sip.map tolower = bytes "sip:" → user ≠ [] → 64 ∉ user →
        fon_to_box_stale w packet (packet.contact.offs + lt.length + 4) user.length
          = Res.ret c0 w1 →
        find_client w1 ptr = some client →
        (∀ addr port rest, tail = addr ++ (58 :: (port ++ rest)) →
          is_addr tail = (true, addr.length) → is_port (port ++ rest) = (true, port.length) →
          fon_to_box_first w ptr leg
            = Res.ret 1 (update_client
                (update_client w1 ptr (fun c => { c with contact_id := some user }))
                ptr (fun c => { c with fon_contact := ⟨addr, port⟩ }))
          ∧ fon_to_box w ptr leg
            = fon_to_box_rewrite (update_client
                (update_client w1 ptr (fun c => { c with contact_id := some user }))
                ptr (fun c => { c with fon_contact := ⟨addr, port⟩ })) ptr leg
          ∧ ∀ c w2, fon_to_box w ptr leg = Res.ret c w2 →
              ∃ cl, find_client w2 ptr = some cl ∧ cl.contact_id = some user
                ∧ cl.fon_contact = ⟨addr, port⟩)
        ∧ ((¬ ∃ addr port rest, tail = addr ++ (58 :: (port ++ rest))
              ∧ is_addr tail = (true, addr.length)
              ∧ is_port (port ++ rest) = (true, port.length)) →
          fon_to_box w ptr leg
            = Res.ret 0 (update_client w1 ptr (fun c => { c with contact_id := some user }))) := by
  refine ⟨fun h => ?_, ?_⟩
  · unfold fon_to_box fon_to_box_first
    simp only [hc, hid, hpk]
    rcases h with h | h | h
    · simp [h]
    · by_cases hm : packet.method.len = 0
      · simp [hm]
      · simp [hm, h]
    · by_cases hm : packet.method.len = 0
      · simp [hm]
      · by_cases ho : packet.contact.offs = 0
        · simp [hm, ho]
        · simp [hm, ho, h]
  · intro lt sip user tail c0 w1 hm ho hfit hv hn hlt hsip hu hat hst hkeep
    obtain ⟨s4, _, _⟩ := rd_sip sip hsip
    have hul : 0 < user.length := List.length_pos.mpr hu
    have hltl : lt.length ≤ 1 := by rcases hlt with h | h <;> rw [h] <;> simp
    unfold contact_value at hv
    have hci := contact_id_form packet packet.contact lt sip user tail (by omega) hfit hv hn hlt
      hsip hu hat
    have hn2 := hn
    simp only [List.length_append, List.length_cons] at hn2
    have hlen1 : (lt ++ sip).length = lt.length + 4 := by rw [List.length_append, s4]
    have hAl : (lt ++ sip ++ user ++ [64]).length = lt.length + 4 + user.length + 1 := by
      simp only [List.length_append, List.length_singleton, s4]
    have hoff : ((packet.contact.offs.toNat : Nat) : Int) = packet.contact.offs :=
      Int.toNat_of_nonneg (by omega)
    have hlenn : ((packet.contact.len.toNat : Nat) : Int) = packet.contact.len :=
      Int.toNat_of_nonneg (by omega)
    generalize packet.contact.offs.toNat = o at hv hoff
    generalize packet.contact.len.toNat = n at hv hlenn
    have e0 : u16 (packet.contact.offs + lt.length + 4) = o + (lt ++ sip).length := by
      have := u16_nat (o + (lt.length + 4)) (by omega)
      rw [hlen1, ← hoff, ← this]
      congr 1 <;> omega
    have e1 : u16 (((o + (lt ++ sip).length : Nat) : Int) + ((user.length : Int) + 1))
        = o + (lt ++ sip ++ user ++ [64]).length := by
      have := u16_nat (o + (lt.length + 4 + user.length + 1)) (by omega)
      rw [hlen1, hAl, ← this]
      congr 1
      omega
    have e2 : u16 (packet.contact.offs + packet.contact.len) = o + n := by
      have := u16_nat (o + n) (by omega)
      rw [← hoff, ← hlenn, ← this]
      congr 1
    have e3 : ((user.length : Int)).toNat = user.length := by simp
    have hlearn := fon_to_box_first_learn w ptr leg client packet _ _ c0 w1 hc hid hpk hm
      (by omega) hci hst
    rw [e0, e1, e2, e3] at hlearn
    have huser : (packet.buf.p.drop (o + (lt ++ sip).length)).take user.length = user :=
      slice_mid _ _ _ _ _ _ hv
    rw [huser] at hlearn
    have hv2 : (packet.buf.p.drop o).take n = (lt ++ sip ++ user ++ [64]) ++ tail := by
      rw [hv]; simp
    have hview := slice_end _ _ _ _ _ hv2
    have e4 : o + n - (o + (lt ++ sip ++ user ++ [64]).length)
        = n - (lt ++ sip ++ user ++ [64]).length := by omega
    obtain ⟨fwd, bwd⟩ := contact_addr_port packet
      ⟨0, o + (lt ++ sip ++ user ++ [64]).length, o + n⟩ tail rfl
      (by simp only; rw [e4]; exact hview)
      (by simp only; rw [hAl]; omega)
    simp only at fwd bwd
    refine ⟨fun addr port rest ht ha hp => ?_, fun hno => ?_⟩
    · obtain ⟨f1, f2, f3, f4⟩ := fwd addr port rest ht ha hp
      have hal := is_addr_true_length _ _ ha
      have hfirst : fon_to_box_first w ptr leg
          = Res.ret 1 (update_client
              (update_client w1 ptr (fun c => { c with contact_id := some user }))
              ptr (fun c => { c with fon_contact := ⟨addr, port⟩ })) := by
        rw [hlearn, f1]
        simp only [if_true, f2, f3, f4]
      have hbox : fon_to_box w ptr leg
          = fon_to_box_rewrite (update_client
              (update_client w1 ptr (fun c => { c with contact_id := some user }))
              ptr (fun c => { c with fon_contact := ⟨addr, port⟩ })) ptr leg := by
        unfold fon_to_box
        rw [hfirst]
        simp
      refine ⟨hfirst, hbox, fun c w2 h2 => ?_⟩
      rw [hbox] at h2
      have hfc : find_client (update_client
              (update_client w1 ptr (fun c => { c with contact_id := some user }))
              ptr (fun c => { c with fon_contact := ⟨addr, port⟩ })) ptr
          = some { client with contact_id := some user, fon_contact := ⟨addr, port⟩ } := by
        rw [find_client_update _ ptr (fun c => { c with fon_contact := ⟨addr, port⟩ })
            (fun c => rfl),
          find_client_update _ ptr (fun c => { c with contact_id := some user }) (fun c => rfl),
          hkeep]
        rfl
      obtain ⟨cl, k1, k2, k3⟩ := fon_to_box_rewrite_keeps _ _ _ _ _ _ hfc
        (by simp only; omega) h2
      exact ⟨cl, k1, k2, k3⟩
    · have hfirst : fon_to_box_first w ptr leg
          = Res.ret 0 (update_client w1 ptr (fun c => { c with contact_id := some user })) := by
        rw [hlearn]
        split
        · rename_i ai al hai
          split
          · rename_i hi
            subst hi
            split
            · rename_i pi pl hpi
              exact absurd (bwd al pi pl hai hpi) hno
            · rfl
          · rfl
        · rfl
      unfold fon_to_box
      rw [hfirst]
      simp

/-- C21 (witness): the first message of the TCP session of `tcp_ready_world`
is a REGISTER with the Contact `<sip:abc@1.2.3.4:1111>`; `fon_to_box` returns
success, the identity of the session is `abc` and its learned contact address
is 1.2.3.4 with the port 1111. -/
theorem fon_to_box_first_message_witness :
    find_client tcp_ready_world 1 = some tcp_ready_client
    ∧ tcp_ready_client.contact_id = none
    ∧ (get_ep tcp_ready_client FON_TCP).packet = register_abc_packet
    ∧ next_packet packet_zero register_abc_message = Res.ret 1 register_abc_packet
    ∧ contact_value register_abc_packet = bytes "<sip:abc@1.2.3.4:1111>"
    ∧ Res.map (fun w => w.client_list.map (fun c =>
          (c.contact_id, c.fon_contact.addr, c.fon_contact.port)))
        (fon_to_box tcp_ready_world 1 FON_TCP)
      = Res.ret 1 [(some (bytes "abc"), bytes "1.2.3.4", bytes "1111")]
    ∧ ∀ c w2, fon_to_box tcp_ready_world 1 FON_TCP = Res.ret c w2 →
        ∃ cl, find_client w2 1 = some cl ∧ cl.contact_id = some (bytes "abc")
          ∧ cl.fon_contact = ⟨bytes "1.2.3.4", bytes "1111"⟩ := by
  have hd : (find_client tcp_ready_world 1 = some tcp_ready_client
      ∧ tcp_ready_client.contact_id = none
      ∧ (get_ep tcp_ready_client FON_TCP).packet = register_abc_packet
      ∧ next_packet packet_zero register_abc_message = Res.ret 1 register_abc_packet
      ∧ contact_value register_abc_packet = bytes "<sip:abc@1.2.3.4:1111>"
      ∧ Res.map (fun w => w.client_list.map (fun c =>
            (c.contact_id, c.fon_contact.addr, c.fon_contact.port)))
          (fon_to_box tcp_ready_world 1 FON_TCP)
        = Res.ret 1 [(some (bytes "abc"), bytes "1.2.3.4", bytes "1111")])
      ∧ (register_abc_packet.method.len ≠ 0 ∧ 0 < register_abc_packet.contact.offs
      ∧ register_abc_packet.contact.offs + register_abc_packet.contact.len ≤ 32767
      ∧ contact_value register_abc_packet
          = [60] ++ bytes "sip:" ++ bytes "abc" ++ 64 :: bytes "1.2.3.4:1111>"
      ∧ ((([60] ++ bytes "sip:" ++ bytes "abc" ++ 64 :: bytes "1.2.3.4:1111>").length : Nat)
            : Int) = register_abc_packet.contact.len
      ∧ fon_to_box_stale tcp_ready_world register_abc_packet
          (register_abc_packet.contact.offs + ([60] : List Nat).length + 4)
          (bytes "abc").length = Res.ret 1 tcp_ready_world) := by
    decide!
  obtain ⟨⟨a1, a2, a3, a4, a5, a6⟩, b1, b2, b3, b4, b5, b6⟩ := hd
  exact ⟨a1, a2, a3, a4, a5, a6,
   (((fon_to_box_first_message tcp_ready_world 1 FON_TCP tcp_ready_client register_abc_packet
      a1 a2 a3).2 [60] (bytes "sip:") (bytes "abc")
      (bytes "1.2.3.4:1111>") 1 tcp_ready_world b1 b2 b3 b4 b5
      (Or.inr rfl) (by decide) (by decide) (by decide) b6
      a1).1 (bytes "1.2.3.4") (bytes "1111") (bytes ">") (by decide) (by decide)
      (by decide)).2.2⟩

/-! ## The relay address -/

theorem addr_literals_fuel (packet : packet_t) (n m : Nat) (d : data_t)
    (hn : d.l - d.i < n) (hm : n ≤ m) :
    addr_literals packet n d = addr_literals packet m d := by
  induction n generalizing m d with
  | zero => omega
  | succ n ih =>
    obtain ⟨m1, rfl⟩ : ∃ m1, m = m1 + 1 := ⟨m - 1, by omega⟩
    unfold addr_literals
    split
    · rfl
    · rename_i ai al hai
      obtain ⟨b1, b2, b3, _⟩ := addr_find_bounds _ _ _ _ hai
      rw [ih m1 { d with i := ai + al } (by simp only; omega) (by omega)]

theorem literal_text_length (packet : packet_t) (d : data_t) (ai al : Nat)
    (h : addr_find packet d = some (ai, al)) :
    ((packet.buf.p.drop (d.p + ai)).take al).length = al := by
  obtain ⟨_, _, _, b4⟩ := addr_find_bounds _ _ _ _ h
  have hb := (is_addr_true_bounds _ _ b4).2
  unfold view_from at hb
  simp only [List.length_take, List.length_drop] at hb ⊢
  omega

theorem same_text (packet : packet_t) (d : data_t) (ai al : Nat) (a : List Nat)
    (h : addr_find packet d = some (ai, al)) :
    (decide (al = a.length) && memcmp_eq packet.buf.p (d.p + ai) a)
      = ((packet.buf.p.drop (d.p + ai)).take al == a) := by
  have hl := literal_text_length packet d ai al h
  by_cases e : al = a.length
  · subst e
    simp [memcmp_eq]
  · have : ¬ (packet.buf.p.drop (d.p + ai)).take al = a := by
      intro hc
      rw [hc] at hl
      exact e hl.symm
    simp [e, this]

/-- The loop of `fon_to_box` over the address literals of the body finds the
first literal that is neither of the two peer addresses. -/
theorem rtp_find_loop_eq (packet : packet_t) (fp bp : addr_t) (n : Nat) (d : data_t)
    (hl : d.l < 65536) :
    rtp_find_loop packet fp bp n d
      = (addr_literals packet n d).find? (fun a => !(a == fp.addr) && !(a == bp.addr)) := by
  induction n generalizing d with
  | zero => rfl
  | succ n ih =>
    unfold rtp_find_loop addr_literals
    split
    · rfl
    · rename_i ai al hai
      obtain ⟨_, b2, _, _⟩ := addr_find_bounds _ _ _ _ hai
      have hu : u16 ((ai : Int) + al) = ai + al := by
        have := u16_nat (ai + al) (by omega); push_cast at this; exact this
      simp only [same_text packet d ai al _ hai, hu, List.find?_cons]
      by_cases hs : ((packet.buf.p.drop (d.p + ai)).take al == fp.addr
          || (packet.buf.p.drop (d.p + ai)).take al == bp.addr) = true
      · rw [if_pos hs, ih { d with i := ai + al } hl]
        have : (!((packet.buf.p.drop (d.p + ai)).take al == fp.addr)
            && !((packet.buf.p.drop (d.p + ai)).take al == bp.addr)) = false := by
          rw [← Bool.not_or, hs]; rfl
        rw [this]
      · rw [if_neg hs]
        have : (!((packet.buf.p.drop (d.p + ai)).take al == fp.addr)
            && !((packet.buf.p.drop (d.p + ai)).take al == bp.addr)) = true := by
          rw [← Bool.not_or]
          simp only [Bool.not_eq_true] at hs
          rw [hs]; rfl
        rw [this]

theorem fon_to_box_identified (w : world_t) (ptr : Nat) (leg : leg_t) (client : client_context_t)
    (hc : find_client w ptr = some client) (hid : client.contact_id ≠ none)
    (hca : client.fon_contact.addr = []) :
    fon_to_box w ptr leg
      = if (get_ep client leg).packet.data.len ≠ 0 then
          if (fon_to_box_rtp client leg).addr.length ≠ 0 then
            match modify_data (get_ep client leg).packet (some (fon_to_box_rtp client leg))
                    (get_ep client leg).peer with
            | Res.abort => Res.abort
            | Res.nofuel => Res.nofuel
            | Res.ret c2 packet2 =>
              Res.ret (if c2 = 0 then 0 else 1)
                (update_client
                  (update_client w ptr (fun cl => { cl with fon_rtp := fon_to_box_rtp client leg }))
                  ptr (fun cl => set_packet cl leg packet2))
          else
            Res.ret 1
              (update_client w ptr (fun cl => { cl with fon_rtp := fon_to_box_rtp client leg }))
        else Res.ret 1 w := by
  have hfirst : fon_to_box_first w ptr leg = Res.ret 1 w := by
    unfold fon_to_box_first
    rw [hc]
    cases hci : client.contact_id with
    | none => exact absurd hci hid
    | some x => simp only [hci]
  unfold fon_to_box
  rw [hfirst]
  simp only [if_neg (show ¬ (1 : Int) = 0 by decide)]
  unfold fon_to_box_rewrite
  rw [hc]
  simp only [hca, List.length_nil, ne_eq, not_true_eq_false, if_false]

/-- C22, for a session that has its contact identity and a message whose
body lies in the bytes in use of a well-formed buffer (header length and body
length not negative, header length + body length at most the used length, as
for every Ready message whose `Content-Length` value is below 32768): such a
session without learned contact address (a UDP session) and without relay
address gets as relay address the first address literal of the body of a Fon
message, in scan order, whose text is neither the peer address of the Fon leg
nor that of the Box leg, and keeps an empty relay address when there is none;
the fuel of the scan is enough.  A relay address that is set is kept, by the
messages from the Fon and by those from the Box.  For a message with a body,
`fon_to_box` returns when `modify_data` does, and every state with which it
returns has the relay address in the session. -/
theorem fon_to_box_relay (w : world_t) (ptr : Nat) (leg : leg_t) (client : client_context_t)
    (hc : find_client w ptr = some client) (hid : client.contact_id ≠ none)
    (hca : client.fon_contact.addr = [])
    (hwf : buf_wf (get_ep client leg).packet.buf)
    (hh0 : 0 ≤ (get_ep client leg).packet.header.len)
    (hd0 : 0 ≤ (get_ep client leg).packet.data.len)
    (hbody : (get_ep client leg).packet.header.len + (get_ep client leg).packet.data.len
      ≤ (get_ep client leg).packet.buf.used) :
    (client.fon_rtp.addr = [] →
      fon_to_box_rtp client leg
        = { client.fon_rtp with addr := (relay_claimed client leg).getD [] })
    ∧ (∀ m, u16 (get_ep client leg).packet.data.len + 1 ≤ m →
        addr_literals (get_ep client leg).packet m
            ⟨(get_ep client leg).packet.header.len.toNat, 0,
              u16 (get_ep client leg).packet.data.len⟩
          = addr_literals (get_ep client leg).packet
              (u16 (get_ep client leg).packet.data.len + 1)
              ⟨(get_ep client leg).packet.header.len.toNat, 0,
                u16 (get_ep client leg).packet.data.len⟩)
    ∧ (client.fon_rtp.addr ≠ [] → fon_to_box_rtp client leg = client.fon_rtp)
    ∧ ((get_ep client leg).packet.data.len = 0 → fon_to_box w ptr leg = Res.ret 1 w)
    ∧ ((get_ep client leg).packet.data.len ≠ 0 →
        (modify_data (get_ep client leg).packet (some (fon_to_box_rtp client leg))
            (get_ep client leg).peer ≠ Res.abort → fon_to_box w ptr leg ≠ Res.abort)
        ∧ (modify_data (get_ep client leg).packet (some (fon_to_box_rtp client leg))
            (get_ep client leg).peer ≠ Res.nofuel → fon_to_box w ptr leg ≠ Res.nofuel)
        ∧ ∀ c w1, fon_to_box w ptr leg = Res.ret c w1 →
            ∃ cl, find_client w1 ptr = some cl ∧ cl.fon_rtp = fon_to_box_rtp client leg
              ∧ cl.contact_id = client.contact_id)
    ∧ (∀ c w1, box_to_fon w ptr leg = Res.ret c w1 →
        ∃ cl, find_client w1 ptr = some cl ∧ cl.fon_rtp = client.fon_rtp) := by
  have hbox := fon_to_box_identified w ptr leg client hc hid hca
  refine ⟨fun h0 => ?_, fun m hm => ?_, fun h1 => ?_, fun hd => ?_, fun hd => ?_, ?_⟩
  · unfold fon_to_box_rtp relay_claimed
    simp only [h0, List.length_nil, if_true]
    rw [rtp_find_loop_eq _ _ _ _ _ (by unfold u16; simp only; omega)]
    split
    · rename_i a ha
      rw [ha]; rfl
    · rename_i ha
      rw [ha]
      simp only [Option.getD_none]
      cases hr : client.fon_rtp with
      | mk a p =>
        rw [hr] at h0
        simp only at h0
        rw [h0]
  · exact (addr_literals_fuel _ _ _ _ (by simp only; omega) hm).symm
  · unfold fon_to_box_rtp
    have : client.fon_rtp.addr.length ≠ 0 := fun e => h1 (List.length_eq_zero.mp e)
    simp only [if_neg this]
  · rw [hbox, hd]
    simp
  · rw [hbox, if_pos hd]
    have hw1 : ∀ packet, ∃ cl,
        find_client (update_client
          (update_client w ptr (fun cl => { cl with fon_rtp := fon_to_box_rtp client leg }))
          ptr (fun cl => set_packet cl leg packet)) ptr = some cl
        ∧ cl.fon_rtp = fon_to_box_rtp client leg ∧ cl.contact_id = client.contact_id := by
      intro packet
      rw [find_client_update _ ptr (fun cl => set_packet cl leg packet)
          (fun c => (session_set_packet c leg packet).1),
        find_client_update _ ptr (fun cl => { cl with fon_rtp := fon_to_box_rtp client leg })
          (fun c => rfl), hc]
      obtain ⟨_, s2, _, s4⟩ := session_set_packet
        { client with fon_rtp := fon_to_box_rtp client leg } leg packet
      exact ⟨_, rfl, s4, s2⟩
    have hw0 : ∃ cl,
        find_client
          (update_client w ptr (fun cl => { cl with fon_rtp := fon_to_box_rtp client leg }))
          ptr = some cl
        ∧ cl.fon_rtp = fon_to_box_rtp client leg ∧ cl.contact_id = client.contact_id := by
      rw [find_client_update _ ptr (fun cl => { cl with fon_rtp := fon_to_box_rtp client leg })
          (fun c => rfl), hc]
      exact ⟨_, rfl, rfl, rfl⟩
    generalize modify_data (get_ep client leg).packet (some (fon_to_box_rtp client leg))
      (get_ep client leg).peer = r
    refine ⟨fun hr => ?_, fun hr => ?_, fun c w1 h => ?_⟩
    · split
      · cases r with
        | abort => exact absurd rfl hr
        | nofuel => simp
        | ret c2 p2 => simp
      · simp
    · split
      · cases r with
        | abort => simp
        | nofuel => exact absurd rfl hr
        | ret c2 p2 => simp
      · simp
    · split at h
      · cases r with
        | abort => simp at h
        | nofuel => simp at h
        | ret c2 p2 =>
          simp only [Res.ret.injEq] at h
          rw [← h.2]
          exact hw1 p2
      · simp only [Res.ret.injEq] at h
        rw [← h.2]
        exact hw0
  · intro c w1 h
    have hp : ∀ packet, ∃ cl,
        find_client (update_client w ptr (fun cl => set_packet cl leg packet)) ptr = some cl
        ∧ cl.fon_rtp = client.fon_rtp := by
      intro packet
      rw [find_client_update _ _ _ (fun c => (session_set_packet c leg packet).1), hc]
      exact ⟨_, rfl, (session_set_packet client leg packet).2.2.2⟩
    unfold box_to_fon at h
    rw [hc] at h
    simp only at h
    split at h
    · simp at h
    · simp at h
    · split at h
      · simp only [Res.ret.injEq] at h
        rw [← h.2]; exact hp _
      · split at h
        · split at h
          · simp at h
          · simp at h
          · split at h
            · simp only [Res.ret.injEq] at h
              rw [← h.2]; exact hp _
            · split at h
              · simp at h
              · simp at h
              · simp only [Res.ret.injEq] at h
                rw [← h.2]; exact hp _
        · split at h
          · split at h
            · simp at h
            · simp at h
            · simp only [Res.ret.injEq] at h
              rw [← h.2]; exact hp _
          · simp only [Res.ret.injEq] at h
            rw [← h.2]; exact hp _

/-- C22 (witness): the UDP session of `udp_invite_world` has the identity
`abc`, no learned contact address and no relay address; its Fon peer is
10.8.0.6, its Box peer 192.168.178.1.  The body of the INVITE holds the line
`c=IN IP4 10.0.0.5`: the relay address becomes 10.0.0.5, and `fon_to_box`
returns success. -/
theorem fon_to_box_relay_witness :
    find_client udp_invite_world 1 = some udp_invite_client
    ∧ udp_invite_client.contact_id = some (bytes "abc")
    ∧ udp_invite_client.fon_contact.addr = [] ∧ udp_invite_client.fon_rtp.addr = []
    ∧ (get_ep udp_invite_client FON_UDP).packet = invite_abc_packet
    ∧ next_packet packet_zero invite_abc_message = Res.ret 1 invite_abc_packet
    ∧ body_bytes invite_abc_packet = bytes "v=0\r\nc=IN IP4 10.0.0.5\r\n"
    ∧ relay_claimed udp_invite_client FON_UDP = some (bytes "10.0.0.5")
    ∧ fon_to_box_rtp udp_invite_client FON_UDP
        = { udp_invite_client.fon_rtp with
            addr := (relay_claimed udp_invite_client FON_UDP).getD [] }
    ∧ Res.map (fun w => w.client_list.map (fun c => c.fon_rtp.addr))
        (fon_to_box udp_invite_world 1 FON_UDP) = Res.ret 1 [bytes "10.0.0.5"]
    ∧ ∀ c w1, fon_to_box udp_invite_world 1 FON_UDP = Res.ret c w1 →
        ∃ cl, find_client w1 1 = some cl
          ∧ cl.fon_rtp = fon_to_box_rtp udp_invite_client FON_UDP
          ∧ cl.contact_id = udp_invite_client.contact_id := by
  have hd : (find_client udp_invite_world 1 = some udp_invite_client
      ∧ udp_invite_client.contact_id = some (bytes "abc")
      ∧ udp_invite_client.fon_contact.addr = [] ∧ udp_invite_client.fon_rtp.addr = []
      ∧ (get_ep udp_invite_client FON_UDP).packet = invite_abc_packet
      ∧ next_packet packet_zero invite_abc_message = Res.ret 1 invite_abc_packet
      ∧ body_bytes invite_abc_packet = bytes "v=0\r\nc=IN IP4 10.0.0.5\r\n"
      ∧ relay_claimed udp_invite_client FON_UDP = some (bytes "10.0.0.5")
      ∧ Res.map (fun w => w.client_list.map (fun c => c.fon_rtp.addr))
          (fon_to_box udp_invite_world 1 FON_UDP) = Res.ret 1 [bytes "10.0.0.5"])
      ∧ (udp_invite_client.contact_id ≠ none
      ∧ buf_wf (get_ep udp_invite_client FON_UDP).packet.buf
      ∧ 0 ≤ (get_ep udp_invite_client FON_UDP).packet.header.len
      ∧ 0 ≤ (get_ep udp_invite_client FON_UDP).packet.data.len
      ∧ (get_ep udp_invite_client FON_UDP).packet.header.len
          + (get_ep udp_invite_client FON_UDP).packet.data.len
          ≤ (get_ep udp_invite_client FON_UDP).packet.buf.used
      ∧ (get_ep udp_invite_client FON_UDP).packet.data.len ≠ 0) := by
    decide!
  obtain ⟨⟨a1, a2, a3, a4, a5, a6, a7, a8, a9⟩, b1, b2, b3, b4, b5, b6⟩ := hd
  have h := fon_to_box_relay udp_invite_world 1 FON_UDP udp_invite_client a1 b1 a3 b2 b3 b4 b5
  exact ⟨a1, a2, a3, a4, a5, a6, a7, a8, h.1 a4, a9, (h.2.2.2.2.1 b6).2.2⟩

/-- C22 (counterexample): the fresh TCP session of `tcp_invite_world` has no
learned contact address and no relay address, and the INVITE from the Fon has
a body with the line `c=IN IP4 10.0.0.5`, an address that is neither the peer
address of the Fon leg nor that of the Box leg.  `fon_to_box` returns success
and has learned the contact address 1.2.3.4 from the Contact header, and the
relay address is still empty: the block for the first message of a TCP session
runs first, and a session with a contact address never scans the body for a
relay address. -/
theorem fresh_tcp_session_learns_no_relay :
    find_client tcp_invite_world 1 = some tcp_invite_client
    ∧ tcp_invite_client.fon_contact.addr = [] ∧ tcp_invite_client.fon_rtp.addr = []
    ∧ (get_ep tcp_invite_client FON_TCP).packet = invite_abc_packet
    ∧ body_bytes invite_abc_packet = bytes "v=0\r\nc=IN IP4 10.0.0.5\r\n"
    ∧ (get_ep tcp_invite_client FON_TCP).peer.addr = bytes "10.8.0.6"
    ∧ (get_ep tcp_invite_client BOX_TCP).peer.addr = bytes "192.168.178.1"
    ∧ relay_claimed tcp_invite_client FON_TCP = some (bytes "10.0.0.5")
    ∧ Res.map (fun w => w.client_list.map (fun c => (c.fon_contact.addr, c.fon_rtp.addr)))
        (fon_to_box tcp_invite_world 1 FON_TCP) = Res.ret 1 [(bytes "1.2.3.4", [])] := by
  decide!

/-! ## Two REGISTER datagrams of one identity -/

/-- C23: the first of two REGISTER datagrams of the identity `abc` arrives
after startup, when there is no session, from 10.8.0.6:40001; its body is
`c=IN IP4 1.1.1.1`, and every socket operation succeeds.  `client_udp_setup`
does not return, so no registry with one session follows: the session is
created, `fon_to_box` takes 1.1.1.1 for the relay address and replaces it by
the longer peer address 10.8.0.6, and the test `replace_i + with_l <=
data.len` of `data_modify` fails for the address at the end of the body. -/
theorem register_with_body_aborts :
    next_packet packet_zero register_sdp_message = Res.ret 1 register_sdp_packet
    ∧ register_sdp_packet.status = PACKET_READY
    ∧ register_sdp_packet.method.len = 8
    ∧ strncasecmp_eq register_sdp_packet.buf.p 0 (bytes "REGISTER") = true
    ∧ contact_id register_sdp_packet register_sdp_packet.from_ = some (55, 3)
    ∧ (register_sdp_packet.buf.p.drop 55).take 3 = bytes "abc"
    ∧ body_bytes register_sdp_packet = bytes "c=IN IP4 1.1.1.1"
    ∧ client_udp_setup initial_world
        ⟨some (register_sdp_message, ⟨bytes "10.8.0.6", bytes "40001"⟩,
            ⟨bytes "10.8.0.1", bytes "5060"⟩),
          some 7, true, some 8, some ⟨bytes "192.168.178.2", bytes "50001"⟩, true, true⟩
      = Res.abort := by
  decide!

/-! ## The teardown of a session ends -/

theorem open_handles_set_sfd (c : client_context_t) (leg : leg_t) :
    open_handles (set_sfd c leg (-1)) ≤ open_handles c
    ∧ ((get_ep c leg).sfd ≠ -1 → open_handles (set_sfd c leg (-1)) < open_handles c) := by
  cases leg <;>
    (simp only [open_handles, set_sfd, set_ep, get_ep, ne_eq, not_true_eq_false, if_false]
     refine ⟨?_, fun h => ?_⟩
     · split <;> omega
     · rw [if_pos h]; omega)

theorem open_legs_update_le (l : List client_context_t) (ptr : Nat)
    (f : client_context_t → client_context_t)
    (hle : ∀ c, open_handles (f c) ≤ open_handles c) :
    ((l.map (fun c => if c.ptr = ptr then f c else c)).map open_handles).sum
      ≤ (l.map open_handles).sum := by
  induction l with
  | nil => simp
  | cons a l ih =>
    simp only [List.map_cons, List.sum_cons]
    have : open_handles (if a.ptr = ptr then f a else a) ≤ open_handles a := by
      split
      · exact hle a
      · exact le_refl _
    omega

theorem open_legs_update_lt_list (l : List client_context_t) (ptr : Nat)
    (f : client_context_t → client_context_t) (c : client_context_t)
    (hfind : l.find? (fun c => decide (c.ptr = ptr)) = some c)
    (hle : ∀ c, open_handles (f c) ≤ open_handles c)
    (hlt : open_handles (f c) < open_handles c) :
    ((l.map (fun c => if c.ptr = ptr then f c else c)).map open_handles).sum
      < (l.map open_handles).sum := by
  induction l with
  | nil => simp at hfind
  | cons a l ih =>
    simp only [List.map_cons, List.sum_cons]
    rw [List.find?_cons] at hfind
    by_cases ha : a.ptr = ptr
    · simp only [ha, decide_True, Option.some.injEq] at hfind
      subst hfind
      rw [if_pos ha]
      have := open_legs_update_le l ptr f hle
      omega
    · simp only [ha, decide_False] at hfind
      rw [if_neg ha]
      have := ih hfind
      omega

theorem open_legs_update_lt (w : world_t) (ptr : Nat) (f : client_context_t → client_context_t)
    (c : client_context_t) (hfind : find_client w ptr = some c)
    (hle : ∀ c, open_handles (f c) ≤ open_handles c)
    (hlt : open_handles (f c) < open_handles c) :
    open_legs (update_client w ptr f) < open_legs w :=
  open_legs_update_lt_list w.client_list ptr f c hfind hle hlt

theorem sfd_unregister_total (cb : world_t → Nat → Res world_t) (w : world_t) (ptr : Nat)
    (leg : leg_t) (c : client_context_t) (hfind : find_client w ptr = some c)
    (hopen : (get_ep c leg).sfd ≠ -1)
    (hcb : ∀ w1 x, open_legs w1 < open_legs w → cb w1 x ≠ Res.nofuel) :
    sfd_unregister cb w ptr leg ≠ Res.nofuel := by
  unfold sfd_unregister
  rw [hfind]
  simp only
  split
  · rename_i pi hpi
    split
    · apply hcb
      have h1 := open_legs_update_lt
        { w with poll_list := w.poll_list.eraseP (fun pi => decide (pi.sfd = (get_ep c leg).sfd)) }
        ptr (fun c => set_sfd c leg (-1)) c hfind
        (fun c => (open_handles_set_sfd c leg).1) ((open_handles_set_sfd c leg).2 hopen)
      exact h1
    · simp
  · simp

theorem tcp_disconnect_total (cb : world_t → Nat → Res world_t) (w : world_t) (ptr : Nat)
    (leg : leg_t) (hcb : ∀ w1 x, open_legs w1 < open_legs w → cb w1 x ≠ Res.nofuel) :
    tcp_disconnect cb w ptr leg ≠ Res.nofuel := by
  unfold tcp_disconnect
  split
  · simp
  · rename_i c hc
    split
    · rename_i hopen
      exact sfd_unregister_total cb { w with closed := (get_ep c leg).sfd :: w.closed } ptr leg c
        hc hopen hcb
    · simp

theorem udp_disconnect_total (cb : world_t → Nat → Res world_t) (w : world_t) (ptr : Nat)
    (leg : leg_t) (hcb : ∀ w1 x, open_legs w1 < open_legs w → cb w1 x ≠ Res.nofuel) :
    udp_disconnect cb w ptr leg ≠ Res.nofuel := by
  unfold udp_disconnect
  split
  · simp
  · rename_i c hc
    split
    · rename_i hopen
      exact sfd_unregister_total cb { w with closed := (get_ep c leg).sfd :: w.closed } ptr leg c
        hc hopen hcb
    · simp

theorem open_legs_connected (w : world_t) (ptr : Nat) :
    open_legs (update_client w ptr (fun c => { c with connected := false })) = open_legs w := by
  unfold open_legs update_client
  simp only
  congr 1
  rw [List.map_map]
  apply List.map_congr_left
  intro a _
  simp only [Function.comp]
  split <;> rfl

/-- With more fuel than there are open legs, `client_cleanup` is not cut off. -/
theorem client_cleanup_total (n : Nat) (w : world_t) (ptr : Nat) (h : open_legs w < n) :
    client_cleanup n w ptr ≠ Res.nofuel := by
  induction n generalizing w ptr with
  | zero => omega
  | succ n ih =>
    have hcb : ∀ w1 x,
        open_legs w1 < open_legs (update_client w ptr (fun c => { c with connected := false })) →
        client_cleanup n w1 x ≠ Res.nofuel := by
      intro w1 x h1
      rw [open_legs_connected] at h1
      exact ih w1 x (by omega)
    unfold client_cleanup
    split
    · simp
    · split
      · simp
      · simp only
        split
        · exact udp_disconnect_total _ _ _ _ hcb
        · split
          · exact tcp_disconnect_total _ _ _ _ hcb
          · split
            · exact udp_disconnect_total _ _ _ _ hcb
            · simp

/-- The function `client_disconnect` is not cut off: the number of open legs
is enough fuel for `client_cleanup`. -/
theorem client_disconnect_total (w : world_t) (ptr : Nat) :
    client_disconnect w ptr ≠ Res.nofuel := by
  unfold client_disconnect
  split
  · simp
  · exact tcp_disconnect_total _ _ _ _ (fun w1 x h => client_cleanup_total _ w1 x h)

/-! ## The scan of `modify_addr_port` over a header window -/

theorem legs_within_refl (c : client_context_t) : legs_within c c := ⟨rfl, fun _ h => h⟩

theorem legs_within_trans {c2 c1 c : client_context_t} (h2 : legs_within c2 c1)
    (h1 : legs_within c1 c) : legs_within c2 c :=
  ⟨h2.1.trans h1.1, fun leg h => h1.2 leg (h2.2 leg h)⟩

theorem legs_from_refl (w : world_t) : legs_from w w :=
  ⟨rfl, List.Sublist.refl _, fun c h => ⟨c, h, legs_within_refl c⟩⟩

theorem legs_from_trans {w w1 w2 : world_t} (h1 : legs_from w w1) (h2 : legs_from w1 w2) :
    legs_from w w2 := by
  refine ⟨h2.1.trans h1.1, h2.2.1.trans h1.2.1, ?_⟩
  intro c2 hc2
  obtain ⟨c1, hc1, e1⟩ := h2.2.2 c2 hc2
  obtain ⟨c, hc, e⟩ := h1.2.2 c1 hc1
  exact ⟨c, hc, legs_within_trans e1 e⟩

theorem update_client_ptrs (w : world_t) (ptr : Nat) (f : client_context_t → client_context_t)
    (hf : ∀ c, (f c).ptr = c.ptr) :
    (update_client w ptr f).client_list.map (fun c => c.ptr)
      = w.client_list.map (fun c => c.ptr) := by
  simp only [update_client, List.map_map]
  apply List.map_congr_left
  intro c _
  simp only [Function.comp]
  split
  · exact hf c
  · rfl

theorem legs_from_update (w : world_t) (ptr : Nat) (f : client_context_t → client_context_t)
    (hf : ∀ c, legs_within (f c) c) : legs_from w (update_client w ptr f) := by
  refine ⟨rfl, ?_, ?_⟩
  · rw [update_client_ptrs w ptr f (fun c => (hf c).1)]
  · intro c1 hc1
    simp only [update_client, List.mem_map] at hc1
    obtain ⟨c, hc, e⟩ := hc1
    refine ⟨c, hc, ?_⟩
    rw [← e]
    split
    · exact hf c
    · exact legs_within_refl c

theorem legs_from_lists {w w1 : world_t} (h : w1.client_list = w.client_list)
    (hh : w1.heap = w.heap) : legs_from w w1 := by
  refine ⟨hh, by rw [h], ?_⟩
  intro c1 hc1
  rw [h] at hc1
  exact ⟨c1, hc1, legs_within_refl c1⟩

theorem legs_from_eraseP (w : world_t) (f : client_context_t → Bool) :
    legs_from w { w with client_list := w.client_list.eraseP f } :=
  ⟨rfl, List.Sublist.map _ (List.eraseP_sublist _), fun c1 hc1 =>
    ⟨c1, List.mem_of_mem_eraseP hc1, legs_within_refl c1⟩⟩

theorem legs_within_set_sfd (c : client_context_t) (leg : leg_t) :
    legs_within (set_sfd c leg (-1)) c := by
  refine ⟨by cases leg <;> rfl, ?_⟩
  intro l h
  cases leg <;> cases l <;> first | exact h | exact absurd rfl h

theorem legs_within_connected (c : client_context_t) (b : Bool) :
    legs_within { c with connected := b } c := ⟨rfl, fun l h => by cases l <;> exact h⟩

theorem legs_within_set_packet (c : client_context_t) (leg : leg_t) (packet : packet_t) :
    legs_within (set_packet c leg packet) c := by
  refine ⟨by cases leg <;> rfl, ?_⟩
  intro l h
  cases leg <;> cases l <;> exact h

theorem sfd_unregister_legs (cb : world_t → Nat → Res world_t)
    (hcb : ∀ w x k w1, cb w x = Res.ret k w1 → legs_from w w1)
    (w : world_t) (ptr : Nat) (leg : leg_t) (k : Int) (w1 : world_t)
    (h : sfd_unregister cb w ptr leg = Res.ret k w1) : legs_from w w1 := by
  unfold sfd_unregister at h
  split at h
  · simp at h
  · rename_i c hc
    split at h
    · rename_i pi hpi
      simp only at h
      split at h
      · refine legs_from_trans ?_ (hcb _ _ _ _ h)
        exact legs_from_trans (legs_from_lists rfl rfl)
          (legs_from_update _ _ _ (fun c => legs_within_set_sfd c leg))
      · simp only [Res.ret.injEq] at h
        rw [← h.2]
        exact legs_from_trans (legs_from_lists rfl rfl)
          (legs_from_update _ _ _ (fun c => legs_within_set_sfd c leg))
    · simp only [Res.ret.injEq] at h
      rw [← h.2]
      exact legs_from_update _ _ _ (fun c => legs_within_set_sfd c leg)

theorem tcp_disconnect_legs (cb : world_t → Nat → Res world_t)
    (hcb : ∀ w x k w1, cb w x = Res.ret k w1 → legs_from w w1)
    (w : world_t) (ptr : Nat) (leg : leg_t) (k : Int) (w1 : world_t)
    (h : tcp_disconnect cb w ptr leg = Res.ret k w1) : legs_from w w1 := by
  unfold tcp_disconnect at h
  split at h
  · simp at h
  · split at h
    · have h2 := sfd_unregister_legs cb hcb _ _ _ _ _ h
      exact legs_from_trans (legs_from_lists rfl rfl) h2
    · simp only [Res.ret.injEq] at h
      rw [← h.2]
      exact legs_from_refl w

theorem udp_disconnect_legs (cb : world_t → Nat → Res world_t)
    (hcb : ∀ w x k w1, cb w x = Res.ret k w1 → legs_from w w1)
    (w : world_t) (ptr : Nat) (leg : leg_t) (k : Int) (w1 : world_t)
    (h : udp_disconnect cb w ptr leg = Res.ret k w1) : legs_from w w1 := by
  unfold udp_disconnect at h
  split at h
  · simp at h
  · split at h
    · have h2 := sfd_unregister_legs cb hcb _ _ _ _ _ h
      exact legs_from_trans (legs_from_lists rfl rfl) h2
    · simp only [Res.ret.injEq] at h
      rw [← h.2]
      exact legs_from_refl w

theorem client_cleanup_legs (n : Nat) (w : world_t) (ptr : Nat) (k : Int) (w1 : world_t)
    (h : client_cleanup n w ptr = Res.ret k w1) : legs_from w w1 := by
  induction n generalizing w ptr k w1 with
  | zero => simp [client_cleanup] at h
  | succ n ih =>
    unfold client_cleanup at h
    split at h
    · simp at h
    · rename_i c hc
      split at h
      · simp at h
      · simp only at h
        have hu : legs_from w (update_client w ptr (fun c => { c with connected := false })) :=
          legs_from_update _ _ _ (fun c => legs_within_connected c false)
        split at h
        · exact legs_from_trans hu (udp_disconnect_legs _ ih _ _ _ _ _ h)
        · split at h
          · exact legs_from_trans hu (tcp_disconnect_legs _ ih _ _ _ _ _ h)
          · split at h
            · exact legs_from_trans hu (udp_disconnect_legs _ ih _ _ _ _ _ h)
            · simp only [Res.ret.injEq] at h
              rw [← h.2]
              exact legs_from_trans hu (legs_from_eraseP _ _)

theorem client_disconnect_legs (w : world_t) (ptr : Nat) (k : Int) (w1 : world_t)
    (h : client_disconnect w ptr = Res.ret k w1) : legs_from w w1 := by
  unfold client_disconnect at h
  split at h
  · simp at h
  · exact tcp_disconnect_legs _ (client_cleanup_legs _) _ _ _ _ _ h

theorem fon_to_box_stale_legs (w : world_t) (packet : packet_t) (i l : Int) (k : Int)
    (w1 : world_t) (h : fon_to_box_stale w packet i l = Res.ret k w1) : legs_from w w1 := by
  unfold fon_to_box_stale at h
  split at h
  · split at h
    · exact client_disconnect_legs _ _ _ _ h
    · simp only [Res.ret.injEq] at h
      rw [← h.2]
      exact legs_from_refl w
  · simp only [Res.ret.injEq] at h
    rw [← h.2]
    exact legs_from_refl w

theorem legs_within_data (c : client_context_t) (cid : Option (List Nat)) (a b : addr_t) :
    legs_within { c with contact_id := cid } c ∧ legs_within { c with fon_contact := a } c
    ∧ legs_within { c with fon_rtp := b } c :=
  ⟨⟨rfl, fun l h => by cases l <;> exact h⟩, ⟨rfl, fun l h => by cases l <;> exact h⟩,
   ⟨rfl, fun l h => by cases l <;> exact h⟩⟩

theorem fon_to_box_first_legs (w : world_t) (ptr : Nat) (leg : leg_t) (k : Int) (w1 : world_t)
    (h : fon_to_box_first w ptr leg = Res.ret k w1) : legs_from w w1 := by
  unfold fon_to_box_first at h
  split at h
  · simp at h
  · rename_i client hc
    split at h
    · simp only [Res.ret.injEq] at h
      rw [← h.2]; exact legs_from_refl w
    · simp only at h
      split at h
      · simp only [Res.ret.injEq] at h
        rw [← h.2]; exact legs_from_refl w
      · split at h
        · simp only [Res.ret.injEq] at h
          rw [← h.2]; exact legs_from_refl w
        · split at h
          · simp only [Res.ret.injEq] at h
            rw [← h.2]; exact legs_from_refl w
          · rename_i ci cl hci
            split at h
            · simp at h
            · simp at h
            · rename_i k0 w0 hst
              have h0 := fon_to_box_stale_legs _ _ _ _ _ _ hst
              have h2 : ∀ t, legs_from w (update_client w0 ptr
                  (fun c => { c with contact_id := some t })) :=
                fun t => legs_from_trans h0
                  (legs_from_update _ _ _ (fun c => (legs_within_data c _ ⟨[], []⟩ ⟨[], []⟩).1))
              split at h
              · split at h
                · split at h
                  · simp only [Res.ret.injEq] at h
                    rw [← h.2]
                    exact legs_from_trans (h2 _)
                      (legs_from_update _ _ _ (fun c => (legs_within_data c none _ ⟨[], []⟩).2.1))
                  · simp only [Res.ret.injEq] at h
                    rw [← h.2]; exact h2 _
                · simp only [Res.ret.injEq] at h
                  rw [← h.2]; exact h2 _
              · simp only [Res.ret.injEq] at h
                rw [← h.2]; exact h2 _

theorem fon_to_box_rewrite_legs (w : world_t) (ptr : Nat) (leg : leg_t) (k : Int) (w1 : world_t)
    (h : fon_to_box_rewrite w ptr leg = Res.ret k w1) : legs_from w w1 := by
  have hp : ∀ packet, legs_from w (update_client w ptr (fun cl => set_packet cl leg packet)) :=
    fun packet => legs_from_update _ _ _ (fun c => legs_within_set_packet c leg packet)
  unfold fon_to_box_rewrite at h
  split at h
  · simp at h
  · rename_i client hc
    simp only at h
    split at h
    · split at h
      · simp at h
      · simp at h
      · split at h
        · simp only [Res.ret.injEq] at h
          rw [← h.2]; exact hp _
        · split at h
          · simp at h
          · simp at h
          · simp only [Res.ret.injEq] at h
            rw [← h.2]; exact hp _
    · split at h
      · have hr : ∀ rtp : addr_t,
            legs_from w (update_client w ptr (fun cl => { cl with fon_rtp := rtp })) :=
          fun rtp => legs_from_update _ _ _
            (fun c => (legs_within_data c none ⟨[], []⟩ rtp).2.2)
        generalize fon_to_box_rtp client leg = rtp at h
        split at h
        · split at h
          · simp at h
          · simp at h
          · simp only [Res.ret.injEq] at h
            rw [← h.2]
            exact legs_from_trans (hr _)
              (legs_from_update _ _ _ (fun c => legs_within_set_packet c leg _))
        · simp only [Res.ret.injEq] at h
          rw [← h.2]; exact hr _
      · simp only [Res.ret.injEq] at h
        rw [← h.2]; exact legs_from_refl w

theorem fon_to_box_legs (w : world_t) (ptr : Nat) (leg : leg_t) (k : Int) (w1 : world_t)
    (h : fon_to_box w ptr leg = Res.ret k w1) : legs_from w w1 := by
  unfold fon_to_box at h
  split at h
  · simp at h
  · simp at h
  · rename_i c0 w0 h0
    have hw0 := fon_to_box_first_legs _ _ _ _ _ h0
    split at h
    · simp only [Res.ret.injEq] at h
      rw [← h.2]; exact hw0
    · exact legs_from_trans hw0 (fon_to_box_rewrite_legs _ _ _ _ _ h)

theorem box_to_fon_legs (w : world_t) (ptr : Nat) (leg : leg_t) (k : Int) (w1 : world_t)
    (h : box_to_fon w ptr leg = Res.ret k w1) : legs_from w w1 := by
  have hp : ∀ packet, legs_from w (update_client w ptr (fun cl => set_packet cl leg packet)) :=
    fun packet => legs_from_update _ _ _ (fun c => legs_within_set_packet c leg packet)
  unfold box_to_fon at h
  split at h
  · simp at h
  · rename_i client hc
    simp only at h
    split at h
    · simp at h
    · simp at h
    · split at h
      · simp only [Res.ret.injEq] at h
        rw [← h.2]; exact hp _
      · split at h
        · split at h
          · simp at h
          · simp at h
          · split at h
            · simp only [Res.ret.injEq] at h
              rw [← h.2]; exact hp _
            · split at h
              · simp at h
              · simp at h
              · simp only [Res.ret.injEq] at h
                rw [← h.2]; exact hp _
        · split at h
          · split at h
            · simp at h
            · simp at h
            · simp only [Res.ret.injEq] at h
              rw [← h.2]; exact hp _
          · simp only [Res.ret.injEq] at h
            rw [← h.2]; exact hp _

theorem client_packet_legs (w : world_t) (ptr : Nat) (leg : leg_t) (tr : Bool) (k : Int)
    (w1 : world_t) (h : client_packet w ptr leg tr = Res.ret k w1) : legs_from w w1 := by
  unfold client_packet at h
  have hfirst : ∀ c0 w0, (match leg with
         | FON_TCP => fon_to_box w ptr leg
         | FON_UDP => fon_to_box w ptr leg
         | BOX_TCP => box_to_fon w ptr leg
         | BOX_UDP => box_to_fon w ptr leg) = Res.ret c0 w0 → legs_from w w0 := by
    intro c0 w0 h0
    cases leg
    · exact fon_to_box_legs _ _ _ _ _ h0
    · exact fon_to_box_legs _ _ _ _ _ h0
    · exact box_to_fon_legs _ _ _ _ _ h0
    · exact box_to_fon_legs _ _ _ _ _ h0
  split at h
  · simp at h
  · simp at h
  · rename_i c0 w0 hm0
    have h0 := hfirst c0 w0 hm0
    split at h
    · exact legs_from_trans h0 (client_disconnect_legs _ _ _ _ h)
    · split at h
      · simp at h
      · rename_i client hc
        split at h
        · simp at h
        · simp at h
        · rename_i c2 packet2 hm
          simp only at h
          have h2 : legs_from w (update_client w0 ptr (fun cl => set_packet cl leg packet2)) :=
            legs_from_trans h0
              (legs_from_update _ _ _ (fun c => legs_within_set_packet c leg packet2))
          split at h
          · exact legs_from_trans h2 (client_disconnect_legs _ _ _ _ h)
          · split at h
            · simp only [Res.ret.injEq] at h
              rw [← h.2]
              exact legs_from_trans h2 (legs_from_lists rfl rfl)
            · have h3 := client_disconnect_legs _ _ _ _ h
              exact legs_from_trans h2 (legs_from_trans (legs_from_lists rfl rfl) h3)

theorem on_client_event_legs (w : world_t) (sfd : Int) (ptr : Nat) (data : Option (List Nat))
    (tr : Bool) (k : Int) (w1 : world_t)
    (h : on_client_event w sfd ptr data tr = Res.ret k w1) : legs_from w w1 := by
  unfold on_client_event at h
  split at h
  · simp at h
  · rename_i client hc
    split at h
    · simp only [Res.ret.injEq] at h
      rw [← h.2]; exact legs_from_refl w
    · dsimp only at h
      generalize (if sfd = client.fon_tcp.sfd then some FON_TCP
        else if sfd = client.fon_udp.sfd then some FON_UDP
        else if sfd = client.box_tcp.sfd then some BOX_TCP
        else if sfd = client.box_udp.sfd then some BOX_UDP
        else none) = fl at h
      cases fl with
      | none => simp at h
      | some leg =>
        simp only at h
        split at h
        · simp at h
        · split at h
          · exact client_disconnect_legs _ _ _ _ h
          · rename_i d
            split at h
            · exact client_disconnect_legs _ _ _ _ h
            · split at h
              · simp at h
              · simp at h
              · rename_i c packet1 hnp
                have h1 : legs_from w (update_client w ptr (fun cl => set_packet cl leg packet1)) :=
                  legs_from_update _ _ _ (fun c => legs_within_set_packet c leg packet1)
                split at h
                · exact legs_from_trans h1 (client_disconnect_legs _ _ _ _ h)
                · split at h
                  · split at h
                    · exact legs_from_trans h1 (client_disconnect_legs _ _ _ _ h)
                    · simp only [Res.ret.injEq] at h
                      rw [← h.2]; exact h1
                  · split at h
                    · simp at h
                    · exact legs_from_trans h1 (client_packet_legs _ _ _ _ _ _ h)

theorem one_pair_iff (w : world_t) :
    one_pair w = true ↔ ∀ c, c ∈ w.client_list → (tcp_open c && udp_open c) = false := by
  simp only [one_pair, List.all_eq_true, Bool.not_eq_true']

theorem tcp_open_within (c1 c : client_context_t) (h : legs_within c1 c)
    (ht : tcp_open c = false) : tcp_open c1 = false := by
  have h1 := h.2 FON_TCP
  have h2 := h.2 BOX_TCP
  simp only [get_ep] at h1 h2
  simp only [tcp_open, Bool.or_eq_false_iff, decide_eq_false_iff_not, not_not] at ht ⊢
  exact ⟨by_contra (fun hh => h1 hh ht.1), by_contra (fun hh => h2 hh ht.2)⟩

theorem udp_open_within (c1 c : client_context_t) (h : legs_within c1 c)
    (ht : udp_open c = false) : udp_open c1 = false := by
  have h1 := h.2 FON_UDP
  have h2 := h.2 BOX_UDP
  simp only [get_ep] at h1 h2
  simp only [udp_open, Bool.or_eq_false_iff, decide_eq_false_iff_not, not_not] at ht ⊢
  exact ⟨by_contra (fun hh => h1 hh ht.1), by_contra (fun hh => h2 hh ht.2)⟩

theorem both_within (c1 c : client_context_t) (h : legs_within c1 c)
    (ht : (tcp_open c && udp_open c) = false) : (tcp_open c1 && udp_open c1) = false := by
  rw [Bool.and_eq_false_iff] at ht ⊢
  rcases ht with ht | ht
  · exact Or.inl (tcp_open_within c1 c h ht)
  · exact Or.inr (udp_open_within c1 c h ht)

theorem registry_wf_legs {w w1 : world_t} (h : legs_from w w1) (hw : registry_wf w) :
    registry_wf w1 := by
  refine ⟨?_, List.Nodup.sublist h.2.1 hw.2⟩
  intro c1 hc1
  obtain ⟨c, hc, e⟩ := h.2.2 c1 hc1
  rw [h.1, e.1]
  exact hw.1 c hc

theorem one_pair_legs {w w1 : world_t} (h : legs_from w w1) (hw : one_pair w = true) :
    one_pair w1 = true := by
  rw [one_pair_iff] at hw ⊢
  intro c1 hc1
  obtain ⟨c, hc, e⟩ := h.2.2 c1 hc1
  exact both_within c1 c e (hw c hc)

theorem pairs_at_legs {good : client_context_t → Bool} {h : Nat} {w w1 : world_t}
    (hg : ∀ c1 c, legs_within c1 c → good c = true → good c1 = true)
    (hl : legs_from w w1) (hp : pairs_at good h w) : pairs_at good h w1 := by
  intro c1 hc1
  obtain ⟨c, hc, e⟩ := hl.2.2 c1 hc1
  obtain ⟨p1, p2⟩ := hp c hc
  exact ⟨fun hh => hg c1 c e (p1 (by rw [← e.1]; exact hh)),
    fun hh => both_within c1 c e (p2 (by rw [← e.1]; exact hh))⟩

theorem pairs_at_update (good : client_context_t → Bool) (h : Nat) (w : world_t)
    (f : client_context_t → client_context_t)
    (hf : ∀ c, good c = true → good (f c) = true) (hptr : ∀ c, (f c).ptr = c.ptr)
    (hp : pairs_at good h w) : pairs_at good h (update_client w h f) := by
  intro c1 hc1
  simp only [update_client, List.mem_map] at hc1
  obtain ⟨c, hc, e⟩ := hc1
  obtain ⟨p1, p2⟩ := hp c hc
  by_cases hh : c.ptr = h
  · rw [if_pos hh] at e
    rw [← e]
    exact ⟨fun _ => hf c (p1 hh), fun h2 => absurd ((hptr c).trans hh) h2⟩
  · rw [if_neg hh] at e
    rw [← e]
    exact ⟨fun h2 => absurd h2 hh, fun _ => p2 hh⟩

theorem registry_wf_update (w : world_t) (ptr : Nat) (f : client_context_t → client_context_t)
    (hptr : ∀ c, (f c).ptr = c.ptr) (hw : registry_wf w) :
    registry_wf (update_client w ptr f) := by
  refine ⟨?_, by rw [update_client_ptrs w ptr f hptr]; exact hw.2⟩
  intro c1 hc1
  simp only [update_client, List.mem_map] at hc1
  obtain ⟨c, hc, e⟩ := hc1
  rw [← e]
  split
  · rw [hptr c]; exact hw.1 c hc
  · exact hw.1 c hc

theorem pairs_at_one_pair (good : client_context_t → Bool) (h : Nat) (w : world_t)
    (hg : ∀ c, good c = true → (tcp_open c && udp_open c) = false)
    (hp : pairs_at good h w) : one_pair w = true := by
  rw [one_pair_iff]
  intro c hc
  obtain ⟨p1, p2⟩ := hp c hc
  by_cases hh : c.ptr = h
  · exact hg c (p1 hh)
  · exact p2 hh

theorem good_tcp (c : client_context_t) (h : (!udp_open c) = true) :
    (tcp_open c && udp_open c) = false := by
  cases hu : udp_open c
  · simp
  · rw [hu] at h; simp at h

theorem good_udp (c : client_context_t) (h : (!tcp_open c) = true) :
    (tcp_open c && udp_open c) = false := by
  cases hu : tcp_open c
  · simp
  · rw [hu] at h; simp at h

theorem good_tcp_within (c1 c : client_context_t) (h : legs_within c1 c)
    (hg : (!udp_open c) = true) : (!udp_open c1) = true := by
  have : udp_open c = false := by
    cases hu : udp_open c
    · rfl
    · rw [hu] at hg; simp at hg
  rw [udp_open_within c1 c h this]; rfl

theorem good_udp_within (c1 c : client_context_t) (h : legs_within c1 c)
    (hg : (!tcp_open c) = true) : (!tcp_open c1) = true := by
  have : tcp_open c = false := by
    cases hu : tcp_open c
    · rfl
    · rw [hu] at hg; simp at hg
  rw [tcp_open_within c1 c h this]; rfl

/-- A session that has been allocated at the address `heap` and has the
property `good` joins the sessions, none of which has a leg of both pairs
open. -/
theorem pairs_at_new (good : client_context_t → Bool) (w : world_t) (client : client_context_t)
    (cid : Nat) (hptr : client.ptr = w.heap) (hgood : good client = true)
    (hw : one_pair w = true) (hwf : registry_wf w) :
    pairs_at good w.heap
        { w with client_list := client :: w.client_list, client_id := cid, heap := w.heap + 1 }
    ∧ registry_wf
        { w with client_list := client :: w.client_list, client_id := cid,
                 heap := w.heap + 1 } := by
  rw [one_pair_iff] at hw
  refine ⟨?_, ?_, ?_⟩
  · intro c hc
    simp only [List.mem_cons] at hc
    rcases hc with e | hc
    · subst e
      exact ⟨fun _ => hgood, fun h2 => absurd hptr h2⟩
    · have := hwf.1 c hc
      exact ⟨fun h2 => by omega, fun _ => hw c hc⟩
  · intro c hc
    simp only [List.mem_cons] at hc
    rcases hc with e | hc
    · subst e; simp only; omega
    · have := hwf.1 c hc
      simp only; omega
  · simp only [List.map_cons, List.nodup_cons]
    refine ⟨?_, hwf.2⟩
    intro hm
    rw [List.mem_map] at hm
    obtain ⟨c, hc, e⟩ := hm
    have := hwf.1 c hc
    omega

theorem pairs_at_congr (good : client_context_t → Bool) (h : Nat) (w w1 : world_t)
    (e : w1.client_list = w.client_list) (hp : pairs_at good h w) : pairs_at good h w1 := by
  intro c hc
  rw [e] at hc
  exact hp c hc

theorem registry_wf_congr (w w1 : world_t) (e : w1.client_list = w.client_list)
    (eh : w1.heap = w.heap) (hp : registry_wf w) : registry_wf w1 := by
  unfold registry_wf
  rw [e, eh]
  exact hp

theorem sfd_register_lists (w : world_t) (sfd : Int) (ctx : Nat) (cl ok : Bool) (w1 : world_t)
    (h : sfd_register w sfd ctx cl ok = some w1) :
    w1.client_list = w.client_list ∧ w1.heap = w.heap := by
  unfold sfd_register at h
  split at h
  · simp at h
  · split at h
    · simp only [Option.some.injEq] at h
      rw [← h]
      exact ⟨rfl, rfl⟩
    · simp at h

theorem stage_update (good : client_context_t → Bool) (h : Nat) (X : world_t)
    (f : client_context_t → client_context_t)
    (hf : ∀ c, good c = true → good (f c) = true) (hptr : ∀ c, (f c).ptr = c.ptr)
    (hs : pairs_at good h X ∧ registry_wf X) :
    pairs_at good h (update_client X h f) ∧ registry_wf (update_client X h f) :=
  ⟨pairs_at_update good h X f hf hptr hs.1, registry_wf_update X h f hptr hs.2⟩

theorem stage_register (good : client_context_t → Bool) (h : Nat) (X X1 : world_t) (sfd : Int)
    (ctx : Nat) (cl ok : Bool) (e : sfd_register X sfd ctx cl ok = some X1)
    (hs : pairs_at good h X ∧ registry_wf X) : pairs_at good h X1 ∧ registry_wf X1 := by
  obtain ⟨e1, e2⟩ := sfd_register_lists X sfd ctx cl ok X1 e
  exact ⟨pairs_at_congr good h X X1 e1 hs.1, registry_wf_congr X X1 e1 e2 hs.2⟩

theorem stage_legs (good : client_context_t → Bool) (h : Nat) (X w1 : world_t)
    (hg : ∀ c1 c, legs_within c1 c → good c = true → good c1 = true)
    (hg2 : ∀ c, good c = true → (tcp_open c && udp_open c) = false)
    (hl : legs_from X w1) (hs : pairs_at good h X ∧ registry_wf X) :
    one_pair w1 = true ∧ registry_wf w1 :=
  ⟨pairs_at_one_pair good h w1 hg2 (pairs_at_legs hg hl hs.1), registry_wf_legs hl hs.2⟩

theorem client_tcp_setup_failed_legs (w : world_t) (ptr : Nat) (k : Int) (w1 : world_t)
    (h : client_tcp_setup_failed w ptr = Res.ret k w1) : legs_from w w1 := by
  unfold client_tcp_setup_failed at h
  exact tcp_disconnect_legs _ (client_cleanup_legs _) _ _ _ _ _ h

/-- The function `client_tcp_setup` keeps the pairs apart: the session that it
allocates has no leg of the UDP pair open. -/
theorem client_tcp_setup_pairs (w : world_t) (env : tcp_setup_env) (k : Int) (w1 : world_t)
    (hw : one_pair w = true) (hwf : registry_wf w)
    (h : client_tcp_setup w env = Res.ret k w1) : one_pair w1 = true ∧ registry_wf w1 := by
  have s1 := pairs_at_new (fun c => !udp_open c) w
    { client_zero w.heap with
      id := u32 (w.client_id + 1), connected := true,
      fon_udp := { endpoint_zero with sfd := -1 },
      box_tcp := { endpoint_zero with sfd := -1 },
      box_udp := { endpoint_zero with sfd := -1 } }
    (u32 (w.client_id + 1)) rfl rfl hw hwf
  have fin : ∀ X, pairs_at (fun c => !udp_open c) w.heap X ∧ registry_wf X →
      client_tcp_setup_failed X w.heap = Res.ret k w1 → one_pair w1 = true ∧ registry_wf w1 :=
    fun X hs hf => stage_legs _ _ X w1 good_tcp_within good_tcp
      (client_tcp_setup_failed_legs _ _ _ _ hf) hs
  have upd : ∀ X (f : client_context_t → client_context_t),
      (∀ c, udp_open (f c) = udp_open c) → (∀ c, (f c).ptr = c.ptr) →
      pairs_at (fun c => !udp_open c) w.heap X ∧ registry_wf X →
      pairs_at (fun c => !udp_open c) w.heap (update_client X w.heap f)
        ∧ registry_wf (update_client X w.heap f) :=
    fun X f hf hptr hs => stage_update _ _ X f (fun c hc => by simp only [hf c]; exact hc) hptr hs
  unfold client_tcp_setup at h
  dsimp only at h
  split at h
  · exact fin _ (upd _ (fun c => set_sfd c FON_TCP (-1)) (fun _ => rfl) (fun _ => rfl) s1) h
  · rename_i sfd peer hacc
    have s2 := upd _ (fun c => { c with fon_tcp := { c.fon_tcp with sfd := sfd, peer := peer } })
      (fun _ => rfl) (fun _ => rfl) s1
    split at h
    · exact fin _ s2 h
    · rename_i fon_local hfl
      have s3 := upd _ (fun c => { c with fon_tcp := { c.fon_tcp with local_ := fon_local } })
        (fun _ => rfl) (fun _ => rfl) s2
      split at h
      · exact fin _ s3 h
      · rename_i w4 hreg
        have s4 := stage_register _ _ _ _ _ _ _ _ hreg s3
        have s5 := upd _ (fun c => { c with box_tcp := { c.box_tcp with peer := w.box } })
          (fun _ => rfl) (fun _ => rfl) s4
        split at h
        · simp at h
        · split at h
          · exact fin _
              (upd _ (fun c => set_sfd c BOX_TCP (-1)) (fun _ => rfl) (fun _ => rfl) s5) h
          · rename_i box_sfd hconn
            have s6 := upd _ (fun c => set_sfd c BOX_TCP box_sfd) (fun _ => rfl)
              (fun _ => rfl) s5
            split at h
            · exact fin _ s6 h
            · rename_i box_local hbl
              have s7 := upd _
                (fun c => { c with box_tcp := { c.box_tcp with local_ := box_local } })
                (fun _ => rfl) (fun _ => rfl) s6
              split at h
              · exact fin _ s7 h
              · rename_i w8 hreg2
                have s8 := stage_register _ _ _ _ _ _ _ _ hreg2 s7
                simp only [Res.ret.injEq] at h
                rw [← h.2]
                exact ⟨pairs_at_one_pair _ _ _ good_tcp s8.1, s8.2⟩

/-- The function `client_udp_connect` on a session that has no leg of its TCP
pair open keeps the pairs apart. -/
theorem client_udp_connect_pairs (w : world_t) (ptr : Nat) (packet : packet_t)
    (peer local_ : addr_t) (env : udp_setup_env) (k : Int) (w1 : world_t)
    (s0 : pairs_at (fun c => !tcp_open c) ptr w ∧ registry_wf w)
    (h : client_udp_connect w ptr packet peer local_ env = Res.ret k w1) :
    one_pair w1 = true ∧ registry_wf w1 := by
  have fin : ∀ X, pairs_at (fun c => !tcp_open c) ptr X ∧ registry_wf X →
      client_disconnect X ptr = Res.ret k w1 → one_pair w1 = true ∧ registry_wf w1 :=
    fun X hs hf => stage_legs _ _ X w1 good_udp_within good_udp
      (client_disconnect_legs _ _ _ _ hf) hs
  have upd : ∀ X (f : client_context_t → client_context_t),
      (∀ c, tcp_open (f c) = tcp_open c) → (∀ c, (f c).ptr = c.ptr) →
      pairs_at (fun c => !tcp_open c) ptr X ∧ registry_wf X →
      pairs_at (fun c => !tcp_open c) ptr (update_client X ptr f)
        ∧ registry_wf (update_client X ptr f) :=
    fun X f hf hptr hs => stage_update _ _ X f (fun c hc => by simp only [hf c]; exact hc) hptr hs
  unfold client_udp_connect at h
  split at h
  · simp at h
  · rename_i client hc
    split at h
    · simp only [Res.ret.injEq] at h
      rw [← h.2]
      exact ⟨pairs_at_one_pair _ _ _ good_udp s0.1, s0.2⟩
    · split at h
      · simp at h
      · dsimp only at h
        have s1 := upd _
          (fun c => { c with fon_udp := { c.fon_udp with peer := peer, local_ := local_ } })
          (fun _ => rfl) (fun _ => rfl) s0
        split at h
        · simp at h
        · split at h
          · exact fin _
              (upd _ (fun c => set_sfd c FON_UDP (-1)) (fun _ => rfl) (fun _ => rfl) s1) h
          · rename_i fon_sfd hfc
            have s2 := upd _ (fun c => set_sfd c FON_UDP fon_sfd) (fun _ => rfl)
              (fun _ => rfl) s1
            split at h
            · exact fin _ s2 h
            · rename_i w3 hreg
              have s3 := stage_register _ _ _ _ _ _ _ _ hreg s2
              have s4 := upd _ (fun c => { c with box_udp := { c.box_udp with peer := w.box } })
                (fun _ => rfl) (fun _ => rfl) s3
              split at h
              · simp at h
              · split at h
                · exact fin _
                    (upd _ (fun c => set_sfd c BOX_UDP (-1)) (fun _ => rfl) (fun _ => rfl) s4) h
                · rename_i box_sfd hbc
                  have s5 := upd _ (fun c => set_sfd c BOX_UDP box_sfd) (fun _ => rfl)
                    (fun _ => rfl) s4
                  split at h
                  · exact fin _ s5 h
                  · rename_i box_local hbl
                    have s6 := upd _
                      (fun c => { c with box_udp := { c.box_udp with local_ := box_local } })
                      (fun _ => rfl) (fun _ => rfl) s5
                    split at h
                    · exact fin _ s6 h
                    · rename_i w7 hreg2
                      have s7 := stage_register _ _ _ _ _ _ _ _ hreg2 s6
                      have s8 := upd _
                        (fun c => set_packet { c with connected := true } FON_UDP packet)
                        (fun _ => rfl) (fun _ => rfl) s7
                      exact stage_legs _ _ _ w1 good_udp_within good_udp
                        (client_packet_legs _ _ _ _ _ _ h) s8

/-- The function `client_udp_new` keeps the pairs apart: the session that it
allocates has no leg of the TCP pair open. -/
theorem client_udp_new_pairs (w : world_t) (packet : packet_t) (i l : Int)
    (peer local_ : addr_t) (env : udp_setup_env) (k : Int) (w1 : world_t)
    (hw : one_pair w = true) (hwf : registry_wf w)
    (h : client_udp_new w packet i l peer local_ env = Res.ret k w1) :
    one_pair w1 = true ∧ registry_wf w1 := by
  unfold client_udp_new at h
  dsimp only at h
  exact client_udp_connect_pairs _ _ _ _ _ _ _ _
    (pairs_at_new (fun c => !tcp_open c) w
      { client_zero w.heap with
        id := u32 (w.client_id + 1),
        fon_tcp := { endpoint_zero with sfd := -1 },
        fon_udp := { endpoint_zero with sfd := -1 },
        box_tcp := { endpoint_zero with sfd := -1 },
        box_udp := { endpoint_zero with sfd := -1 },
        contact_id := some ((packet.buf.p.drop i.toNat).take l.toNat) }
      (u32 (w.client_id + 1)) rfl rfl hw hwf) h

/-- A session of the registry that has no leg of its TCP pair open is the only
one at its address. -/
theorem pairs_at_session (w : world_t) (client : client_context_t)
    (hw : one_pair w = true) (hwf : registry_wf w) (hc : client ∈ w.client_list)
    (ht : tcp_open client = false) : pairs_at (fun c => !tcp_open c) client.ptr w := by
  rw [one_pair_iff] at hw
  intro c hcm
  refine ⟨fun hp => ?_, fun _ => hw c hcm⟩
  have := List.inj_on_of_nodup_map hwf.2 hcm hc hp
  show (!tcp_open c) = true
  rw [this, ht]
  rfl

/-- The function `client_udp_setup` keeps the pairs apart when it does not hand
a datagram which is not a REGISTER to a session with an open leg of its TCP
pair. -/
theorem client_udp_setup_pairs (w : world_t) (env : udp_setup_env) (k : Int) (w1 : world_t)
    (hw : one_pair w = true) (hwf : registry_wf w) (hap : udp_apart w env = true)
    (h : client_udp_setup w env = Res.ret k w1) : one_pair w1 = true ∧ registry_wf w1 := by
  have same : one_pair w = true ∧ registry_wf w := ⟨hw, hwf⟩
  have hw2 := (one_pair_iff w).mp hw
  unfold client_udp_setup at h
  split at h
  · simp only [Res.ret.injEq] at h
    rw [← h.2]; exact same
  · rename_i data peer local_ hd
    split at h
    · simp at h
    · simp at h
    · rename_i c packet hnp
      split at h
      · simp only [Res.ret.injEq] at h
        rw [← h.2]; exact same
      · rename_i hc0
        split at h
        · simp only [Res.ret.injEq] at h
          rw [← h.2]; exact same
        · split at h
          · simp at h
          · rename_i hready
            split at h
            · simp only [Res.ret.injEq] at h
              rw [← h.2]; exact same
            · rename_i ci cl hci
              dsimp only at h
              generalize hfound : find_contact w packet ci cl = found at h
              split at h
              · -- REGISTER
                cases found with
                | none =>
                  simp only at h
                  exact client_udp_new_pairs _ _ _ _ _ _ _ _ _ hw hwf h
                | some client =>
                  have hmem : client ∈ w.client_list := List.mem_of_find?_eq_some hfound
                  by_cases hst : client.fon_udp.sfd = -1 ∨ peer.addr ≠ client.fon_udp.peer.addr
                      ∨ peer.port ≠ client.fon_udp.peer.port
                  · simp only [if_pos hst] at h
                    by_cases hcon : client.connected = true
                    · simp only [if_pos hcon] at h
                      cases hdis : client_disconnect w client.ptr with
                      | abort => rw [hdis] at h; simp at h
                      | nofuel => rw [hdis] at h; simp at h
                      | ret k0 w0 =>
                        rw [hdis] at h
                        simp only at h
                        have hl := client_disconnect_legs _ _ _ _ hdis
                        exact client_udp_new_pairs _ _ _ _ _ _ _ _ _ (one_pair_legs hl hw)
                          (registry_wf_legs hl hwf) h
                    · simp only [if_neg hcon] at h
                      exact client_udp_new_pairs _ _ _ _ _ _ _ _ _ hw hwf h
                  · simp only [if_neg hst] at h
                    split at h
                    · simp only [Res.ret.injEq] at h
                      rw [← h.2]; exact same
                    · have hu : udp_open client = true := by
                        simp only [not_or, not_not] at hst
                        simp only [udp_open, Bool.or_eq_true, decide_eq_true_eq]
                        exact Or.inl hst.1
                      have ht : tcp_open client = false := by
                        have := hw2 client hmem
                        rw [hu, Bool.and_true] at this
                        exact this
                      exact client_udp_connect_pairs _ _ _ _ _ _ _ _
                        ⟨pairs_at_session w client hw hwf hmem ht, hwf⟩ h
              · -- not a REGISTER
                rename_i hreg
                cases found with
                | none =>
                  simp only [Res.ret.injEq] at h
                  rw [← h.2]; exact same
                | some client =>
                  have hmem : client ∈ w.client_list := List.mem_of_find?_eq_some hfound
                  simp only at h
                  split at h
                  · simp only [Res.ret.injEq] at h
                    rw [← h.2]; exact same
                  · have hj : udp_joined w env = some client := by
                      unfold udp_joined
                      simp only [hd, hnp]
                      rw [if_pos ⟨hc0, by
                        cases hs : packet.status <;> simp_all, hreg⟩]
                      simp only [hci, hfound]
                    have ht : tcp_open client = false := by
                      unfold udp_apart at hap
                      rw [hj] at hap
                      simpa using hap
                    exact client_udp_connect_pairs _ _ _ _ _ _ _ _
                      ⟨pairs_at_session w client hw hwf hmem ht, hwf⟩ h

/-- The states reached apart have sessions at different allocated addresses,
none with a leg of both pairs open. -/
theorem reached_apart_inv (w : world_t) (h : reached_apart w) :
    one_pair w = true ∧ registry_wf w := by
  induction h with
  | start w h0 =>
    refine ⟨?_, ?_, ?_⟩
    · rw [one_pair_iff, h0]; intro c hc; simp at hc
    · rw [h0]; intro c hc; simp at hc
    · rw [h0]; simp
  | tcp_setup w env c w1 _ hs ih => exact client_tcp_setup_pairs w env c w1 ih.1 ih.2 hs
  | event w sfd ptr data tr c w1 _ hs ih =>
    have hl := on_client_event_legs _ _ _ _ _ _ _ hs
    exact ⟨one_pair_legs hl ih.1, registry_wf_legs hl ih.2⟩
  | udp_setup w env c w1 _ hap hs ih => exact client_udp_setup_pairs w env c w1 ih.1 ih.2 hap hs

/-- C24 (amended): in every state that the process reaches from a state
without sessions through `client_tcp_setup`, `on_client_event` and
`client_udp_setup`, apart from the calls of `client_udp_setup` that hand a
datagram which is not a REGISTER to a session with an open leg of its TCP pair,
no session has a leg of its TCP pair and a leg of its UDP pair open. -/
theorem pairs_apart (w : world_t) (h : reached_apart w) : one_pair w = true :=
  (reached_apart_inv w h).1

/-- C24 (witness): the state after a TCP connection, a REGISTER of the
identity `abc` on it and a REGISTER datagram of the same identity is reached
apart; its one session has the UDP pair open, the TCP session has been
disconnected.  The OPTIONS datagram of the identity `abc` in the state before
is a call that is not apart. -/
theorem pairs_apart_witness :
    reached_apart tcp_then_udp_world
    ∧ registry tcp_then_udp_world = [⟨2, some (bytes "abc"), true, -1, 7, -1, 8⟩]
    ∧ one_pair tcp_then_udp_world = true
    ∧ udp_apart tcp_registered_world (udp_env_ok options_abc_message "40001" 7) = false := by
  have hd : client_tcp_setup initial_world tcp_env_ok = Res.ret 1 tcp_world
      ∧ on_client_event tcp_world 5 1 (some register_abc_message) true
          = Res.ret 1 tcp_registered_world
      ∧ udp_apart tcp_registered_world (udp_env_ok register_abc_message "40001" 7) = true
      ∧ client_udp_setup tcp_registered_world (udp_env_ok register_abc_message "40001" 7)
          = Res.ret 1 tcp_then_udp_world
      ∧ registry tcp_then_udp_world = [⟨2, some (bytes "abc"), true, -1, 7, -1, 8⟩]
      ∧ udp_apart tcp_registered_world (udp_env_ok options_abc_message "40001" 7) = false := by
    decide!
  obtain ⟨a1, a2, a3, a4, a5, a6⟩ := hd
  have r0 : reached_apart initial_world := reached_apart.start _ rfl
  have r1 : reached_apart tcp_world :=
    reached_apart.tcp_setup initial_world tcp_env_ok 1 tcp_world r0 a1
  have r2 : reached_apart tcp_registered_world :=
    reached_apart.event tcp_world 5 1 (some register_abc_message) true 1 tcp_registered_world r1
      a2
  have r3 : reached_apart tcp_then_udp_world :=
    reached_apart.udp_setup tcp_registered_world
      (udp_env_ok register_abc_message "40001" 7) 1 tcp_then_udp_world r2 a3 a4
  exact ⟨r3, a5, pairs_apart tcp_then_udp_world r3, a6⟩

end Fapfon
